import Mathlib

/-!
Verification development for the poker engine repository
(`src/lib/deck.ts`, `src/lib/hand-evaluator.ts`, `src/lib/game-engine.ts`).

The TypeScript sources are shallowly embedded below.  JavaScript numbers
holding chip amounts are modelled as `Int` (all arithmetic in the source is
integer arithmetic on these paths); hand-strength values are `Nat`.
`Date`-valued fields (`handStartTime`, `lastActionTime`) carry no game
information and are omitted from the state.  Functions that `throw` in the
source are embedded in `Except`; the engine's exceptions carry the state at
the moment of the throw, mirroring in-place mutation semantics.
`Array.prototype.sort` (stable) is embedded as a stable insertion sort.
Error-message strings match the source except that apostrophes are elided.
-/

-- ========================================
-- Cards (lib/types.ts, lib/deck.ts)
-- ========================================

inductive Suit where
  | hearts | diamonds | clubs | spades
deriving DecidableEq, Repr, Inhabited

inductive Rank where
  | rA | r2 | r3 | r4 | r5 | r6 | r7 | r8 | r9 | rT | rJ | rQ | rK
deriving DecidableEq, Repr, Inhabited

structure Card where
  suit : Suit
  rank : Rank
deriving DecidableEq, Repr, Inhabited

/-- `rankToValue` from `deck.ts` (default `aceHigh = true`). -/
def rankToValue (rank : Rank) (aceHigh : Bool := true) : Nat :=
  match rank with
  | .rA => if aceHigh then 14 else 1
  | .rK => 13
  | .rQ => 12
  | .rJ => 11
  | .rT => 10
  | .r2 => 2
  | .r3 => 3
  | .r4 => 4
  | .r5 => 5
  | .r6 => 6
  | .r7 => 7
  | .r8 => 8
  | .r9 => 9

/-- rank as the string literal used in `types.ts`. -/
def rankStr (rank : Rank) : String :=
  match rank with
  | .rA => "A" | .rK => "K" | .rQ => "Q" | .rJ => "J" | .rT => "T"
  | .r2 => "2" | .r3 => "3" | .r4 => "4" | .r5 => "5" | .r6 => "6"
  | .r7 => "7" | .r8 => "8" | .r9 => "9"

def suitStr (s : Suit) : String :=
  match s with
  | .hearts => "hearts" | .diamonds => "diamonds" | .clubs => "clubs" | .spades => "spades"

def suitOrder (s : Suit) : Nat :=
  match s with
  | .clubs => 1 | .diamonds => 2 | .hearts => 3 | .spades => 4

/-- `compareCards` from `deck.ts`: by rank value, suit as tiebreaker. -/
def compareCards (c1 c2 : Card) (aceHigh : Bool := true) : Int :=
  let v1 : Int := rankToValue c1.rank aceHigh
  let v2 : Int := rankToValue c2.rank aceHigh
  if v1 ≠ v2 then v1 - v2 else (suitOrder c1.suit : Int) - (suitOrder c2.suit : Int)

/-- Stable insertion: `x` goes after every element `y` with `le y x`. -/
def insertLe (le : Card → Card → Bool) (x : Card) : List Card → List Card
  | [] => [x]
  | y :: ys => if le y x then y :: insertLe le x ys else x :: y :: ys

/-- Stable sort used to embed `Array.prototype.sort` on cards. -/
def insertionSort (le : Card → Card → Bool) : List Card → List Card
  | [] => []
  | x :: xs => insertLe le x (insertionSort le xs)

/-- `sortCards` from `deck.ts`. -/
def sortCards (cards : List Card) (aceHigh : Bool := true) : List Card :=
  insertionSort (fun a b => compareCards a b aceHigh ≤ 0) cards

/-- `createDeck` from `deck.ts`: suits outer loop, ranks inner loop. -/
def createDeck : List Card :=
  ([.hearts, .diamonds, .clubs, .spades] : List Suit).flatMap (fun s =>
    ([.rA, .r2, .r3, .r4, .r5, .r6, .r7, .r8, .r9, .rT, .rJ, .rQ, .rK] : List Rank).map
      (fun r => { suit := s, rank := r }))

/-- `dealCards` from `deck.ts`: removes and returns the first `count` cards. -/
def dealCards (deck : List Card) (count : Nat) : Except String (List Card × List Card) :=
  if deck.length < count then
    .error ("Cannot deal " ++ toString count ++ " cards, only " ++ toString deck.length ++ " remaining")
  else
    .ok (deck.take count, deck.drop count)

/-- `dealHoleCards` from `deck.ts`: round-robin, one card per player per pass.
Returns the per-player hands and the remaining deck. -/
def dealHoleCards (deck : List Card) (playerCount : Nat) (cardsPerPlayer : Nat := 2) :
    Except String (List (List Card) × List Card) :=
  let totalCards := playerCount * cardsPerPlayer
  if deck.length < totalCards then
    .error ("Cannot deal " ++ toString totalCards ++ " cards to " ++ toString playerCount ++ " players")
  else
    -- player `p` receives cards at indices `p, playerCount + p, ...`
    .ok ((List.range playerCount).map (fun p =>
          (List.range cardsPerPlayer).map (fun round =>
            (deck.drop (round * playerCount + p)).headD { suit := .hearts, rank := .rA })),
         deck.drop totalCards)

-- ========================================
-- Hand ranks and evaluations (lib/types.ts)
-- ========================================

namespace HandRank

def HIGH_CARD : Nat := 1
def PAIR : Nat := 2
def TWO_PAIR : Nat := 3
def THREE_OF_A_KIND : Nat := 4
def STRAIGHT : Nat := 5
def FLUSH : Nat := 6
def FULL_HOUSE : Nat := 7
def FOUR_OF_A_KIND : Nat := 8
def STRAIGHT_FLUSH : Nat := 9
def ROYAL_FLUSH : Nat := 10

end HandRank

structure HandEvaluation where
  rank : Nat
  value : Nat
  description : String
  cards : List Card
deriving DecidableEq, Repr, Inhabited

-- ========================================
-- Five-card evaluation (lib/hand-evaluator.ts)
-- ========================================

def CATEGORY_BASE : Nat := 1000000000

/-- `encode` from `hand-evaluator.ts`: base-15 packing of kicker values. -/
def encode (arr : List Nat) : Nat :=
  arr.foldl (fun acc v => acc * 15 + v) 0

/-- `getRankCounts` from `hand-evaluator.ts` as an association list in key
insertion order.  (JavaScript orders the numeric-string keys of the record
first; that affects only the wording of two-pair descriptions, never the
`rank`/`value` fields, which is all the claims concern.) -/
def getRankCounts (cards : List Card) : List (Rank × Nat) :=
  cards.foldl (fun counts c =>
    if counts.any (fun e => e.1 = c.rank) then
      counts.map (fun e => if e.1 = c.rank then (e.1, e.2 + 1) else e)
    else counts ++ [(c.rank, 1)]) []

/-- sort a list of naturals ascending (`values.sort((a,b) => a-b)`). -/
def sortNatAsc (l : List Nat) : List Nat :=
  (l.foldl (fun acc v =>
    acc.takeWhile (fun y => y ≤ v) ++ v :: acc.dropWhile (fun y => y ≤ v)) [])

/-- sort a list of naturals descending (`values.sort((a,b) => b-a)`). -/
def sortNatDesc (l : List Nat) : List Nat :=
  (l.foldl (fun acc v =>
    acc.takeWhile (fun y => v ≤ y) ++ v :: acc.dropWhile (fun y => v ≤ y)) [])

def checkRoyalFlush (cards : List Card) : Option HandEvaluation :=
  let isFlush := cards.all (fun card => card.suit = (cards.headD default).suit)
  if ¬ isFlush then none
  else
    let ranksSet := cards.map (fun card => card.rank)
    let royalRanks : List Rank := [.rT, .rJ, .rQ, .rK, .rA]
    let isRoyal := royalRanks.all (fun r => ranksSet.contains r)
    if ¬ isRoyal then none
    else some {
      rank := HandRank.ROYAL_FLUSH
      value := HandRank.ROYAL_FLUSH * CATEGORY_BASE + 14
      description := "Royal Flush in " ++ suitStr (cards.headD default).suit
      cards := cards }

def checkStraight (cards : List Card) : Option HandEvaluation :=
  let values := sortNatAsc (cards.map (fun card => rankToValue card.rank))
  let isStraight := (values.zip values.tail).all (fun p => p.2 = p.1 + 1)
  if isStraight then
    some {
      rank := HandRank.STRAIGHT
      value := HandRank.STRAIGHT * CATEGORY_BASE + (values.getLastD 0)
      description := "Straight, " ++ rankStr ((cards.getLastD default).rank) ++ " high"
      cards := cards }
  else
    -- A-2-3-4-5 wheel: ace counted low
    let wheelValues : List Nat := [1, 2, 3, 4, 5]
    let aceLowValues := sortNatAsc (cards.map (fun card =>
      if card.rank = .rA then 1 else rankToValue card.rank))
    if aceLowValues = wheelValues then
      some {
        rank := HandRank.STRAIGHT
        value := HandRank.STRAIGHT * CATEGORY_BASE + 5
        description := "Straight, 5 high (wheel)"
        cards := cards }
    else none

def checkStraightFlush (cards : List Card) : Option HandEvaluation :=
  let isFlush := cards.all (fun card => card.suit = (cards.headD default).suit)
  if ¬ isFlush then none
  else
    match checkStraight cards with
    | none => none
    | some straight =>
      let straightHigh := straight.value - HandRank.STRAIGHT * CATEGORY_BASE
      some {
        rank := HandRank.STRAIGHT_FLUSH
        value := HandRank.STRAIGHT_FLUSH * CATEGORY_BASE + straightHigh
        description := straight.description.replace "Straight" "Straight Flush"
        cards := cards }

def checkFourOfAKind (cards : List Card) : Option HandEvaluation :=
  let rankCounts := getRankCounts cards
  match rankCounts.find? (fun e => e.2 = 4) with
  | none => none
  | some quad =>
    let kicker := (rankCounts.find? (fun e => e.1 ≠ quad.1)).map (fun e => e.1) |>.getD default
    some {
      rank := HandRank.FOUR_OF_A_KIND
      value := HandRank.FOUR_OF_A_KIND * CATEGORY_BASE +
        encode [rankToValue quad.1, rankToValue kicker]
      description := "Four of a Kind, " ++ rankStr quad.1 ++ "s"
      cards := cards }

def checkFullHouse (cards : List Card) : Option HandEvaluation :=
  let rankCounts := getRankCounts cards
  match rankCounts.find? (fun e => e.2 = 3), rankCounts.find? (fun e => e.2 = 2) with
  | some triple, some pair =>
    some {
      rank := HandRank.FULL_HOUSE
      value := HandRank.FULL_HOUSE * CATEGORY_BASE +
        encode [rankToValue triple.1, rankToValue pair.1]
      description := "Full House, " ++ rankStr triple.1 ++ "s over " ++ rankStr pair.1 ++ "s"
      cards := cards }
  | _, _ => none

def checkFlush (cards : List Card) : Option HandEvaluation :=
  let isFlush := cards.all (fun card => card.suit = (cards.headD default).suit)
  if ¬ isFlush then none
  else if (checkStraight cards).isSome then none
  else
    let values := sortNatDesc (cards.map (fun card => rankToValue card.rank))
    some {
      rank := HandRank.FLUSH
      value := HandRank.FLUSH * CATEGORY_BASE + encode values
      description := "Flush, " ++ rankStr (cards.getLastD default).rank ++ " high"
      cards := cards }

def checkThreeOfAKind (cards : List Card) : Option HandEvaluation :=
  let rankCounts := getRankCounts cards
  match rankCounts.find? (fun e => e.2 = 3) with
  | none => none
  | some triple =>
    let kickers := sortNatDesc ((rankCounts.filter (fun e => e.1 ≠ triple.1)).map
      (fun e => rankToValue e.1))
    some {
      rank := HandRank.THREE_OF_A_KIND
      value := HandRank.THREE_OF_A_KIND * CATEGORY_BASE +
        encode [rankToValue triple.1, kickers.getD 0 0, kickers.getD 1 0]
      description := "Three of a Kind, " ++ rankStr triple.1 ++ "s"
      cards := cards }

def checkTwoPair (cards : List Card) : Option HandEvaluation :=
  let rankCounts := getRankCounts cards
  let pairs := rankCounts.filter (fun e => e.2 = 2)
  if pairs.length ≠ 2 then none
  else
    let pairValues := sortNatDesc (pairs.map (fun e => rankToValue e.1))
    let kicker := (rankCounts.find? (fun e => e.2 = 1)).map (fun e => e.1) |>.getD default
    some {
      rank := HandRank.TWO_PAIR
      value := HandRank.TWO_PAIR * CATEGORY_BASE +
        encode [pairValues.getD 0 0, pairValues.getD 1 0, rankToValue kicker]
      description := "Two Pair, " ++ rankStr ((pairs.getD 0 (default, 0)).1) ++ "s and " ++
        rankStr ((pairs.getD 1 (default, 0)).1) ++ "s"
      cards := cards }

def checkOnePair (cards : List Card) : Option HandEvaluation :=
  let rankCounts := getRankCounts cards
  match rankCounts.find? (fun e => e.2 = 2) with
  | none => none
  | some pair =>
    let kickers := sortNatDesc ((rankCounts.filter (fun e => e.1 ≠ pair.1)).map
      (fun e => rankToValue e.1))
    some {
      rank := HandRank.PAIR
      value := HandRank.PAIR * CATEGORY_BASE +
        encode [rankToValue pair.1, kickers.getD 0 0, kickers.getD 1 0, kickers.getD 2 0]
      description := "Pair of " ++ rankStr pair.1 ++ "s"
      cards := cards }

def checkHighCard (cards : List Card) : HandEvaluation :=
  let values := sortNatDesc (cards.map (fun card => rankToValue card.rank))
  { rank := HandRank.HIGH_CARD
    value := HandRank.HIGH_CARD * CATEGORY_BASE + encode values
    description := "High Card, " ++ rankStr (cards.getLastD default).rank
    cards := cards }

/-- `evaluateFiveCards` from `hand-evaluator.ts`. -/
def evaluateFiveCards (cards : List Card) : Except String HandEvaluation :=
  if cards.length ≠ 5 then
    .error ("Expected exactly 5 cards, got " ++ toString cards.length)
  else
    let sortedCards := sortCards cards true
    match checkRoyalFlush sortedCards with
    | some e => .ok e
    | none =>
    match checkStraightFlush sortedCards with
    | some e => .ok e
    | none =>
    match checkFourOfAKind sortedCards with
    | some e => .ok e
    | none =>
    match checkFullHouse sortedCards with
    | some e => .ok e
    | none =>
    match checkFlush sortedCards with
    | some e => .ok e
    | none =>
    match checkStraight sortedCards with
    | some e => .ok e
    | none =>
    match checkThreeOfAKind sortedCards with
    | some e => .ok e
    | none =>
    match checkTwoPair sortedCards with
    | some e => .ok e
    | none =>
    match checkOnePair sortedCards with
    | some e => .ok e
    | none => .ok (checkHighCard sortedCards)

-- ========================================
-- Six/seven-card evaluation (lib/hand-evaluator.ts, evaluateSevenCards)
-- ========================================

/-- dedup keeping first occurrences (`Array.from(new Set(...))`). -/
def dedupFirst (l : List Nat) : List Nat :=
  l.foldl (fun acc v => if acc.contains v then acc else acc ++ [v]) []

/-- `findStraightHigh` from `evaluateSevenCards`: best high card of a run of
5 or more consecutive values in the given ascending unique list, wheel-aware. -/
def findStraightHigh (valuesAsc : List Nat) : Option Nat :=
  if valuesAsc.length < 5 then none
  else
    let withWheel := if valuesAsc.contains 14 then 1 :: valuesAsc else valuesAsc
    let step : (Nat × Option Nat) × Nat → Nat → (Nat × Option Nat) × Nat :=
      fun state cur =>
        let run := state.1.1
        let best := state.1.2
        let prev := state.2
        if cur = prev + 1 then
          ((run + 1, if run + 1 ≥ 5 then some cur else best), cur)
        else if cur ≠ prev then ((1, best), cur)
        else ((run, best), cur)
    match withWheel with
    | [] => none
    | v0 :: rest => (rest.foldl step ((1, none), v0)).1.2

/-- values of the cards of each suit, in card order (`bySuit`). -/
def cardsOfSuit (cards : List Card) (s : Suit) : List Card :=
  cards.filter (fun c => c.suit = s)

/-- occurrences of value `v` among the cards (`rankCounts`). -/
def countOfValue (cards : List Card) (v : Nat) : Nat :=
  (cards.filter (fun c => rankToValue c.rank = v)).length

/-- ascending unique values of the cards (`uniqueValuesAsc`; JavaScript numeric
record keys enumerate in ascending order and the source sorts them again). -/
def uniqueValuesAsc (cards : List Card) : List Nat :=
  sortNatAsc (dedupFirst (cards.map (fun c => rankToValue c.rank)))

def uniqueValuesDesc (cards : List Card) : List Nat :=
  (uniqueValuesAsc cards).reverse

/-- `evaluateSevenCards` from `hand-evaluator.ts` (also used for 6 cards). -/
def evaluateSevenCards (cards : List Card) : HandEvaluation :=
  let uniqAsc := uniqueValuesAsc cards
  let uniqDesc := uniqueValuesDesc cards
  -- 1) Straight Flush (first suit with at least 5 cards, in record-key order)
  let flushSuit : Option Suit :=
    ([.hearts, .diamonds, .clubs, .spades] : List Suit).find?
      (fun s => 5 ≤ (cardsOfSuit cards s).length)
  let sfResult : Option HandEvaluation :=
    match flushSuit with
    | none => none
    | some s =>
      let valsAsc := sortNatAsc (dedupFirst ((cardsOfSuit cards s).map (fun c => rankToValue c.rank)))
      match findStraightHigh valsAsc with
      | none => none
      | some sfHigh =>
        let isRoyal := sfHigh = 14
        let category := if isRoyal then HandRank.ROYAL_FLUSH else HandRank.STRAIGHT_FLUSH
        some {
          rank := category
          value := category * 1000000000 + encode [sfHigh]
          description := if isRoyal then "Royal Flush" else
            "Straight Flush, " ++ toString sfHigh ++ " high"
          cards := [] }
  match sfResult with
  | some e => e
  | none =>
  -- 2) Four of a kind
  match uniqDesc.find? (fun v => countOfValue cards v = 4) with
  | some quad =>
    let kicker := (uniqDesc.find? (fun v => v ≠ quad)).getD 2
    { rank := HandRank.FOUR_OF_A_KIND
      value := HandRank.FOUR_OF_A_KIND * 1000000000 + (quad * 15 + kicker)
      description := "Four of a Kind, " ++ toString quad ++ "s"
      cards := [] }
  | none =>
  -- 3) Full house
  let tripsDesc := uniqDesc.filter (fun v => 3 ≤ countOfValue cards v)
  let pairsDesc := uniqDesc.filter (fun v => 2 ≤ countOfValue cards v)
  let fhResult : Option HandEvaluation :=
    match tripsDesc with
    | [] => none
    | bestTrips :: restTrips =>
      match pairsDesc.filter (fun v => v ≠ bestTrips) with
      | bestPair :: _ =>
        some {
          rank := HandRank.FULL_HOUSE
          value := HandRank.FULL_HOUSE * 1000000000 + (bestTrips * 15 + bestPair)
          description := "Full House, " ++ toString bestTrips ++ "s over " ++ toString bestPair ++ "s"
          cards := [] }
      | [] =>
        match restTrips with
        | secondTrips :: _ =>
          some {
            rank := HandRank.FULL_HOUSE
            value := HandRank.FULL_HOUSE * 1000000000 + (bestTrips * 15 + secondTrips)
            description := "Full House, " ++ toString bestTrips ++ "s over " ++ toString secondTrips ++ "s"
            cards := [] }
        | [] => none
  match fhResult with
  | some e => e
  | none =>
  -- 4) Flush
  match flushSuit with
  | some s =>
    let top5 := (sortNatDesc (dedupFirst ((cardsOfSuit cards s).map
      (fun c => rankToValue c.rank)))).take 5
    { rank := HandRank.FLUSH
      value := HandRank.FLUSH * 1000000000 + encode top5
      description := "Flush, " ++ toString (top5.getD 0 0) ++ " high"
      cards := [] }
  | none =>
  -- 5) Straight
  match findStraightHigh uniqAsc with
  | some straightHigh =>
    { rank := HandRank.STRAIGHT
      value := HandRank.STRAIGHT * 1000000000 + straightHigh
      description := "Straight, " ++ toString straightHigh ++ " high"
      cards := [] }
  | none =>
  -- 6) Three of a kind
  match tripsDesc with
  | t :: _ =>
    let kickers := (uniqDesc.filter (fun v => v ≠ t)).take 2
    { rank := HandRank.THREE_OF_A_KIND
      value := HandRank.THREE_OF_A_KIND * 1000000000 +
        encode [t, kickers.getD 0 0, kickers.getD 1 0]
      description := "Three of a Kind, " ++ toString t ++ "s"
      cards := [] }
  | [] =>
  -- 7) Two pair
  match pairsDesc with
  | p1 :: p2 :: _ =>
    let kicker := (uniqDesc.find? (fun v => v ≠ p1 ∧ v ≠ p2)).getD 0
    { rank := HandRank.TWO_PAIR
      value := HandRank.TWO_PAIR * 1000000000 + encode [p1, p2, kicker]
      description := "Two Pair, " ++ toString p1 ++ "s and " ++ toString p2 ++ "s"
      cards := [] }
  | [p] =>
  -- 8) One pair
    let kickers := (uniqDesc.filter (fun v => v ≠ p)).take 3
    { rank := HandRank.PAIR
      value := HandRank.PAIR * 1000000000 +
        encode [p, kickers.getD 0 0, kickers.getD 1 0, kickers.getD 2 0]
      description := "Pair of " ++ toString p ++ "s"
      cards := [] }
  | [] =>
  -- 9) High card
  let highs := uniqDesc.take 5
  { rank := HandRank.HIGH_CARD
    value := HandRank.HIGH_CARD * 1000000000 + encode highs
    description := "High Card, " ++ toString (highs.getD 0 0)
    cards := [] }

-- ========================================
-- Top-level evaluation API (lib/hand-evaluator.ts)
-- ========================================

/-- `generateCombinations` from `hand-evaluator.ts` (lexicographic by index). -/
def generateCombinations : Nat → List Card → List (List Card)
  | 0, _ => [[]]
  | _ + 1, [] => []
  | k + 1, x :: xs =>
    (generateCombinations k xs).map (fun c => x :: c) ++ generateCombinations (k + 1) xs

/-- `findBestHand` from `hand-evaluator.ts`: best of all 5-card combinations,
keeping the first evaluation of maximal `value`. -/
def findBestHand (cards : List Card) : Except String HandEvaluation := do
  let combinations := generateCombinations 5 cards
  let best ← combinations.foldlM (fun best combination => do
    let evaluation ← evaluateFiveCards combination
    match best with
    | none => pure (some evaluation)
    | some b => pure (if b.value < evaluation.value then some evaluation else some b))
    (none : Option HandEvaluation)
  match best with
  | none => .error "Failed to evaluate hand"
  | some b => .ok b

/-- `evaluateHand` from `hand-evaluator.ts`: 5 cards directly, 6 or more via
`evaluateSevenCards`. -/
def evaluateHand (cards : List Card) : Except String HandEvaluation :=
  if cards.length < 5 then
    .error ("Need at least 5 cards to evaluate, got " ++ toString cards.length)
  else if cards.length = 5 then
    evaluateFiveCards cards
  else
    .ok (evaluateSevenCards cards)

/-- `findWinners` from `hand-evaluator.ts`: indices of all hands of maximal value. -/
def findWinners (hands : List HandEvaluation) : List Nat :=
  match hands with
  | [] => []
  | _ =>
    let maxValue := (hands.map (fun h => h.value)).foldl max 0
    (((hands.zip (List.range hands.length)).filter (fun p => p.1.value = maxValue)).map
      (fun p => p.2))

-- ========================================
-- Game engine state (lib/types.ts, lib/game-engine.ts)
-- ========================================

inductive BettingRound where
  | preflop | flop | turn | river | showdown
deriving DecidableEq, Repr, Inhabited

inductive PlayerAction where
  | fold | check | call
  | bet (amount : Int)
  | raise (amount : Int)
  | allin (amount : Int)
deriving DecidableEq, Repr, Inhabited

/-- action kinds, as returned by `getValidActions`. -/
inductive ActionKind where
  | fold | check | call | bet | raise | allin
deriving DecidableEq, Repr

structure Player where
  id : String
  name : String
  chips : Int
  holeCards : List Card
  currentBet : Int
  totalBet : Int
  position : Nat
  isDealer : Bool
  isSmallBlind : Bool
  isBigBlind : Bool
  hasActed : Bool
  isFolded : Bool
  isAllIn : Bool
  isAI : Bool
  disconnected : Bool
deriving DecidableEq, Repr, Inhabited

structure SidePot where
  amount : Int
  eligiblePlayers : List String
  isMain : Bool
deriving DecidableEq, Repr, Inhabited

structure Blinds where
  small : Int
  big : Int
deriving DecidableEq, Repr, Inhabited

structure WinnerEntry where
  playerId : String
  amount : Int
  hand : HandEvaluation
deriving DecidableEq, Repr

/-- `GameState` from `types.ts`.  The two `Date` fields are omitted (they hold
wall-clock timestamps only). -/
structure GameState where
  tableId : String
  handNumber : Nat
  players : List Player
  maxPlayers : Nat
  dealerPosition : Nat
  deck : List Card
  communityCards : List Card
  currentBettingRound : BettingRound
  currentBet : Int
  lastRaiseSize : Int
  pot : Int
  sidePots : List SidePot
  blinds : Blinds
  activePlayerIndex : Nat
  lastAction : Option PlayerAction
  actionTimeoutMs : Nat
  isHandComplete : Bool
  winners : List WinnerEntry
deriving DecidableEq, Repr

-- ------------------------------
-- small helpers
-- ------------------------------

def zipIdxL {α : Type} (l : List α) : List (α × Nat) := l.zip (List.range l.length)

def dedupFirstInt (l : List Int) : List Int :=
  l.foldl (fun acc v => if acc.contains v then acc else acc ++ [v]) []

/-- sort a list of integers ascending (`.sort((a,b) => a-b)`). -/
def sortIntAsc (l : List Int) : List Int :=
  l.foldl (fun acc v =>
    acc.takeWhile (fun y => y ≤ v) ++ v :: acc.dropWhile (fun y => y ≤ v)) []

/-- apply `f` to the player at index `i` (object mutation in the source). -/
def modifyPlayerAt (s : GameState) (i : Nat) (f : Player → Player) : GameState :=
  { s with players := s.players.set i (f (s.players.getD i default)) }

def findPlayerById (s : GameState) (playerId : String) : Option Player :=
  s.players.find? (fun p => p.id = playerId)

def isPlayersTurn (s : GameState) (playerId : String) : Bool :=
  match s.players[s.activePlayerIndex]? with
  | some p => p.id = playerId
  | none => false

def getCallAmount (s : GameState) (player : Player) : Int :=
  max 0 (s.currentBet - player.currentBet)

def getActivePlayers (s : GameState) : List Player :=
  s.players.filter (fun p => ¬ p.disconnected)

def getPlayersStillInHand (s : GameState) : List Player :=
  (getActivePlayers s).filter (fun p => ¬ p.isFolded)

/-- indices of the non-disconnected players (`getActivePlayers` positions). -/
def activeIdxs (s : GameState) : List Nat :=
  (List.range s.players.length).filter (fun i => !(s.players.getD i default).disconnected)

/-- indices of the players still in hand. -/
def playersStillInHandIdx (s : GameState) : List Nat :=
  (List.range s.players.length).filter (fun i =>
    let p := s.players.getD i default
    !p.disconnected && !p.isFolded)

-- ------------------------------
-- hand setup (startNewHand and friends)
-- ------------------------------

/-- `resetHandState`. -/
def resetHandState (s : GameState) : GameState :=
  let s := { s with
    communityCards := ([] : List Card)
    currentBettingRound := BettingRound.preflop
    currentBet := s.blinds.big
    lastRaiseSize := s.blinds.big
    pot := 0
    sidePots := []
    isHandComplete := false
    winners := []
    lastAction := none }
  { s with players := (zipIdxL s.players).map (fun pi =>
      { pi.1 with
        position := pi.2
        holeCards := []
        currentBet := 0
        totalBet := 0
        hasActed := false
        isFolded := false
        isAllIn := false
        isDealer := pi.2 == s.dealerPosition
        isSmallBlind := false
        isBigBlind := false }) }

/-- `dealHoleCards` (engine method): deals two cards to every active player. -/
def dealHoleCardsEngine (s : GameState) : Except (String × GameState) GameState :=
  let act := activeIdxs s
  match dealHoleCards s.deck act.length 2 with
  | .error e => .error (e, s)
  | .ok (hands, deckRest) =>
    let s := { s with deck := deckRest }
    .ok ((zipIdxL act).foldl (fun st ai =>
      modifyPlayerAt st ai.1 (fun p => { p with holeCards := hands.getD ai.2 [] })) s)

/-- `postBlinds`: indices into the active-player list are taken modulo its
length from the dealer position (exactly as the source computes them). -/
def postBlinds (s : GameState) : Except (String × GameState) GameState :=
  let act := activeIdxs s
  if act.length < 2 then .error ("Need at least 2 players to start a hand", s)
  else
    let dealerIndex := s.dealerPosition
    let smallBlindIndex := (dealerIndex + 1) % act.length
    let bigBlindIndex := (dealerIndex + 2) % act.length
    let sbIdx := act.getD smallBlindIndex 0
    let bbIdx := act.getD bigBlindIndex 0
    let s := modifyPlayerAt s sbIdx (fun p => { p with isSmallBlind := true })
    let s := modifyPlayerAt s bbIdx (fun p => { p with isBigBlind := true })
    let smallBlindAmount := min s.blinds.small (s.players.getD sbIdx default).chips
    let s := modifyPlayerAt s sbIdx (fun p =>
      { p with
        chips := p.chips - smallBlindAmount
        currentBet := smallBlindAmount
        totalBet := smallBlindAmount })
    let s := { s with pot := s.pot + smallBlindAmount }
    let bigBlindAmount := min s.blinds.big (s.players.getD bbIdx default).chips
    let s := modifyPlayerAt s bbIdx (fun p =>
      { p with
        chips := p.chips - bigBlindAmount
        currentBet := bigBlindAmount
        totalBet := bigBlindAmount })
    let s := { s with pot := s.pot + bigBlindAmount }
    let s := { s with currentBet := bigBlindAmount, lastRaiseSize := bigBlindAmount }
    let s := if (s.players.getD sbIdx default).chips = 0 then
        modifyPlayerAt s sbIdx (fun p => { p with isAllIn := true }) else s
    let s := if (s.players.getD bbIdx default).chips = 0 then
        modifyPlayerAt s bbIdx (fun p => { p with isAllIn := true }) else s
    .ok s

/-- `setFirstPlayerToAct`.  The source walks seats cyclically counting the
second non-disconnected seat after the dealer; with at least two active
players this terminates within one lap, embedded as a bounded search (the
fallback branches are unreachable at the only call site). -/
def setFirstPlayerToAct (s : GameState) : GameState :=
  let players := s.players
  let dealerIndex := s.dealerPosition
  let activeCount := (getActivePlayers s).length
  if activeCount = 2 then { s with activePlayerIndex := dealerIndex }
  else
    let lapSeats := (List.range players.length).map
      (fun t => (dealerIndex + 1 + t) % players.length)
    match (lapSeats.filter (fun j => !(players.getD j default).disconnected))[1]? with
    | none => { s with activePlayerIndex := dealerIndex }
    | some bbSeat =>
      let cand := (List.range players.length).map (fun t => (bbSeat + 1 + t) % players.length)
      match cand.find? (fun j =>
          let p := players.getD j default
          !p.disconnected && !p.isAllIn && !p.isFolded) with
      | some j => { s with activePlayerIndex := j }
      | none => { s with activePlayerIndex := dealerIndex }

/-- `startNewHand`, with the shuffled deck passed explicitly
(`shuffleDeck(createDeck())` produces some permutation of `createDeck`). -/
def startNewHandD (s : GameState) (deck : List Card) : Except (String × GameState) GameState := do
  let s := resetHandState s
  let s := { s with deck := deck }
  let s ← dealHoleCardsEngine s
  let s ← postBlinds s
  .ok (setFirstPlayerToAct s)

-- ------------------------------
-- action validation and execution
-- ------------------------------

/-- `validateAction`: purely checks; `none` means the action is legal. -/
def validateAction (s : GameState) (player : Player) (action : PlayerAction) : Option String :=
  if player.isFolded then some "Player has already folded"
  else if player.isAllIn then some "Player is already all-in"
  else
    let callAmount := getCallAmount s player
    match action with
    | .fold => none
    | .check =>
      if 0 < callAmount then some "Cannot check when facing a bet" else none
    | .call =>
      if callAmount = 0 then some "Nothing to call"
      else if player.chips < callAmount then some "Not enough chips to call (use all-in instead)"
      else none
    | .bet amount =>
      if 0 < s.currentBet then some "Cannot bet when facing a bet (use raise instead)"
      else if amount < s.blinds.big then some ("Minimum bet is " ++ toString s.blinds.big)
      else if player.chips < amount then some "Not enough chips to bet"
      else none
    | .raise amount =>
      if s.currentBet = 0 then some "Cannot raise when no bet to raise"
      else
        let minRaise := s.currentBet + s.lastRaiseSize
        if amount < minRaise then some ("Minimum raise is " ++ toString minRaise)
        else if player.chips < amount then some "Not enough chips to raise"
        else none
    | .allin _ =>
      if player.chips = 0 then some "Player has no chips" else none

/-- `resetOthersHasActed`. -/
def resetOthersHasActed (s : GameState) (excludePlayerId : String) : GameState :=
  { s with players := s.players.map (fun p =>
      if p.id ≠ excludePlayerId && !p.isFolded && !p.isAllIn && !p.disconnected then
        { p with hasActed := false }
      else p) }

/-- `executeAction` for the player at index `i`. -/
def executeAction (s : GameState) (i : Nat) (action : PlayerAction) : GameState :=
  let player := s.players.getD i default
  match action with
  | .fold => modifyPlayerAt s i (fun p => { p with isFolded := true })
  | .check => s
  | .call =>
    let callAmount := getCallAmount s player
    let s' := modifyPlayerAt s i (fun p =>
      let p := { p with
        chips := p.chips - callAmount
        currentBet := s.currentBet
        totalBet := p.totalBet + callAmount }
      if p.chips = 0 then { p with isAllIn := true } else p)
    { s' with pot := s'.pot + callAmount }
  | .bet amount =>
    let betDelta := amount - player.currentBet
    let s' := modifyPlayerAt s i (fun p =>
      let p := { p with
        chips := p.chips - betDelta
        currentBet := amount
        totalBet := p.totalBet + betDelta }
      if p.chips = 0 then { p with isAllIn := true } else p)
    let s' := { s' with currentBet := amount, pot := s'.pot + betDelta, lastRaiseSize := amount }
    resetOthersHasActed s' player.id
  | .raise amount =>
    let raiseDelta := amount - player.currentBet
    let previousHighest := s.currentBet
    let s' := modifyPlayerAt s i (fun p =>
      let p := { p with
        chips := p.chips - raiseDelta
        currentBet := amount
        totalBet := p.totalBet + raiseDelta }
      if p.chips = 0 then { p with isAllIn := true } else p)
    let s' := { s' with
      lastRaiseSize := amount - previousHighest
      currentBet := amount
      pot := s'.pot + raiseDelta }
    resetOthersHasActed s' player.id
  | .allin _ =>
    let allInAmount := player.chips
    let newTotal := player.currentBet + allInAmount
    let s' := modifyPlayerAt s i (fun p =>
      { p with
        chips := 0
        totalBet := p.totalBet + allInAmount
        currentBet := newTotal
        isAllIn := true })
    let s' := { s' with pot := s'.pot + allInAmount }
    if s'.currentBet < newTotal then
      let raiseAmount := newTotal - s'.currentBet
      let s' := if s'.lastRaiseSize ≤ raiseAmount then
          { s' with lastRaiseSize := raiseAmount } else s'
      let s' := { s' with currentBet := newTotal }
      resetOthersHasActed s' player.id
    else s'

-- ------------------------------
-- betting round management
-- ------------------------------

/-- `isBettingRoundComplete`. -/
def isBettingRoundComplete (s : GameState) : Bool :=
  let activePlayers := getPlayersStillInHand s
  if activePlayers.length ≤ 1 then true
  else
    let playersWhoCanAct := activePlayers.filter (fun p => !p.isAllIn)
    if playersWhoCanAct.length = 0 then true
    else
      playersWhoCanAct.all (fun p => p.hasActed) &&
        playersWhoCanAct.all (fun p => p.currentBet == s.currentBet)

/-- `dealFlop`: burn one, deal three. -/
def dealFlop (s : GameState) : Except (String × GameState) GameState :=
  match dealCards s.deck 1 with
  | .error e => .error (e, s)
  | .ok (_, deck1) =>
    match dealCards deck1 3 with
    | .error e => .error (e, { s with deck := deck1 })
    | .ok (flop, deck2) =>
      .ok { s with deck := deck2, communityCards := s.communityCards ++ flop }

/-- `dealTurn`: burn one, deal one. -/
def dealTurn (s : GameState) : Except (String × GameState) GameState :=
  match dealCards s.deck 1 with
  | .error e => .error (e, s)
  | .ok (_, deck1) =>
    match dealCards deck1 1 with
    | .error e => .error (e, { s with deck := deck1 })
    | .ok (turn, deck2) =>
      .ok { s with deck := deck2, communityCards := s.communityCards ++ turn }

/-- `dealRiver`: burn one, deal one. -/
def dealRiver (s : GameState) : Except (String × GameState) GameState :=
  match dealCards s.deck 1 with
  | .error e => .error (e, s)
  | .ok (_, deck1) =>
    match dealCards deck1 1 with
    | .error e => .error (e, { s with deck := deck1 })
    | .ok (river, deck2) =>
      .ok { s with deck := deck2, communityCards := s.communityCards ++ river }

/-- `setFirstPlayerPostFlop`. -/
def setFirstPlayerPostFlop (s : GameState) : GameState :=
  let activePlayers := (getPlayersStillInHand s).filter (fun p => !p.isAllIn)
  if activePlayers.length = 0 then s
  else
    let dealerPos := s.dealerPosition
    let cand := (List.range activePlayers.length).map
      (fun t => (dealerPos + 1 + t) % s.players.length)
    let firstPlayerIndex := (cand.find? (fun j =>
      let p := s.players.getD j default
      !p.isFolded && !p.isAllIn)).getD dealerPos
    { s with activePlayerIndex := firstPlayerIndex }

/-- `isHandComplete()` (the method, as opposed to the state flag). -/
def isHandCompleteCheck (s : GameState) : Bool :=
  (getPlayersStillInHand s).length ≤ 1 || s.currentBettingRound == BettingRound.showdown

/-- `advanceToNextPlayer`: next non-folded, non-all-in, connected seat after
the active index, searched for one full lap (the do/while visits each seat at
most once before hitting an eligible one whenever one exists; the guard
returns early when nobody is eligible). -/
def advanceToNextPlayer (s : GameState) : GameState :=
  let playersStillEligible := (getPlayersStillInHand s).filter (fun p => !p.isAllIn)
  if playersStillEligible.length = 0 then s
  else
    let len := s.players.length
    let cand := (List.range len).map (fun t => (s.activePlayerIndex + 1 + t) % len)
    match cand.find? (fun j =>
        let p := s.players.getD j default
        !p.isFolded && !p.isAllIn && !p.disconnected) with
    | some j => { s with activePlayerIndex := j }
    | none => s

-- ------------------------------
-- settlement (completeHand and friends)
-- ------------------------------

/-- `prepareNextHand`: pass the button to the next seat with chips, remove
busted players, bump the hand number. -/
def prepareNextHand (s : GameState) : GameState :=
  let originalPlayers := s.players
  let len := originalPlayers.length
  if len = 0 then
    { s with players := [], dealerPosition := 0, handNumber := s.handNumber + 1 }
  else
    let nextIndexOriginal := (s.dealerPosition + 1) % len
    let nextDealerId : Option String :=
      (((List.range len).map (fun t => (nextIndexOriginal + t) % len)).find?
        (fun idx => 0 < (originalPlayers.getD idx default).chips)).map
        (fun idx => (originalPlayers.getD idx default).id)
    let remaining := originalPlayers.filter (fun p => 0 < p.chips)
    if remaining.length = 0 then
      { s with players := remaining, dealerPosition := 0, handNumber := s.handNumber + 1 }
    else
      let newDealerIndex :=
        match nextDealerId with
        | some did => (remaining.findIdx? (fun p => p.id = did)).getD 0
        | none => 0
      { s with
        players := remaining
        dealerPosition := newDealerIndex
        handNumber := s.handNumber + 1 }

/-- `calculateSidePots`: layered side pots over distinct contribution levels;
single-contributor layers are skipped, and any shortfall against the recorded
pot is refunded to a unique top contributor or folded into the last pot. -/
def calculateSidePots (s : GameState) (inHandIdx : List Nat) : GameState :=
  let allPlayers := s.players
  let allContrib : List (String × Int) := allPlayers.map (fun p => (p.id, p.totalBet))
  let levels := sortIntAsc (dedupFirstInt (allContrib.map (fun c => c.2)))
  let step : List SidePot × Int → Int → List SidePot × Int := fun st level =>
    let sidePots := st.1
    let prevLevel := st.2
    let layerSize := level - prevLevel
    if layerSize ≤ 0 then (sidePots, prevLevel)
    else
      let contributorsCount := (allContrib.filter (fun c => level ≤ c.2)).length
      if contributorsCount ≤ 1 then (sidePots, level)
      else
        let amount := layerSize * (contributorsCount : Int)
        let eligibleIds := ((inHandIdx.map (fun i => allPlayers.getD i default)).filter
          (fun p => level ≤ p.totalBet)).map (fun p => p.id)
        let sidePots' :=
          if 0 < amount && !eligibleIds.isEmpty then
            sidePots ++ [{
              amount := amount
              eligiblePlayers := eligibleIds
              isMain := sidePots.isEmpty }]
          else sidePots
        (sidePots', level)
  let sidePots := (levels.foldl step ([], 0)).1
  let computedTotal := (sidePots.map (fun p => p.amount)).foldl (· + ·) 0
  let potDiff := s.pot - computedTotal
  if 0 < potDiff then
    match allContrib with
    | [] => { s with sidePots := sidePots }
    | c0 :: rest =>
      let highest := rest.foldl (fun acc c => if acc.2 < c.2 then c else acc) c0
      let topCount := (allContrib.filter (fun c => c.2 = highest.2)).length
      if topCount = 1 then
        let s' := match s.players.findIdx? (fun p => p.id = highest.1) with
          | some bi => modifyPlayerAt s bi (fun p => { p with chips := p.chips + potDiff })
          | none => s
        { s' with pot := s'.pot - potDiff, sidePots := sidePots }
      else
        let sidePots' :=
          if sidePots.isEmpty then
            [{ amount := potDiff
               eligiblePlayers := inHandIdx.map (fun i => (allPlayers.getD i default).id)
               isMain := true }]
          else
            sidePots.dropLast ++
              [{ sidePots.getLastD default with
                 amount := (sidePots.getLastD default).amount + potDiff }]
        { s with sidePots := sidePots' }
  else { s with sidePots := sidePots }

/-- update the aggregate winners record (`aggregate[id] = (aggregate[id] || 0) + payout`). -/
def aggUpdate (agg : List (String × Int)) (playerId : String) (payout : Int) :
    List (String × Int) :=
  if agg.any (fun e => e.1 = playerId) then
    agg.map (fun e => if e.1 = playerId then (e.1, e.2 + payout) else e)
  else agg ++ [(playerId, payout)]

/-- one iteration of the `awardPots` loop: distribute a side pot among the
winners of its eligible evaluations (base share each, remainder to the first
winner), accumulating per-player totals for the winners display. -/
def awardSinglePot (st : GameState × List (String × Int))
    (handEvaluations : List (Nat × HandEvaluation)) (sidePot : SidePot) :
    GameState × List (String × Int) :=
  let s := st.1
  let eligibleEvaluations := handEvaluations.filter (fun he =>
    sidePot.eligiblePlayers.contains (s.players.getD he.1 default).id)
  let winnerIndices := findWinners (eligibleEvaluations.map (fun he => he.2))
  let base := sidePot.amount.fdiv (winnerIndices.length : Int)
  let remainder := sidePot.amount - base * (winnerIndices.length : Int)
  (zipIdxL winnerIndices).foldl (fun acc wi =>
    let winnerIndex := wi.1
    let idx := wi.2
    let pIdx := (eligibleEvaluations.getD winnerIndex (0, default)).1
    let payout := base + (if idx = 0 then remainder else 0)
    (modifyPlayerAt acc.1 pIdx (fun p => { p with chips := p.chips + payout }),
     aggUpdate acc.2 (s.players.getD pIdx default).id payout)) st

/-- `awardPots`: award every side pot, then rebuild the winners list from the
aggregated totals (re-evaluating each winning hand for display). -/
def awardPots (s : GameState) (handEvaluations : List (Nat × HandEvaluation)) :
    Except (String × GameState) GameState := do
  let stAgg := s.sidePots.foldl (fun acc sp => awardSinglePot acc handEvaluations sp) (s, [])
  let sAfter := stAgg.1
  let winners ← stAgg.2.foldlM (fun acc entry => do
      match sAfter.players.find? (fun p => p.id = entry.1) with
      | none => Except.error ("Cannot read winner " ++ entry.1, sAfter)
      | some player =>
        match evaluateHand (player.holeCards ++ sAfter.communityCards) with
        | .error e => Except.error (e, sAfter)
        | .ok ev =>
          pure (acc ++ [{ playerId := entry.1, amount := entry.2, hand := ev }]))
    ([] : List WinnerEntry)
  .ok { sAfter with winners := winners }

/-- `evaluateShowdown`: evaluate every in-hand player, build the side pots
(single main pot when all contributions are equal), and award them. -/
def evaluateShowdown (s : GameState) : Except (String × GameState) GameState := do
  let inHandIdx := playersStillInHandIdx s
  let handEvaluations ← inHandIdx.foldlM (fun acc i => do
      let p := s.players.getD i default
      match evaluateHand (p.holeCards ++ s.communityCards) with
      | .error e => Except.error (e, s)
      | .ok ev => pure (acc ++ [(i, ev)]))
    ([] : List (Nat × HandEvaluation))
  let contribs := s.players.map (fun p => p.totalBet)
  let distinct := sortIntAsc (dedupFirstInt contribs)
  let s :=
    if 1 < distinct.length then calculateSidePots s inHandIdx
    else { s with sidePots := [{
      amount := s.pot
      eligiblePlayers := inHandIdx.map (fun i => (s.players.getD i default).id)
      isMain := true }] }
  awardPots s handEvaluations

/-- `completeHand`: mark the hand complete, pay a lone survivor the whole pot
or run the showdown, then prepare the next hand. -/
def completeHand (s : GameState) : Except (String × GameState) GameState :=
  let s := { s with isHandComplete := true }
  let inHandIdx := playersStillInHandIdx s
  if inHandIdx.length = 1 then
    let wi := inHandIdx.getD 0 0
    let pot := s.pot
    let winnerId := (s.players.getD wi default).id
    let s := modifyPlayerAt s wi (fun p => { p with chips := p.chips + pot })
    let s := { s with winners := [{
      playerId := winnerId
      amount := pot
      hand := { rank := 1, value := 0, description := "Won by default", cards := [] } }] }
    .ok (prepareNextHand s)
  else do
    let s ← evaluateShowdown s
    .ok (prepareNextHand s)

-- ------------------------------
-- street advancement and the action entry point
-- ------------------------------

/-- `advanceBettingRound`: reset per-round state, deal the next street, and
hand play to the first post-flop seat; from the river it settles directly. -/
def advanceBettingRound (s : GameState) : Except (String × GameState) GameState :=
  let resetP := fun (p : Player) => { p with hasActed := false, currentBet := (0 : Int) }
  let s := { s with players := s.players.map resetP }
  match s.currentBettingRound with
  | .preflop => do
    let s ← dealFlop s
    let s := { s with currentBettingRound := BettingRound.flop }
    .ok (setFirstPlayerPostFlop { s with currentBet := 0 })
  | .flop => do
    let s ← dealTurn s
    let s := { s with currentBettingRound := BettingRound.turn }
    .ok (setFirstPlayerPostFlop { s with currentBet := 0 })
  | .turn => do
    let s ← dealRiver s
    let s := { s with currentBettingRound := BettingRound.river }
    .ok (setFirstPlayerPostFlop { s with currentBet := 0 })
  | .river =>
    completeHand { s with currentBettingRound := BettingRound.showdown }
  | .showdown =>
    -- no switch case matches: only the trailing reset and seat assignment run
    .ok (setFirstPlayerPostFlop { s with currentBet := 0 })

/-- the fast-forward loop of `processPlayerAction`/`ensureProgressIfStalled`:
`while (!complete && round !== SHOWDOWN) advanceBettingRound()`.  Each
iteration from a non-showdown round moves the round strictly forward, so at
most four iterations ever run; fuel 5 makes the recursion structural without
changing the semantics. -/
def fastForwardLoop : Nat → GameState → Except (String × GameState) GameState
  | 0, s => .ok s
  | fuel + 1, s =>
    if !s.isHandComplete && s.currentBettingRound != BettingRound.showdown then do
      let s ← advanceBettingRound s
      fastForwardLoop fuel s
    else .ok s

def fastForward (s : GameState) : Except (String × GameState) GameState := do
  let s ← fastForwardLoop 5 s
  if !s.isHandComplete then completeHand s else .ok s

/-- the validate-and-apply phase of `processPlayerAction`: everything up to
and including `player.hasActed = true`. -/
def execPhase (s : GameState) (playerId : String) (action : PlayerAction) :
    Except (String × GameState) GameState :=
  match s.players.findIdx? (fun p => p.id = playerId) with
  | none => .error ("Player " ++ playerId ++ " not found", s)
  | some i =>
    let player := s.players.getD i default
    if ¬ isPlayersTurn s playerId then
      .error ("Not " ++ player.name ++ "s turn to act", s)
    else
      match validateAction s player action with
      | some msg => .error (msg, s)
      | none =>
        let s := executeAction s i action
        let s := { s with lastAction := some action }
        .ok (modifyPlayerAt s i (fun p => { p with hasActed := true }))

/-- the completion/advancement phase of `processPlayerAction`: settle the hand
if it is over, fast-forward when nobody can act, advance the street when the
round is complete, otherwise pass the turn. -/
def postPhase (s : GameState) : Except (String × GameState) GameState :=
  if isHandCompleteCheck s then completeHand s
  else
    let playersWhoCanAct := (getPlayersStillInHand s).filter (fun p => !p.isAllIn)
    if playersWhoCanAct.length = 0 then fastForward s
    else if isBettingRoundComplete s then advanceBettingRound s
    else .ok (advanceToNextPlayer s)

/-- `processPlayerAction` from `game-engine.ts`. -/
def processPlayerAction (s : GameState) (playerId : String) (action : PlayerAction) :
    Except (String × GameState) GameState := do
  postPhase (← execPhase s playerId action)

-- ------------------------------
-- public query API
-- ------------------------------

/-- `canPlayerAct`. -/
def canPlayerAct (s : GameState) (playerId : String) : Bool :=
  match findPlayerById s playerId with
  | some player => isPlayersTurn s playerId && !player.isFolded && !player.isAllIn
  | none => false

/-- `getValidActions`. -/
def getValidActions (s : GameState) (playerId : String) : List ActionKind :=
  match findPlayerById s playerId with
  | none => []
  | some player =>
    if ¬ canPlayerAct s playerId then []
    else
      let callAmount := getCallAmount s player
      let eligibleCount := ((getPlayersStillInHand s).filter (fun p => !p.isAllIn)).length
      let actions := [ActionKind.fold]
      let actions :=
        if callAmount = 0 then actions ++ [ActionKind.check]
        else if callAmount ≤ player.chips then actions ++ [ActionKind.call]
        else actions
      let actions :=
        if 1 < eligibleCount then
          if s.currentBet = 0 then
            if s.blinds.big ≤ player.chips + player.currentBet then
              actions ++ [ActionKind.bet] else actions
          else
            let minRaiseTotal := s.currentBet + max s.lastRaiseSize s.blinds.big
            if minRaiseTotal ≤ player.chips + player.currentBet then
              actions ++ [ActionKind.raise] else actions
        else actions
      if 0 < player.chips then actions ++ [ActionKind.allin] else actions

/-- `ensureProgressIfStalled`: the auto-progress performed on reads. -/
def ensureProgressIfStalled (s : GameState) : Except (String × GameState) GameState :=
  if s.isHandComplete then .ok s
  else
    let eligibleCount := ((getPlayersStillInHand s).filter (fun p => !p.isAllIn)).length
    if eligibleCount = 0 then fastForward s
    else
      let s :=
        match s.players[s.activePlayerIndex]? with
        | none => advanceToNextPlayer s
        | some current =>
          if current.isFolded || current.isAllIn || current.disconnected then
            advanceToNextPlayer s
          else s
      if isBettingRoundComplete s then advanceBettingRound s else .ok s

/-- `getGameState`: runs `ensureProgressIfStalled`, then returns a shallow
copy of the (possibly mutated) state; the pair is (snapshot, engine state
after the call). -/
def getGameState (s : GameState) : Except (String × GameState) (GameState × GameState) := do
  let s ← ensureProgressIfStalled s
  .ok (s, s)

-- ------------------------------
-- constructor (`new PokerGameEngine(...)` before its startNewHand call)
-- ------------------------------

/-- player data passed to the constructor (id, name, chips, isAI). -/
structure PlayerData where
  id : String
  name : String
  chips : Int
  isAI : Bool
deriving DecidableEq, Repr

/-- the game state built by the constructor and `setupPlayers`, before the
constructor invokes `startNewHand()` (embedded as `startNewHandD`). -/
def mkEngineState (tableId : String) (playerData : List PlayerData)
    (smallBlind bigBlind : Int) : GameState :=
  { tableId := tableId
    handNumber := 1
    players := (zipIdxL playerData).map (fun di =>
      { id := di.1.id
        name := di.1.name
        chips := di.1.chips
        holeCards := []
        currentBet := 0
        totalBet := 0
        position := di.2
        isDealer := di.2 == 0
        isSmallBlind := false
        isBigBlind := false
        hasActed := false
        isFolded := false
        isAllIn := false
        isAI := di.1.isAI
        disconnected := false })
    maxPlayers := max 6 playerData.length
    dealerPosition := 0
    deck := []
    communityCards := []
    currentBettingRound := BettingRound.preflop
    currentBet := bigBlind
    lastRaiseSize := bigBlind
    pot := 0
    sidePots := []
    blinds := { small := smallBlind, big := bigBlind }
    activePlayerIndex := 0
    lastAction := none
    actionTimeoutMs := 30000
    isHandComplete := false
    winners := [] }

/-- decidable equality of `Except` results, for concrete evaluations. -/
instance {ε α : Type} [DecidableEq ε] [DecidableEq α] : DecidableEq (Except ε α) := fun a b =>
  match a, b with
  | .error e1, .error e2 =>
    if h : e1 = e2 then .isTrue (by rw [h]) else .isFalse (by intro hc; cases hc; exact h rfl)
  | .ok v1, .ok v2 =>
    if h : v1 = v2 then .isTrue (by rw [h]) else .isFalse (by intro hc; cases hc; exact h rfl)
  | .error _, .ok _ => .isFalse (by intro hc; cases hc)
  | .ok _, .error _ => .isFalse (by intro hc; cases hc)

-- ========================================
-- Supporting lemmas
-- ========================================

theorem findIdx?_aux_some {α : Type} [Inhabited α] (p : α → Bool) :
    ∀ (l : List α) (i j : Nat), List.findIdx? p l i = some j →
      i ≤ j ∧ l.find? p = some (l.getD (j - i) default) ∧
        p (l.getD (j - i) default) = true ∧ j - i < l.length
  | [], i, j => by simp
  | x :: xs, i, j => by
    intro h
    rw [List.findIdx?_cons] at h
    by_cases hx : p x
    · simp only [hx, if_true, Option.some.injEq] at h
      subst h
      simp [List.find?_cons, hx]
    · simp only [hx, Bool.false_eq_true, if_false] at h
      obtain ⟨hij, hf, hp, hlt⟩ := findIdx?_aux_some p xs (i + 1) j h
      have hji : j - i = (j - (i + 1)) + 1 := by omega
      refine ⟨by omega, ?_, ?_, ?_⟩
      · rw [List.find?_cons]
        simp only [hx]
        rw [hji, List.getD_cons_succ]
        exact hf
      · rw [hji, List.getD_cons_succ]
        exact hp
      · simp only [List.length_cons]
        omega

theorem findIdx?_aux_none {α : Type} (p : α → Bool) :
    ∀ (l : List α) (i : Nat), List.findIdx? p l i = none → l.find? p = none
  | [], _ => by simp
  | x :: xs, i => by
    intro h
    rw [List.findIdx?_cons] at h
    by_cases hx : p x
    · simp [hx] at h
    · simp only [hx, Bool.false_eq_true, if_false] at h
      rw [List.find?_cons]
      simp only [hx]
      exact findIdx?_aux_none p xs (i + 1) h

theorem findIdx?_of_find?_none {α : Type} [Inhabited α] (p : α → Bool) (l : List α)
    (h : l.find? p = none) : l.findIdx? p = none := by
  cases hIdx : l.findIdx? p with
  | none => rfl
  | some j =>
    obtain ⟨_, hf, _, _⟩ := findIdx?_aux_some p l 0 j hIdx
    rw [h] at hf
    cases hf

theorem find?_some_of_findIdx? {α : Type} [Inhabited α] (p : α → Bool) (l : List α) (j : Nat)
    (h : l.findIdx? p = some j) :
    l.find? p = some (l.getD j default) ∧ p (l.getD j default) = true ∧ j < l.length := by
  obtain ⟨_, hf, hp, hlt⟩ := findIdx?_aux_some p l 0 j h
  rw [Nat.sub_zero] at hf hp hlt
  exact ⟨hf, hp, hlt⟩

-- ========================================
-- Claim theorems
-- ========================================

-- a small concrete table used by several witnesses: two players, blinds 5/10,
-- fresh from the constructor (player A is at the active index).
def witnessTable : GameState :=
  mkEngineState "witness"
    [{ id := "A", name := "Alice", chips := 100, isAI := false },
     { id := "B", name := "Bob", chips := 100, isAI := false }] 5 10

/-- C10: for a player id that matches no seated player, or that names a player
who is folded, all-in, or not the currently indexed player, `canPlayerAct`
returns `false` and `getValidActions` returns the empty list — both queries
report ineligibility as a value — while `processPlayerAction` reports these
conditions as an error that leaves the state exactly unchanged. -/
theorem c10_queries_report_ineligibility (s : GameState) (pid : String) (a : PlayerAction)
    (h : findPlayerById s pid = none ∨
      ∃ p, findPlayerById s pid = some p ∧
        (p.isFolded = true ∨ p.isAllIn = true ∨ isPlayersTurn s pid = false)) :
    canPlayerAct s pid = false ∧ getValidActions s pid = [] ∧
      ∃ msg, processPlayerAction s pid a = .error (msg, s) := by
  have hk : canPlayerAct s pid = false := by
    rcases h with hn | ⟨p, hp, hc⟩
    · simp [canPlayerAct, hn]
    · unfold canPlayerAct
      rw [hp]
      rcases hc with hf | hai | ht
      · simp [hf]
      · simp [hai]
      · simp [ht]
  refine ⟨hk, ?_, ?_⟩
  · unfold getValidActions
    rcases h with hn | ⟨p, hp, _⟩
    · simp [hn]
    · simp [hp, hk]
  · rcases h with hn | ⟨p, hp, hc⟩
    · have hIdxN : s.players.findIdx? (fun p => p.id = pid) = none :=
        findIdx?_of_find?_none _ _ hn
      refine ⟨"Player " ++ pid ++ " not found", ?_⟩
      simp only [processPlayerAction, execPhase, hIdxN]
      rfl
    · cases hIdx : s.players.findIdx? (fun q => q.id = pid) with
      | none =>
        have := findIdx?_aux_none _ _ _ hIdx
        rw [findPlayerById] at hp
        rw [this] at hp
        cases hp
      | some i =>
        obtain ⟨hf, hpi, _⟩ := find?_some_of_findIdx? _ _ _ hIdx
        rw [findPlayerById] at hp
        rw [hf] at hp
        injection hp with hp
        subst hp
        by_cases ht : isPlayersTurn s pid = true
        · have hv : ∃ msg, validateAction s (s.players.getD i default) a = some msg := by
            rcases hc with hfold | hai | hturn
            · exact ⟨_, by simp only [validateAction]; rw [if_pos hfold]⟩
            · by_cases hfold : (s.players.getD i default).isFolded = true
              · exact ⟨_, by simp only [validateAction]; rw [if_pos hfold]⟩
              · exact ⟨_, by simp only [validateAction]; rw [if_neg hfold, if_pos hai]⟩
            · rw [ht] at hturn; cases hturn
          obtain ⟨msg, hmsg⟩ := hv
          refine ⟨msg, ?_⟩
          simp only [processPlayerAction, execPhase, hIdx, ht, hmsg]
          rfl
        · refine ⟨"Not " ++ (s.players.getD i default).name ++ "s turn to act", ?_⟩
          simp only [processPlayerAction, execPhase, hIdx]
          rw [if_pos (by simp [ht])]
          rfl

/-- witness for C10 at a concrete table: the id "Z" matches nobody. -/
theorem c10_witness :
    (findPlayerById witnessTable "Z" = none) ∧
    canPlayerAct witnessTable "Z" = false ∧ getValidActions witnessTable "Z" = [] ∧
      ∃ msg, processPlayerAction witnessTable "Z" PlayerAction.fold =
        .error (msg, witnessTable) :=
  ⟨by rfl,
    c10_queries_report_ineligibility witnessTable "Z" PlayerAction.fold (Or.inl (by rfl))⟩

/-- C8: rejected actions are atomic.  Whenever `processPlayerAction` fails for
one of the reasons the protocol enumerates — unknown player, not the player's
turn, player already folded or all-in, or an action that is illegal for the
current betting context (all of which `validateAction` reports) — the
resulting error carries the state exactly as it was before the call: no field
has been modified. -/
theorem c8_rejected_actions_atomic (s : GameState) (pid : String) (a : PlayerAction)
    (h : findPlayerById s pid = none ∨
      ∃ p, findPlayerById s pid = some p ∧
        (isPlayersTurn s pid = false ∨ validateAction s p a ≠ none)) :
    ∃ msg, processPlayerAction s pid a = .error (msg, s) := by
  rcases h with hn | ⟨p, hp, hc⟩
  · have hIdxN : s.players.findIdx? (fun p => p.id = pid) = none :=
      findIdx?_of_find?_none _ _ hn
    refine ⟨"Player " ++ pid ++ " not found", ?_⟩
    simp only [processPlayerAction, execPhase, hIdxN]
    rfl
  · cases hIdx : s.players.findIdx? (fun q => q.id = pid) with
    | none =>
      have := findIdx?_aux_none _ _ _ hIdx
      rw [findPlayerById] at hp
      rw [this] at hp
      cases hp
    | some i =>
      obtain ⟨hf, hpi, _⟩ := find?_some_of_findIdx? _ _ _ hIdx
      rw [findPlayerById] at hp
      rw [hf] at hp
      injection hp with hp
      subst hp
      by_cases ht : isPlayersTurn s pid = true
      · rcases hc with hturn | hval
        · rw [ht] at hturn; cases hturn
        · obtain ⟨msg, hmsg⟩ := Option.ne_none_iff_exists'.mp hval
          refine ⟨msg, ?_⟩
          simp only [processPlayerAction, execPhase, hIdx, ht, hmsg]
          rfl
      · refine ⟨"Not " ++ (s.players.getD i default).name ++ "s turn to act", ?_⟩
        simp only [processPlayerAction, execPhase, hIdx]
        rw [if_pos (by simp [ht])]
        rfl

/-- witness for C8 at a concrete table: player B exists but it is not B's
turn, and the rejection returns the state unchanged. -/
theorem c8_witness :
    (∃ p, findPlayerById witnessTable "B" = some p ∧ isPlayersTurn witnessTable "B" = false) ∧
    ∃ msg, processPlayerAction witnessTable "B" PlayerAction.check =
      .error (msg, witnessTable) := by
  refine ⟨⟨_, by rfl, by rfl⟩, ?_⟩
  exact c8_rejected_actions_atomic witnessTable "B" PlayerAction.check
    (Or.inr ⟨_, by rfl, Or.inl (by rfl)⟩)

-- ------------------------------
-- C5: heads-up blind assignment
-- ------------------------------

/-- a heads-up hand started from the constructor: two players with 1000
chips, blinds 5/10, dealer at seat 0, on the canonical deck order. -/
def c5Hand : Except (String × GameState) GameState :=
  startNewHandD (mkEngineState "headsup"
    [{ id := "A", name := "Alice", chips := 1000, isAI := false },
     { id := "B", name := "Bob", chips := 1000, isAI := false }] 5 10) createDeck

/-- C5 (code bug): at the start of a heads-up hand the code posts the blinds
the wrong way around: seat 0 is the dealer yet receives the BIG blind, and
the non-dealer seat 1 posts the SMALL blind (`postBlinds` uses the 3-handed
`dealer+1`/`dealer+2` offsets with no heads-up special case).  The
first-to-act part of the claim does hold: the dealer acts first preflop.
The claim says the dealer posts the small blind, so the code contradicts it. -/
theorem c5_headsUp_blinds_swapped :
    (c5Hand.map (fun s =>
      ((s.players.getD 0 default).isDealer,
       (s.players.getD 0 default).isSmallBlind,
       (s.players.getD 0 default).isBigBlind,
       (s.players.getD 0 default).currentBet,
       (s.players.getD 1 default).isSmallBlind,
       (s.players.getD 1 default).isBigBlind,
       (s.players.getD 1 default).currentBet,
       s.activePlayerIndex))) =
    .ok (true, false, true, 10, true, false, 5, 0) := by rfl

-- ------------------------------
-- C4: raise validation
-- ------------------------------

/-- a reachable three-handed state: blinds 5/10, A folded, B called; Carol
(the big blind, 15 chips behind, 10 already in) is to act facing bet 10 with
last raise size 10. -/
def c4State : Except (String × GameState) GameState :=
  ((startNewHandD (mkEngineState "t"
    [{ id := "A", name := "Alice", chips := 100, isAI := false },
     { id := "B", name := "Bob", chips := 100, isAI := false },
     { id := "C", name := "Carol", chips := 25, isAI := false }] 5 10) createDeck).bind
    (fun s => processPlayerAction s "A" PlayerAction.fold)).bind
    (fun s => processPlayerAction s "B" PlayerAction.call)

/-- C4 (code bug): Carol raising to 20 satisfies every condition of the
claim's legality table — table `currentBet = 10 > 0`, `20 ≥ currentBet +
lastRaiseSize = 20`, and chips `15 ≥ 20 − 10`, it is her turn and she is
neither folded nor all-in — yet `processPlayerAction` rejects the raise with
"Not enough chips to raise", because `validateAction` compares her chips with
the full raise-to amount instead of the delta she must pay.  The same state's
`getValidActions` advertises `raise` (it uses the delta arithmetic), so the
code contradicts itself; the state is returned unchanged. -/
theorem c4_raise_rejected_despite_claim_conditions :
    (c4State.map (fun s =>
      (decide (0 < s.currentBet),
       decide (s.currentBet + s.lastRaiseSize ≤ 20),
       (match findPlayerById s "C" with
        | some p => (p.isFolded, p.isAllIn,
            decide (20 - p.currentBet ≤ p.chips), isPlayersTurn s "C")
        | none => (true, true, false, false)),
       decide (processPlayerAction s "C" (PlayerAction.raise 20) =
         .error ("Not enough chips to raise", s)),
       (getValidActions s "C").contains ActionKind.raise))) =
    .ok (true, true, (false, false, true, true), true, true) := by rfl

-- ------------------------------
-- C1: getGameState auto-advances
-- ------------------------------

/-- a reachable stalled state: both players are all-in from the blinds alone
(5 and 5 chips against blinds 5/10), so nobody can voluntarily act while the
hand is not complete. -/
def c1Stalled : Except (String × GameState) GameState :=
  startNewHandD (mkEngineState "stall"
    [{ id := "A", name := "Alice", chips := 5, isAI := false },
     { id := "B", name := "Bob", chips := 5, isAI := false }] 5 10) createDeck

/-- C1 (code bug): `getGameState` is not read-only.  On the reachable state
above — hand not complete — calling `getGameState` runs
`ensureProgressIfStalled`, which fast-forwards through every remaining
street, settles the hand and mutates the engine state: the state after the
query differs from the state before it (`isHandComplete` flips to `true`,
cards are dealt, chips move).  The returned snapshot equals the mutated
state. -/
theorem c1_getGameState_mutates :
    (c1Stalled.map (fun s =>
      (s.isHandComplete,
       match getGameState s with
       | .ok (snap, s1) => (s1.isHandComplete, decide (s1 = s), decide (snap = s1))
       | .error _ => (true, true, false)))) =
    .ok (false, (true, false, true)) := by rfl

-- ------------------------------
-- C7: side-pot split with remainder
-- ------------------------------

theorem foldl_snd_indep2 {α β γ : Type} (F : β × γ → α → β × γ) (h : γ → α → γ)
    (hF : ∀ acc a, (F acc a).2 = h acc.2 a) :
    ∀ (l : List α) (st : β × γ), (l.foldl F st).2 = l.foldl h st.2
  | [], _ => rfl
  | a :: l, st => by
    rw [List.foldl_cons, List.foldl_cons, foldl_snd_indep2 F h hF l (F st a), hF]

theorem aggUpdate_not_present (agg : List (String × Int)) (pid : String) (x : Int)
    (h : agg.all (fun e => e.1 ≠ pid)) : aggUpdate agg pid x = agg ++ [(pid, x)] := by
  unfold aggUpdate
  rw [if_neg]
  simp only [List.all_eq_true, decide_not, Bool.not_eq_true', decide_eq_false_iff_not] at h
  intro hc
  simp only [List.any_eq_true, decide_eq_true_eq] at hc
  obtain ⟨e, he, hee⟩ := hc
  exact h e he hee

theorem aggfold_fresh (f : Nat → String) (base rem : Int) :
    ∀ (ps : List (Nat × Nat)) (agg : List (String × Int)),
      (∀ q ∈ ps, q.2 ≠ 0) →
      (ps.map (fun q => f q.1)).Nodup →
      (∀ q ∈ ps, agg.all (fun e => e.1 ≠ f q.1)) →
      (ps.foldl (fun acc q => aggUpdate acc (f q.1)
        (base + if q.2 = 0 then rem else 0)) agg) =
        agg ++ ps.map (fun q => (f q.1, base))
  | [], agg => by simp
  | q :: ps, agg => by
    intro hnz hnd hfresh
    have hq2 : q.2 ≠ 0 := hnz q (by simp)
    rw [List.map_cons, List.nodup_cons] at hnd
    simp only [List.foldl_cons, if_neg hq2, add_zero]
    rw [aggUpdate_not_present _ _ _ (hfresh q (by simp))]
    rw [aggfold_fresh f base rem ps (agg ++ [(f q.1, base)])
      (fun r hr => hnz r (by simp [hr]))
      hnd.2
      (fun r hr => by
        have h1 := hfresh r (by simp [hr])
        have h2 : f q.1 ≠ f r.1 := by
          intro he
          exact hnd.1 (he ▸ List.mem_map_of_mem (fun q => f q.1) hr)
        simp only [List.all_append, Bool.and_eq_true]
        exact ⟨h1, by simpa using h2⟩)]
    simp

-- a concrete showdown with three tied winners and a pot of 8: the board is a
-- royal flush, so every player plays the board and the evaluations tie.
def c7Player (pid : String) (hole : List Card) : Player :=
  { id := pid, name := pid, chips := 0, holeCards := hole, currentBet := 0, totalBet := 0,
    position := 0, isDealer := false, isSmallBlind := false, isBigBlind := false,
    hasActed := true, isFolded := false, isAllIn := true, isAI := false, disconnected := false }

def c7State : GameState :=
  { mkEngineState "c7" [] 5 10 with
    players := [c7Player "A" [{ suit := .spades, rank := .r2 }, { suit := .spades, rank := .r3 }],
                c7Player "B" [{ suit := .diamonds, rank := .r2 }, { suit := .diamonds, rank := .r3 }],
                c7Player "C" [{ suit := .clubs, rank := .r2 }, { suit := .clubs, rank := .r3 }]]
    communityCards := [{ suit := .hearts, rank := .rT }, { suit := .hearts, rank := .rJ },
                       { suit := .hearts, rank := .rQ }, { suit := .hearts, rank := .rK },
                       { suit := .hearts, rank := .rA }]
    pot := 8 }

/-- C7 counterexample: a pot of 8 split among 3 tied winners.  The claim says
each winner receives `floor(8/3) = 2` and the remainder 2 is assigned one
chip per unit to winners in order, i.e. payments (3, 3, 2).  The code instead
gives the entire remainder to the first winner: chips end as (4, 2, 2). -/
theorem c7_remainder_not_one_chip_each :
    ((evaluateShowdown c7State).map (fun s => s.players.map (fun p => p.chips)) =
      .ok [4, 2, 2]) ∧
    ¬ ((evaluateShowdown c7State).map (fun s => s.players.map (fun p => p.chips)) =
      .ok [3, 3, 2]) :=
  ⟨by rfl, by decide⟩

/-- C7 (amended): when a side pot of amount `A` is awarded to `k ≥ 1` tied
winners (the evaluations of maximal value among those eligible), each winner
receives `floor(A/k)`, except that the FIRST winner in eligibility order
(earliest seat first) additionally receives the entire integer-division
remainder `A − k·floor(A/k)` — not one chip per winner — so the amounts paid
out sum exactly to `A`.  Stated over the aggregate payout list built by the
award loop, for winners with pairwise distinct player ids. -/
theorem c7_remainder_to_first_winner (s : GameState) (handEvals : List (Nat × HandEvaluation))
    (sp : SidePot) (elig : List (Nat × HandEvaluation)) (w : List Nat) (base : Int)
    (helig : elig = handEvals.filter (fun he =>
      sp.eligiblePlayers.contains ((s.players.getD he.1 default).id)))
    (hw : w = findWinners (elig.map (fun he => he.2)))
    (hne : w ≠ [])
    (hbase : base = sp.amount.fdiv (w.length : Int))
    (hnd : (w.map (fun wi => (s.players.getD (elig.getD wi (0, default)).1 default).id)).Nodup) :
    ((awardSinglePot (s, []) handEvals sp).2.map (fun e => e.2)) =
      (base + (sp.amount - base * (w.length : Int))) ::
        List.replicate (w.length - 1) base ∧
    ((awardSinglePot (s, []) handEvals sp).2.map (fun e => e.2)).sum = sp.amount := by
  have hsnd : (awardSinglePot (s, []) handEvals sp).2 =
      (zipIdxL w).foldl (fun agg wi =>
        aggUpdate agg ((s.players.getD (elig.getD wi.1 (0, default)).1 default).id)
          (base + (if wi.2 = 0 then sp.amount - base * (w.length : Int) else 0))) [] := by
    simp only [awardSinglePot]
    rw [← helig, ← hw, ← hbase]
    exact foldl_snd_indep2 _ _ (fun acc a => rfl) (zipIdxL w) (s, [])
  obtain ⟨w0, wrest, rfl⟩ : ∃ w0 wrest, w = w0 :: wrest := by
    cases w with
    | nil => exact absurd rfl hne
    | cons a l => exact ⟨a, l, rfl⟩
  have hzip : zipIdxL (w0 :: wrest) =
      (w0, 0) :: wrest.zip ((List.range wrest.length).map Nat.succ) := by
    unfold zipIdxL
    rw [List.length_cons, List.range_succ_eq_map, List.zip_cons_cons]
  rw [hzip, List.foldl_cons] at hsnd
  rw [aggUpdate_not_present _ _ _ (by simp)] at hsnd
  rw [List.nil_append] at hsnd
  simp only [Prod.fst, Prod.snd, if_pos] at hsnd
  set f : Nat → String :=
    fun n => (s.players.getD (elig.getD n (0, default)).1 default).id with hf
  have hpairsnd : ∀ q ∈ wrest.zip ((List.range wrest.length).map Nat.succ), q.2 ≠ 0 := by
    intro q hq
    have := (List.of_mem_zip hq).2
    simp only [List.mem_map] at this
    obtain ⟨t, _, ht⟩ := this
    omega
  have hmapf : (wrest.zip ((List.range wrest.length).map Nat.succ)).map (fun q => f q.1) =
      wrest.map f := by
    have hlen : wrest.length ≤ ((List.range wrest.length).map Nat.succ).length := by simp
    calc (wrest.zip ((List.range wrest.length).map Nat.succ)).map (fun q => f q.1)
        = ((wrest.zip ((List.range wrest.length).map Nat.succ)).map Prod.fst).map f := by
          rw [List.map_map]; rfl
      _ = wrest.map f := by rw [List.map_fst_zip _ _ hlen]
  rw [List.map_cons, List.nodup_cons] at hnd
  have hfresh : ∀ q ∈ wrest.zip ((List.range wrest.length).map Nat.succ),
      ([(f w0, base + (sp.amount - base * ((w0 :: wrest).length : Int)))] :
        List (String × Int)).all (fun e => e.1 ≠ f q.1) := by
    intro q hq
    have hq1 : q.1 ∈ wrest := (List.of_mem_zip hq).1
    have : f w0 ≠ f q.1 := by
      intro he
      exact hnd.1 (he ▸ List.mem_map_of_mem f hq1)
    simpa using this
  rw [aggfold_fresh f base (sp.amount - base * ((w0 :: wrest).length : Int))
    (wrest.zip ((List.range wrest.length).map Nat.succ))
    _ hpairsnd (hmapf ▸ hnd.2) hfresh] at hsnd
  have hmc : ∀ (l : List (Nat × Nat)),
      (l.map (fun q => ((f q.1 : String), base))).map (fun e => e.2) =
        List.replicate l.length base := by
    intro l
    induction l with
    | nil => rfl
    | cons x xs ih => simp only [List.map_cons, List.replicate_succ, List.length_cons, ih]
  have hlenz : (wrest.zip ((List.range wrest.length).map Nat.succ)).length = wrest.length := by
    simp
  rw [hsnd]
  constructor
  · rw [List.map_append, hmc, hlenz]
    simp
  · rw [List.map_append, hmc, hlenz]
    simp only [List.singleton_append, List.map_cons, List.map_nil, List.sum_cons,
      List.sum_append, List.sum_replicate, List.sum_nil, smul_eq_mul, List.length_cons]
    push_cast
    ring

/-- witness for the amended C7 at the concrete tied showdown: base is
`8.fdiv 3 = 2`, the first winner receives `2 + 2 = 4`, the other two receive
2 each, and the payouts sum to 8. -/
theorem c7_witness :
    ((awardSinglePot (c7State, []) [(0, evaluateSevenCards
        ([{ suit := .spades, rank := .r2 }, { suit := .spades, rank := .r3 }] ++ c7State.communityCards)),
      (1, evaluateSevenCards
        ([{ suit := .diamonds, rank := .r2 }, { suit := .diamonds, rank := .r3 }] ++ c7State.communityCards)),
      (2, evaluateSevenCards
        ([{ suit := .clubs, rank := .r2 }, { suit := .clubs, rank := .r3 }] ++ c7State.communityCards))]
      { amount := 8, eligiblePlayers := ["A", "B", "C"], isMain := true }).2.map
        (fun e => e.2)) = [4, 2, 2] := by
  have h := c7_remainder_to_first_winner c7State
    [(0, evaluateSevenCards
        ([{ suit := .spades, rank := .r2 }, { suit := .spades, rank := .r3 }] ++ c7State.communityCards)),
     (1, evaluateSevenCards
        ([{ suit := .diamonds, rank := .r2 }, { suit := .diamonds, rank := .r3 }] ++ c7State.communityCards)),
     (2, evaluateSevenCards
        ([{ suit := .clubs, rank := .r2 }, { suit := .clubs, rank := .r3 }] ++ c7State.communityCards))]
    { amount := 8, eligiblePlayers := ["A", "B", "C"], isMain := true }
    _ _ _ (by rfl) (by rfl) (by decide) (by rfl) (by decide)
  rw [h.1]
  rfl

-- ------------------------------
-- C3: category dominance of the strength scalar
-- ------------------------------


-- encode bound
theorem encode_aux (arr : List Nat) :
    ∀ acc, (∀ v ∈ arr, v ≤ 14) →
      arr.foldl (fun a v => a * 15 + v) acc < (acc + 1) * 15 ^ arr.length := by
  induction arr with
  | nil => intro acc _; simp
  | cons v rest ih =>
    intro acc h
    have hv : v ≤ 14 := h v (by simp)
    have := ih (acc * 15 + v) (fun x hx => h x (by simp [hx]))
    calc (v :: rest).foldl (fun a v => a * 15 + v) acc
        = rest.foldl (fun a v => a * 15 + v) (acc * 15 + v) := by rw [List.foldl_cons]
      _ < (acc * 15 + v + 1) * 15 ^ rest.length := this
      _ ≤ (acc + 1) * 15 ^ (rest.length + 1) := by
          have h1 : acc * 15 + v + 1 ≤ (acc + 1) * 15 := by omega
          calc (acc * 15 + v + 1) * 15 ^ rest.length
              ≤ ((acc + 1) * 15) * 15 ^ rest.length := Nat.mul_le_mul_right _ h1
            _ = (acc + 1) * 15 ^ (rest.length + 1) := by ring
      _ = (acc + 1) * 15 ^ (v :: rest).length := by rw [List.length_cons]

theorem encode_lt_base (arr : List Nat) (h : ∀ v ∈ arr, v ≤ 14) (hlen : arr.length ≤ 5) :
    encode arr < CATEGORY_BASE := by
  have h1 := encode_aux arr 0 h
  have h2 : 15 ^ arr.length ≤ 15 ^ 5 := Nat.pow_le_pow_right (by norm_num) hlen
  unfold encode CATEGORY_BASE
  calc arr.foldl (fun a v => a * 15 + v) 0 < (0 + 1) * 15 ^ arr.length := h1
    _ = 15 ^ arr.length := by ring
    _ ≤ 15 ^ 5 := h2
    _ < 1000000000 := by norm_num

theorem rankToValue_le (r : Rank) (b : Bool) : rankToValue r b ≤ 14 := by
  cases r <;> cases b <;> simp [rankToValue]

-- membership through the insertion fold used by sortNatAsc / sortNatDesc
theorem foldIns_mem (w : Nat → Nat → Bool) :
    ∀ (l acc : List Nat) (x : Nat),
      x ∈ l.foldl (fun acc v => acc.takeWhile (w v) ++ v :: acc.dropWhile (w v)) acc →
      x ∈ acc ∨ x ∈ l := by
  intro l
  induction l with
  | nil => intro acc x hx; exact Or.inl hx
  | cons v rest ih =>
    intro acc x hx
    rw [List.foldl_cons] at hx
    rcases ih _ x hx with h1 | h2
    · rw [List.mem_append] at h1
      rcases h1 with h1 | h1
      · exact Or.inl ((List.takeWhile_sublist _).mem h1)
      · rw [List.mem_cons] at h1
        rcases h1 with rfl | h1
        · exact Or.inr (by simp)
        · exact Or.inl ((List.dropWhile_sublist _).mem h1)
    · exact Or.inr (by simp [h2])

theorem mem_sortNatAsc (l : List Nat) (x : Nat) (h : x ∈ sortNatAsc l) : x ∈ l := by
  rcases foldIns_mem (fun v y => y ≤ v) l [] x h with h1 | h1
  · cases h1
  · exact h1

theorem mem_sortNatDesc (l : List Nat) (x : Nat) (h : x ∈ sortNatDesc l) : x ∈ l := by
  rcases foldIns_mem (fun v y => v ≤ y) l [] x h with h1 | h1
  · cases h1
  · exact h1

theorem foldIns_length (w : Nat → Nat → Bool) :
    ∀ (l acc : List Nat),
      (l.foldl (fun acc v => acc.takeWhile (w v) ++ v :: acc.dropWhile (w v)) acc).length =
        acc.length + l.length := by
  intro l
  induction l with
  | nil => intro acc; simp
  | cons v rest ih =>
    intro acc
    rw [List.foldl_cons, ih]
    have : (acc.takeWhile (w v) ++ v :: acc.dropWhile (w v)).length = acc.length + 1 := by
      rw [List.length_append, List.length_cons]
      have := congrArg List.length (List.takeWhile_append_dropWhile (p := w v) (l := acc))
      rw [List.length_append] at this
      omega
    rw [this, List.length_cons]
    omega

theorem length_sortNatAsc (l : List Nat) : (sortNatAsc l).length = l.length := by
  have := foldIns_length (fun v y => y ≤ v) l []
  simpa [sortNatAsc] using this

theorem length_sortNatDesc (l : List Nat) : (sortNatDesc l).length = l.length := by
  have := foldIns_length (fun v y => v ≤ y) l []
  simpa [sortNatDesc] using this

theorem mem_dedupFirst (l : List Nat) (x : Nat) (h : x ∈ dedupFirst l) : x ∈ l := by
  have : ∀ (l acc : List Nat), x ∈ l.foldl
      (fun acc v => if acc.contains v then acc else acc ++ [v]) acc → x ∈ acc ∨ x ∈ l := by
    intro l
    induction l with
    | nil => intro acc hx; exact Or.inl hx
    | cons v rest ih =>
      intro acc hx
      rw [List.foldl_cons] at hx
      by_cases hc : acc.contains v
      · rw [if_pos hc] at hx
        rcases ih acc hx with h1 | h1
        · exact Or.inl h1
        · exact Or.inr (by simp [h1])
      · rw [if_neg hc] at hx
        rcases ih _ hx with h1 | h1
        · rw [List.mem_append] at h1
          rcases h1 with h1 | h1
          · exact Or.inl h1
          · simp at h1
            exact Or.inr (by simp [h1])
        · exact Or.inr (by simp [h1])
  rcases this l [] h with h1 | h1
  · cases h1
  · exact h1

theorem getD_le_14 (l : List Nat) (i : Nat) (h : ∀ v ∈ l, v ≤ 14) : l.getD i 0 ≤ 14 := by
  rw [List.getD_eq_getElem?_getD]
  cases hg : l[i]? with
  | none => simp
  | some x =>
    have : x ∈ l := List.getElem?_mem hg
    simpa [hg] using h x this

theorem getLastD_le_14 (l : List Nat) (h : ∀ v ∈ l, v ≤ 14) : l.getLastD 0 ≤ 14 := by
  rw [List.getLastD_eq_getLast?]
  cases hg : l.getLast? with
  | none => simp
  | some x =>
    have hm : x ∈ l := List.mem_of_mem_getLast? hg
    simpa using h x hm

theorem mapRank_le (cards : List Card) :
    ∀ v ∈ cards.map (fun c => rankToValue c.rank), v ≤ 14 := by
  intro v hv
  rw [List.mem_map] at hv
  obtain ⟨c, _, rfl⟩ := hv
  exact rankToValue_le c.rank true

theorem sortAsc_rank_le (cards : List Card) :
    ∀ v ∈ sortNatAsc (cards.map (fun c => rankToValue c.rank)), v ≤ 14 :=
  fun v hv => mapRank_le cards v (mem_sortNatAsc _ v hv)

theorem sortDesc_rank_le (cards : List Card) :
    ∀ v ∈ sortNatDesc (cards.map (fun c => rankToValue c.rank)), v ≤ 14 :=
  fun v hv => mapRank_le cards v (mem_sortNatDesc _ v hv)

theorem checkStraight_char (cards : List Card) (ev : HandEvaluation)
    (h : checkStraight cards = some ev) :
    ev.rank = 5 ∧ ∃ hi, hi ≤ 14 ∧ ev.value = 5 * CATEGORY_BASE + hi := by
  simp only [checkStraight] at h
  split at h
  · injection h with h
    subst h
    refine ⟨rfl, ⟨_, ?_, rfl⟩⟩
    exact getLastD_le_14 _ (sortAsc_rank_le cards)
  · split at h
    · injection h with h
      subst h
      exact ⟨rfl, ⟨5, by norm_num, rfl⟩⟩
    · cases h

theorem checkRoyalFlush_bound (cards : List Card) (ev : HandEvaluation)
    (h : checkRoyalFlush cards = some ev) :
    ev.rank = 10 ∧ 10 * CATEGORY_BASE ≤ ev.value ∧ ev.value < 11 * CATEGORY_BASE := by
  simp only [checkRoyalFlush] at h
  split at h
  · cases h
  · split at h
    · cases h
    · injection h with h
      subst h
      refine ⟨rfl, ?_, ?_⟩ <;>
        simp [HandRank.ROYAL_FLUSH, CATEGORY_BASE]

theorem checkStraightFlush_bound (cards : List Card) (ev : HandEvaluation)
    (h : checkStraightFlush cards = some ev) :
    ev.rank = 9 ∧ 9 * CATEGORY_BASE ≤ ev.value ∧ ev.value < 10 * CATEGORY_BASE := by
  simp only [checkStraightFlush] at h
  split at h
  · cases h
  · split at h
    · cases h
    · next straight heq =>
      injection h with h
      subst h
      obtain ⟨_, hi, hhi, hval⟩ := checkStraight_char cards straight heq
      constructor
      · rfl
      · simp only [HandEvaluation.value, hval, HandRank.STRAIGHT_FLUSH, HandRank.STRAIGHT,
          CATEGORY_BASE] at hhi ⊢
        omega

theorem cat_bound (c : Nat) (arr : List Nat) (h14 : ∀ v ∈ arr, v ≤ 14)
    (hlen : arr.length ≤ 5) :
    c * CATEGORY_BASE + encode arr < (c + 1) * CATEGORY_BASE := by
  have := encode_lt_base arr h14 hlen
  have h2 : (c + 1) * CATEGORY_BASE = c * CATEGORY_BASE + CATEGORY_BASE := by ring
  omega

theorem sortDesc_all_le (l : List Nat) (h : ∀ v ∈ l, v ≤ 14) :
    ∀ v ∈ sortNatDesc l, v ≤ 14 :=
  fun v hv => h v (mem_sortNatDesc _ v hv)

theorem mapRankFst_le (l : List (Rank × Nat)) :
    ∀ v ∈ l.map (fun e => rankToValue e.1), v ≤ 14 := by
  intro v hv
  rw [List.mem_map] at hv
  obtain ⟨e, _, rfl⟩ := hv
  exact rankToValue_le _ _

theorem checkFourOfAKind_bound (cards : List Card) (ev : HandEvaluation)
    (h : checkFourOfAKind cards = some ev) :
    ev.rank = 8 ∧ 8 * CATEGORY_BASE ≤ ev.value ∧ ev.value < 9 * CATEGORY_BASE := by
  simp only [checkFourOfAKind] at h
  split at h
  · cases h
  · injection h with h
    subst h
    refine ⟨rfl, Nat.le_add_right _ _, ?_⟩
    exact cat_bound 8 _ (by
      intro v hv
      simp only [List.mem_cons, List.not_mem_nil, or_false] at hv
      rcases hv with rfl | rfl <;> exact rankToValue_le _ _) (by simp)

theorem checkFullHouse_bound (cards : List Card) (ev : HandEvaluation)
    (h : checkFullHouse cards = some ev) :
    ev.rank = 7 ∧ 7 * CATEGORY_BASE ≤ ev.value ∧ ev.value < 8 * CATEGORY_BASE := by
  simp only [checkFullHouse] at h
  split at h
  · injection h with h
    subst h
    refine ⟨rfl, Nat.le_add_right _ _, ?_⟩
    exact cat_bound 7 _ (by
      intro v hv
      simp only [List.mem_cons, List.not_mem_nil, or_false] at hv
      rcases hv with rfl | rfl <;> exact rankToValue_le _ _) (by simp)
  · cases h

theorem checkFlush_bound (cards : List Card) (ev : HandEvaluation)
    (hlen : cards.length ≤ 5) (h : checkFlush cards = some ev) :
    ev.rank = 6 ∧ 6 * CATEGORY_BASE ≤ ev.value ∧ ev.value < 7 * CATEGORY_BASE := by
  simp only [checkFlush] at h
  split at h
  · cases h
  · split at h
    · cases h
    · injection h with h
      subst h
      refine ⟨rfl, Nat.le_add_right _ _, ?_⟩
      refine cat_bound 6 _ (sortDesc_all_le _ (mapRank_le cards)) ?_
      rw [length_sortNatDesc, List.length_map]
      exact hlen

theorem checkThreeOfAKind_bound (cards : List Card) (ev : HandEvaluation)
    (h : checkThreeOfAKind cards = some ev) :
    ev.rank = 4 ∧ 4 * CATEGORY_BASE ≤ ev.value ∧ ev.value < 5 * CATEGORY_BASE := by
  simp only [checkThreeOfAKind] at h
  split at h
  · cases h
  · injection h with h
    subst h
    refine ⟨rfl, Nat.le_add_right _ _, ?_⟩
    refine cat_bound 4 _ ?_ (by simp)
    intro v hv
    simp only [List.mem_cons, List.not_mem_nil, or_false] at hv
    rcases hv with rfl | rfl | rfl
    · exact rankToValue_le _ _
    · exact getD_le_14 _ _ (sortDesc_all_le _ (mapRankFst_le _))
    · exact getD_le_14 _ _ (sortDesc_all_le _ (mapRankFst_le _))

theorem checkTwoPair_bound (cards : List Card) (ev : HandEvaluation)
    (h : checkTwoPair cards = some ev) :
    ev.rank = 3 ∧ 3 * CATEGORY_BASE ≤ ev.value ∧ ev.value < 4 * CATEGORY_BASE := by
  simp only [checkTwoPair] at h
  split at h
  · cases h
  · injection h with h
    subst h
    refine ⟨rfl, Nat.le_add_right _ _, ?_⟩
    refine cat_bound 3 _ ?_ (by simp)
    intro v hv
    simp only [List.mem_cons, List.not_mem_nil, or_false] at hv
    rcases hv with rfl | rfl | rfl
    · exact getD_le_14 _ _ (sortDesc_all_le _ (mapRankFst_le _))
    · exact getD_le_14 _ _ (sortDesc_all_le _ (mapRankFst_le _))
    · exact rankToValue_le _ _

theorem checkOnePair_bound (cards : List Card) (ev : HandEvaluation)
    (h : checkOnePair cards = some ev) :
    ev.rank = 2 ∧ 2 * CATEGORY_BASE ≤ ev.value ∧ ev.value < 3 * CATEGORY_BASE := by
  simp only [checkOnePair] at h
  split at h
  · cases h
  · injection h with h
    subst h
    refine ⟨rfl, Nat.le_add_right _ _, ?_⟩
    refine cat_bound 2 _ ?_ (by simp)
    intro v hv
    simp only [List.mem_cons, List.not_mem_nil, or_false] at hv
    rcases hv with rfl | rfl | rfl | rfl
    · exact rankToValue_le _ _
    · exact getD_le_14 _ _ (sortDesc_all_le _ (mapRankFst_le _))
    · exact getD_le_14 _ _ (sortDesc_all_le _ (mapRankFst_le _))
    · exact getD_le_14 _ _ (sortDesc_all_le _ (mapRankFst_le _))

theorem checkHighCard_bound (cards : List Card) (hlen : cards.length ≤ 5) :
    (checkHighCard cards).rank = 1 ∧
      1 * CATEGORY_BASE ≤ (checkHighCard cards).value ∧
      (checkHighCard cards).value < 2 * CATEGORY_BASE := by
  refine ⟨rfl, Nat.le_add_right _ _, ?_⟩
  refine cat_bound 1 _ (sortDesc_all_le _ (mapRank_le cards)) ?_
  rw [length_sortNatDesc, List.length_map]
  exact hlen

theorem checkStraight_bound (cards : List Card) (ev : HandEvaluation)
    (h : checkStraight cards = some ev) :
    ev.rank = 5 ∧ 5 * CATEGORY_BASE ≤ ev.value ∧ ev.value < 6 * CATEGORY_BASE := by
  obtain ⟨hr, hi, hhi, hval⟩ := checkStraight_char cards ev h
  refine ⟨hr, by omega, ?_⟩
  have : (6 : Nat) * CATEGORY_BASE = 5 * CATEGORY_BASE + CATEGORY_BASE := by ring
  have hB : (14 : Nat) < CATEGORY_BASE := by norm_num [CATEGORY_BASE]
  omega

theorem length_insertLe (le : Card → Card → Bool) (x : Card) :
    ∀ l : List Card, (insertLe le x l).length = l.length + 1
  | [] => rfl
  | y :: ys => by
    unfold insertLe
    split
    · rw [List.length_cons, length_insertLe le x ys, List.length_cons]
    · rfl

theorem length_insertionSort (le : Card → Card → Bool) :
    ∀ l : List Card, (insertionSort le l).length = l.length
  | [] => rfl
  | x :: xs => by
    unfold insertionSort
    rw [length_insertLe, length_insertionSort le xs, List.length_cons]

theorem length_sortCards (cards : List Card) (b : Bool) :
    (sortCards cards b).length = cards.length :=
  length_insertionSort _ cards

theorem evaluateFiveCards_bound (cards : List Card) (ev : HandEvaluation)
    (h : evaluateFiveCards cards = .ok ev) :
    1 ≤ ev.rank ∧ ev.rank ≤ 10 ∧
      ev.rank * CATEGORY_BASE ≤ ev.value ∧ ev.value < (ev.rank + 1) * CATEGORY_BASE := by
  simp only [evaluateFiveCards] at h
  split at h
  · cases h
  next hlen5 =>
  have hlen : (sortCards cards true).length ≤ 5 := by
    rw [length_sortCards]
    omega
  split at h
  · injection h with h; subst h
    obtain ⟨hr, h1, h2⟩ := checkRoyalFlush_bound _ _ (by assumption)
    rw [hr]; exact ⟨by norm_num, by norm_num, h1, h2⟩
  split at h
  · injection h with h; subst h
    obtain ⟨hr, h1, h2⟩ := checkStraightFlush_bound _ _ (by assumption)
    rw [hr]; exact ⟨by norm_num, by norm_num, h1, h2⟩
  split at h
  · injection h with h; subst h
    obtain ⟨hr, h1, h2⟩ := checkFourOfAKind_bound _ _ (by assumption)
    rw [hr]; exact ⟨by norm_num, by norm_num, h1, h2⟩
  split at h
  · injection h with h; subst h
    obtain ⟨hr, h1, h2⟩ := checkFullHouse_bound _ _ (by assumption)
    rw [hr]; exact ⟨by norm_num, by norm_num, h1, h2⟩
  split at h
  · injection h with h; subst h
    obtain ⟨hr, h1, h2⟩ := checkFlush_bound _ _ hlen (by assumption)
    rw [hr]; exact ⟨by norm_num, by norm_num, h1, h2⟩
  split at h
  · injection h with h; subst h
    obtain ⟨hr, h1, h2⟩ := checkStraight_bound _ _ (by assumption)
    rw [hr]; exact ⟨by norm_num, by norm_num, h1, h2⟩
  split at h
  · injection h with h; subst h
    obtain ⟨hr, h1, h2⟩ := checkThreeOfAKind_bound _ _ (by assumption)
    rw [hr]; exact ⟨by norm_num, by norm_num, h1, h2⟩
  split at h
  · injection h with h; subst h
    obtain ⟨hr, h1, h2⟩ := checkTwoPair_bound _ _ (by assumption)
    rw [hr]; exact ⟨by norm_num, by norm_num, h1, h2⟩
  split at h
  · injection h with h; subst h
    obtain ⟨hr, h1, h2⟩ := checkOnePair_bound _ _ (by assumption)
    rw [hr]; exact ⟨by norm_num, by norm_num, h1, h2⟩
  · injection h with h; subst h
    obtain ⟨hr, h1, h2⟩ := checkHighCard_bound _ hlen
    rw [hr]; exact ⟨by norm_num, by norm_num, h1, h2⟩

theorem fsh_fold_le (l : List Nat) (hl : ∀ v ∈ l, v ≤ 14) :
    ∀ (st : (Nat × Option Nat) × Nat),
      (∀ x, st.1.2 = some x → x ≤ 14) →
      ∀ x, ((l.foldl (fun state cur =>
        let run := state.1.1
        let best := state.1.2
        let prev := state.2
        if cur = prev + 1 then
          ((run + 1, if run + 1 ≥ 5 then some cur else best), cur)
        else if cur ≠ prev then ((1, best), cur)
        else ((run, best), cur)) st).1.2) = some x → x ≤ 14 := by
  induction l with
  | nil => intro st hst x hx; exact hst x hx
  | cons v rest ih =>
    intro st hst x hx
    rw [List.foldl_cons] at hx
    refine ih (fun w hw => hl w (by simp [hw])) _ ?_ x hx
    intro y hy
    have hv : v ≤ 14 := hl v (by simp)
    dsimp only at hy
    split at hy
    · split at hy
      · injection hy with hy; omega
      · exact hst y hy
    · split at hy
      · exact hst y hy
      · exact hst y hy

theorem findStraightHigh_le (l : List Nat) (x : Nat) (hl : ∀ v ∈ l, v ≤ 14)
    (h : findStraightHigh l = some x) : x ≤ 14 := by
  simp only [findStraightHigh] at h
  split at h
  · cases h
  · have hww : ∀ v ∈ (if l.contains 14 then 1 :: l else l), v ≤ 14 := by
      split
      · intro v hv
        rw [List.mem_cons] at hv
        rcases hv with rfl | hv
        · omega
        · exact hl v hv
      · exact hl
    split at h
    · cases h
    next v0 rest heq =>
      refine fsh_fold_le rest ?_ ((1, none), v0) (by intro y hy; cases hy) x h
      intro w hw
      exact hww w (by rw [heq]; simp [hw])

theorem uniqAsc_le (cards : List Card) : ∀ v ∈ uniqueValuesAsc cards, v ≤ 14 := by
  intro v hv
  have h1 := mem_sortNatAsc _ v hv
  have h2 := mem_dedupFirst _ v h1
  exact mapRank_le cards v h2

theorem uniqDesc_le (cards : List Card) : ∀ v ∈ uniqueValuesDesc cards, v ≤ 14 := by
  intro v hv
  rw [uniqueValuesDesc, List.mem_reverse] at hv
  exact uniqAsc_le cards v hv

theorem suitVals_le (cards : List Card) (s : Suit) :
    ∀ v ∈ sortNatAsc (dedupFirst ((cardsOfSuit cards s).map (fun c => rankToValue c.rank))),
      v ≤ 14 := by
  intro v hv
  have h1 := mem_sortNatAsc _ v hv
  have h2 := mem_dedupFirst _ v h1
  exact mapRank_le _ v h2

theorem suitValsDesc_le (cards : List Card) (s : Suit) :
    ∀ v ∈ sortNatDesc (dedupFirst ((cardsOfSuit cards s).map (fun c => rankToValue c.rank))),
      v ≤ 14 := by
  intro v hv
  have h1 := mem_sortNatDesc _ v hv
  have h2 := mem_dedupFirst _ v h1
  exact mapRank_le _ v h2

theorem mem_filter_uniqDesc_le (cards : List Card) (q : Nat → Bool) :
    ∀ v ∈ (uniqueValuesDesc cards).filter q, v ≤ 14 :=
  fun v hv => uniqDesc_le cards v (List.mem_of_mem_filter hv)

theorem take_all_le (l : List Nat) (n : Nat) (h : ∀ v ∈ l, v ≤ 14) :
    ∀ v ∈ l.take n, v ≤ 14 :=
  fun v hv => h v ((List.take_sublist n l).mem hv)

theorem rank_val_bound (c k : Nat) (hc1 : 1 ≤ c) (hc2 : c ≤ 10) (hk : k < CATEGORY_BASE) :
    1 ≤ c ∧ c ≤ 10 ∧ c * CATEGORY_BASE ≤ c * CATEGORY_BASE + k ∧
      c * CATEGORY_BASE + k < (c + 1) * CATEGORY_BASE := by
  refine ⟨hc1, hc2, Nat.le_add_right _ _, ?_⟩
  have : (c + 1) * CATEGORY_BASE = c * CATEGORY_BASE + CATEGORY_BASE := by ring
  omega

theorem evaluateSevenCards_bound (cards : List Card) (ev : HandEvaluation)
    (h : evaluateSevenCards cards = ev) :
    1 ≤ ev.rank ∧ ev.rank ≤ 10 ∧
      ev.rank * CATEGORY_BASE ≤ ev.value ∧ ev.value < (ev.rank + 1) * CATEGORY_BASE := by
  have hB : CATEGORY_BASE = 1000000000 := rfl
  simp only [evaluateSevenCards] at h
  split at h
  -- straight flush / royal flush
  next e heqsf =>
    subst h
    split at heqsf
    · cases heqsf
    next s hfs =>
      split at heqsf
      · cases heqsf
      next sfHigh hh =>
        injection heqsf with heq
        subst heq
        have h14 : sfHigh ≤ 14 := findStraightHigh_le _ _ (suitVals_le cards s) hh
        by_cases hr : sfHigh = 14
        · rw [if_pos hr]
          exact rank_val_bound 10 _ (by norm_num) (by norm_num)
            (by rw [hB]; simp [encode]; omega)
        · rw [if_neg hr]
          exact rank_val_bound 9 _ (by norm_num) (by norm_num)
            (by rw [hB]; simp [encode]; omega)
  next hsfnone =>
  split at h
  -- four of a kind
  next quad hquad =>
    subst h
    have hq : quad ≤ 14 := uniqDesc_le cards quad (List.mem_of_find?_eq_some hquad)
    refine rank_val_bound 8 _ (by norm_num) (by norm_num) ?_
    have hk : ∀ (f : Nat → Bool), ((uniqueValuesDesc cards).find? f).getD 2 ≤ 14 := by
      intro f
      rcases hkf : (uniqueValuesDesc cards).find? f with _ | k
      · simp
      · simpa using uniqDesc_le cards k (List.mem_of_find?_eq_some hkf)
    have := hk (fun v => v ≠ quad)
    rw [hB]
    omega
  split at h
  -- full house
  next e heqfh =>
    subst h
    split at heqfh
    · cases heqfh
    next bestTrips restTrips heqtr =>
      have htmem : bestTrips ∈ (uniqueValuesDesc cards).filter
          (fun v => 3 ≤ countOfValue cards v) := by
        rw [heqtr]
        exact List.mem_cons_self _ _
      have htle : bestTrips ≤ 14 := mem_filter_uniqDesc_le cards _ bestTrips htmem
      split at heqfh
      next bestPair tl heqbp =>
        injection heqfh with heq
        subst heq
        have hpmem : bestPair ∈ ((uniqueValuesDesc cards).filter
            (fun v => 2 ≤ countOfValue cards v)).filter (fun v => v ≠ bestTrips) := by
          rw [heqbp]
          exact List.mem_cons_self _ _
        have hple : bestPair ≤ 14 :=
          mem_filter_uniqDesc_le cards _ bestPair (List.mem_of_mem_filter hpmem)
        exact rank_val_bound 7 _ (by norm_num) (by norm_num) (by rw [hB]; omega)
      next heqbp =>
        split at heqfh
        next A secondTrips tl2 =>
          injection heqfh with heq
          subst heq
          have hsmem : secondTrips ∈ (uniqueValuesDesc cards).filter
              (fun v => 3 ≤ countOfValue cards v) := by
            rw [heqtr]
            simp
          have hsle : secondTrips ≤ 14 := mem_filter_uniqDesc_le cards _ secondTrips hsmem
          exact rank_val_bound 7 _ (by norm_num) (by norm_num) (by rw [hB]; omega)
        · cases heqfh
  next hfhnone =>
  split at h
  -- flush
  next s hflush =>
    subst h
    refine rank_val_bound 6 _ (by norm_num) (by norm_num) ?_
    exact encode_lt_base _ (take_all_le _ _ (suitValsDesc_le cards s)) (by simp)
  next hflushnone =>
  split at h
  -- straight
  next straightHigh hsh =>
    subst h
    have h14 : straightHigh ≤ 14 := findStraightHigh_le _ _ (uniqAsc_le cards) hsh
    exact rank_val_bound 5 _ (by norm_num) (by norm_num) (by rw [hB]; omega)
  next hshnone =>
  split at h
  -- three of a kind
  next t tl heqt =>
    subst h
    have htmem : t ∈ (uniqueValuesDesc cards).filter (fun v => 3 ≤ countOfValue cards v) := by
      rw [heqt]
      exact List.mem_cons_self _ _
    have hle : t ≤ 14 := mem_filter_uniqDesc_le cards _ t htmem
    refine rank_val_bound 4 _ (by norm_num) (by norm_num) ?_
    refine encode_lt_base _ ?_ (by simp)
    intro v hv
    simp only [List.mem_cons, List.not_mem_nil, or_false] at hv
    rcases hv with rfl | rfl | rfl
    · exact hle
    · exact getD_le_14 _ _ (take_all_le _ _ (mem_filter_uniqDesc_le cards _))
    · exact getD_le_14 _ _ (take_all_le _ _ (mem_filter_uniqDesc_le cards _))
  split at h
  -- two pair
  next p1 p2 tl heqp =>
    subst h
    have h1mem : p1 ∈ (uniqueValuesDesc cards).filter (fun v => 2 ≤ countOfValue cards v) := by
      rw [heqp]
      exact List.mem_cons_self _ _
    have h2mem : p2 ∈ (uniqueValuesDesc cards).filter (fun v => 2 ≤ countOfValue cards v) := by
      rw [heqp]
      simp
    have h1le : p1 ≤ 14 := mem_filter_uniqDesc_le cards _ p1 h1mem
    have h2le : p2 ≤ 14 := mem_filter_uniqDesc_le cards _ p2 h2mem
    refine rank_val_bound 3 _ (by norm_num) (by norm_num) ?_
    refine encode_lt_base _ ?_ (by simp)
    intro v hv
    simp only [List.mem_cons, List.not_mem_nil, or_false] at hv
    have hk : ∀ (f : Nat → Bool), ((uniqueValuesDesc cards).find? f).getD 0 ≤ 14 := by
      intro f
      rcases hkf : (uniqueValuesDesc cards).find? f with _ | k
      · simp
      · simpa using uniqDesc_le cards k (List.mem_of_find?_eq_some hkf)
    rcases hv with rfl | rfl | rfl
    · exact h1le
    · exact h2le
    · exact hk _
  -- one pair
  next =>
    rename_i p heqp
    subst h
    have hpmem : p ∈ (uniqueValuesDesc cards).filter (fun v => 2 ≤ countOfValue cards v) := by
      rw [heqp]
      exact List.mem_cons_self _ _
    have hple : p ≤ 14 := mem_filter_uniqDesc_le cards _ p hpmem
    refine rank_val_bound 2 _ (by norm_num) (by norm_num) ?_
    refine encode_lt_base _ ?_ (by simp)
    intro v hv
    simp only [List.mem_cons, List.not_mem_nil, or_false] at hv
    rcases hv with rfl | rfl | rfl | rfl
    · exact hple
    · exact getD_le_14 _ _ (take_all_le _ _ (mem_filter_uniqDesc_le cards _))
    · exact getD_le_14 _ _ (take_all_le _ _ (mem_filter_uniqDesc_le cards _))
    · exact getD_le_14 _ _ (take_all_le _ _ (mem_filter_uniqDesc_le cards _))
  -- high card
  next heqp =>
    subst h
    refine rank_val_bound 1 _ (by norm_num) (by norm_num) ?_
    exact encode_lt_base _ (take_all_le _ _ (uniqDesc_le cards)) (by simp)

theorem evaluateHand_bound (cards : List Card) (ev : HandEvaluation)
    (h : evaluateHand cards = .ok ev) :
    1 ≤ ev.rank ∧ ev.rank ≤ 10 ∧
      ev.rank * CATEGORY_BASE ≤ ev.value ∧ ev.value < (ev.rank + 1) * CATEGORY_BASE := by
  simp only [evaluateHand] at h
  split at h
  · cases h
  · split at h
    · exact evaluateFiveCards_bound _ _ h
    · injection h with h
      exact evaluateSevenCards_bound _ _ h

def c3cards1 : List Card :=
  [{ suit := .spades, rank := .r2 }, { suit := .spades, rank := .r4 },
   { suit := .spades, rank := .r6 }, { suit := .spades, rank := .r8 },
   { suit := .spades, rank := .rT }]

def c3cards2 : List Card :=
  [{ suit := .spades, rank := .rA }, { suit := .hearts, rank := .rA },
   { suit := .diamonds, rank := .r4 }, { suit := .clubs, rank := .r5 },
   { suit := .clubs, rank := .r9 }]

/-- C3: the strength scalar respects category dominance.  For any two inputs
of 5 to 7 cards, if `evaluateHand` assigns the first a strictly higher
category (`HandRank`) than the second, then the first's `value` is strictly
greater than the second's, whatever the kickers: every kicker encoding is a
base-15 number of at most five digits, which stays below `CATEGORY_BASE` and
therefore never overflows into the category digit. -/
theorem c3_category_dominance (cs1 cs2 : List Card) (ev1 ev2 : HandEvaluation)
    (h1 : 5 ≤ cs1.length) (h1' : cs1.length ≤ 7)
    (h2 : 5 ≤ cs2.length) (h2' : cs2.length ≤ 7)
    (e1 : evaluateHand cs1 = .ok ev1) (e2 : evaluateHand cs2 = .ok ev2)
    (hr : ev2.rank < ev1.rank) : ev2.value < ev1.value := by
  obtain ⟨_, _, hl1, _⟩ := evaluateHand_bound cs1 ev1 e1
  obtain ⟨_, _, _, hu2⟩ := evaluateHand_bound cs2 ev2 e2
  calc ev2.value < (ev2.rank + 1) * CATEGORY_BASE := hu2
    _ ≤ ev1.rank * CATEGORY_BASE := Nat.mul_le_mul_right _ (by omega)
    _ ≤ ev1.value := hl1

/-- C3: the strength scalar respects category dominance.  For any two inputs
of 5 to 7 cards, if `evaluateHand` assigns the first a strictly higher
category (`HandRank`) than the second, then the first's `value` is strictly
greater than the second's, whatever the kickers: every kicker encoding is a
base-15 number of at most five digits, which stays below `CATEGORY_BASE` and
therefore never overflows into the category digit. -/
theorem c3_witness :
    5 ≤ c3cards1.length ∧ c3cards1.length ≤ 7 ∧ 5 ≤ c3cards2.length ∧ c3cards2.length ≤ 7 ∧
    ∃ ev1 ev2, evaluateHand c3cards1 = .ok ev1 ∧ evaluateHand c3cards2 = .ok ev2 ∧
      ev2.rank < ev1.rank ∧ ev2.value < ev1.value := by
  refine ⟨by decide, by decide, by decide, by decide, _, _, rfl, rfl, by decide, ?_⟩
  exact c3_category_dominance c3cards1 c3cards2 _ _ (by decide) (by decide) (by decide)
    (by decide) rfl rfl (by decide)

/- ======================================================================
   C9: the wheel straight.  `evaluateFiveCards` sorts its input, and
   `sortCards` is a sort by a total antisymmetric order (rank value, then
   suit), so the evaluation is invariant under permutation of the cards.
   That lets a finite check over the 4^5 suit assignments cover every
   5-card 6-high straight.
   ====================================================================== -/

theorem insertLe_perm (le : Card → Card → Bool) (x : Card) :
    ∀ l : List Card, (insertLe le x l).Perm (x :: l)
  | [] => List.Perm.refl _
  | y :: ys => by
    simp only [insertLe]
    split
    · exact ((insertLe_perm le x ys).cons y).trans (List.Perm.swap x y ys)
    · exact List.Perm.refl _

theorem insertionSort_perm (le : Card → Card → Bool) :
    ∀ l : List Card, (insertionSort le l).Perm l
  | [] => List.Perm.refl _
  | x :: xs => by
    simp only [insertionSort]
    exact (insertLe_perm le x _).trans ((insertionSort_perm le xs).cons x)

/-- The boolean comparator used by `sortCards · true`. -/
def cmpLe (a b : Card) : Bool := compareCards a b true ≤ 0

theorem cmpLe_iff (a b : Card) :
    cmpLe a b = true ↔
      (rankToValue a.rank true < rankToValue b.rank true ∨
        (rankToValue a.rank true = rankToValue b.rank true ∧
          suitOrder a.suit ≤ suitOrder b.suit)) := by
  simp only [cmpLe, compareCards, decide_eq_true_eq]
  split
  · rename_i hne
    constructor
    · intro h
      left
      omega
    · intro h
      rcases h with h | ⟨h, _⟩
      · omega
      · omega
  · rename_i heq
    constructor
    · intro h
      right
      constructor
      · omega
      · omega
    · intro h
      rcases h with h | ⟨_, h⟩
      · omega
      · omega

theorem rankToValue_inj (q r : Rank)
    (h : rankToValue q true = rankToValue r true) : q = r := by
  cases q <;> cases r <;> first | rfl | (simp [rankToValue] at h)

theorem suitOrder_inj (s t : Suit) (h : suitOrder s = suitOrder t) : s = t := by
  cases s <;> cases t <;> first | rfl | (simp [suitOrder] at h)

theorem cmpLe_antisymm (a b : Card) (h1 : cmpLe a b = true) (h2 : cmpLe b a = true) :
    a = b := by
  rw [cmpLe_iff] at h1 h2
  have hr : a.rank = b.rank := by
    apply rankToValue_inj
    omega
  have hs : a.suit = b.suit := by
    apply suitOrder_inj
    omega
  cases a
  cases b
  simp_all

theorem cmpLe_total (a b : Card) : cmpLe a b = true ∨ cmpLe b a = true := by
  rw [cmpLe_iff, cmpLe_iff]
  omega

theorem cmpLe_trans (a b c : Card) (h1 : cmpLe a b = true) (h2 : cmpLe b c = true) :
    cmpLe a c = true := by
  rw [cmpLe_iff] at h1 h2 ⊢
  omega

theorem mem_insertLe (le : Card → Card → Bool) (x z : Card) :
    ∀ l : List Card, z ∈ insertLe le x l → z = x ∨ z ∈ l
  | [] => by
    intro h
    simp only [insertLe, List.mem_singleton] at h
    exact Or.inl h
  | y :: ys => by
    intro h
    simp only [insertLe] at h
    split at h
    · rcases List.mem_cons.mp h with h | h
      · exact Or.inr (List.mem_cons.mpr (Or.inl h))
      · rcases mem_insertLe le x z ys h with h | h
        · exact Or.inl h
        · exact Or.inr (List.mem_cons.mpr (Or.inr h))
    · rcases List.mem_cons.mp h with h | h
      · exact Or.inl h
      · exact Or.inr h

theorem insertLe_pairwise (x : Card) :
    ∀ l : List Card, l.Pairwise (fun a b => cmpLe a b = true) →
      (insertLe cmpLe x l).Pairwise (fun a b => cmpLe a b = true)
  | [] => by
    intro _
    exact List.pairwise_singleton _ x
  | y :: ys => by
    intro hp
    rcases List.pairwise_cons.mp hp with ⟨hy, hys⟩
    simp only [insertLe]
    split
    · rename_i hle
      refine List.pairwise_cons.mpr ⟨?_, insertLe_pairwise x ys hys⟩
      intro z hz
      rcases mem_insertLe cmpLe x z ys hz with h | h
      · rw [h]
        exact hle
      · exact hy z h
    · rename_i hnle
      have hxy : cmpLe x y = true := by
        rcases cmpLe_total y x with h | h
        · exact absurd h hnle
        · exact h
      refine List.pairwise_cons.mpr ⟨?_, hp⟩
      intro z hz
      rcases List.mem_cons.mp hz with h | h
      · rw [h]
        exact hxy
      · exact cmpLe_trans x y z hxy (hy z h)

theorem insertionSort_pairwise :
    ∀ l : List Card, (insertionSort cmpLe l).Pairwise (fun a b => cmpLe a b = true)
  | [] => List.Pairwise.nil
  | x :: xs => insertLe_pairwise x _ (insertionSort_pairwise xs)

theorem sortCards_eq_insertionSort (cards : List Card) :
    sortCards cards true = insertionSort cmpLe cards := rfl

theorem sortCards_eq_of_perm (cs ds : List Card) (h : cs.Perm ds) :
    sortCards cs true = sortCards ds true := by
  rw [sortCards_eq_insertionSort, sortCards_eq_insertionSort]
  haveI : IsAntisymm Card (fun a b => cmpLe a b = true) := ⟨cmpLe_antisymm⟩
  refine List.eq_of_perm_of_sorted ?_ (insertionSort_pairwise cs) (insertionSort_pairwise ds)
  exact ((insertionSort_perm cmpLe cs).trans h).trans (insertionSort_perm cmpLe ds).symm

theorem evaluateFiveCards_perm (cs ds : List Card) (h : cs.Perm ds) :
    evaluateFiveCards cs = evaluateFiveCards ds := by
  simp only [evaluateFiveCards, h.length_eq, sortCards_eq_of_perm cs ds h]

def allSuits : List Suit := [.hearts, .diamonds, .clubs, .spades]

theorem mem_allSuits (s : Suit) : s ∈ allSuits := by
  cases s <;> decide

/-- The wheel scenario input from the spec: A♠ 2♠ 3♥ 4♦ 5♣. -/
def wheelCards : List Card :=
  [{ suit := .spades, rank := .rA }, { suit := .spades, rank := .r2 },
   { suit := .hearts, rank := .r3 }, { suit := .diamonds, rank := .r4 },
   { suit := .clubs, rank := .r5 }]

/-- A 6-high straight: ranks 2,3,4,5,6 with arbitrary suits. -/
def sixHighStraight (s1 s2 s3 s4 s5 : Suit) : List Card :=
  [{ suit := s1, rank := .r2 }, { suit := s2, rank := .r3 },
   { suit := s3, rank := .r4 }, { suit := s4, rank := .r5 },
   { suit := s5, rank := .r6 }]

/-- Decidable form of "the 5-card evaluation of `cs` has value above `n`". -/
def evalAbove (cs : List Card) (n : Nat) : Bool :=
  match evaluateFiveCards cs with
  | .ok ev => n < ev.value
  | .error _ => false

theorem sixHigh_above_wheel (s1 : Suit) (hs1 : s1 ∈ allSuits) (s2 : Suit)
    (hs2 : s2 ∈ allSuits) (s3 : Suit) (hs3 : s3 ∈ allSuits) (s4 : Suit)
    (hs4 : s4 ∈ allSuits) (s5 : Suit) (hs5 : s5 ∈ allSuits) :
    evalAbove (sixHighStraight s1 s2 s3 s4 s5) 5000000005 = true := by
  revert s1 hs1 s2 hs2 s3 hs3 s4 hs4 s5 hs5
  show ∀ s1 ∈ allSuits, ∀ s2 ∈ allSuits, ∀ s3 ∈ allSuits, ∀ s4 ∈ allSuits,
    ∀ s5 ∈ allSuits, evalAbove (sixHighStraight s1 s2 s3 s4 s5) 5000000005 = true
  decide

/-- C9 counterexample to the claim as written: "strictly greater than any
non-straight hand" is false, because categories above Straight also contain
no straight.  The spade flush 2♠ 4♠ 6♠ 8♠ T♠ holds no straight, evaluates
to category Flush (not Straight), and its strength scalar exceeds the
wheel's. -/
theorem c9_nonstraight_flush_above_wheel :
    ∃ wEv fEv,
      evaluateHand wheelCards = .ok wEv ∧
      evaluateHand
        [{ suit := .spades, rank := .r2 }, { suit := .spades, rank := .r4 },
         { suit := .spades, rank := .r6 }, { suit := .spades, rank := .r8 },
         { suit := .spades, rank := .rT }] = .ok fEv ∧
      wEv.rank = HandRank.STRAIGHT ∧ fEv.rank = HandRank.FLUSH ∧
      fEv.rank ≠ HandRank.STRAIGHT ∧ wEv.value < fEv.value := by
  refine ⟨_, _, rfl, rfl, rfl, rfl, by decide, by decide⟩

/-- C9 (amended): `evaluateHand` on A♠ 2♠ 3♥ 4♦ 5♣ returns category
Straight with 5 as the effective high card (value `5*CATEGORY_BASE + 5`,
description "Straight, 5 high (wheel)"); that value is strictly below the
evaluation of every 5-card 6-high straight (any suits, any order), and
strictly above the evaluation of every hand of 5 to 7 cards whose category
is below Straight. -/
theorem c9_wheel_straight :
    (evaluateHand wheelCards = .ok
      { rank := HandRank.STRAIGHT
        value := 5000000005
        description := "Straight, 5 high (wheel)"
        cards := [{ suit := .spades, rank := .r2 }, { suit := .hearts, rank := .r3 },
                  { suit := .diamonds, rank := .r4 }, { suit := .clubs, rank := .r5 },
                  { suit := .spades, rank := .rA }] }) ∧
    (∀ s1 s2 s3 s4 s5 : Suit, ∀ cs : List Card,
      cs.Perm (sixHighStraight s1 s2 s3 s4 s5) →
      ∀ ev, evaluateHand cs = .ok ev → 5000000005 < ev.value) ∧
    (∀ cs ev, evaluateHand cs = .ok ev → ev.rank < HandRank.STRAIGHT →
      ev.value < 5000000005) := by
  refine ⟨rfl, ?_, ?_⟩
  · intro s1 s2 s3 s4 s5 cs hperm ev hev
    have hlen : cs.length = 5 := by
      rw [hperm.length_eq]
      rfl
    simp only [evaluateHand, hlen] at hev
    norm_num at hev
    rw [evaluateFiveCards_perm cs _ hperm] at hev
    have h := sixHigh_above_wheel s1 (mem_allSuits s1) s2 (mem_allSuits s2)
      s3 (mem_allSuits s3) s4 (mem_allSuits s4) s5 (mem_allSuits s5)
    unfold evalAbove at h
    rw [hev] at h
    exact of_decide_eq_true h
  · intro cs ev hev hrk
    have hb := evaluateHand_bound cs ev hev
    have h5 : ev.rank + 1 ≤ 5 := by
      have : ev.rank < 5 := hrk
      omega
    have hstep : (ev.rank + 1) * CATEGORY_BASE ≤ 5 * CATEGORY_BASE :=
      Nat.mul_le_mul_right _ h5
    have hB : (5 : Nat) * CATEGORY_BASE = 5000000000 := rfl
    omega

/-- C9 witness: the shuffled 6-high straight 6♥ 2♠ 5♣ 3♥ 4♦ evaluates above
the wheel, and the pair hand A♠ A♥ 7♣ 9♦ K♠ (category Pair, below Straight)
evaluates below it. -/
theorem c9_wheel_witness :
    (∃ ev, evaluateHand
        [{ suit := .hearts, rank := .r6 }, { suit := .spades, rank := .r2 },
         { suit := .clubs, rank := .r5 }, { suit := .hearts, rank := .r3 },
         { suit := .diamonds, rank := .r4 }] = .ok ev ∧ 5000000005 < ev.value) ∧
    (∃ ev, evaluateHand
        [{ suit := .spades, rank := .rA }, { suit := .hearts, rank := .rA },
         { suit := .clubs, rank := .r7 }, { suit := .diamonds, rank := .r9 },
         { suit := .spades, rank := .rK }] = .ok ev ∧
      ev.rank < HandRank.STRAIGHT ∧ ev.value < 5000000005) := by
  constructor
  · refine ⟨{ rank := 5
              value := 5000000006
              description := "Straight, 6 high"
              cards := [{ suit := .spades, rank := .r2 }, { suit := .hearts, rank := .r3 },
                        { suit := .diamonds, rank := .r4 }, { suit := .clubs, rank := .r5 },
                        { suit := .hearts, rank := .r6 }] }, rfl, ?_⟩
    exact c9_wheel_straight.2.1 .spades .hearts .diamonds .clubs .hearts
      [{ suit := .hearts, rank := .r6 }, { suit := .spades, rank := .r2 },
       { suit := .clubs, rank := .r5 }, { suit := .hearts, rank := .r3 },
       { suit := .diamonds, rank := .r4 }] (by decide) _ rfl
  · refine ⟨{ rank := 2
              value := 2000050317
              description := "Pair of As"
              cards := [{ suit := .clubs, rank := .r7 }, { suit := .diamonds, rank := .r9 },
                        { suit := .spades, rank := .rK }, { suit := .hearts, rank := .rA },
                        { suit := .spades, rank := .rA }] }, rfl, by decide, ?_⟩
    exact c9_wheel_straight.2.2
      [{ suit := .spades, rank := .rA }, { suit := .hearts, rank := .rA },
       { suit := .clubs, rank := .r7 }, { suit := .diamonds, rank := .r9 },
       { suit := .spades, rank := .rK }] _ rfl (by decide)

-- ========================================
-- C6: chip conservation at settlement
-- ========================================

/-- total chips held by a list of players. -/
def sumChips (ps : List Player) : Int := (ps.map (fun p => p.chips)).sum

/-- total contributions (`totalBet`) of a list of players. -/
def sumTotalBet (ps : List Player) : Int := (ps.map (fun p => p.totalBet)).sum

theorem sum_map_set (f : Player → Int) :
    ∀ (ps : List Player) (i : Nat) (q : Player), i < ps.length →
      ((ps.set i q).map f).sum = (ps.map f).sum + f q - f (ps.getD i default)
  | [], i, q, h => by simp at h
  | p :: ps, 0, q, _ => by
    simp [List.set, List.getD]
    ring
  | p :: ps, i + 1, q, h => by
    have ih := sum_map_set f ps i q (by simpa using h)
    simp only [List.set, List.map_cons, List.sum_cons, List.getD_cons_succ]
    rw [ih]
    ring

theorem sumChips_set (ps : List Player) (i : Nat) (q : Player) (h : i < ps.length) :
    sumChips (ps.set i q) = sumChips ps + q.chips - (ps.getD i default).chips :=
  sum_map_set (fun p => p.chips) ps i q h

theorem sumTotalBet_set (ps : List Player) (i : Nat) (q : Player) (h : i < ps.length) :
    sumTotalBet (ps.set i q) = sumTotalBet ps + q.totalBet - (ps.getD i default).totalBet :=
  sum_map_set (fun p => p.totalBet) ps i q h

/-- the five per-player quantities every conservation argument cares about. -/
def playerProj (p : Player) : Int × Int × Int × Bool × Bool :=
  (p.chips, p.totalBet, p.currentBet, p.isFolded, p.disconnected)

theorem sumChips_eq_of_proj (ps qs : List Player)
    (h : ps.map playerProj = qs.map playerProj) : sumChips ps = sumChips qs := by
  have : ps.map (fun p => p.chips) = qs.map (fun p => p.chips) := by
    have h1 := congrArg (List.map (fun t : Int × Int × Int × Bool × Bool => t.1)) h
    simpa [playerProj, Function.comp] using h1
  simp [sumChips, this]

theorem sumTotalBet_eq_of_proj (ps qs : List Player)
    (h : ps.map playerProj = qs.map playerProj) : sumTotalBet ps = sumTotalBet qs := by
  have : ps.map (fun p => p.totalBet) = qs.map (fun p => p.totalBet) := by
    have h1 := congrArg (List.map (fun t : Int × Int × Int × Bool × Bool => t.2.1)) h
    simpa [playerProj, Function.comp] using h1
  simp [sumTotalBet, this]

theorem proj_getD (ps qs : List Player) (h : ps.map playerProj = qs.map playerProj) (j : Nat) :
    playerProj (ps.getD j default) = playerProj (qs.getD j default) := by
  have hlen : ps.length = qs.length := by
    have := congrArg List.length h
    simpa using this
  by_cases hj : j < ps.length
  · have h1 : (ps.map playerProj).getD j (playerProj default) =
        (qs.map playerProj).getD j (playerProj default) := by rw [h]
    rwa [List.getD_map, List.getD_map] at h1
  · rw [List.getD_eq_default _ _ (by omega), List.getD_eq_default _ _ (by omega)]

/-- total amount across side pots. -/
def sumPots (pots : List SidePot) : Int := (pots.map (fun sp => sp.amount)).sum

/-- the part of contribution `c` lying below level `v`. -/
def layerPart (c v : Int) : Int := max 0 (min c v)

theorem layerPart_zero (c : Int) : layerPart c 0 = 0 := by
  unfold layerPart
  omega

theorem layerPart_mono (c v w : Int) (hvw : v ≤ w) : layerPart c v ≤ layerPart c w := by
  unfold layerPart
  omega

theorem layerPart_le_self (c v : Int) (hc : 0 ≤ c) : layerPart c v ≤ c := by
  unfold layerPart
  omega

/-- Σ over a contribution list of the part below `v`. -/
def sumLayerParts (cs : List Int) (v : Int) : Int := (cs.map (fun c => layerPart c v)).sum

theorem sumLayerParts_zero (cs : List Int) : sumLayerParts cs 0 = 0 := by
  induction cs with
  | nil => rfl
  | cons c cs ih =>
    simp only [sumLayerParts, List.map_cons, List.sum_cons, layerPart_zero] at *
    simp [ih]

theorem sumLayerParts_le_sum (cs : List Int) (v : Int) (h : ∀ c ∈ cs, 0 ≤ c) :
    sumLayerParts cs v ≤ cs.sum := by
  induction cs with
  | nil => simp [sumLayerParts]
  | cons c cs ih =>
    simp only [sumLayerParts, List.map_cons, List.sum_cons] at *
    have h1 := layerPart_le_self c v (h c (List.mem_cons_self c cs))
    have h2 := ih (fun x hx => h x (List.mem_cons_of_mem c hx))
    omega

/-- raising the water line from `v` to `L` gains at least `L - v` per
contribution at or above `L`, and loses nothing elsewhere. -/
theorem sumLayerParts_step (cs : List Int) (v L : Int) (hv : 0 ≤ v) (hvL : v < L) :
    sumLayerParts cs v + (L - v) * ((cs.filter (fun c => L ≤ c)).length : Int) ≤
      sumLayerParts cs L := by
  induction cs with
  | nil => simp [sumLayerParts]
  | cons c cs ih =>
    simp only [sumLayerParts, List.map_cons, List.sum_cons, List.filter_cons] at *
    by_cases hc : L ≤ c
    · simp only [decide_eq_true_eq, hc, if_pos, List.length_cons]
      have h1 : layerPart c L = L := by
        unfold layerPart
        omega
      have h2 : layerPart c v = v := by
        unfold layerPart
        omega
      push_cast
      nlinarith [ih]
    · simp only [decide_eq_true_eq, hc, if_neg, not_false_eq_true]
      have h1 : layerPart c v ≤ layerPart c L := layerPart_mono c v L (by omega)
      omega

theorem sumLayerParts_mono (cs : List Int) (v w : Int) (hvw : v ≤ w) :
    sumLayerParts cs v ≤ sumLayerParts cs w := by
  induction cs with
  | nil => simp [sumLayerParts]
  | cons c cs ih =>
    simp only [sumLayerParts, List.map_cons, List.sum_cons] at *
    have := layerPart_mono c v w hvw
    omega

theorem foldl_inv {α β : Type} (f : β → α → β) (P : β → Prop)
    (hstep : ∀ b a, P b → P (f b a)) : ∀ (l : List α) (b : β), P b → P (l.foldl f b)
  | [], _, hb => hb
  | a :: l, b, hb => foldl_inv f P hstep l (f b a) (hstep b a hb)

theorem foldl_add_eq_sum : ∀ (l : List Int) (a : Int), l.foldl (· + ·) a = a + l.sum
  | [], a => by simp
  | x :: l, a => by
    simp only [List.foldl_cons, List.sum_cons]
    rw [foldl_add_eq_sum l (a + x)]
    ring

theorem map_set_invariant {α β : Type} [Inhabited α] (f : α → β) :
    ∀ (l : List α) (i : Nat) (q : α), f q = f (l.getD i default) →
      (l.set i q).map f = l.map f
  | [], _, _, _ => by simp
  | x :: l, 0, q, h => by
    simp only [List.getD_cons_zero] at h
    simp [List.set, h]
  | x :: l, i + 1, q, h => by
    simp only [List.getD_cons_succ] at h
    simp only [List.set, List.map_cons, List.cons.injEq, true_and]
    exact map_set_invariant f l i q h

theorem foldl_pick_mem :
    ∀ (rest : List (String × Int)) (c0 : String × Int),
      rest.foldl (fun acc c => if acc.2 < c.2 then c else acc) c0 ∈ c0 :: rest
  | [], c0 => List.mem_singleton.mpr rfl
  | a :: rest, c0 => by
    simp only [List.foldl_cons]
    have h := foldl_pick_mem rest (if c0.2 < a.2 then a else c0)
    rcases List.mem_cons.mp h with h | h
    · rw [h]
      split
      · exact List.mem_cons.mpr (Or.inr (List.mem_cons_self a rest))
      · exact List.mem_cons_self c0 (a :: rest)
    · exact List.mem_cons.mpr (Or.inr (List.mem_cons.mpr (Or.inr h)))

theorem sumPots_dropLast_add :
    ∀ (pots : List SidePot) (d : Int), pots ≠ [] →
      sumPots (pots.dropLast ++
        [{ pots.getLastD default with amount := (pots.getLastD default).amount + d }]) =
      sumPots pots + d
  | [], _, h => absurd rfl h
  | [x], d, _ => by
    simp [sumPots, List.getLastD]
  | x :: y :: rest, d, _ => by
    have ih := sumPots_dropLast_add (y :: rest) d (by simp)
    have hlast : (x :: y :: rest).getLastD default = (y :: rest).getLastD default := rfl
    have hdrop : (x :: y :: rest).dropLast = x :: (y :: rest).dropLast := rfl
    rw [hlast, hdrop]
    simp only [sumPots, List.map_cons, List.sum_cons, List.map_append, List.sum_append] at *
    omega

/-- the layer-accumulation step of `calculateSidePots`, named for reasoning. -/
def spStep (allPlayers : List Player) (allContrib : List (String × Int)) (inHandIdx : List Nat) :
    List SidePot × Int → Int → List SidePot × Int := fun st level =>
  let sidePots := st.1
  let prevLevel := st.2
  let layerSize := level - prevLevel
  if layerSize ≤ 0 then (sidePots, prevLevel)
  else
    let contributorsCount := (allContrib.filter (fun c => level ≤ c.2)).length
    if contributorsCount ≤ 1 then (sidePots, level)
    else
      let amount := layerSize * (contributorsCount : Int)
      let eligibleIds := ((inHandIdx.map (fun i => allPlayers.getD i default)).filter
        (fun p => level ≤ p.totalBet)).map (fun p => p.id)
      let sidePots' :=
        if 0 < amount && !eligibleIds.isEmpty then
          sidePots ++ [{
            amount := amount
            eligiblePlayers := eligibleIds
            isMain := sidePots.isEmpty }]
        else sidePots
      (sidePots', level)

/-- the list of side pots `calculateSidePots` builds over the layers. -/
def spPots (s : GameState) (inHandIdx : List Nat) : List SidePot :=
  let allContrib := s.players.map (fun p => (p.id, p.totalBet))
  let levels := sortIntAsc (dedupFirstInt (allContrib.map (fun c => c.2)))
  (levels.foldl (spStep s.players allContrib inHandIdx) ([], 0)).1

/-- the tail of `calculateSidePots`: reconcile the computed total with the
recorded pot (refund or fold the difference in). -/
def spTail (s : GameState) (inHandIdx : List Nat) (sidePots : List SidePot) : GameState :=
  let allPlayers := s.players
  let allContrib := allPlayers.map (fun p => (p.id, p.totalBet))
  let computedTotal := (sidePots.map (fun p => p.amount)).foldl (· + ·) 0
  let potDiff := s.pot - computedTotal
  if 0 < potDiff then
    match allContrib with
    | [] => { s with sidePots := sidePots }
    | c0 :: rest =>
      let highest := rest.foldl (fun acc c => if acc.2 < c.2 then c else acc) c0
      let topCount := (allContrib.filter (fun c => c.2 = highest.2)).length
      if topCount = 1 then
        let s' := match s.players.findIdx? (fun p => p.id = highest.1) with
          | some bi => modifyPlayerAt s bi (fun p => { p with chips := p.chips + potDiff })
          | none => s
        { s' with pot := s'.pot - potDiff, sidePots := sidePots }
      else
        let sidePots' :=
          if sidePots.isEmpty then
            [{ amount := potDiff
               eligiblePlayers := inHandIdx.map (fun i => (allPlayers.getD i default).id)
               isMain := true }]
          else
            sidePots.dropLast ++
              [{ sidePots.getLastD default with
                 amount := (sidePots.getLastD default).amount + potDiff }]
        { s with sidePots := sidePots' }
  else { s with sidePots := sidePots }

theorem calculateSidePots_eq (s : GameState) (inHandIdx : List Nat) :
    calculateSidePots s inHandIdx = spTail s inHandIdx (spPots s inHandIdx) := rfl

/-- what every built side pot satisfies: positive amount and an in-hand
player (by index) among its eligible ids. -/
def PotOk (s : GameState) (inHandIdx : List Nat) (sp : SidePot) : Prop :=
  0 < sp.amount ∧ ∃ i ∈ inHandIdx, (s.players.getD i default).id ∈ sp.eligiblePlayers

theorem spPots_spec (s : GameState) (inHandIdx : List Nat)
    (htb : ∀ p ∈ s.players, 0 ≤ p.totalBet) :
    sumPots (spPots s inHandIdx) ≤ sumTotalBet s.players ∧
    ∀ sp ∈ spPots s inHandIdx, PotOk s inHandIdx sp := by
  have hcsum : ((s.players.map (fun p => (p.id, p.totalBet))).map (fun c => c.2)).sum
      = sumTotalBet s.players := by
    rw [List.map_map]
    rfl
  have hcnn : ∀ c ∈ (s.players.map (fun p => (p.id, p.totalBet))).map (fun c => c.2), 0 ≤ c := by
    intro c hc
    rcases List.mem_map.mp hc with ⟨pr, hpr, hpc⟩
    rcases List.mem_map.mp hpr with ⟨p, hp, hpp⟩
    rw [← hpc, ← hpp]
    exact htb p hp
  have hstep : ∀ acc level,
      (0 ≤ acc.2 ∧
        sumPots acc.1 ≤
          sumLayerParts ((s.players.map (fun p => (p.id, p.totalBet))).map (fun c => c.2)) acc.2 ∧
        ∀ sp ∈ acc.1, PotOk s inHandIdx sp) →
      (0 ≤ (spStep s.players (s.players.map (fun p => (p.id, p.totalBet))) inHandIdx acc level).2 ∧
        sumPots (spStep s.players (s.players.map (fun p => (p.id, p.totalBet))) inHandIdx acc level).1 ≤
          sumLayerParts ((s.players.map (fun p => (p.id, p.totalBet))).map (fun c => c.2))
            (spStep s.players (s.players.map (fun p => (p.id, p.totalBet))) inHandIdx acc level).2 ∧
        ∀ sp ∈ (spStep s.players (s.players.map (fun p => (p.id, p.totalBet))) inHandIdx acc level).1,
          PotOk s inHandIdx sp) := by
    intro acc level hP
    obtain ⟨hv, hsum, hpots⟩ := hP
    simp only [spStep]
    by_cases hls : level - acc.2 ≤ 0
    · simp only [if_pos hls]
      exact ⟨hv, hsum, hpots⟩
    · simp only [if_neg hls]
      by_cases hcnt : ((s.players.map (fun p => (p.id, p.totalBet))).filter
          (fun c => level ≤ c.2)).length ≤ 1
      · simp only [if_pos hcnt]
        exact ⟨by omega, le_trans hsum (sumLayerParts_mono _ _ _ (by omega)), hpots⟩
      · simp only [if_neg hcnt]
        have hcount : (((s.players.map (fun p => (p.id, p.totalBet))).map
              (fun c => c.2)).filter (fun c => level ≤ c)).length
            = ((s.players.map (fun p => (p.id, p.totalBet))).filter
              (fun c => level ≤ c.2)).length := by
          rw [List.filter_map, List.length_map]
          rfl
        have hlp := sumLayerParts_step
          ((s.players.map (fun p => (p.id, p.totalBet))).map (fun c => c.2)) acc.2 level hv
          (by omega)
        rw [hcount] at hlp
        have hmono := sumLayerParts_mono
          ((s.players.map (fun p => (p.id, p.totalBet))).map (fun c => c.2)) acc.2 level
          (by omega)
        refine ⟨by omega, ?_, ?_⟩
        · by_cases hguard : (decide (0 < (level - acc.2) *
              (((s.players.map (fun p => (p.id, p.totalBet))).filter
                (fun c => level ≤ c.2)).length : Int)) &&
              !(((inHandIdx.map (fun i => s.players.getD i default)).filter
                (fun p => level ≤ p.totalBet)).map (fun p => p.id)).isEmpty) = true
          · simp only [if_pos hguard]
            simp only [sumPots, List.map_append, List.sum_append, List.map_cons,
              List.map_nil, List.sum_cons, List.sum_nil]
            simp only [sumPots] at hsum
            omega
          · simp only [if_neg hguard]
            exact le_trans hsum hmono
        · by_cases hguard : (decide (0 < (level - acc.2) *
              (((s.players.map (fun p => (p.id, p.totalBet))).filter
                (fun c => level ≤ c.2)).length : Int)) &&
              !(((inHandIdx.map (fun i => s.players.getD i default)).filter
                (fun p => level ≤ p.totalBet)).map (fun p => p.id)).isEmpty) = true
          · simp only [if_pos hguard]
            simp only [Bool.and_eq_true, decide_eq_true_eq, Bool.not_eq_true',
              List.isEmpty_eq_false] at hguard
            intro sp hsp
            rcases List.mem_append.mp hsp with h | h
            · exact hpots sp h
            · rw [List.mem_singleton.mp h]
              refine ⟨hguard.1, ?_⟩
              rcases List.exists_mem_of_ne_nil _ hguard.2 with ⟨x, hx⟩
              rcases List.mem_map.mp hx with ⟨q, hq, hqid⟩
              rcases List.mem_filter.mp hq with ⟨hq1, hq2⟩
              rcases List.mem_map.mp hq1 with ⟨i, hi, hip⟩
              refine ⟨i, hi, ?_⟩
              rw [hip]
              exact List.mem_map.mpr ⟨q, hq, rfl⟩
          · simp only [if_neg hguard]
            intro sp hsp
            exact hpots sp hsp
  have hfold := foldl_inv _ _ hstep
    (sortIntAsc (dedupFirstInt ((s.players.map (fun p => (p.id, p.totalBet))).map (fun c => c.2))))
    (([], 0) : List SidePot × Int)
    ⟨le_refl 0, by simp [sumPots, sumLayerParts_zero], by simp⟩
  obtain ⟨hv, hsum, hpots⟩ := hfold
  refine ⟨?_, hpots⟩
  calc sumPots (spPots s inHandIdx) ≤ _ := hsum
    _ ≤ _ := sumLayerParts_le_sum _ _ hcnn
    _ = sumTotalBet s.players := hcsum

theorem getD_mem {α : Type} [Inhabited α] :
    ∀ (l : List α) (i : Nat), i < l.length → l.getD i default ∈ l
  | [], i, h => by simp at h
  | x :: l, 0, _ => by simp
  | x :: l, i + 1, h => by
    rw [List.getD_cons_succ]
    exact List.mem_cons_of_mem x (getD_mem l i (by simpa using h))

theorem getLastD_mem {α : Type} [Inhabited α] :
    ∀ (l : List α), l ≠ [] → l.getLastD default ∈ l
  | [], h => absurd rfl h
  | [x], _ => by simp [List.getLastD]
  | x :: y :: l, _ => by
    have : (x :: y :: l).getLastD default = (y :: l).getLastD default := rfl
    rw [this]
    exact List.mem_cons_of_mem x (getLastD_mem (y :: l) (by simp))

theorem spTail_spec (s : GameState) (inHandIdx : List Nat) (pots : List SidePot)
    (hch : ∀ p ∈ s.players, 0 ≤ p.chips)
    (hle : sumPots pots ≤ s.pot)
    (hpotsOk : ∀ sp ∈ pots, PotOk s inHandIdx sp)
    (hinh : inHandIdx ≠ [])
    (hps : s.players ≠ []) :
    sumChips (spTail s inHandIdx pots).players + sumPots (spTail s inHandIdx pots).sidePots
        = sumChips s.players + s.pot ∧
    (spTail s inHandIdx pots).players.map (fun p => p.id) = s.players.map (fun p => p.id) ∧
    (∀ p ∈ (spTail s inHandIdx pots).players, 0 ≤ p.chips) ∧
    (∀ sp ∈ (spTail s inHandIdx pots).sidePots, 0 ≤ sp.amount ∧
      ∃ i ∈ inHandIdx, (s.players.getD i default).id ∈ sp.eligiblePlayers) ∧
    (spTail s inHandIdx pots).isHandComplete = s.isHandComplete := by
  have hCT : (pots.map (fun p => p.amount)).foldl (· + ·) 0 = sumPots pots := by
    rw [foldl_add_eq_sum]
    simp [sumPots]
  simp only [spTail, hCT]
  by_cases hpd : 0 < s.pot - sumPots pots
  · simp only [if_pos hpd]
    rcases hAC : s.players.map (fun p => (p.id, p.totalBet)) with _ | ⟨c0, rest⟩
    · exact absurd (List.map_eq_nil_iff.mp hAC) hps
    · simp only [hAC]
      by_cases htop : ((c0 :: rest).filter
          (fun c => c.2 = (rest.foldl (fun acc c => if acc.2 < c.2 then c else acc) c0).2)).length = 1
      · simp only [if_pos htop]
        rcases hFI : s.players.findIdx? (fun p =>
            p.id = (rest.foldl (fun acc c => if acc.2 < c.2 then c else acc) c0).1) with _ | bi
        · exfalso
          have hnone := findIdx?_aux_none _ s.players 0 hFI
          have hmem := foldl_pick_mem rest c0
          rw [← hAC] at hmem
          rcases List.mem_map.mp hmem with ⟨p, hp, hpp⟩
          have := List.find?_eq_none.mp hnone p hp
          simp only [decide_eq_true_eq] at this
          apply this
          rw [← hpp]
        · obtain ⟨_, _, hbi⟩ := find?_some_of_findIdx? _ s.players bi hFI
          simp only [hFI, modifyPlayerAt]
          have hset := sumChips_set s.players bi
            { s.players.getD bi default with
              chips := (s.players.getD bi default).chips + (s.pot - sumPots pots) } hbi
          refine ⟨?_, ?_, ?_, ?_, trivial⟩
          · simp only [hset]
            ring
          · exact map_set_invariant _ s.players bi _ rfl
          · intro p hp
            rcases List.mem_or_eq_of_mem_set hp with h | h
            · exact hch p h
            · rw [h]
              have := hch _ (getD_mem s.players bi hbi)
              simp only []
              omega
          · intro sp hsp
            obtain ⟨h1, h2⟩ := hpotsOk sp hsp
            exact ⟨by omega, h2⟩
      · simp only [if_neg htop]
        by_cases hemp : pots.isEmpty = true
        · have hpe : pots = [] := List.isEmpty_iff.mp hemp
          subst hpe
          simp only [List.isEmpty_nil, if_pos]
          refine ⟨?_, trivial, hch, ?_, trivial⟩
          · simp [sumPots]
          · intro sp hsp
            rw [List.mem_singleton.mp hsp]
            rcases List.exists_mem_of_ne_nil _ hinh with ⟨i0, hi0⟩
            refine ⟨by simp [sumPots] at hpd ⊢; omega, i0, hi0, ?_⟩
            exact List.mem_map.mpr ⟨i0, hi0, rfl⟩
        · have hpne : pots ≠ [] := fun h => hemp (by simp [h])
          simp only [hemp, if_neg, Bool.false_eq_true, not_false_eq_true]
          have hsum := sumPots_dropLast_add pots (s.pot - sumPots pots) hpne
          refine ⟨?_, trivial, hch, ?_, trivial⟩
          · rw [hsum]
            ring
          · intro sp hsp
            rcases List.mem_append.mp hsp with h | h
            · obtain ⟨h1, h2⟩ := hpotsOk sp ((List.dropLast_sublist pots).subset h)
              exact ⟨by omega, h2⟩
            · rw [List.mem_singleton.mp h]
              obtain ⟨h1, h2⟩ := hpotsOk _ (getLastD_mem pots hpne)
              exact ⟨by simp only []; omega, h2⟩
  · simp only [if_neg hpd]
    have hpots_eq : sumPots pots = s.pot := by omega
    refine ⟨by simp [hpots_eq], trivial, hch, ?_, trivial⟩
    intro sp hsp
    obtain ⟨h1, h2⟩ := hpotsOk sp hsp
    exact ⟨by omega, h2⟩

theorem le_foldl_max (a : Nat) : ∀ l : List Nat, a ≤ l.foldl max a
  | [] => le_refl a
  | x :: l => le_trans (le_max_left a x) (le_foldl_max (max a x) l)

theorem mem_le_foldl_max : ∀ (l : List Nat) (a : Nat), ∀ x ∈ l, x ≤ l.foldl max a
  | [], _, x, hx => absurd hx (List.not_mem_nil x)
  | y :: l, a, x, hx => by
    simp only [List.foldl_cons]
    rcases List.mem_cons.mp hx with h | h
    · rw [h]
      exact le_trans (le_max_right a y) (le_foldl_max (max a y) l)
    · exact mem_le_foldl_max l (max a y) x h

theorem foldl_max_mem : ∀ (l : List Nat) (a : Nat), l.foldl max a = a ∨ l.foldl max a ∈ l
  | [], _ => Or.inl rfl
  | y :: l, a => by
    simp only [List.foldl_cons]
    rcases foldl_max_mem l (max a y) with h | h
    · rw [h]
      rcases Nat.le_total a y with hay | hya
      · right
        rw [max_eq_right hay]
        exact List.mem_cons_self y l
      · left
        exact max_eq_left hya
    · right
      exact List.mem_cons_of_mem y h

theorem foldl_max_attained : ∀ (l : List Nat), l ≠ [] → l.foldl max 0 ∈ l
  | [], h => absurd rfl h
  | y :: l, _ => by
    rcases foldl_max_mem (y :: l) 0 with h | h
    · have hy := mem_le_foldl_max (y :: l) 0 y (List.mem_cons_self y l)
      rw [h] at hy ⊢
      have hy0 : y = 0 := Nat.le_zero.mp hy
      rw [← hy0]
      exact List.mem_cons_self y l
    · exact h

theorem mem_zip_range {α : Type} (l : List α) (j : Nat) (hj : j < l.length) :
    (l[j], j) ∈ l.zip (List.range l.length) := by
  have hlen : j < (l.zip (List.range l.length)).length := by
    rw [List.length_zip, List.length_range]
    omega
  have hget : (l.zip (List.range l.length))[j] = (l[j], j) := by
    rw [List.getElem_zip]
    congr 1
    exact List.getElem_range j _
  rw [← hget]
  exact List.getElem_mem hlen

theorem findWinners_facts (hands : List HandEvaluation) (hne : hands ≠ []) :
    findWinners hands ≠ [] ∧ ∀ w ∈ findWinners hands, w < hands.length := by
  rcases hands with _ | ⟨h0, hs⟩
  · exact absurd rfl hne
  · constructor
    · have hmax := foldl_max_attained ((h0 :: hs).map (fun h => h.value)) (by simp)
      rcases List.mem_iff_getElem.mp hmax with ⟨j, hjlen, hjval⟩
      rw [List.length_map] at hjlen
      rw [List.getElem_map] at hjval
      simp only [findWinners]
      apply List.ne_nil_of_mem
      refine List.mem_map.mpr ⟨((h0 :: hs)[j], j), ?_, rfl⟩
      refine List.mem_filter.mpr ⟨mem_zip_range (h0 :: hs) j hjlen, ?_⟩
      simp only [decide_eq_true_eq]
      exact hjval
    · intro w hw
      simp only [findWinners] at hw
      rcases List.mem_map.mp hw with ⟨pr, hpr, hprw⟩
      have hz := (List.mem_filter.mp hpr).1
      have := List.of_mem_zip hz
      rw [← hprw]
      exact List.mem_range.mp this.2

theorem payout_sum_pos_idx (base rem : Int) :
    ∀ (ws : List Nat) (J : List Nat), (∀ j ∈ J, j ≠ 0) →
      ((ws.zip J).map (fun wi => base + if wi.2 = 0 then rem else 0)).sum
        = base * ((ws.zip J).length : Int)
  | [], J, _ => by simp
  | w :: ws, [], _ => by simp
  | w :: ws, j :: J, hJ => by
    have hj := hJ j (List.mem_cons_self j J)
    have ih := payout_sum_pos_idx base rem ws J (fun x hx => hJ x (List.mem_cons_of_mem j hx))
    simp only [List.zip_cons_cons, List.map_cons, List.sum_cons, List.length_cons, if_neg hj]
    rw [ih]
    push_cast
    ring

theorem payout_sum (base rem : Int) :
    ∀ (ws : List Nat), ws ≠ [] →
      ((zipIdxL ws).map (fun wi => base + if wi.2 = 0 then rem else 0)).sum
        = base * (ws.length : Int) + rem
  | [], h => absurd rfl h
  | w :: ws, _ => by
    simp only [zipIdxL, List.length_cons, List.range_succ_eq_map, List.zip_cons_cons,
      List.map_cons, List.sum_cons, if_pos rfl]
    have hrest := payout_sum_pos_idx base rem ws ((List.range ws.length).map (fun x => x + 1))
      (by
        intro j hj
        rcases List.mem_map.mp hj with ⟨x, _, hx⟩
        omega)
    rw [hrest]
    have hlen : (ws.zip ((List.range ws.length).map (fun x => x + 1))).length = ws.length := by
      rw [List.length_zip, List.length_map, List.length_range]
      omega
    rw [hlen]
    push_cast
    ring

theorem award_fold_spec (eligEv : List (Nat × HandEvaluation)) (s : GameState) (base rem : Int)
    (hb : 0 ≤ base) (hbr : 0 ≤ base + rem) :
    ∀ (L : List (Nat × Nat)) (acc : GameState × List (String × Int)),
      (∀ wj ∈ L, (eligEv.getD wj.1 (0, default)).1 < acc.1.players.length) →
      (∀ p ∈ acc.1.players, 0 ≤ p.chips) →
      sumChips (L.foldl (fun acc wi =>
          (modifyPlayerAt acc.1 ((eligEv.getD wi.1 (0, default)).1)
            (fun p => { p with chips := p.chips + (base + if wi.2 = 0 then rem else 0) }),
           aggUpdate acc.2 ((s.players.getD ((eligEv.getD wi.1 (0, default)).1) default).id)
             (base + if wi.2 = 0 then rem else 0))) acc).1.players
          = sumChips acc.1.players +
            (L.map (fun wi => base + if wi.2 = 0 then rem else 0)).sum ∧
      (L.foldl (fun acc wi =>
          (modifyPlayerAt acc.1 ((eligEv.getD wi.1 (0, default)).1)
            (fun p => { p with chips := p.chips + (base + if wi.2 = 0 then rem else 0) }),
           aggUpdate acc.2 ((s.players.getD ((eligEv.getD wi.1 (0, default)).1) default).id)
             (base + if wi.2 = 0 then rem else 0))) acc).1.players.map (fun p => p.id)
          = acc.1.players.map (fun p => p.id) ∧
      (∀ p ∈ (L.foldl (fun acc wi =>
          (modifyPlayerAt acc.1 ((eligEv.getD wi.1 (0, default)).1)
            (fun p => { p with chips := p.chips + (base + if wi.2 = 0 then rem else 0) }),
           aggUpdate acc.2 ((s.players.getD ((eligEv.getD wi.1 (0, default)).1) default).id)
             (base + if wi.2 = 0 then rem else 0))) acc).1.players, 0 ≤ p.chips) ∧
      (L.foldl (fun acc wi =>
          (modifyPlayerAt acc.1 ((eligEv.getD wi.1 (0, default)).1)
            (fun p => { p with chips := p.chips + (base + if wi.2 = 0 then rem else 0) }),
           aggUpdate acc.2 ((s.players.getD ((eligEv.getD wi.1 (0, default)).1) default).id)
             (base + if wi.2 = 0 then rem else 0))) acc).1.isHandComplete = acc.1.isHandComplete
  | [], acc, _, hch => ⟨by simp, rfl, hch, rfl⟩
  | wj :: L, acc, hbound, hch => by
    have hidx := hbound wj (List.mem_cons_self wj L)
    have hpay : 0 ≤ base + if wj.2 = 0 then rem else 0 := by
      split
      · exact hbr
      · omega
    have hlen' : (modifyPlayerAt acc.1 ((eligEv.getD wj.1 (0, default)).1)
        (fun p => { p with chips := p.chips + (base + if wj.2 = 0 then rem else 0) })).players.length
        = acc.1.players.length := by
      simp [modifyPlayerAt]
    have hch' : ∀ p ∈ (modifyPlayerAt acc.1 ((eligEv.getD wj.1 (0, default)).1)
        (fun p => { p with chips := p.chips + (base + if wj.2 = 0 then rem else 0) })).players,
        0 ≤ p.chips := by
      intro p hp
      simp only [modifyPlayerAt] at hp
      rcases List.mem_or_eq_of_mem_set hp with h | h
      · exact hch p h
      · rw [h]
        have := hch _ (getD_mem acc.1.players _ hidx)
        simp only []
        omega
    have ih := award_fold_spec eligEv s base rem hb hbr L
      (modifyPlayerAt acc.1 ((eligEv.getD wj.1 (0, default)).1)
        (fun p => { p with chips := p.chips + (base + if wj.2 = 0 then rem else 0) }),
       aggUpdate acc.2 ((s.players.getD ((eligEv.getD wj.1 (0, default)).1) default).id)
         (base + if wj.2 = 0 then rem else 0))
      (by
        intro x hx
        rw [hlen']
        exact hbound x (List.mem_cons_of_mem wj hx))
      hch'
    obtain ⟨ih1, ih2, ih3, ih4⟩ := ih
    refine ⟨?_, ?_, ih3, ?_⟩
    · rw [List.foldl_cons, ih1]
      have hset := sumChips_set acc.1.players ((eligEv.getD wj.1 (0, default)).1)
        { acc.1.players.getD ((eligEv.getD wj.1 (0, default)).1) default with
          chips := (acc.1.players.getD ((eligEv.getD wj.1 (0, default)).1) default).chips +
            (base + if wj.2 = 0 then rem else 0) } hidx
      simp only [modifyPlayerAt]
      simp only [modifyPlayerAt] at ih1 ⊢
      rw [hset]
      simp only [List.map_cons, List.sum_cons]
      ring
    · rw [List.foldl_cons, ih2]
      simp only [modifyPlayerAt]
      exact map_set_invariant _ acc.1.players _ _ rfl
    · rw [List.foldl_cons, ih4]
      rfl

theorem awardSinglePot_spec (u : GameState) (agg : List (String × Int))
    (evals : List (Nat × HandEvaluation)) (sp : SidePot)
    (hidx : ∀ he ∈ evals, he.1 < u.players.length)
    (hwit : ∃ he ∈ evals, sp.eligiblePlayers.contains (u.players.getD he.1 default).id = true)
    (hamt : 0 ≤ sp.amount)
    (hch : ∀ p ∈ u.players, 0 ≤ p.chips) :
    sumChips (awardSinglePot (u, agg) evals sp).1.players = sumChips u.players + sp.amount ∧
    (awardSinglePot (u, agg) evals sp).1.players.map (fun p => p.id)
      = u.players.map (fun p => p.id) ∧
    (∀ p ∈ (awardSinglePot (u, agg) evals sp).1.players, 0 ≤ p.chips) ∧
    (awardSinglePot (u, agg) evals sp).1.isHandComplete = u.isHandComplete := by
  simp only [awardSinglePot]
  generalize hE : evals.filter
    (fun he => sp.eligiblePlayers.contains (u.players.getD he.1 default).id) = eligEv
  generalize hW : findWinners (eligEv.map (fun he => he.2)) = ws
  have hEne : eligEv ≠ [] := by
    rcases hwit with ⟨he, hhe, hp⟩
    rw [← hE]
    exact List.ne_nil_of_mem (List.mem_filter.mpr ⟨hhe, hp⟩)
  have hWfacts := findWinners_facts (eligEv.map (fun he => he.2))
    (by simpa using hEne)
  rw [hW] at hWfacts
  obtain ⟨hWne, hWbound⟩ := hWfacts
  have hksucc : 0 < ws.length := List.length_pos.mpr hWne
  have hb : 0 ≤ sp.amount.fdiv (ws.length : Int) :=
    Int.fdiv_nonneg hamt (by positivity)
  have hrem : 0 ≤ sp.amount - sp.amount.fdiv (ws.length : Int) * (ws.length : Int) := by
    have hmod := Int.fmod_nonneg hamt (by positivity : (0 : Int) ≤ (ws.length : Int))
    have heq := Int.fmod_add_fdiv sp.amount (ws.length : Int)
    have hcomm : (ws.length : Int) * sp.amount.fdiv (ws.length : Int)
        = sp.amount.fdiv (ws.length : Int) * (ws.length : Int) := Int.mul_comm _ _
    omega
  have hbr : 0 ≤ sp.amount.fdiv (ws.length : Int) +
      (sp.amount - sp.amount.fdiv (ws.length : Int) * (ws.length : Int)) := by
    omega
  have hbounds : ∀ wj ∈ zipIdxL ws, (eligEv.getD wj.1 (0, default)).1 <
      ((u, agg) : GameState × List (String × Int)).1.players.length := by
    intro wj hwj
    have hw1 : wj.1 ∈ ws := (List.of_mem_zip hwj).1
    have hlt : wj.1 < eligEv.length := by
      have := hWbound wj.1 hw1
      simpa using this
    have hmem : eligEv.getD wj.1 (0, default) ∈ eligEv := getD_mem eligEv wj.1 hlt
    have hsub : eligEv ⊆ evals := by
      rw [← hE]
      intro x hx
      exact List.mem_of_mem_filter hx
    exact hidx _ (hsub hmem)
  have key := award_fold_spec eligEv u (sp.amount.fdiv (ws.length : Int))
    (sp.amount - sp.amount.fdiv (ws.length : Int) * (ws.length : Int)) hb hbr
    (zipIdxL ws) (u, agg) hbounds hch
  obtain ⟨k1, k2, k3, k4⟩ := key
  rw [payout_sum _ _ ws hWne] at k1
  refine ⟨?_, k2, k3, k4⟩
  rw [k1]
  ring

theorem getD_map_eq {β : Type} (f : Player → β) (ps qs : List Player)
    (h : ps.map f = qs.map f) (j : Nat) :
    f (ps.getD j default) = f (qs.getD j default) := by
  have hlen : ps.length = qs.length := by
    have := congrArg List.length h
    simpa using this
  by_cases hj : j < ps.length
  · have h1 : (ps.map f).getD j (f default) = (qs.map f).getD j (f default) := by rw [h]
    rwa [List.getD_map, List.getD_map] at h1
  · rw [List.getD_eq_default _ _ (by omega), List.getD_eq_default _ _ (by omega)]

theorem awardPots_players (s : GameState) (evals : List (Nat × HandEvaluation)) (r : GameState)
    (h : awardPots s evals = .ok r) :
    r.players = (s.sidePots.foldl (fun acc sp => awardSinglePot acc evals sp) (s, [])).1.players ∧
    r.isHandComplete =
      (s.sidePots.foldl (fun acc sp => awardSinglePot acc evals sp) (s, [])).1.isHandComplete := by
  simp only [awardPots, bind, Except.bind] at h
  split at h
  · cases h
  · cases h
    exact ⟨rfl, rfl⟩

theorem awardPots_fold_spec (s : GameState) (evals : List (Nat × HandEvaluation))
    (hidx : ∀ he ∈ evals, he.1 < s.players.length) :
    ∀ (pots : List SidePot) (acc : GameState × List (String × Int)),
      acc.1.players.map (fun p => p.id) = s.players.map (fun p => p.id) →
      (∀ p ∈ acc.1.players, 0 ≤ p.chips) →
      (∀ sp ∈ pots, ∃ he ∈ evals,
        sp.eligiblePlayers.contains ((s.players.getD he.1 default).id) = true) →
      (∀ sp ∈ pots, 0 ≤ sp.amount) →
      sumChips ((pots.foldl (fun acc sp => awardSinglePot acc evals sp) acc).1.players)
          = sumChips acc.1.players + sumPots pots ∧
      ((pots.foldl (fun acc sp => awardSinglePot acc evals sp) acc).1.players.map (fun p => p.id)
          = s.players.map (fun p => p.id)) ∧
      (∀ p ∈ (pots.foldl (fun acc sp => awardSinglePot acc evals sp) acc).1.players,
        0 ≤ p.chips) ∧
      (pots.foldl (fun acc sp => awardSinglePot acc evals sp) acc).1.isHandComplete
          = acc.1.isHandComplete
  | [], acc, hids, hch, _, _ => ⟨by simp [sumPots], hids, hch, rfl⟩
  | sp :: pots, acc, hids, hch, hcover, hamts => by
    obtain ⟨u, agg⟩ := acc
    have hlen : u.players.length = s.players.length := by
      have := congrArg List.length hids
      simpa using this
    have hwit : ∃ he ∈ evals, sp.eligiblePlayers.contains (u.players.getD he.1 default).id
        = true := by
      rcases hcover sp (List.mem_cons_self sp pots) with ⟨he, hhe, hc⟩
      refine ⟨he, hhe, ?_⟩
      rw [getD_map_eq (fun p => p.id) u.players s.players hids he.1]
      exact hc
    have hstep := awardSinglePot_spec u agg evals sp
      (fun he hhe => by rw [hlen]; exact hidx he hhe)
      hwit (hamts sp (List.mem_cons_self sp pots)) hch
    obtain ⟨h1, h2, h3, h4⟩ := hstep
    have ih := awardPots_fold_spec s evals hidx pots (awardSinglePot (u, agg) evals sp)
      (by rw [h2]; exact hids) h3
      (fun x hx => hcover x (List.mem_cons_of_mem sp hx))
      (fun x hx => hamts x (List.mem_cons_of_mem sp hx))
    obtain ⟨i1, i2, i3, i4⟩ := ih
    refine ⟨?_, i2, i3, ?_⟩
    · rw [List.foldl_cons] at *
      rw [i1, h1]
      simp only [sumPots, List.map_cons, List.sum_cons]
      ring
    · rw [List.foldl_cons] at *
      rw [i4, h4]

theorem awardPots_spec (s : GameState) (evals : List (Nat × HandEvaluation)) (r : GameState)
    (hidx : ∀ he ∈ evals, he.1 < s.players.length)
    (hcover : ∀ sp ∈ s.sidePots, ∃ he ∈ evals,
      sp.eligiblePlayers.contains ((s.players.getD he.1 default).id) = true)
    (hamts : ∀ sp ∈ s.sidePots, 0 ≤ sp.amount)
    (hch : ∀ p ∈ s.players, 0 ≤ p.chips)
    (h : awardPots s evals = .ok r) :
    sumChips r.players = sumChips s.players + sumPots s.sidePots ∧
    (∀ p ∈ r.players, 0 ≤ p.chips) ∧
    r.isHandComplete = s.isHandComplete := by
  have hf := awardPots_fold_spec s evals hidx s.sidePots (s, []) rfl hch hcover hamts
  obtain ⟨hp, hfl⟩ := awardPots_players s evals r h
  rw [hp, hfl]
  exact ⟨hf.1, hf.2.2.1, hf.2.2.2⟩

theorem sumChips_filter_pos :
    ∀ (ps : List Player), (∀ p ∈ ps, 0 ≤ p.chips) →
      sumChips (ps.filter (fun p => 0 < p.chips)) = sumChips ps
  | [], _ => rfl
  | p :: ps, h => by
    have ih := sumChips_filter_pos ps (fun x hx => h x (List.mem_cons_of_mem p hx))
    have hp := h p (List.mem_cons_self p ps)
    rw [List.filter_cons]
    by_cases hc : 0 < p.chips
    · rw [if_pos (by simpa using hc)]
      simp only [sumChips, List.map_cons, List.sum_cons] at *
      omega
    · rw [if_neg (by simpa using hc)]
      simp only [sumChips, List.map_cons, List.sum_cons] at *
      omega

theorem prepareNextHand_facts (s : GameState) (hch : ∀ p ∈ s.players, 0 ≤ p.chips) :
    sumChips (prepareNextHand s).players = sumChips s.players ∧
    (prepareNextHand s).isHandComplete = s.isHandComplete ∧
    ∀ p ∈ (prepareNextHand s).players, 0 ≤ p.chips := by
  simp only [prepareNextHand]
  by_cases hlen : s.players.length = 0
  · simp only [if_pos hlen]
    have : s.players = [] := List.length_eq_zero.mp hlen
    rw [this]
    exact ⟨rfl, trivial, by simp⟩
  · simp only [if_neg hlen]
    by_cases hrem : (s.players.filter (fun p => 0 < p.chips)).length = 0
    · simp only [if_pos hrem]
      exact ⟨sumChips_filter_pos s.players hch, trivial,
        fun p hp => hch p (List.mem_of_mem_filter hp)⟩
    · simp only [if_neg hrem]
      exact ⟨sumChips_filter_pos s.players hch, trivial,
        fun p hp => hch p (List.mem_of_mem_filter hp)⟩

theorem inHand_lt (s : GameState) (i : Nat) (hi : i ∈ playersStillInHandIdx s) :
    i < s.players.length := by
  have := (List.mem_filter.mp hi).1
  exact List.mem_range.mp this

theorem evalFold_spec (s : GameState) :
    ∀ (idxs : List Nat) (acc out : List (Nat × HandEvaluation)),
      (idxs.foldlM (fun acc i =>
        match evaluateHand ((s.players.getD i default).holeCards ++ s.communityCards) with
        | .error e => Except.error (e, s)
        | .ok ev => pure (acc ++ [(i, ev)])) acc) = .ok out →
      (∀ he ∈ out, he ∈ acc ∨ he.1 ∈ idxs) ∧
      (∀ i ∈ idxs, ∃ he ∈ out, he.1 = i) ∧
      (∀ he ∈ acc, he ∈ out)
  | [], acc, out, h => by
    simp only [List.foldlM_nil] at h
    cases h
    exact ⟨fun he hhe => Or.inl hhe, by simp, fun he hhe => hhe⟩
  | i :: idxs, acc, out, h => by
    simp only [List.foldlM_cons] at h
    cases hEv : evaluateHand ((s.players.getD i default).holeCards ++ s.communityCards) with
    | error e =>
      rw [hEv] at h
      simp only [bind, Except.bind] at h
      cases h
    | ok ev =>
      rw [hEv] at h
      simp only [bind, Except.bind, pure, Except.pure] at h
      obtain ⟨ih1, ih2, ih3⟩ := evalFold_spec s idxs (acc ++ [(i, ev)]) out h
      refine ⟨?_, ?_, ?_⟩
      · intro he hhe
        rcases ih1 he hhe with hin | hin
        · rcases List.mem_append.mp hin with hl | hr
          · exact Or.inl hl
          · right
            rw [List.mem_singleton.mp hr]
            exact List.mem_cons_self i idxs
        · exact Or.inr (List.mem_cons_of_mem i hin)
      · intro j hj
        rcases List.mem_cons.mp hj with hj | hj
        · refine ⟨(i, ev), ?_, hj.symm⟩
          exact ih3 _ (List.mem_append.mpr (Or.inr (List.mem_singleton.mpr rfl)))
        · exact ih2 j hj
      · intro he hhe
        exact ih3 he (List.mem_append.mpr (Or.inl hhe))

theorem evaluateShowdown_spec (s r : GameState)
    (hch : ∀ p ∈ s.players, 0 ≤ p.chips)
    (htb : ∀ p ∈ s.players, 0 ≤ p.totalBet)
    (hpot : s.pot = sumTotalBet s.players)
    (hinh : playersStillInHandIdx s ≠ [])
    (h : evaluateShowdown s = .ok r) :
    sumChips r.players = sumChips s.players + s.pot ∧
    (∀ p ∈ r.players, 0 ≤ p.chips) ∧
    r.isHandComplete = s.isHandComplete := by
  have hpotnn : 0 ≤ s.pot := by
    rw [hpot]
    exact List.sum_nonneg (by
      intro x hx
      rcases List.mem_map.mp hx with ⟨p, hp, hpx⟩
      rw [← hpx]
      exact htb p hp)
  simp only [evaluateShowdown, bind, Except.bind] at h
  split at h
  · cases h
  · rename_i evals hEvals
    obtain ⟨hf1, hf2, _⟩ := evalFold_spec s (playersStillInHandIdx s) [] evals hEvals
    have hevIdx : ∀ he ∈ evals, he.1 ∈ playersStillInHandIdx s := by
      intro he hhe
      rcases hf1 he hhe with h0 | h0
      · simp at h0
      · exact h0
    by_cases hd : 1 < (sortIntAsc (dedupFirstInt (s.players.map (fun p => p.totalBet)))).length
    · rw [if_pos hd] at h
      rw [calculateSidePots_eq] at h
      obtain ⟨hsp1, hsp2⟩ := spPots_spec s (playersStillInHandIdx s) htb
      have hle : sumPots (spPots s (playersStillInHandIdx s)) ≤ s.pot := by
        rw [hpot]
        exact hsp1
      have hps : s.players ≠ [] := by
        rcases List.exists_mem_of_ne_nil _ hinh with ⟨i0, hi0⟩
        have := inHand_lt s i0 hi0
        intro hcon
        rw [hcon] at this
        simp at this
      obtain ⟨ht1, ht2, ht3, ht4, ht5⟩ :=
        spTail_spec s (playersStillInHandIdx s) (spPots s (playersStillInHandIdx s))
          hch hle hsp2 hinh hps
      have hlen : (spTail s (playersStillInHandIdx s)
          (spPots s (playersStillInHandIdx s))).players.length = s.players.length := by
        have := congrArg List.length ht2
        simpa using this
      have hap := awardPots_spec
        (spTail s (playersStillInHandIdx s) (spPots s (playersStillInHandIdx s))) evals r
        (by
          intro he hhe
          rw [hlen]
          exact inHand_lt s he.1 (hevIdx he hhe))
        (by
          intro sp hsp
          obtain ⟨_, i, hi, hidm⟩ := ht4 sp hsp
          obtain ⟨he, hhe, hhei⟩ := hf2 i hi
          refine ⟨he, hhe, ?_⟩
          rw [hhei]
          rw [getD_map_eq (fun p => p.id) _ _ ht2 i]
          exact List.elem_eq_true_of_mem hidm)
        (fun sp hsp => (ht4 sp hsp).1)
        ht3 h
      obtain ⟨ha1, ha2, ha3⟩ := hap
      refine ⟨?_, ha2, ?_⟩
      · rw [ha1, ht1]
      · rw [ha3, ht5]
    · rw [if_neg hd] at h
      have hap := awardPots_spec
        { s with sidePots := [{
            amount := s.pot
            eligiblePlayers := (playersStillInHandIdx s).map
              (fun i => (s.players.getD i default).id)
            isMain := true }] } evals r
        (by
          intro he hhe
          exact inHand_lt s he.1 (hevIdx he hhe))
        (by
          intro sp hsp
          rw [List.mem_singleton.mp hsp]
          rcases List.exists_mem_of_ne_nil _ hinh with ⟨i0, hi0⟩
          obtain ⟨he, hhe, hhei⟩ := hf2 i0 hi0
          refine ⟨he, hhe, ?_⟩
          rw [hhei]
          exact List.elem_eq_true_of_mem (List.mem_map.mpr ⟨i0, hi0, rfl⟩))
        (by
          intro sp hsp
          rw [List.mem_singleton.mp hsp]
          exact hpotnn)
        hch h
      obtain ⟨ha1, ha2, ha3⟩ := hap
      refine ⟨?_, ha2, ha3⟩
      rw [ha1]
      simp [sumPots]

theorem completeHand_spec (t r : GameState)
    (hch : ∀ p ∈ t.players, 0 ≤ p.chips)
    (htb : ∀ p ∈ t.players, 0 ≤ p.totalBet)
    (hpot : t.pot = sumTotalBet t.players)
    (hinh : playersStillInHandIdx t ≠ [])
    (h : completeHand t = .ok r) :
    sumChips r.players = sumChips t.players + t.pot ∧
    (∀ p ∈ r.players, 0 ≤ p.chips) ∧
    r.isHandComplete = true := by
  have hpotnn : 0 ≤ t.pot := by
    rw [hpot]
    exact List.sum_nonneg (by
      intro x hx
      rcases List.mem_map.mp hx with ⟨p, hp, hpx⟩
      rw [← hpx]
      exact htb p hp)
  have heq : playersStillInHandIdx { t with isHandComplete := true }
      = playersStillInHandIdx t := rfl
  simp only [completeHand, heq] at h
  by_cases hlen : (playersStillInHandIdx t).length = 1
  · rw [if_pos hlen] at h
    cases h
    have hwi : (playersStillInHandIdx t).getD 0 0 < t.players.length := by
      apply inHand_lt
      have h0 : (playersStillInHandIdx t).getD 0 0
          = (playersStillInHandIdx t).getD 0 default := rfl
      rw [h0]
      exact getD_mem _ 0 (by omega)
    have hset := sumChips_set t.players ((playersStillInHandIdx t).getD 0 0)
      { t.players.getD ((playersStillInHandIdx t).getD 0 0) default with
        chips := (t.players.getD ((playersStillInHandIdx t).getD 0 0) default).chips + t.pot }
      hwi
    have hch2 : ∀ p ∈ (t.players.set ((playersStillInHandIdx t).getD 0 0)
        { t.players.getD ((playersStillInHandIdx t).getD 0 0) default with
          chips := (t.players.getD ((playersStillInHandIdx t).getD 0 0) default).chips
            + t.pot }), 0 ≤ p.chips := by
      intro p hp
      rcases List.mem_or_eq_of_mem_set hp with h0 | h0
      · exact hch p h0
      · rw [h0]
        have := hch _ (getD_mem t.players _ hwi)
        simp only []
        omega
    have hprep := prepareNextHand_facts
      { modifyPlayerAt { t with isHandComplete := true }
          ((playersStillInHandIdx t).getD 0 0)
          (fun p => { p with chips := p.chips + t.pot }) with
        winners := [{
          playerId := (t.players.getD ((playersStillInHandIdx t).getD 0 0) default).id
          amount := t.pot
          hand := { rank := 1, value := 0, description := "Won by default", cards := [] } }] }
      (by
        simp only [modifyPlayerAt]
        exact hch2)
    obtain ⟨hp1, hp2, hp3⟩ := hprep
    refine ⟨?_, hp3, hp2⟩
    rw [hp1]
    simp only [modifyPlayerAt, sumChips] at hset ⊢
    rw [hset]
    ring
  · rw [if_neg hlen] at h
    simp only [bind, Except.bind] at h
    split at h
    · cases h
    · rename_i s2 hS2
      cases h
      obtain ⟨he1, he2, he3⟩ := evaluateShowdown_spec { t with isHandComplete := true } s2
        hch htb hpot hinh hS2
      obtain ⟨hp1, hp2, hp3⟩ := prepareNextHand_facts s2 he2
      refine ⟨?_, hp3, ?_⟩
      · rw [hp1, he1]
      · rw [hp2, he3]

/-- the per-player facts the conservation invariant tracks. -/
def playerOk (p : Player) : Prop :=
  0 ≤ p.chips ∧ 0 ≤ p.totalBet ∧ 0 ≤ p.currentBet ∧ p.currentBet ≤ p.totalBet

/-- the state invariant maintained between accepted actions. -/
def EngineInv (s : GameState) : Prop :=
  s.isHandComplete = false →
    (∀ p ∈ s.players, playerOk p) ∧
    0 ≤ s.currentBet ∧ 0 ≤ s.lastRaiseSize ∧
    0 ≤ s.blinds.small ∧ 0 ≤ s.blinds.big ∧
    s.pot = sumTotalBet s.players ∧ 2 ≤ (playersStillInHandIdx s).length

theorem playerOk_of_proj (p q : Player) (h : playerProj p = playerProj q) (hq : playerOk q) :
    playerOk p := by
  simp only [playerProj, Prod.mk.injEq] at h
  obtain ⟨h1, h2, h3, _⟩ := h
  obtain ⟨q1, q2, q3, q4⟩ := hq
  exact ⟨by omega, by omega, by omega, by omega⟩

theorem mem_proj_transfer (ps qs : List Player) (h : ps.map playerProj = qs.map playerProj)
    (hq : ∀ q ∈ qs, playerOk q) : ∀ p ∈ ps, playerOk p := by
  intro p hp
  have : playerProj p ∈ qs.map playerProj := by
    rw [← h]
    exact List.mem_map.mpr ⟨p, hp, rfl⟩
  rcases List.mem_map.mp this with ⟨q, hqm, hqe⟩
  exact playerOk_of_proj p q hqe.symm (hq q hqm)

theorem range_filter_length (q : Player → Bool) :
    ∀ (ps : List Player),
      ((List.range ps.length).filter (fun i => q (ps.getD i default))).length
        = (ps.filter q).length
  | [] => rfl
  | p :: ps => by
    rw [List.length_cons, List.range_succ_eq_map, List.filter_cons, List.filter_cons]
    have hmap : ((List.range ps.length).map (fun x => x + 1)).filter
        (fun i => q ((p :: ps).getD i default))
        = ((List.range ps.length).filter (fun i => q (ps.getD i default))).map
          (fun x => x + 1) := by
      rw [List.filter_map]
      rfl
    by_cases hq : q p = true
    · have h0 : q ((p :: ps).getD 0 default) = true := hq
      rw [if_pos h0, if_pos hq]
      simp only [List.length_cons, hmap, List.length_map]
      rw [range_filter_length q ps]
    · have h0 : ¬ q ((p :: ps).getD 0 default) = true := hq
      rw [if_neg h0, if_neg hq]
      simp only [hmap, List.length_map]
      rw [range_filter_length q ps]

theorem inHandIdx_length_eq (s : GameState) :
    (playersStillInHandIdx s).length = (getPlayersStillInHand s).length := by
  unfold playersStillInHandIdx getPlayersStillInHand getActivePlayers
  rw [range_filter_length (fun p => !p.disconnected && !p.isFolded) s.players]
  rw [List.filter_filter]
  have : (List.filter (fun p => !p.disconnected && !p.isFolded) s.players)
      = (List.filter (fun a => decide ¬a.isFolded = true && decide ¬a.disconnected = true)
          s.players) := by
    apply List.filter_congr
    intro x _
    simp [Bool.and_comm]
  rw [this]

theorem inHandIdx_eq_of_proj (s u : GameState)
    (h : s.players.map playerProj = u.players.map playerProj) :
    playersStillInHandIdx s = playersStillInHandIdx u := by
  have hlen : s.players.length = u.players.length := by
    have := congrArg List.length h
    simpa using this
  unfold playersStillInHandIdx
  rw [hlen]
  apply List.filter_congr
  intro i _
  have hpp := proj_getD s.players u.players h i
  simp only [playerProj, Prod.mk.injEq] at hpp
  show (!(s.players.getD i default).disconnected && !(s.players.getD i default).isFolded)
      = (!(u.players.getD i default).disconnected && !(u.players.getD i default).isFolded)
  rw [hpp.2.2.2.1, hpp.2.2.2.2]

theorem getD_set_self {α : Type} [Inhabited α] :
    ∀ (l : List α) (i : Nat) (q : α), i < l.length → (l.set i q).getD i default = q
  | [], i, q, h => by simp at h
  | x :: l, 0, q, _ => rfl
  | x :: l, i + 1, q, h => by
    simp only [List.set]
    rw [List.getD_cons_succ]
    exact getD_set_self l i q (by simpa using h)

theorem getD_set_ne {α : Type} [Inhabited α] :
    ∀ (l : List α) (i j : Nat) (q : α), i ≠ j → (l.set i q).getD j default = l.getD j default
  | [], _, _, _, _ => by simp
  | x :: l, 0, 0, q, h => absurd rfl h
  | x :: l, 0, j + 1, q, _ => by
    simp only [List.set]
    rw [List.getD_cons_succ, List.getD_cons_succ]
  | x :: l, i + 1, 0, q, _ => rfl
  | x :: l, i + 1, j + 1, q, h => by
    simp only [List.set]
    rw [List.getD_cons_succ, List.getD_cons_succ]
    exact getD_set_ne l i j q (by omega)

theorem inHandIdx_set_eq (s : GameState) (i : Nat) (q : Player)
    (hf : q.isFolded = (s.players.getD i default).isFolded)
    (hd : q.disconnected = (s.players.getD i default).disconnected) :
    playersStillInHandIdx { s with players := s.players.set i q }
      = playersStillInHandIdx s := by
  unfold playersStillInHandIdx
  simp only [List.length_set]
  apply List.filter_congr
  intro j _
  by_cases hij : i = j
  · subst hij
    by_cases hlt : i < s.players.length
    · show (!((s.players.set i q).getD i default).disconnected &&
          !((s.players.set i q).getD i default).isFolded) = _
      rw [getD_set_self s.players i q hlt, hf, hd]
    · rw [List.set_eq_of_length_le (by omega)]
  · show (!((s.players.set i q).getD j default).disconnected &&
        !((s.players.set i q).getD j default).isFolded) = _
    rw [getD_set_ne s.players i j q hij]

theorem countP_le_of_imp {α : Type} (p q r : α → Bool) :
    ∀ l : List α, (∀ x ∈ l, q x = true → p x = true ∨ r x = true) →
      l.countP q ≤ l.countP p + l.countP r
  | [], _ => le_refl 0
  | x :: l, h => by
    have ih := countP_le_of_imp p q r l (fun y hy => h y (List.mem_cons_of_mem x hy))
    rw [List.countP_cons, List.countP_cons, List.countP_cons]
    by_cases hq : q x = true
    · rcases h x (List.mem_cons_self x l) hq with hp | hr
      · simp only [hq, hp, if_pos]
        omega
      · simp only [hq, hr, if_pos]
        omega
    · rw [if_neg hq]
      omega

theorem countP_eq_range (i n : Nat) :
    (List.range n).countP (fun j => j = i) ≤ 1 := by
  induction n with
  | zero => simp
  | succ n ih =>
    rw [List.range_succ, List.countP_append]
    by_cases hin : n = i
    · have hc : (List.range n).countP (fun j => j = i) = 0 := by
        rw [List.countP_eq_zero]
        intro j hj
        have := List.mem_range.mp hj
        simp only [decide_eq_true_eq]
        omega
      rw [hc]
      rw [List.countP_cons]
      simp [hin]
    · have : ([n] : List Nat).countP (fun j => j = i) = 0 := by
        rw [List.countP_eq_zero]
        intro j hj
        rw [List.mem_singleton.mp hj]
        simp only [decide_eq_true_eq]
        exact hin
      rw [this]
      omega

theorem inHand_length_set (s : GameState) (i : Nat) (q : Player)
    (hd : q.disconnected = (s.players.getD i default).disconnected) :
    (playersStillInHandIdx s).length ≤
      (playersStillInHandIdx { s with players := s.players.set i q }).length + 1 := by
  unfold playersStillInHandIdx
  have hred : ({ s with players := s.players.set i q } : GameState).players
      = s.players.set i q := rfl
  simp only [hred, List.length_set]
  rw [← List.countP_eq_length_filter, ← List.countP_eq_length_filter]
  have hstep := countP_le_of_imp
    (fun j => !((s.players.set i q).getD j default).disconnected &&
      !((s.players.set i q).getD j default).isFolded)
    (fun j => !(s.players.getD j default).disconnected &&
      !(s.players.getD j default).isFolded)
    (fun j => j = i)
    (List.range s.players.length)
    (by
      intro j _ hj
      by_cases hij : i = j
      · right
        show decide (j = i) = true
        simp only [decide_eq_true_eq]
        omega
      · left
        show (!((s.players.set i q).getD j default).disconnected &&
            !((s.players.set i q).getD j default).isFolded) = true
        rw [getD_set_ne s.players i j q hij]
        exact hj)
  have hcnt := countP_eq_range i s.players.length
  omega

theorem resetOthers_facts (x : GameState) (eid : String) :
    (resetOthersHasActed x eid).players.map playerProj = x.players.map playerProj ∧
    (resetOthersHasActed x eid).currentBet = x.currentBet ∧
    (resetOthersHasActed x eid).lastRaiseSize = x.lastRaiseSize ∧
    (resetOthersHasActed x eid).pot = x.pot ∧
    (resetOthersHasActed x eid).blinds = x.blinds ∧
    (resetOthersHasActed x eid).isHandComplete = x.isHandComplete ∧
    (resetOthersHasActed x eid).currentBettingRound = x.currentBettingRound := by
  refine ⟨?_, rfl, rfl, rfl, rfl, rfl, rfl⟩
  simp only [resetOthersHasActed, List.map_map]
  apply List.map_congr_left
  intro p _
  simp only [Function.comp]
  split
  · rfl
  · rfl

theorem set_money_facts (s : GameState) (i : Nat) (q : Player) (d : Int)
    (hi : i < s.players.length)
    (hPs : ∀ p ∈ s.players, playerOk p) (hqok : playerOk q)
    (htb : q.totalBet = (s.players.getD i default).totalBet + d)
    (hf : q.isFolded = (s.players.getD i default).isFolded)
    (hd : q.disconnected = (s.players.getD i default).disconnected) :
    (∀ p ∈ s.players.set i q, playerOk p) ∧
    sumTotalBet (s.players.set i q) = sumTotalBet s.players + d ∧
    playersStillInHandIdx { s with players := s.players.set i q } = playersStillInHandIdx s ∧
    (s.players.set i q).length = s.players.length := by
  refine ⟨?_, ?_, inHandIdx_set_eq s i q hf hd, by simp⟩
  · intro p hp
    rcases List.mem_or_eq_of_mem_set hp with h0 | h0
    · exact hPs p h0
    · rw [h0]
      exact hqok
  · rw [sumTotalBet_set s.players i q hi, htb]
    ring

theorem resetOthers_preserves (x : GameState) (eid : String)
    (hPs : ∀ p ∈ x.players, playerOk p) :
    (∀ p ∈ (resetOthersHasActed x eid).players, playerOk p) ∧
    (resetOthersHasActed x eid).currentBet = x.currentBet ∧
    (resetOthersHasActed x eid).lastRaiseSize = x.lastRaiseSize ∧
    (resetOthersHasActed x eid).pot - sumTotalBet (resetOthersHasActed x eid).players
      = x.pot - sumTotalBet x.players ∧
    (resetOthersHasActed x eid).blinds = x.blinds ∧
    (resetOthersHasActed x eid).isHandComplete = x.isHandComplete ∧
    (resetOthersHasActed x eid).currentBettingRound = x.currentBettingRound ∧
    playersStillInHandIdx (resetOthersHasActed x eid) = playersStillInHandIdx x ∧
    (resetOthersHasActed x eid).players.length = x.players.length := by
  obtain ⟨rf1, rf2, rf3, rf4, rf5, rf6, rf7⟩ := resetOthers_facts x eid
  have hlen : (resetOthersHasActed x eid).players.length = x.players.length := by
    have := congrArg List.length rf1
    simpa using this
  refine ⟨mem_proj_transfer _ _ rf1 hPs, rf2, rf3, ?_, rf5, rf6, rf7,
    inHandIdx_eq_of_proj _ _ rf1, hlen⟩
  rw [rf4, sumTotalBet_eq_of_proj _ _ rf1]

/-- what `executeAction` preserves for a validated action. -/
theorem executeAction_facts (s : GameState) (i : Nat) (a : PlayerAction)
    (hPs : ∀ p ∈ s.players, playerOk p)
    (hcb : 0 ≤ s.currentBet) (hlrs : 0 ≤ s.lastRaiseSize) (hbb : 0 ≤ s.blinds.big)
    (hi : i < s.players.length)
    (hv : validateAction s (s.players.getD i default) a = none) :
    (∀ p ∈ (executeAction s i a).players, playerOk p) ∧
    0 ≤ (executeAction s i a).currentBet ∧
    0 ≤ (executeAction s i a).lastRaiseSize ∧
    (executeAction s i a).pot - sumTotalBet (executeAction s i a).players
      = s.pot - sumTotalBet s.players ∧
    (executeAction s i a).blinds = s.blinds ∧
    (executeAction s i a).isHandComplete = s.isHandComplete ∧
    (executeAction s i a).currentBettingRound = s.currentBettingRound ∧
    (playersStillInHandIdx s).length ≤ (playersStillInHandIdx (executeAction s i a)).length + 1 ∧
    (executeAction s i a).players.length = s.players.length := by
  have hP := hPs _ (getD_mem s.players i hi)
  obtain ⟨hPch, hPtb, hPcb, hPcbtb⟩ := hP
  cases a with
  | fold =>
    simp only [executeAction, modifyPlayerAt]
    have hset := sumTotalBet_set s.players i
      { s.players.getD i default with isFolded := true } hi
    refine ⟨?_, hcb, hlrs, ?_, trivial, trivial, trivial, ?_, by simp⟩
    · intro p hp
      rcases List.mem_or_eq_of_mem_set hp with h0 | h0
      · exact hPs p h0
      · rw [h0]
        exact ⟨hPch, hPtb, hPcb, hPcbtb⟩
    · rw [hset]
      simp only []
      ring
    · exact inHand_length_set s i _ rfl
  | check =>
    simp only [executeAction]
    exact ⟨hPs, hcb, hlrs, trivial, trivial, trivial, trivial, by omega, trivial⟩
  | call =>
    simp only [validateAction, getCallAmount] at hv
    split at hv
    · cases hv
    · split at hv
      · cases hv
      · split at hv
        · cases hv
        · split at hv
          · cases hv
          · rename_i hnf hna hca hch2
            have hca2 : max 0 (s.currentBet - (s.players.getD i default).currentBet)
                = s.currentBet - (s.players.getD i default).currentBet := by
              rcases le_or_lt (s.currentBet - (s.players.getD i default).currentBet) 0 with h0 | h0
              · exact absurd (max_eq_left h0) hca
              · exact max_eq_right (by omega)
            have hpos : 0 < s.currentBet - (s.players.getD i default).currentBet := by
              by_contra h0
              exact hca (max_eq_left (by omega))
            rw [hca2] at hch2
            simp only [executeAction, getCallAmount, modifyPlayerAt, hca2]
            by_cases hz : (s.players.getD i default).chips -
                (s.currentBet - (s.players.getD i default).currentBet) = 0
            · simp only [if_pos hz]
              have smf := set_money_facts s i
                { id := (s.players.getD i default).id
                  name := (s.players.getD i default).name
                  chips := (s.players.getD i default).chips -
                    (s.currentBet - (s.players.getD i default).currentBet)
                  holeCards := (s.players.getD i default).holeCards
                  currentBet := s.currentBet
                  totalBet := (s.players.getD i default).totalBet +
                    (s.currentBet - (s.players.getD i default).currentBet)
                  position := (s.players.getD i default).position
                  isDealer := (s.players.getD i default).isDealer
                  isSmallBlind := (s.players.getD i default).isSmallBlind
                  isBigBlind := (s.players.getD i default).isBigBlind
                  hasActed := (s.players.getD i default).hasActed
                  isFolded := (s.players.getD i default).isFolded
                  isAllIn := true
                  isAI := (s.players.getD i default).isAI
                  disconnected := (s.players.getD i default).disconnected }
                (s.currentBet - (s.players.getD i default).currentBet) hi hPs
                (by
                  simp only [playerOk]
                  omega)
                rfl rfl rfl
              obtain ⟨m1, m2, m3, m4⟩ := smf
              refine ⟨m1, hcb, hlrs, ?_, trivial, trivial, trivial, ?_, m4⟩
              · show s.pot + (s.currentBet - (s.players.getD i default).currentBet) - _ = _
                rw [m2]
                ring
              · exact le_trans (le_of_eq (congrArg List.length m3.symm)) (Nat.le_succ _)
            · simp only [if_neg hz]
              have smf := set_money_facts s i
                { id := (s.players.getD i default).id
                  name := (s.players.getD i default).name
                  chips := (s.players.getD i default).chips -
                    (s.currentBet - (s.players.getD i default).currentBet)
                  holeCards := (s.players.getD i default).holeCards
                  currentBet := s.currentBet
                  totalBet := (s.players.getD i default).totalBet +
                    (s.currentBet - (s.players.getD i default).currentBet)
                  position := (s.players.getD i default).position
                  isDealer := (s.players.getD i default).isDealer
                  isSmallBlind := (s.players.getD i default).isSmallBlind
                  isBigBlind := (s.players.getD i default).isBigBlind
                  hasActed := (s.players.getD i default).hasActed
                  isFolded := (s.players.getD i default).isFolded
                  isAllIn := (s.players.getD i default).isAllIn
                  isAI := (s.players.getD i default).isAI
                  disconnected := (s.players.getD i default).disconnected }
                (s.currentBet - (s.players.getD i default).currentBet) hi hPs
                (by
                  simp only [playerOk]
                  omega)
                rfl rfl rfl
              obtain ⟨m1, m2, m3, m4⟩ := smf
              refine ⟨m1, hcb, hlrs, ?_, trivial, trivial, trivial, ?_, m4⟩
              · show s.pot + (s.currentBet - (s.players.getD i default).currentBet) - _ = _
                rw [m2]
                ring
              · exact le_trans (le_of_eq (congrArg List.length m3.symm)) (Nat.le_succ _)
  | bet amount =>
    simp only [validateAction] at hv
    split at hv
    · cases hv
    · split at hv
      · cases hv
      · split at hv
        · cases hv
        · split at hv
          · cases hv
          · split at hv
            · cases hv
            · rename_i hnf hna hncb hminb hch2
              simp only [executeAction, modifyPlayerAt]
              by_cases hz : (s.players.getD i default).chips -
                  (amount - (s.players.getD i default).currentBet) = 0
              · simp only [if_pos hz]
                have smf := set_money_facts s i
                  { id := (s.players.getD i default).id
                    name := (s.players.getD i default).name
                    chips := (s.players.getD i default).chips - (amount - (s.players.getD i default).currentBet)
                    holeCards := (s.players.getD i default).holeCards
                    currentBet := amount
                    totalBet := (s.players.getD i default).totalBet + (amount - (s.players.getD i default).currentBet)
                    position := (s.players.getD i default).position
                    isDealer := (s.players.getD i default).isDealer
                    isSmallBlind := (s.players.getD i default).isSmallBlind
                    isBigBlind := (s.players.getD i default).isBigBlind
                    hasActed := (s.players.getD i default).hasActed
                    isFolded := (s.players.getD i default).isFolded
                    isAllIn := true
                    isAI := (s.players.getD i default).isAI
                    disconnected := (s.players.getD i default).disconnected }
                  (amount - (s.players.getD i default).currentBet) hi hPs
                  (by
                    simp only [playerOk]
                    omega)
                  rfl rfl rfl
                obtain ⟨m1, m2, m3, m4⟩ := smf
                refine ⟨?_, ?_, ?_, ?_, ?_, ?_, ?_, ?_, ?_⟩
                · exact (resetOthers_preserves _ _ (by exact m1)).1
                · rw [(resetOthers_preserves _ _ (by exact m1)).2.1]
                  show (0 : Int) ≤ amount
                  omega
                · rw [(resetOthers_preserves _ _ (by exact m1)).2.2.1]
                  show (0 : Int) ≤ amount
                  omega
                · refine ((resetOthers_preserves _ _ (by exact m1)).2.2.2.1).trans ?_
                  show s.pot + (amount - (s.players.getD i default).currentBet) - sumTotalBet _ = s.pot - sumTotalBet s.players
                  rw [m2]
                  ring
                · exact (resetOthers_preserves _ _ (by exact m1)).2.2.2.2.1
                · exact (resetOthers_preserves _ _ (by exact m1)).2.2.2.2.2.1
                · exact (resetOthers_preserves _ _ (by exact m1)).2.2.2.2.2.2.1
                · exact le_trans (le_of_eq (congrArg List.length (m3.symm.trans
                    ((resetOthers_preserves _ _ (by exact m1)).2.2.2.2.2.2.2.1).symm)))
                    (Nat.le_succ _)
                · exact ((resetOthers_preserves _ _ (by exact m1)).2.2.2.2.2.2.2.2).trans m4
              · simp only [if_neg hz]
                have smf := set_money_facts s i
                  { id := (s.players.getD i default).id
                    name := (s.players.getD i default).name
                    chips := (s.players.getD i default).chips - (amount - (s.players.getD i default).currentBet)
                    holeCards := (s.players.getD i default).holeCards
                    currentBet := amount
                    totalBet := (s.players.getD i default).totalBet + (amount - (s.players.getD i default).currentBet)
                    position := (s.players.getD i default).position
                    isDealer := (s.players.getD i default).isDealer
                    isSmallBlind := (s.players.getD i default).isSmallBlind
                    isBigBlind := (s.players.getD i default).isBigBlind
                    hasActed := (s.players.getD i default).hasActed
                    isFolded := (s.players.getD i default).isFolded
                    isAllIn := (s.players.getD i default).isAllIn
                    isAI := (s.players.getD i default).isAI
                    disconnected := (s.players.getD i default).disconnected }
                  (amount - (s.players.getD i default).currentBet) hi hPs
                  (by
                    simp only [playerOk]
                    omega)
                  rfl rfl rfl
                obtain ⟨m1, m2, m3, m4⟩ := smf
                refine ⟨?_, ?_, ?_, ?_, ?_, ?_, ?_, ?_, ?_⟩
                · exact (resetOthers_preserves _ _ (by exact m1)).1
                · rw [(resetOthers_preserves _ _ (by exact m1)).2.1]
                  show (0 : Int) ≤ amount
                  omega
                · rw [(resetOthers_preserves _ _ (by exact m1)).2.2.1]
                  show (0 : Int) ≤ amount
                  omega
                · refine ((resetOthers_preserves _ _ (by exact m1)).2.2.2.1).trans ?_
                  show s.pot + (amount - (s.players.getD i default).currentBet) - sumTotalBet _ = s.pot - sumTotalBet s.players
                  rw [m2]
                  ring
                · exact (resetOthers_preserves _ _ (by exact m1)).2.2.2.2.1
                · exact (resetOthers_preserves _ _ (by exact m1)).2.2.2.2.2.1
                · exact (resetOthers_preserves _ _ (by exact m1)).2.2.2.2.2.2.1
                · exact le_trans (le_of_eq (congrArg List.length (m3.symm.trans
                    ((resetOthers_preserves _ _ (by exact m1)).2.2.2.2.2.2.2.1).symm)))
                    (Nat.le_succ _)
                · exact ((resetOthers_preserves _ _ (by exact m1)).2.2.2.2.2.2.2.2).trans m4
  | raise amount =>
    simp only [validateAction] at hv
    split at hv
    · cases hv
    · split at hv
      · cases hv
      · split at hv
        · cases hv
        · split at hv
          · cases hv
          · split at hv
            · cases hv
            · rename_i hnf hna hcbne hmin hch2
              simp only [executeAction, modifyPlayerAt]
              by_cases hz : (s.players.getD i default).chips -
                  (amount - (s.players.getD i default).currentBet) = 0
              · simp only [if_pos hz]
                have smf := set_money_facts s i
                  { id := (s.players.getD i default).id
                    name := (s.players.getD i default).name
                    chips := (s.players.getD i default).chips - (amount - (s.players.getD i default).currentBet)
                    holeCards := (s.players.getD i default).holeCards
                    currentBet := amount
                    totalBet := (s.players.getD i default).totalBet + (amount - (s.players.getD i default).currentBet)
                    position := (s.players.getD i default).position
                    isDealer := (s.players.getD i default).isDealer
                    isSmallBlind := (s.players.getD i default).isSmallBlind
                    isBigBlind := (s.players.getD i default).isBigBlind
                    hasActed := (s.players.getD i default).hasActed
                    isFolded := (s.players.getD i default).isFolded
                    isAllIn := true
                    isAI := (s.players.getD i default).isAI
                    disconnected := (s.players.getD i default).disconnected }
                  (amount - (s.players.getD i default).currentBet) hi hPs
                  (by
                    simp only [playerOk]
                    omega)
                  rfl rfl rfl
                obtain ⟨m1, m2, m3, m4⟩ := smf
                refine ⟨?_, ?_, ?_, ?_, ?_, ?_, ?_, ?_, ?_⟩
                · exact (resetOthers_preserves _ _ (by exact m1)).1
                · rw [(resetOthers_preserves _ _ (by exact m1)).2.1]
                  show (0 : Int) ≤ amount
                  omega
                · rw [(resetOthers_preserves _ _ (by exact m1)).2.2.1]
                  show (0 : Int) ≤ amount - s.currentBet
                  omega
                · refine ((resetOthers_preserves _ _ (by exact m1)).2.2.2.1).trans ?_
                  show s.pot + (amount - (s.players.getD i default).currentBet) - sumTotalBet _ = s.pot - sumTotalBet s.players
                  rw [m2]
                  ring
                · exact (resetOthers_preserves _ _ (by exact m1)).2.2.2.2.1
                · exact (resetOthers_preserves _ _ (by exact m1)).2.2.2.2.2.1
                · exact (resetOthers_preserves _ _ (by exact m1)).2.2.2.2.2.2.1
                · exact le_trans (le_of_eq (congrArg List.length (m3.symm.trans
                    ((resetOthers_preserves _ _ (by exact m1)).2.2.2.2.2.2.2.1).symm)))
                    (Nat.le_succ _)
                · exact ((resetOthers_preserves _ _ (by exact m1)).2.2.2.2.2.2.2.2).trans m4
              · simp only [if_neg hz]
                have smf := set_money_facts s i
                  { id := (s.players.getD i default).id
                    name := (s.players.getD i default).name
                    chips := (s.players.getD i default).chips - (amount - (s.players.getD i default).currentBet)
                    holeCards := (s.players.getD i default).holeCards
                    currentBet := amount
                    totalBet := (s.players.getD i default).totalBet + (amount - (s.players.getD i default).currentBet)
                    position := (s.players.getD i default).position
                    isDealer := (s.players.getD i default).isDealer
                    isSmallBlind := (s.players.getD i default).isSmallBlind
                    isBigBlind := (s.players.getD i default).isBigBlind
                    hasActed := (s.players.getD i default).hasActed
                    isFolded := (s.players.getD i default).isFolded
                    isAllIn := (s.players.getD i default).isAllIn
                    isAI := (s.players.getD i default).isAI
                    disconnected := (s.players.getD i default).disconnected }
                  (amount - (s.players.getD i default).currentBet) hi hPs
                  (by
                    simp only [playerOk]
                    omega)
                  rfl rfl rfl
                obtain ⟨m1, m2, m3, m4⟩ := smf
                refine ⟨?_, ?_, ?_, ?_, ?_, ?_, ?_, ?_, ?_⟩
                · exact (resetOthers_preserves _ _ (by exact m1)).1
                · rw [(resetOthers_preserves _ _ (by exact m1)).2.1]
                  show (0 : Int) ≤ amount
                  omega
                · rw [(resetOthers_preserves _ _ (by exact m1)).2.2.1]
                  show (0 : Int) ≤ amount - s.currentBet
                  omega
                · refine ((resetOthers_preserves _ _ (by exact m1)).2.2.2.1).trans ?_
                  show s.pot + (amount - (s.players.getD i default).currentBet) - sumTotalBet _ = s.pot - sumTotalBet s.players
                  rw [m2]
                  ring
                · exact (resetOthers_preserves _ _ (by exact m1)).2.2.2.2.1
                · exact (resetOthers_preserves _ _ (by exact m1)).2.2.2.2.2.1
                · exact (resetOthers_preserves _ _ (by exact m1)).2.2.2.2.2.2.1
                · exact le_trans (le_of_eq (congrArg List.length (m3.symm.trans
                    ((resetOthers_preserves _ _ (by exact m1)).2.2.2.2.2.2.2.1).symm)))
                    (Nat.le_succ _)
                · exact ((resetOthers_preserves _ _ (by exact m1)).2.2.2.2.2.2.2.2).trans m4
  | allin amount =>
    simp only [validateAction] at hv
    split at hv
    · cases hv
    · split at hv
      · cases hv
      · split at hv
        · cases hv
        · rename_i hnf hna hch0
          simp only [executeAction, modifyPlayerAt]
          have smf := set_money_facts s i
            { id := (s.players.getD i default).id
              name := (s.players.getD i default).name
              chips := 0
              holeCards := (s.players.getD i default).holeCards
              currentBet := (s.players.getD i default).currentBet + (s.players.getD i default).chips
              totalBet := (s.players.getD i default).totalBet + (s.players.getD i default).chips
              position := (s.players.getD i default).position
              isDealer := (s.players.getD i default).isDealer
              isSmallBlind := (s.players.getD i default).isSmallBlind
              isBigBlind := (s.players.getD i default).isBigBlind
              hasActed := (s.players.getD i default).hasActed
              isFolded := (s.players.getD i default).isFolded
              isAllIn := true
              isAI := (s.players.getD i default).isAI
              disconnected := (s.players.getD i default).disconnected }
            ((s.players.getD i default).chips) hi hPs
            (by
              simp only [playerOk]
              omega)
            rfl rfl rfl
          obtain ⟨m1, m2, m3, m4⟩ := smf
          by_cases hlt : s.currentBet < (s.players.getD i default).currentBet +
              (s.players.getD i default).chips
          · simp only [if_pos hlt]
            by_cases hlr : s.lastRaiseSize ≤ (s.players.getD i default).currentBet +
                (s.players.getD i default).chips - s.currentBet
            · simp only [if_pos hlr]
              refine ⟨?_, ?_, ?_, ?_, ?_, ?_, ?_, ?_, ?_⟩
              · exact (resetOthers_preserves _ _ (by exact m1)).1
              · rw [(resetOthers_preserves _ _ (by exact m1)).2.1]
                show (0 : Int) ≤ (s.players.getD i default).currentBet + (s.players.getD i default).chips
                omega
              · rw [(resetOthers_preserves _ _ (by exact m1)).2.2.1]
                show (0 : Int) ≤ (s.players.getD i default).currentBet + (s.players.getD i default).chips - s.currentBet
                omega
              · refine ((resetOthers_preserves _ _ (by exact m1)).2.2.2.1).trans ?_
                show s.pot + ((s.players.getD i default).chips) - sumTotalBet _ = s.pot - sumTotalBet s.players
                rw [m2]
                ring
              · exact (resetOthers_preserves _ _ (by exact m1)).2.2.2.2.1
              · exact (resetOthers_preserves _ _ (by exact m1)).2.2.2.2.2.1
              · exact (resetOthers_preserves _ _ (by exact m1)).2.2.2.2.2.2.1
              · exact le_trans (le_of_eq (congrArg List.length (m3.symm.trans
                  ((resetOthers_preserves _ _ (by exact m1)).2.2.2.2.2.2.2.1).symm)))
                  (Nat.le_succ _)
              · exact ((resetOthers_preserves _ _ (by exact m1)).2.2.2.2.2.2.2.2).trans m4
            · simp only [if_neg hlr]
              refine ⟨?_, ?_, ?_, ?_, ?_, ?_, ?_, ?_, ?_⟩
              · exact (resetOthers_preserves _ _ (by exact m1)).1
              · rw [(resetOthers_preserves _ _ (by exact m1)).2.1]
                show (0 : Int) ≤ (s.players.getD i default).currentBet + (s.players.getD i default).chips
                omega
              · rw [(resetOthers_preserves _ _ (by exact m1)).2.2.1]
                show (0 : Int) ≤ s.lastRaiseSize
                omega
              · refine ((resetOthers_preserves _ _ (by exact m1)).2.2.2.1).trans ?_
                show s.pot + ((s.players.getD i default).chips) - sumTotalBet _ = s.pot - sumTotalBet s.players
                rw [m2]
                ring
              · exact (resetOthers_preserves _ _ (by exact m1)).2.2.2.2.1
              · exact (resetOthers_preserves _ _ (by exact m1)).2.2.2.2.2.1
              · exact (resetOthers_preserves _ _ (by exact m1)).2.2.2.2.2.2.1
              · exact le_trans (le_of_eq (congrArg List.length (m3.symm.trans
                  ((resetOthers_preserves _ _ (by exact m1)).2.2.2.2.2.2.2.1).symm)))
                  (Nat.le_succ _)
              · exact ((resetOthers_preserves _ _ (by exact m1)).2.2.2.2.2.2.2.2).trans m4
          · simp only [if_neg hlt]
            refine ⟨?_, ?_, ?_, ?_, ?_, ?_, ?_, ?_, ?_⟩
            · exact m1
            · exact hcb
            · exact hlrs
            · show s.pot + ((s.players.getD i default).chips) - sumTotalBet _ = s.pot - sumTotalBet s.players
              rw [m2]
              ring
            · trivial
            · trivial
            · trivial
            · exact le_trans (le_of_eq (congrArg List.length m3.symm)) (Nat.le_succ _)
            · exact m4

theorem execPhase_facts (s s₁ : GameState) (pid : String) (a : PlayerAction)
    (hPs : ∀ p ∈ s.players, playerOk p)
    (hcb : 0 ≤ s.currentBet) (hlrs : 0 ≤ s.lastRaiseSize) (hbb : 0 ≤ s.blinds.big)
    (h : execPhase s pid a = .ok s₁) :
    (∀ p ∈ s₁.players, playerOk p) ∧
    0 ≤ s₁.currentBet ∧ 0 ≤ s₁.lastRaiseSize ∧
    s₁.pot - sumTotalBet s₁.players = s.pot - sumTotalBet s.players ∧
    s₁.blinds = s.blinds ∧ s₁.isHandComplete = s.isHandComplete ∧
    s₁.currentBettingRound = s.currentBettingRound ∧
    (playersStillInHandIdx s).length ≤ (playersStillInHandIdx s₁).length + 1 ∧
    s₁.players.length = s.players.length := by
  simp only [execPhase] at h
  split at h
  · cases h
  · rename_i i hFI
    obtain ⟨_, _, hidx⟩ := find?_some_of_findIdx? _ s.players i hFI
    split at h
    · cases h
    · split at h
      · cases h
      · rename_i hv
        cases h
        obtain ⟨e1, e2, e3, e4, e5, e6, e7, e8, e9⟩ :=
          executeAction_facts s i a hPs hcb hlrs hbb hidx hv
        have hmap : (modifyPlayerAt { executeAction s i a with lastAction := some a } i
            (fun p => { p with hasActed := true })).players.map playerProj
            = (executeAction s i a).players.map playerProj := by
          simp only [modifyPlayerAt]
          exact map_set_invariant _ _ _ _ rfl
        refine ⟨mem_proj_transfer _ _ hmap e1, e2, e3, ?_, e5, e6, e7, ?_, ?_⟩
        · rw [sumTotalBet_eq_of_proj _ _ hmap]
          exact e4
        · have hih := inHandIdx_eq_of_proj
            (modifyPlayerAt { executeAction s i a with lastAction := some a } i
              (fun p => { p with hasActed := true }))
            (executeAction s i a) hmap
          rw [hih]
          exact e8
        · have := congrArg List.length hmap
          simp only [List.length_map] at this
          rw [this]
          exact e9

/-- numeric index of a betting round, for the fast-forward fuel argument. -/
def roundIdx : BettingRound → Nat
  | .preflop => 0
  | .flop => 1
  | .turn => 2
  | .river => 3
  | .showdown => 4

theorem inHandIdx_congr (x y : GameState) (h : x.players = y.players) :
    playersStillInHandIdx x = playersStillInHandIdx y := by
  unfold playersStillInHandIdx
  simp only [h]

theorem dealFlop_facts (x y : GameState) (h : dealFlop x = .ok y) :
    y.players = x.players ∧ y.pot = x.pot ∧ y.currentBet = x.currentBet ∧
    y.lastRaiseSize = x.lastRaiseSize ∧ y.blinds = x.blinds ∧
    y.isHandComplete = x.isHandComplete ∧ y.currentBettingRound = x.currentBettingRound := by
  simp only [dealFlop] at h
  split at h
  · cases h
  · split at h
    · cases h
    · cases h
      exact ⟨rfl, rfl, rfl, rfl, rfl, rfl, rfl⟩

theorem dealTurn_facts (x y : GameState) (h : dealTurn x = .ok y) :
    y.players = x.players ∧ y.pot = x.pot ∧ y.currentBet = x.currentBet ∧
    y.lastRaiseSize = x.lastRaiseSize ∧ y.blinds = x.blinds ∧
    y.isHandComplete = x.isHandComplete ∧ y.currentBettingRound = x.currentBettingRound := by
  simp only [dealTurn] at h
  split at h
  · cases h
  · split at h
    · cases h
    · cases h
      exact ⟨rfl, rfl, rfl, rfl, rfl, rfl, rfl⟩

theorem dealRiver_facts (x y : GameState) (h : dealRiver x = .ok y) :
    y.players = x.players ∧ y.pot = x.pot ∧ y.currentBet = x.currentBet ∧
    y.lastRaiseSize = x.lastRaiseSize ∧ y.blinds = x.blinds ∧
    y.isHandComplete = x.isHandComplete ∧ y.currentBettingRound = x.currentBettingRound := by
  simp only [dealRiver] at h
  split at h
  · cases h
  · split at h
    · cases h
    · cases h
      exact ⟨rfl, rfl, rfl, rfl, rfl, rfl, rfl⟩

theorem setFPPF_fields (x : GameState) :
    (setFirstPlayerPostFlop x).players = x.players ∧
    (setFirstPlayerPostFlop x).pot = x.pot ∧
    (setFirstPlayerPostFlop x).currentBet = x.currentBet ∧
    (setFirstPlayerPostFlop x).lastRaiseSize = x.lastRaiseSize ∧
    (setFirstPlayerPostFlop x).blinds = x.blinds ∧
    (setFirstPlayerPostFlop x).isHandComplete = x.isHandComplete ∧
    (setFirstPlayerPostFlop x).currentBettingRound = x.currentBettingRound ∧
    playersStillInHandIdx (setFirstPlayerPostFlop x) = playersStillInHandIdx x := by
  simp only [setFirstPlayerPostFlop]
  split
  · exact ⟨rfl, rfl, rfl, rfl, rfl, rfl, rfl, rfl⟩
  · exact ⟨rfl, rfl, rfl, rfl, rfl, rfl, rfl, rfl⟩

theorem resetRound_facts (s : GameState) (hPs : ∀ p ∈ s.players, playerOk p) :
    (∀ p ∈ s.players.map (fun p => { p with hasActed := false, currentBet := (0 : Int) }),
      playerOk p) ∧
    sumChips (s.players.map (fun p => { p with hasActed := false, currentBet := (0 : Int) }))
      = sumChips s.players ∧
    sumTotalBet (s.players.map (fun p => { p with hasActed := false, currentBet := (0 : Int) }))
      = sumTotalBet s.players ∧
    playersStillInHandIdx { s with
      players := s.players.map (fun p => { p with hasActed := false, currentBet := (0 : Int) }) }
      = playersStillInHandIdx s := by
  refine ⟨?_, ?_, ?_, ?_⟩
  · intro p hp
    rcases List.mem_map.mp hp with ⟨p0, hp0, hpe⟩
    obtain ⟨h1, h2, _, _⟩ := hPs p0 hp0
    rw [← hpe]
    exact ⟨h1, h2, le_refl 0, h2⟩
  · simp only [sumChips, List.map_map]
    rfl
  · simp only [sumTotalBet, List.map_map]
    rfl
  · unfold playersStillInHandIdx
    have hred : ({ s with
        players := s.players.map (fun p => { p with hasActed := false, currentBet := (0 : Int) }) } : GameState).players
        = s.players.map (fun p => { p with hasActed := false, currentBet := (0 : Int) }) := rfl
    simp only [hred, List.length_map]
    apply List.filter_congr
    intro j hj
    have hjlt : j < s.players.length := List.mem_range.mp hj
    have hget : (s.players.map
        (fun p => { p with hasActed := false, currentBet := (0 : Int) })).getD j default
        = (fun p => { p with hasActed := false, currentBet := (0 : Int) })
          (s.players.getD j default) := by
      rw [List.getD_eq_getElem _ _ (by simpa using hjlt), List.getElem_map,
        List.getD_eq_getElem _ _ hjlt]
    show (!((s.players.map
        (fun p : Player => { p with hasActed := false, currentBet := (0 : Int) })).getD j default).disconnected &&
        !((s.players.map
        (fun p : Player => { p with hasActed := false, currentBet := (0 : Int) })).getD j default).isFolded) = _
    rw [hget]

theorem advanceBettingRound_facts (s t : GameState)
    (hPs : ∀ p ∈ s.players, playerOk p)
    (hpot : s.pot = sumTotalBet s.players)
    (hinh : playersStillInHandIdx s ≠ [])
    (h : advanceBettingRound s = .ok t) :
    (s.currentBettingRound = .river ∧ t.isHandComplete = true ∧
      sumChips t.players = sumChips s.players + s.pot ∧ ∀ p ∈ t.players, 0 ≤ p.chips) ∨
    (s.currentBettingRound ≠ .river ∧
      (∀ p ∈ t.players, playerOk p) ∧
      sumChips t.players = sumChips s.players ∧
      sumTotalBet t.players = sumTotalBet s.players ∧
      t.pot = s.pot ∧ t.blinds = s.blinds ∧
      t.currentBet = 0 ∧ t.lastRaiseSize = s.lastRaiseSize ∧
      t.isHandComplete = s.isHandComplete ∧
      playersStillInHandIdx t = playersStillInHandIdx s ∧
      (s.currentBettingRound ≠ .showdown →
        roundIdx t.currentBettingRound = roundIdx s.currentBettingRound + 1)) := by
  obtain ⟨r1, r2, r3, r4⟩ := resetRound_facts s hPs
  simp only [advanceBettingRound] at h
  split at h
  · rename_i hr
    simp only [bind, Except.bind] at h
    split at h
    · cases h
    · rename_i s3 hDeal
      cases h
      have hd := dealFlop_facts _ s3 hDeal
      have hf := setFPPF_fields { s3 with
        currentBettingRound := BettingRound.flop
        currentBet := 0 }
      have hpl : (setFirstPlayerPostFlop { s3 with
          currentBettingRound := BettingRound.flop
          currentBet := 0 }).players
          = s.players.map (fun p => { p with hasActed := false, currentBet := (0 : Int) }) :=
        (hf.1).trans hd.1
      refine Or.inr ⟨(by simp [hr] : s.currentBettingRound ≠ BettingRound.river), ?_, ?_, ?_, ?_, ?_, ?_, ?_, ?_, ?_, ?_⟩
      · intro p hp
        rw [hpl] at hp
        exact r1 p hp
      · exact (congrArg (fun l => sumChips l) hpl).trans r2
      · exact (congrArg (fun l => sumTotalBet l) hpl).trans r3
      · exact (hf.2.1).trans hd.2.1
      · exact (hf.2.2.2.2.1).trans hd.2.2.2.2.1
      · exact hf.2.2.1
      · exact (hf.2.2.2.1).trans hd.2.2.2.1
      · exact (hf.2.2.2.2.2.1).trans hd.2.2.2.2.2.1
      · refine (hf.2.2.2.2.2.2.2).trans ?_
        refine (inHandIdx_congr _ _ hd.1).trans ?_
        exact r4
      · intro _
        rw [hr]
        exact congrArg (fun r => roundIdx r) (hf.2.2.2.2.2.2.1)
  · rename_i hr
    simp only [bind, Except.bind] at h
    split at h
    · cases h
    · rename_i s3 hDeal
      cases h
      have hd := dealTurn_facts _ s3 hDeal
      have hf := setFPPF_fields { s3 with
        currentBettingRound := BettingRound.turn
        currentBet := 0 }
      have hpl : (setFirstPlayerPostFlop { s3 with
          currentBettingRound := BettingRound.turn
          currentBet := 0 }).players
          = s.players.map (fun p => { p with hasActed := false, currentBet := (0 : Int) }) :=
        (hf.1).trans hd.1
      refine Or.inr ⟨(by simp [hr] : s.currentBettingRound ≠ BettingRound.river), ?_, ?_, ?_, ?_, ?_, ?_, ?_, ?_, ?_, ?_⟩
      · intro p hp
        rw [hpl] at hp
        exact r1 p hp
      · exact (congrArg (fun l => sumChips l) hpl).trans r2
      · exact (congrArg (fun l => sumTotalBet l) hpl).trans r3
      · exact (hf.2.1).trans hd.2.1
      · exact (hf.2.2.2.2.1).trans hd.2.2.2.2.1
      · exact hf.2.2.1
      · exact (hf.2.2.2.1).trans hd.2.2.2.1
      · exact (hf.2.2.2.2.2.1).trans hd.2.2.2.2.2.1
      · refine (hf.2.2.2.2.2.2.2).trans ?_
        refine (inHandIdx_congr _ _ hd.1).trans ?_
        exact r4
      · intro _
        rw [hr]
        exact congrArg (fun r => roundIdx r) (hf.2.2.2.2.2.2.1)
  · rename_i hr
    simp only [bind, Except.bind] at h
    split at h
    · cases h
    · rename_i s3 hDeal
      cases h
      have hd := dealRiver_facts _ s3 hDeal
      have hf := setFPPF_fields { s3 with
        currentBettingRound := BettingRound.river
        currentBet := 0 }
      have hpl : (setFirstPlayerPostFlop { s3 with
          currentBettingRound := BettingRound.river
          currentBet := 0 }).players
          = s.players.map (fun p => { p with hasActed := false, currentBet := (0 : Int) }) :=
        (hf.1).trans hd.1
      refine Or.inr ⟨(by simp [hr] : s.currentBettingRound ≠ BettingRound.river), ?_, ?_, ?_, ?_, ?_, ?_, ?_, ?_, ?_, ?_⟩
      · intro p hp
        rw [hpl] at hp
        exact r1 p hp
      · exact (congrArg (fun l => sumChips l) hpl).trans r2
      · exact (congrArg (fun l => sumTotalBet l) hpl).trans r3
      · exact (hf.2.1).trans hd.2.1
      · exact (hf.2.2.2.2.1).trans hd.2.2.2.2.1
      · exact hf.2.2.1
      · exact (hf.2.2.2.1).trans hd.2.2.2.1
      · exact (hf.2.2.2.2.2.1).trans hd.2.2.2.2.2.1
      · refine (hf.2.2.2.2.2.2.2).trans ?_
        refine (inHandIdx_congr _ _ hd.1).trans ?_
        exact r4
      · intro _
        rw [hr]
        exact congrArg (fun r => roundIdx r) (hf.2.2.2.2.2.2.1)
  · rename_i hr
    -- river: settle the hand
    left
    have hch2 : ∀ p ∈ ({ s with
        players := s.players.map (fun p => { p with hasActed := false, currentBet := (0 : Int) })
        currentBettingRound := BettingRound.showdown } : GameState).players, 0 ≤ p.chips := by
      intro p hp
      exact (r1 p hp).1
    have htb2 : ∀ p ∈ ({ s with
        players := s.players.map (fun p => { p with hasActed := false, currentBet := (0 : Int) })
        currentBettingRound := BettingRound.showdown } : GameState).players, 0 ≤ p.totalBet := by
      intro p hp
      exact (r1 p hp).2.1
    have hcs := completeHand_spec { s with
        players := s.players.map (fun p => { p with hasActed := false, currentBet := (0 : Int) })
        currentBettingRound := BettingRound.showdown } t hch2 htb2
      (by
        show s.pot = sumTotalBet (s.players.map
          (fun p => { p with hasActed := false, currentBet := (0 : Int) }))
        rw [r3]
        exact hpot)
      (by
        have : playersStillInHandIdx ({ s with
            players := s.players.map (fun p => { p with hasActed := false, currentBet := (0 : Int) })
            currentBettingRound := BettingRound.showdown } : GameState)
            = playersStillInHandIdx s := r4
        rw [this]
        exact hinh)
      h
    obtain ⟨c1, c2, c3⟩ := hcs
    refine ⟨hr, c3, ?_, c2⟩
    rw [c1]
    show sumChips (s.players.map (fun p => { p with hasActed := false, currentBet := (0 : Int) }))
      + s.pot = sumChips s.players + s.pot
    rw [r2]
  · rename_i hr
    -- showdown: only the reset and seat assignment run
    cases h
    have hf := setFPPF_fields { s with
      players := s.players.map (fun p => { p with hasActed := false, currentBet := (0 : Int) })
      currentBet := 0 }
    have hpl : (setFirstPlayerPostFlop { s with
        players := s.players.map (fun p => { p with hasActed := false, currentBet := (0 : Int) })
        currentBet := 0 }).players
        = s.players.map (fun p => { p with hasActed := false, currentBet := (0 : Int) }) := hf.1
    refine Or.inr ⟨(by simp [hr] : s.currentBettingRound ≠ BettingRound.river), ?_, ?_, ?_, ?_, ?_, ?_, ?_, ?_, ?_, ?_⟩
    · intro p hp
      rw [hpl] at hp
      exact r1 p hp
    · exact (congrArg (fun l => sumChips l) hpl).trans r2
    · exact (congrArg (fun l => sumTotalBet l) hpl).trans r3
    · exact hf.2.1
    · exact hf.2.2.2.2.1
    · exact hf.2.2.1
    · exact hf.2.2.2.1
    · exact hf.2.2.2.2.2.1
    · exact (hf.2.2.2.2.2.2.2).trans r4
    · intro hcon
      exact absurd hr hcon

theorem ffl_complete : ∀ (fuel : Nat) (t r : GameState), t.isHandComplete = true →
    fastForwardLoop fuel t = .ok r → r = t
  | 0, t, r, _, h => by
    cases h
    rfl
  | fuel + 1, t, r, ht, h => by
    simp only [fastForwardLoop, ht, Bool.not_true, Bool.false_and, Bool.false_eq_true,
      if_neg, not_false_eq_true, reduceCtorEq] at h
    cases h
    rfl

theorem ffl_spec : ∀ (fuel : Nat) (s r : GameState),
    (∀ p ∈ s.players, playerOk p) →
    s.pot = sumTotalBet s.players →
    playersStillInHandIdx s ≠ [] →
    4 ≤ fuel + roundIdx s.currentBettingRound →
    fastForwardLoop fuel s = .ok r →
    (s.isHandComplete = true ∧ r = s) ∨
    (r.isHandComplete = true ∧ sumChips r.players = sumChips s.players + s.pot ∧
      ∀ p ∈ r.players, 0 ≤ p.chips) ∨
    (r.isHandComplete = s.isHandComplete ∧ r.currentBettingRound = BettingRound.showdown ∧
      sumChips r.players = sumChips s.players ∧ r.pot = s.pot ∧
      sumTotalBet r.players = sumTotalBet s.players ∧
      (∀ p ∈ r.players, playerOk p) ∧
      playersStillInHandIdx r ≠ [])
  | 0, s, r, hPs, hpot, hinh, hfuel, h => by
    cases h
    have hsd : s.currentBettingRound = BettingRound.showdown := by
      cases hr : s.currentBettingRound <;> rw [hr] at hfuel <;>
        simp [roundIdx] at hfuel <;> try rfl
    by_cases hc : s.isHandComplete = true
    · exact Or.inl ⟨hc, rfl⟩
    · refine Or.inr (Or.inr ⟨rfl, hsd, rfl, rfl, rfl, hPs, hinh⟩)
  | fuel + 1, s, r, hPs, hpot, hinh, hfuel, h => by
    by_cases hg : (!s.isHandComplete && s.currentBettingRound != BettingRound.showdown) = true
    · rw [fastForwardLoop, if_pos hg] at h
      simp only [Bool.and_eq_true, Bool.not_eq_true', bne_iff_ne] at hg
      obtain ⟨hginc, hgsd⟩ := hg
      simp only [bind, Except.bind] at h
      split at h
      · cases h
      · rename_i t hAdv
        rcases advanceBettingRound_facts s t hPs hpot hinh hAdv with
          ⟨hriver, htc, hsum, hch⟩ | ⟨hnr, a1, a2, a3, a4, a5, a6, a7, a8, a9, a10⟩
        · have hrt := ffl_complete fuel t r htc h
          subst hrt
          exact Or.inr (Or.inl ⟨htc, hsum, hch⟩)
        · have hidx := a10 hgsd
          have ih := ffl_spec fuel t r a1
            (by rw [a4, a3]; exact hpot)
            (by rw [a9]; exact hinh)
            (by omega)
            h
          rcases ih with ⟨htc, _⟩ | ⟨i1, i2, i3⟩ | ⟨i1, i2, i3, i4, i5, i6, i7⟩
          · rw [a8, hginc] at htc
            cases htc
          · refine Or.inr (Or.inl ⟨i1, ?_, i3⟩)
            rw [i2, a2, a4]
          · refine Or.inr (Or.inr ⟨?_, i2, ?_, ?_, ?_, i6, i7⟩)
            · rw [i1, a8]
            · rw [i3, a2]
            · rw [i4, a4]
            · rw [i5, a3]
    · rw [fastForwardLoop, if_neg hg] at h
      cases h
      simp only [Bool.and_eq_true, Bool.not_eq_true', bne_iff_ne, not_and] at hg
      by_cases hc : s.isHandComplete = true
      · exact Or.inl ⟨hc, rfl⟩
      · have hsd : s.currentBettingRound = BettingRound.showdown := by
          have h2 := hg (by
            cases hcc : s.isHandComplete
            · rfl
            · exact absurd hcc hc)
          by_contra hcon
          exact h2 hcon
        exact Or.inr (Or.inr ⟨rfl, hsd, rfl, rfl, rfl, hPs, hinh⟩)

theorem fastForward_spec (s r : GameState)
    (hPs : ∀ p ∈ s.players, playerOk p)
    (hpot : s.pot = sumTotalBet s.players)
    (hinh : playersStillInHandIdx s ≠ [])
    (hinc : s.isHandComplete = false)
    (h : fastForward s = .ok r) :
    r.isHandComplete = true ∧ sumChips r.players = sumChips s.players + s.pot ∧
    ∀ p ∈ r.players, 0 ≤ p.chips := by
  simp only [fastForward, bind, Except.bind] at h
  split at h
  · cases h
  · rename_i t hLoop
    rcases ffl_spec 5 s t hPs hpot hinh (by omega) hLoop with
      ⟨hc, _⟩ | ⟨i1, i2, i3⟩ | ⟨i1, i2, i3, i4, i5, i6, i7⟩
    · rw [hinc] at hc
      cases hc
    · rw [i1] at h
      simp only [Bool.not_true, Bool.false_eq_true, if_neg, not_false_eq_true] at h
      cases h
      exact ⟨i1, i2, i3⟩
    · rw [i1, hinc] at h
      simp only [Bool.not_false, if_pos] at h
      have hch : ∀ p ∈ t.players, 0 ≤ p.chips := fun p hp => (i6 p hp).1
      have htb : ∀ p ∈ t.players, 0 ≤ p.totalBet := fun p hp => (i6 p hp).2.1
      obtain ⟨c1, c2, c3⟩ := completeHand_spec t r hch htb (by rw [i4, i5]; exact hpot) i7 h
      refine ⟨c3, ?_, c2⟩
      rw [c1, i3, i4]

/-- list-level view of `playersStillInHandIdx`. -/
def inishL (ps : List Player) : List Nat :=
  (List.range ps.length).filter (fun i =>
    !(ps.getD i default).disconnected && !(ps.getD i default).isFolded)

theorem inish_eq_inishL (s : GameState) : playersStillInHandIdx s = inishL s.players := rfl

theorem inishL_set_eq (ps : List Player) (i : Nat) (q : Player)
    (hf : q.isFolded = (ps.getD i default).isFolded)
    (hd : q.disconnected = (ps.getD i default).disconnected) :
    inishL (ps.set i q) = inishL ps := by
  unfold inishL
  simp only [List.length_set]
  apply List.filter_congr
  intro j _
  by_cases hij : i = j
  · subst hij
    by_cases hlt : i < ps.length
    · rw [getD_set_self ps i q hlt, hf, hd]
    · rw [List.set_eq_of_length_le (by omega)]
  · rw [getD_set_ne ps i j q hij]

theorem inishL_eq_active (x : GameState)
    (hfold : ∀ j, j < x.players.length → (x.players.getD j default).isFolded = false) :
    inishL x.players = activeIdxs x := by
  unfold inishL activeIdxs
  apply List.filter_congr
  intro j hj
  rw [hfold j (List.mem_range.mp hj)]
  simp

theorem sumTotalBet_zero (ps : List Player) (h : ∀ p ∈ ps, p.totalBet = 0) :
    sumTotalBet ps = 0 := by
  apply List.sum_eq_zero
  intro x hx
  rcases List.mem_map.mp hx with ⟨p, hp, hpe⟩
  rw [← hpe]
  exact h p hp

theorem activeIdxs_mem_lt (x : GameState) (j : Nat) (hj : j ∈ activeIdxs x) :
    j < x.players.length :=
  List.mem_range.mp (List.mem_filter.mp hj).1

theorem modify_members (s : GameState) (i : Nat) (f : Player → Player)
    (hPs : ∀ p ∈ s.players, playerOk p)
    (hq : playerOk (f (s.players.getD i default))) :
    ∀ p ∈ (modifyPlayerAt s i f).players, playerOk p := by
  intro p hp
  simp only [modifyPlayerAt] at hp
  rcases List.mem_or_eq_of_mem_set hp with h0 | h0
  · exact hPs p h0
  · rw [h0]
    exact hq

theorem modify_sumTB (s : GameState) (i : Nat) (f : Player → Player)
    (hi : i < s.players.length) :
    sumTotalBet (modifyPlayerAt s i f).players = sumTotalBet s.players +
      ((f (s.players.getD i default)).totalBet - (s.players.getD i default).totalBet) := by
  simp only [modifyPlayerAt]
  rw [sumTotalBet_set _ _ _ hi]
  ring

theorem modify_getD_self (s : GameState) (i : Nat) (f : Player → Player)
    (hi : i < s.players.length) :
    (modifyPlayerAt s i f).players.getD i default = f (s.players.getD i default) := by
  simp only [modifyPlayerAt]
  exact getD_set_self _ _ _ hi

theorem modify_getD_ne (s : GameState) (i j : Nat) (f : Player → Player) (hij : i ≠ j) :
    (modifyPlayerAt s i f).players.getD j default = s.players.getD j default := by
  simp only [modifyPlayerAt]
  exact getD_set_ne _ _ _ _ hij

theorem modify_length (s : GameState) (i : Nat) (f : Player → Player) :
    (modifyPlayerAt s i f).players.length = s.players.length := by
  simp only [modifyPlayerAt, List.length_set]

theorem modify_inish (s : GameState) (i : Nat) (f : Player → Player)
    (hf : (f (s.players.getD i default)).isFolded = (s.players.getD i default).isFolded)
    (hd : (f (s.players.getD i default)).disconnected
      = (s.players.getD i default).disconnected) :
    playersStillInHandIdx (modifyPlayerAt s i f) = inishL s.players := by
  rw [inish_eq_inishL]
  simp only [modifyPlayerAt]
  exact inishL_set_eq s.players i _ hf hd

theorem modify_inishL (s : GameState) (i : Nat) (f : Player → Player)
    (hf : (f (s.players.getD i default)).isFolded = (s.players.getD i default).isFolded)
    (hd : (f (s.players.getD i default)).disconnected
      = (s.players.getD i default).disconnected) :
    inishL (modifyPlayerAt s i f).players = inishL s.players := by
  simp only [modifyPlayerAt]
  exact inishL_set_eq s.players i _ hf hd

theorem modify_pot (s : GameState) (i : Nat) (f : Player → Player) :
    (modifyPlayerAt s i f).pot = s.pot := rfl

theorem allin_tb (q : Player) :
    ((fun p => ({ p with isAllIn := true } : Player)) q).totalBet = q.totalBet := rfl

theorem playerOk_sb (q : Player) (h : playerOk q) :
    playerOk { q with isSmallBlind := true } :=
  ⟨h.1, h.2.1, h.2.2.1, h.2.2.2⟩

theorem playerOk_bb (q : Player) (h : playerOk q) :
    playerOk { q with isBigBlind := true } :=
  ⟨h.1, h.2.1, h.2.2.1, h.2.2.2⟩

theorem playerOk_allin (q : Player) (h : playerOk q) :
    playerOk { q with isAllIn := true } :=
  ⟨h.1, h.2.1, h.2.2.1, h.2.2.2⟩

theorem postBlinds_inv (x t : GameState)
    (hch : ∀ p ∈ x.players, 0 ≤ p.chips ∧ p.totalBet = 0 ∧ p.currentBet = 0 ∧ p.isFolded = false)
    (hpot : x.pot = 0)
    (hbs : 0 ≤ x.blinds.small) (hbb : 0 ≤ x.blinds.big)
    (h : postBlinds x = .ok t) :
    (∀ p ∈ t.players, playerOk p) ∧
    0 ≤ t.currentBet ∧ 0 ≤ t.lastRaiseSize ∧
    t.blinds = x.blinds ∧ t.isHandComplete = x.isHandComplete ∧
    t.pot = sumTotalBet t.players ∧
    2 ≤ (playersStillInHandIdx t).length := by
  simp only [postBlinds] at h
  split at h
  · cases h
  · rename_i hact
    have hlen2 : 2 ≤ (activeIdxs x).length := by omega
    have hsbi : (x.dealerPosition + 1) % (activeIdxs x).length < (activeIdxs x).length :=
      Nat.mod_lt _ (by omega)
    have hbbi : (x.dealerPosition + 2) % (activeIdxs x).length < (activeIdxs x).length :=
      Nat.mod_lt _ (by omega)
    have hSBlt : (activeIdxs x).getD ((x.dealerPosition + 1) % (activeIdxs x).length) 0
        < x.players.length :=
      activeIdxs_mem_lt x _ (getD_mem _ _ hsbi)
    have hBBlt : (activeIdxs x).getD ((x.dealerPosition + 2) % (activeIdxs x).length) 0
        < x.players.length :=
      activeIdxs_mem_lt x _ (getD_mem _ _ hbbi)
    have hposne : (x.dealerPosition + 1) % (activeIdxs x).length
        ≠ (x.dealerPosition + 2) % (activeIdxs x).length := by
      intro he
      have hdvd : (activeIdxs x).length ∣ (x.dealerPosition + 2) - (x.dealerPosition + 1) :=
        (Nat.modEq_iff_dvd' (by omega)).mp he
      simp at hdvd
      omega
    have hnodup : (activeIdxs x).Nodup := (List.nodup_range _).filter _
    have hne : (activeIdxs x).getD ((x.dealerPosition + 1) % (activeIdxs x).length) 0
        ≠ (activeIdxs x).getD ((x.dealerPosition + 2) % (activeIdxs x).length) 0 := by
      rw [List.getD_eq_getElem _ _ hsbi, List.getD_eq_getElem _ _ hbbi]
      intro he
      exact hposne (hnodup.getElem_inj_iff.mp he)
    set SB := (activeIdxs x).getD ((x.dealerPosition + 1) % (activeIdxs x).length) 0 with hSBdef
    set BB := (activeIdxs x).getD ((x.dealerPosition + 2) % (activeIdxs x).length) 0 with hBBdef
    set S1 := modifyPlayerAt x SB (fun p => { p with isSmallBlind := true }) with hS1
    set S2 := modifyPlayerAt S1 BB (fun p => { p with isBigBlind := true }) with hS2
    set sbA := min S2.blinds.small (S2.players.getD SB default).chips with hsbAdef
    set S3 := modifyPlayerAt S2 SB
      (fun p => { p with chips := p.chips - sbA, currentBet := sbA, totalBet := sbA }) with hS3
    set S4 := { S3 with pot := S3.pot + sbA } with hS4
    set bbA := min S4.blinds.big (S4.players.getD BB default).chips with hbbAdef
    set S5 := modifyPlayerAt S4 BB
      (fun p => { p with chips := p.chips - bbA, currentBet := bbA, totalBet := bbA }) with hS5
    set S6 := { S5 with pot := S5.pot + bbA } with hS6
    set S7 := { S6 with currentBet := bbA, lastRaiseSize := bbA } with hS7
    have hxSB := hch _ (getD_mem x.players SB hSBlt)
    have hxBB := hch _ (getD_mem x.players BB hBBlt)
    have hS1len : S1.players.length = x.players.length := by
      rw [hS1, modify_length]
    have hS2len : S2.players.length = x.players.length := by
      rw [hS2, modify_length, hS1len]
    have hg2sb : S2.players.getD SB default
        = { x.players.getD SB default with isSmallBlind := true } := by
      rw [hS2, modify_getD_ne S1 BB SB _ (Ne.symm hne), hS1,
        modify_getD_self x SB _ hSBlt]
    have hg2bb : S2.players.getD BB default
        = { x.players.getD BB default with isBigBlind := true } := by
      rw [hS2, modify_getD_self S1 BB _ (by rw [hS1len]; exact hBBlt), hS1,
        modify_getD_ne x SB BB _ hne]
    have hsbA : sbA = min x.blinds.small (x.players.getD SB default).chips := by
      rw [hsbAdef, hg2sb]
      rfl
    have hsb0 : 0 ≤ sbA := by
      rw [hsbA]
      exact le_min hbs hxSB.1
    have hsble : sbA ≤ (x.players.getD SB default).chips := by
      rw [hsbA]
      exact min_le_right _ _
    have hS4p : S4.players = S3.players := by
      rw [hS4]
    have hS3len : S3.players.length = x.players.length := by
      rw [hS3, modify_length, hS2len]
    have hg4bb : S4.players.getD BB default
        = { x.players.getD BB default with isBigBlind := true } := by
      rw [hS4p, hS3, modify_getD_ne S2 SB BB _ hne, hg2bb]
    have hbbA : bbA = min x.blinds.big (x.players.getD BB default).chips := by
      rw [hbbAdef, hg4bb]
      rfl
    have hbb0 : 0 ≤ bbA := by
      rw [hbbA]
      exact le_min hbb hxBB.1
    have hbble : bbA ≤ (x.players.getD BB default).chips := by
      rw [hbbA]
      exact min_le_right _ _
    have hS7p : S7.players = S5.players := by
      rw [hS7, hS6]
    have hmemx : ∀ p ∈ x.players, playerOk p := by
      intro p hp
      obtain ⟨h1, h2, h3, _⟩ := hch p hp
      exact ⟨h1, by omega, by omega, by omega⟩
    have hmem1 : ∀ p ∈ S1.players, playerOk p := by
      rw [hS1]
      exact modify_members _ _ _ hmemx
        (playerOk_sb _ (hmemx _ (getD_mem x.players SB hSBlt)))
    have hmem2 : ∀ p ∈ S2.players, playerOk p := by
      rw [hS2]
      exact modify_members _ _ _ hmem1
        (playerOk_bb _ (hmem1 _ (getD_mem S1.players BB (by rw [hS1len]; exact hBBlt))))
    have hmem3 : ∀ p ∈ S3.players, playerOk p := by
      rw [hS3]
      refine modify_members _ _ _ hmem2 ?_
      rw [hg2sb]
      refine ⟨?_, hsb0, hsb0, le_refl _⟩
      show 0 ≤ (x.players.getD SB default).chips - sbA
      omega
    have hmem4 : ∀ p ∈ S4.players, playerOk p := by
      rw [hS4p]
      exact hmem3
    have hmem5 : ∀ p ∈ S5.players, playerOk p := by
      rw [hS5]
      refine modify_members _ _ _ hmem4 ?_
      rw [hg4bb]
      refine ⟨?_, hbb0, hbb0, le_refl _⟩
      show 0 ≤ (x.players.getD BB default).chips - bbA
      omega
    have hmem7 : ∀ p ∈ S7.players, playerOk p := by
      rw [hS7p]
      exact hmem5
    have hsum2 : sumTotalBet S2.players = 0 := by
      rw [hS2, modify_sumTB _ _ _ (by rw [hS1len]; exact hBBlt), hS1,
        modify_sumTB _ _ _ hSBlt,
        sumTotalBet_zero x.players (fun p hp => (hch p hp).2.1)]
      have e1 : ((fun p => ({ p with isSmallBlind := true } : Player))
          (x.players.getD SB default)).totalBet = (x.players.getD SB default).totalBet := rfl
      have e2 : ((fun p => ({ p with isBigBlind := true } : Player))
          (S1.players.getD BB default)).totalBet = (S1.players.getD BB default).totalBet := rfl
      rw [e1, e2]
      ring
    have hsum7 : sumTotalBet S7.players = sbA + bbA := by
      rw [hS7p, hS5, modify_sumTB _ _ _ (by rw [hS4p, hS3len]; exact hBBlt),
        hS4p, hS3, modify_sumTB _ _ _ (by rw [hS2len]; exact hSBlt), hsum2]
      have e3 : ((fun p => ({ p with
          chips := p.chips - sbA
          currentBet := sbA
          totalBet := sbA } : Player)) (S2.players.getD SB default)).totalBet = sbA := rfl
      have e4 : ((fun p => ({ p with
          chips := p.chips - bbA
          currentBet := bbA
          totalBet := bbA } : Player)) (S4.players.getD BB default)).totalBet = bbA := rfl
      rw [e3, e4, hg2sb, hg4bb]
      have e5 : ({ x.players.getD SB default with isSmallBlind := true } : Player).totalBet
          = 0 := by
        show (x.players.getD SB default).totalBet = 0
        exact hxSB.2.1
      have e6 : ({ x.players.getD BB default with isBigBlind := true } : Player).totalBet
          = 0 := by
        show (x.players.getD BB default).totalBet = 0
        exact hxBB.2.1
      rw [e5, e6]
      ring
    have hinish7 : inishL S7.players = inishL x.players := by
      rw [hS7p, hS5, modify_inishL _ _ _ rfl rfl, hS4p, hS3,
        modify_inishL _ _ _ rfl rfl, hS2, modify_inishL _ _ _ rfl rfl, hS1,
        modify_inishL _ _ _ rfl rfl]
    have hinact : inishL x.players = activeIdxs x := by
      apply inishL_eq_active
      intro j hj
      exact (hch _ (getD_mem x.players j hj)).2.2.2
    have hlen7 : S7.players.length = x.players.length := by
      rw [hS7p, hS5, modify_length, hS4p, hS3len]
    have hpot7 : S7.pot = sbA + bbA := by
      have e7 : S7.pot = x.pot + sbA + bbA := rfl
      rw [e7, hpot]
      ring
    split at h
    next hz1 =>
      split at h
      next hz2 =>
        replace h := Except.ok.inj h
        subst h
        refine ⟨?_, hbb0, hbb0, rfl, rfl, ?_, ?_⟩
        · refine modify_members _ _ _ (modify_members _ _ _ hmem7 ?_) ?_
          · exact playerOk_allin _ (hmem7 _ (getD_mem S7.players SB (by rw [hlen7]; exact hSBlt)))
          · rw [modify_getD_ne S7 SB BB _ hne]
            exact playerOk_allin _ (hmem7 _ (getD_mem S7.players BB (by rw [hlen7]; exact hBBlt)))
        · show x.pot + sbA + bbA = sumTotalBet (modifyPlayerAt (modifyPlayerAt S7 SB
            (fun p => { p with isAllIn := true })) BB
            (fun p => { p with isAllIn := true })).players
          rw [modify_sumTB _ _ _ (by rw [modify_length, hlen7]; exact hBBlt),
            modify_sumTB _ _ _ (by rw [hlen7]; exact hSBlt), hsum7, hpot]
          simp only [allin_tb]
          ring
        · rw [inish_eq_inishL, modify_inishL _ _ _ rfl rfl,
            modify_inishL _ _ _ rfl rfl, hinish7, hinact]
          exact hlen2
      next hz2 =>
        replace h := Except.ok.inj h
        subst h
        refine ⟨?_, hbb0, hbb0, rfl, rfl, ?_, ?_⟩
        · refine modify_members _ _ _ hmem7 ?_
          exact playerOk_allin _ (hmem7 _ (getD_mem S7.players SB (by rw [hlen7]; exact hSBlt)))
        · show x.pot + sbA + bbA = sumTotalBet (modifyPlayerAt S7 SB
            (fun p => { p with isAllIn := true })).players
          rw [modify_sumTB _ _ _ (by rw [hlen7]; exact hSBlt), hsum7, hpot]
          simp only [allin_tb]
          ring
        · rw [inish_eq_inishL, modify_inishL _ _ _ rfl rfl, hinish7, hinact]
          exact hlen2
    next hz1 =>
      split at h
      next hz2 =>
        replace h := Except.ok.inj h
        subst h
        refine ⟨?_, hbb0, hbb0, rfl, rfl, ?_, ?_⟩
        · refine modify_members _ _ _ hmem7 ?_
          exact playerOk_allin _ (hmem7 _ (getD_mem S7.players BB (by rw [hlen7]; exact hBBlt)))
        · show x.pot + sbA + bbA = sumTotalBet (modifyPlayerAt S7 BB
            (fun p => { p with isAllIn := true })).players
          rw [modify_sumTB _ _ _ (by rw [hlen7]; exact hBBlt), hsum7, hpot]
          simp only [allin_tb]
          ring
        · rw [inish_eq_inishL, modify_inishL _ _ _ rfl rfl, hinish7, hinact]
          exact hlen2
      next hz2 =>
        replace h := Except.ok.inj h
        subst h
        refine ⟨hmem7, hbb0, hbb0, rfl, rfl, ?_, ?_⟩
        · show x.pot + sbA + bbA = sumTotalBet S7.players
          rw [hsum7, hpot]
          ring
        · rw [inish_eq_inishL, hinish7, hinact]
          exact hlen2


-- ------------------------------
-- unconditional hand-complete-flag lemmas (monotonicity of settlement)
-- ------------------------------

theorem modify_blinds (s : GameState) (i : Nat) (f : Player → Player) :
    (modifyPlayerAt s i f).blinds = s.blinds := rfl

theorem modify_flag (s : GameState) (i : Nat) (f : Player → Player) :
    (modifyPlayerAt s i f).isHandComplete = s.isHandComplete := rfl

theorem executeAction_flagU (s : GameState) (i : Nat) (a : PlayerAction) :
    (executeAction s i a).isHandComplete = s.isHandComplete := by
  cases a
  case fold => rfl
  case check => rfl
  case call => rfl
  case bet a => rfl
  case raise a => rfl
  case allin a =>
    simp only [executeAction]
    split
    · split <;> rfl
    · rfl

theorem execPhase_flagU (s s₁ : GameState) (pid : String) (a : PlayerAction)
    (h : execPhase s pid a = .ok s₁) : s₁.isHandComplete = s.isHandComplete := by
  simp only [execPhase] at h
  split at h
  · cases h
  · rename_i i hFI
    split at h
    · cases h
    · split at h
      · cases h
      · cases h
        exact executeAction_flagU s i a

theorem prepareNextHand_flag (s : GameState) :
    (prepareNextHand s).isHandComplete = s.isHandComplete := by
  simp only [prepareNextHand]
  split
  · rfl
  · split
    · rfl
    · rfl

theorem awardSinglePot_flag (st : GameState × List (String × Int))
    (evals : List (Nat × HandEvaluation)) (sp : SidePot) :
    (awardSinglePot st evals sp).1.isHandComplete = st.1.isHandComplete := by
  simp only [awardSinglePot]
  refine foldl_inv _ (fun acc => acc.1.isHandComplete = st.1.isHandComplete) ?_ _ st rfl
  intro b x hb
  exact Eq.trans rfl hb

theorem awardPots_flag (s : GameState) (evals : List (Nat × HandEvaluation)) (r : GameState)
    (h : awardPots s evals = .ok r) : r.isHandComplete = s.isHandComplete := by
  obtain ⟨-, hfl⟩ := awardPots_players s evals r h
  rw [hfl]
  exact foldl_inv _ (fun acc => acc.1.isHandComplete = s.isHandComplete)
    (fun b sp hb => Eq.trans (awardSinglePot_flag b evals sp) hb) s.sidePots (s, []) rfl

theorem spTail_flag (s : GameState) (idxs : List Nat) (pots : List SidePot) :
    (spTail s idxs pots).isHandComplete = s.isHandComplete := by
  simp only [spTail]
  repeat' split
  all_goals rfl

theorem calcSidePots_flag (s : GameState) (idxs : List Nat) :
    (calculateSidePots s idxs).isHandComplete = s.isHandComplete := by
  rw [calculateSidePots_eq]
  exact spTail_flag s idxs (spPots s idxs)

theorem evaluateShowdown_flag (s r : GameState) (h : evaluateShowdown s = .ok r) :
    r.isHandComplete = s.isHandComplete := by
  simp only [evaluateShowdown, bind, Except.bind] at h
  split at h
  · cases h
  · rename_i evals hEv
    split at h
    · exact (awardPots_flag _ _ _ h).trans (calcSidePots_flag _ _)
    · exact (awardPots_flag _ _ _ h).trans rfl

theorem completeHand_flagT (t r : GameState) (h : completeHand t = .ok r) :
    r.isHandComplete = true := by
  simp only [completeHand] at h
  split at h
  · cases h
    exact (prepareNextHand_flag _).trans rfl
  · simp only [bind, Except.bind] at h
    split at h
    · cases h
    · rename_i s2 hES
      cases h
      exact (prepareNextHand_flag _).trans ((evaluateShowdown_flag _ _ hES).trans rfl)

theorem atnp_facts (s : GameState) :
    (advanceToNextPlayer s).players = s.players ∧
    (advanceToNextPlayer s).pot = s.pot ∧
    (advanceToNextPlayer s).currentBet = s.currentBet ∧
    (advanceToNextPlayer s).lastRaiseSize = s.lastRaiseSize ∧
    (advanceToNextPlayer s).blinds = s.blinds ∧
    (advanceToNextPlayer s).isHandComplete = s.isHandComplete := by
  simp only [advanceToNextPlayer]
  split
  · exact ⟨rfl, rfl, rfl, rfl, rfl, rfl⟩
  · split <;> exact ⟨rfl, rfl, rfl, rfl, rfl, rfl⟩

theorem advanceBettingRound_flag_mono (s t : GameState) (hs : s.isHandComplete = true)
    (h : advanceBettingRound s = .ok t) : t.isHandComplete = true := by
  simp only [advanceBettingRound] at h
  split at h
  · simp only [bind, Except.bind] at h
    split at h
    · cases h
    · rename_i s3 hDF
      cases h
      rw [(setFPPF_fields _).2.2.2.2.2.1]
      exact ((dealFlop_facts _ _ hDF).2.2.2.2.2.1).trans hs
  · simp only [bind, Except.bind] at h
    split at h
    · cases h
    · rename_i s3 hDT
      cases h
      rw [(setFPPF_fields _).2.2.2.2.2.1]
      exact ((dealTurn_facts _ _ hDT).2.2.2.2.2.1).trans hs
  · simp only [bind, Except.bind] at h
    split at h
    · cases h
    · rename_i s3 hDR
      cases h
      rw [(setFPPF_fields _).2.2.2.2.2.1]
      exact ((dealRiver_facts _ _ hDR).2.2.2.2.2.1).trans hs
  · exact completeHand_flagT _ _ h
  · cases h
    rw [(setFPPF_fields _).2.2.2.2.2.1]
    exact hs

theorem ffl_flagT : ∀ (fuel : Nat) (s : GameState), s.isHandComplete = true →
    fastForwardLoop fuel s = .ok s
  | 0, _, _ => rfl
  | fuel + 1, s, hs => by
    simp [fastForwardLoop, hs]

theorem fastForward_flagT (s r : GameState) (hs : s.isHandComplete = true)
    (h : fastForward s = .ok r) : r.isHandComplete = true := by
  simp only [fastForward, bind, Except.bind, ffl_flagT 5 s hs, hs, Bool.not_true,
    Bool.false_eq_true, if_neg, not_false_eq_true] at h
  exact (Except.ok.inj h) ▸ hs

theorem postPhase_flag_mono (s₁ t : GameState) (hs : s₁.isHandComplete = true)
    (h : postPhase s₁ = .ok t) : t.isHandComplete = true := by
  simp only [postPhase] at h
  split at h
  · exact completeHand_flagT _ _ h
  · split at h
    · exact fastForward_flagT _ _ hs h
    · split at h
      · exact advanceBettingRound_flag_mono _ _ hs h
      · cases h
        rw [(atnp_facts s₁).2.2.2.2.2]
        exact hs

theorem processPlayerAction_flag_mono (s t : GameState) (pid : String) (a : PlayerAction)
    (hs : s.isHandComplete = true) (h : processPlayerAction s pid a = .ok t) :
    t.isHandComplete = true := by
  simp only [processPlayerAction, bind, Except.bind] at h
  split at h
  · cases h
  · rename_i s₁ hE
    exact postPhase_flag_mono s₁ t (by rw [execPhase_flagU s s₁ pid a hE]; exact hs) h

-- ------------------------------
-- hand setup establishes the invariant
-- ------------------------------

/-- the facts that hold of every player right after `resetHandState`. -/
def freshPlayer (p : Player) : Prop :=
  0 ≤ p.chips ∧ p.totalBet = 0 ∧ p.currentBet = 0 ∧ p.isFolded = false

theorem modify_members_q (Q : Player → Prop) (s : GameState) (i : Nat) (f : Player → Player)
    (hPs : ∀ p ∈ s.players, Q p) (hq : ∀ p, Q p → Q (f p)) :
    ∀ p ∈ (modifyPlayerAt s i f).players, Q p := by
  intro p hp
  simp only [modifyPlayerAt] at hp
  by_cases hi : i < s.players.length
  · rcases List.mem_or_eq_of_mem_set hp with h0 | h0
    · exact hPs p h0
    · subst h0
      exact hq _ (hPs _ (getD_mem s.players i hi))
  · rw [List.set_eq_of_length_le (by omega)] at hp
    exact hPs p hp

theorem resetHandState_facts (s : GameState) (hch : ∀ p ∈ s.players, 0 ≤ p.chips) :
    (∀ p ∈ (resetHandState s).players, freshPlayer p) ∧
    (resetHandState s).pot = 0 ∧
    (resetHandState s).blinds = s.blinds ∧
    (resetHandState s).isHandComplete = false := by
  refine ⟨?_, rfl, rfl, rfl⟩
  intro p hp
  simp only [resetHandState, zipIdxL] at hp
  obtain ⟨⟨q, i⟩, hqi, rfl⟩ := List.mem_map.mp hp
  refine ⟨?_, rfl, rfl, rfl⟩
  show 0 ≤ q.chips
  exact hch q (List.of_mem_zip hqi).1

theorem dealHoleCardsEngine_facts (y z : GameState) (h : dealHoleCardsEngine y = .ok z)
    (hQ : ∀ p ∈ y.players, freshPlayer p) :
    (∀ p ∈ z.players, freshPlayer p) ∧ z.pot = y.pot ∧ z.blinds = y.blinds ∧
    z.isHandComplete = y.isHandComplete := by
  simp only [dealHoleCardsEngine] at h
  split at h
  · cases h
  · rename_i hands deckRest hM
    cases h
    refine foldl_inv _
      (fun st : GameState => (∀ p ∈ st.players, freshPlayer p) ∧ st.pot = y.pot ∧
        st.blinds = y.blinds ∧ st.isHandComplete = y.isHandComplete)
      ?_ _ _ ⟨hQ, rfl, rfl, rfl⟩
    intro st ai hst
    exact ⟨modify_members_q freshPlayer st ai.1 _ hst.1 (fun p hp => hp),
      (modify_pot st ai.1 _).trans hst.2.1,
      (modify_blinds st ai.1 _).trans hst.2.2.1,
      (modify_flag st ai.1 _).trans hst.2.2.2⟩

theorem setFirstPlayerToAct_facts (x : GameState) :
    (setFirstPlayerToAct x).players = x.players ∧
    (setFirstPlayerToAct x).pot = x.pot ∧
    (setFirstPlayerToAct x).currentBet = x.currentBet ∧
    (setFirstPlayerToAct x).lastRaiseSize = x.lastRaiseSize ∧
    (setFirstPlayerToAct x).blinds = x.blinds ∧
    (setFirstPlayerToAct x).isHandComplete = x.isHandComplete := by
  simp only [setFirstPlayerToAct]
  split
  · exact ⟨rfl, rfl, rfl, rfl, rfl, rfl⟩
  · split
    · exact ⟨rfl, rfl, rfl, rfl, rfl, rfl⟩
    · split <;> exact ⟨rfl, rfl, rfl, rfl, rfl, rfl⟩

theorem startNewHandD_inv (s0 : GameState) (deck : List Card) (t : GameState)
    (hch : ∀ p ∈ s0.players, 0 ≤ p.chips)
    (hbs : 0 ≤ s0.blinds.small) (hbb : 0 ≤ s0.blinds.big)
    (h : startNewHandD s0 deck = .ok t) :
    EngineInv t := by
  obtain ⟨r1, r2, r3, r4⟩ := resetHandState_facts s0 hch
  simp only [startNewHandD, bind, Except.bind] at h
  split at h
  · cases h
  · rename_i y hD
    split at h
    · cases h
    · rename_i z hPB
      cases h
      obtain ⟨d1, d2, d3, d4⟩ := dealHoleCardsEngine_facts _ y hD (fun p hp => r1 p hp)
      have hyb : y.blinds = s0.blinds := d3.trans r3
      obtain ⟨b1, b2, b3, b4, b5, b6, b7⟩ := postBlinds_inv y z
        (fun p hp => d1 p hp) (d2.trans r2)
        (by rw [hyb]; exact hbs) (by rw [hyb]; exact hbb) hPB
      obtain ⟨f1, f2, f3, f4, f5, f6⟩ := setFirstPlayerToAct_facts z
      intro hfl
      refine ⟨?_, ?_, ?_, ?_, ?_, ?_, ?_⟩
      · intro p hp
        rw [f1] at hp
        exact b1 p hp
      · rw [f3]
        exact b2
      · rw [f4]
        exact b3
      · rw [f5, b4, hyb]
        exact hbs
      · rw [f5, b4, hyb]
        exact hbb
      · rw [f2, b6]
        have : sumTotalBet (setFirstPlayerToAct z).players = sumTotalBet z.players := by
          rw [f1]
        rw [this]
      · rw [inHandIdx_congr _ _ f1]
        exact b7


-- ------------------------------
-- reachable states and the C6 settlement-conservation theorem
-- ------------------------------

/-- engine states reachable through the public API: a hand started by
`startNewHand` (on any shuffled deck) from any seating with non-negative
stacks and blinds, followed by any sequence of accepted player actions. -/
inductive Reachable : GameState → Prop
  | start : ∀ (s0 : GameState) (deck : List Card) (t : GameState),
      (∀ p ∈ s0.players, 0 ≤ p.chips) → 0 ≤ s0.blinds.small → 0 ≤ s0.blinds.big →
      startNewHandD s0 deck = .ok t → Reachable t
  | step : ∀ (s t : GameState) (pid : String) (a : PlayerAction),
      Reachable s → processPlayerAction s pid a = .ok t → Reachable t

theorem reachable_inv (s : GameState) (hr : Reachable s) : EngineInv s := by
  induction hr with
  | start s0 deck t hch hbs hbb h => exact startNewHandD_inv s0 deck t hch hbs hbb h
  | step s t pid a hrs h ih =>
    intro hft
    have hsf : s.isHandComplete = false := by
      by_contra hc
      have hs1 : s.isHandComplete = true := by
        cases hq : s.isHandComplete
        · exact absurd hq hc
        · rfl
      have h2 := processPlayerAction_flag_mono s t pid a hs1 h
      rw [hft] at h2
      cases h2
    obtain ⟨i1, i2, i3, i4, i5, i6, i7⟩ := ih hsf
    simp only [processPlayerAction, bind, Except.bind] at h
    split at h
    · cases h
    · rename_i s₁ hE
      obtain ⟨e1, e2, e3, e4, e5, e6, e7, e8, e9⟩ := execPhase_facts s s₁ pid a i1 i2 i3 i5 hE
      have epot : s₁.pot = sumTotalBet s₁.players := by
        rw [i6] at e4
        omega
      have eflag : s₁.isHandComplete = false := e6.trans hsf
      simp only [postPhase] at h
      split at h
      · have h2 := completeHand_flagT s₁ t h
        rw [hft] at h2
        cases h2
      · rename_i hN
        have hck : 2 ≤ (playersStillInHandIdx s₁).length := by
          have hb : isHandCompleteCheck s₁ = false := by
            cases hq : isHandCompleteCheck s₁
            · rfl
            · exact absurd hq hN
          simp only [isHandCompleteCheck, Bool.or_eq_false_iff,
            decide_eq_false_iff_not] at hb
          rw [inHandIdx_length_eq]
          omega
        have hinh1 : playersStillInHandIdx s₁ ≠ [] := by
          intro hnil
          rw [hnil] at hck
          simp at hck
        split at h
        · obtain ⟨hf1, _, _⟩ := fastForward_spec s₁ t e1 epot hinh1 eflag h
          rw [hft] at hf1
          cases hf1
        · split at h
          · rcases advanceBettingRound_facts s₁ t e1 epot hinh1 h with
              ⟨_, hT, _, _⟩ | ⟨_, m1, _, m3, m4, m5, m6, m7, _, m9, _⟩
            · rw [hft] at hT
              cases hT
            · refine ⟨m1, ?_, ?_, ?_, ?_, ?_, ?_⟩
              · rw [m6]
              · rw [m7]
                exact e3
              · rw [m5, e5]
                exact i4
              · rw [m5, e5]
                exact i5
              · rw [m4, m3]
                exact epot
              · rw [m9]
                exact hck
          · cases h
            obtain ⟨a1, a2, a3, a4, a5, a6⟩ := atnp_facts s₁
            refine ⟨?_, ?_, ?_, ?_, ?_, ?_, ?_⟩
            · intro p hp
              rw [a1] at hp
              exact e1 p hp
            · rw [a3]
              exact e2
            · rw [a4]
              exact e3
            · rw [a5, e5]
              exact i4
            · rw [a5, e5]
              exact i5
            · rw [a2]
              have hsb : sumTotalBet (advanceToNextPlayer s₁).players
                  = sumTotalBet s₁.players := by
                rw [a1]
              rw [hsb]
              exact epot
            · rw [inHandIdx_congr _ _ a1]
              exact hck

/-- **C6.**  Chip conservation at settlement: for every reachable state and
every accepted action that completes the hand, the action decomposes into
its execution phase — producing the pre-settlement state `s₁`, whose pot
equals the sum of all players' `totalBet` for the hand — and the settlement
phase, and settlement pays out exactly that amount: the total chips after
settlement exceed the pre-settlement total by exactly `sumTotalBet
s₁.players` (all side-pot payouts plus any refunded uncalled bet), so
settlement neither creates nor destroys chips. -/
theorem c6_settlement_conserves_chips (s t : GameState) (pid : String) (a : PlayerAction)
    (hr : Reachable s) (h : processPlayerAction s pid a = .ok t)
    (hc : s.isHandComplete = false) (hc2 : t.isHandComplete = true) :
    ∃ s₁, execPhase s pid a = .ok s₁ ∧ postPhase s₁ = .ok t ∧
      s₁.pot = sumTotalBet s₁.players ∧
      sumChips t.players = sumChips s₁.players + sumTotalBet s₁.players := by
  obtain ⟨i1, i2, i3, i4, i5, i6, i7⟩ := reachable_inv s hr hc
  simp only [processPlayerAction, bind, Except.bind] at h
  split at h
  · cases h
  · rename_i s₁ hE
    obtain ⟨e1, e2, e3, e4, e5, e6, e7, e8, e9⟩ := execPhase_facts s s₁ pid a i1 i2 i3 i5 hE
    have epot : s₁.pot = sumTotalBet s₁.players := by
      rw [i6] at e4
      omega
    have eflag : s₁.isHandComplete = false := e6.trans hc
    have hinh1 : playersStillInHandIdx s₁ ≠ [] := by
      intro hnil
      have h8 := e8
      rw [hnil] at h8
      simp only [List.length_nil] at h8
      omega
    refine ⟨s₁, hE, h, epot, ?_⟩
    simp only [postPhase] at h
    split at h
    · obtain ⟨c1, _, _⟩ := completeHand_spec s₁ t
        (fun p hp => (e1 p hp).1) (fun p hp => (e1 p hp).2.1) epot hinh1 h
      rw [c1, epot]
    · split at h
      · obtain ⟨_, f2, _⟩ := fastForward_spec s₁ t e1 epot hinh1 eflag h
        rw [f2, epot]
      · split at h
        · rcases advanceBettingRound_facts s₁ t e1 epot hinh1 h with
            ⟨_, _, m3, _⟩ | ⟨_, _, _, _, _, _, _, _, m8, _, _⟩
          · rw [m3, epot]
          · have h2 := m8.trans eflag
            rw [hc2] at h2
            cases h2
        · cases h
          have h2 := ((atnp_facts s₁).2.2.2.2.2).symm.trans hc2
          rw [eflag] at h2
          cases h2

/-- a table of two 1000-chip players with blinds 5/10, with a hand started
on the canonical deck order. -/
def c6s0 : GameState := mkEngineState "c6"
  [{ id := "A", name := "Alice", chips := 1000, isAI := false },
   { id := "B", name := "Bob", chips := 1000, isAI := false }] 5 10

def c6Start : GameState :=
  match startNewHandD c6s0 createDeck with
  | .ok s => s
  | .error _ => c6s0

def c6End : GameState :=
  match processPlayerAction c6Start "A" PlayerAction.fold with
  | .ok s => s
  | .error _ => c6s0

/-- witness for C6 at a concrete table: Alice folds to the blinds, the hand
completes, and Bob's winnings equal the 15 chips of posted blinds. -/
theorem c6_witness :
    startNewHandD c6s0 createDeck = .ok c6Start ∧
    processPlayerAction c6Start "A" PlayerAction.fold = .ok c6End ∧
    c6Start.isHandComplete = false ∧ c6End.isHandComplete = true ∧
    ∃ s₁, execPhase c6Start "A" PlayerAction.fold = .ok s₁ ∧ postPhase s₁ = .ok c6End ∧
      s₁.pot = sumTotalBet s₁.players ∧
      sumChips c6End.players = sumChips s₁.players + sumTotalBet s₁.players :=
  ⟨by rfl, by rfl, by rfl, by rfl,
   c6_settlement_conserves_chips c6Start c6End "A" PlayerAction.fold
     (Reachable.start c6s0 createDeck c6Start (by decide) (by decide) (by decide) (by rfl))
     (by rfl) (by rfl) (by rfl)⟩


-- ========================================
-- C2: the 6/7-card classifier matches the best-5-subset reference
-- ========================================

-- ------------------------------
-- sortNatAsc / sortNatDesc: permutation and sortedness
-- ------------------------------

theorem insFold_step_perm (p : Nat → Nat → Bool) (acc : List Nat) (v : Nat) :
    (acc.takeWhile (p v) ++ v :: acc.dropWhile (p v)).Perm (v :: acc) := by
  have h1 : (acc.takeWhile (p v) ++ v :: acc.dropWhile (p v)).Perm
      (v :: (acc.takeWhile (p v) ++ acc.dropWhile (p v))) := List.perm_middle
  rw [List.takeWhile_append_dropWhile] at h1
  exact h1

theorem insFold_perm (p : Nat → Nat → Bool) :
    ∀ (l acc : List Nat),
      (l.foldl (fun acc v => acc.takeWhile (p v) ++ v :: acc.dropWhile (p v)) acc).Perm
        (acc ++ l)
  | [], acc => by simp
  | v :: rest, acc => by
    rw [List.foldl_cons]
    refine (insFold_perm p rest _).trans ?_
    refine (List.Perm.append_right rest (insFold_step_perm p acc v)).trans ?_
    show (v :: (acc ++ rest)).Perm (acc ++ v :: rest)
    exact List.perm_middle.symm

theorem sortNatAsc_perm (l : List Nat) : (sortNatAsc l).Perm l := by
  have := insFold_perm (fun v => (fun y => decide (y ≤ v))) l []
  simpa [sortNatAsc] using this

theorem sortNatDesc_perm (l : List Nat) : (sortNatDesc l).Perm l := by
  have := insFold_perm (fun v => (fun y => decide (v ≤ y))) l []
  simpa [sortNatDesc] using this

theorem dropWhile_gt_of_sorted (v : Nat) :
    ∀ acc : List Nat, acc.Pairwise (· ≤ ·) →
      ∀ y ∈ acc.dropWhile (fun y => decide (y ≤ v)), v < y
  | [], _, y, hy => by simp at hy
  | c :: cs, hp, y, hy => by
    by_cases hc : c ≤ v
    · rw [List.dropWhile_cons_of_pos (by simpa using hc)] at hy
      exact dropWhile_gt_of_sorted v cs hp.tail y hy
    · rw [List.dropWhile_cons_of_neg (by simpa using hc)] at hy
      rcases List.mem_cons.mp hy with rfl | hy
      · omega
      · have := (List.pairwise_cons.mp hp).1 y hy
        omega

theorem insStep_sorted_asc (v : Nat) (acc : List Nat) (h : acc.Pairwise (· ≤ ·)) :
    (acc.takeWhile (fun y => decide (y ≤ v)) ++
      v :: acc.dropWhile (fun y => decide (y ≤ v))).Pairwise (· ≤ ·) := by
  rw [List.pairwise_append]
  refine ⟨h.sublist (List.takeWhile_sublist _), ?_, ?_⟩
  · rw [List.pairwise_cons]
    exact ⟨fun y hy => le_of_lt (dropWhile_gt_of_sorted v acc h y hy),
      h.sublist (List.dropWhile_sublist _)⟩
  · intro x hx y hy
    have hxv : x ≤ v := by simpa using List.mem_takeWhile_imp hx
    rcases List.mem_cons.mp hy with rfl | hy
    · exact hxv
    · exact le_trans hxv (le_of_lt (dropWhile_gt_of_sorted v acc h y hy))

theorem dropWhile_lt_of_sorted_desc (v : Nat) :
    ∀ acc : List Nat, acc.Pairwise (· ≥ ·) →
      ∀ y ∈ acc.dropWhile (fun y => decide (v ≤ y)), y < v
  | [], _, y, hy => by simp at hy
  | c :: cs, hp, y, hy => by
    by_cases hc : v ≤ c
    · rw [List.dropWhile_cons_of_pos (by simpa using hc)] at hy
      exact dropWhile_lt_of_sorted_desc v cs hp.tail y hy
    · rw [List.dropWhile_cons_of_neg (by simpa using hc)] at hy
      rcases List.mem_cons.mp hy with rfl | hy
      · omega
      · have := (List.pairwise_cons.mp hp).1 y hy
        omega

theorem insStep_sorted_desc (v : Nat) (acc : List Nat) (h : acc.Pairwise (· ≥ ·)) :
    (acc.takeWhile (fun y => decide (v ≤ y)) ++
      v :: acc.dropWhile (fun y => decide (v ≤ y))).Pairwise (· ≥ ·) := by
  rw [List.pairwise_append]
  refine ⟨h.sublist (List.takeWhile_sublist _), ?_, ?_⟩
  · rw [List.pairwise_cons]
    exact ⟨fun y hy => le_of_lt (dropWhile_lt_of_sorted_desc v acc h y hy),
      h.sublist (List.dropWhile_sublist _)⟩
  · intro x hx y hy
    have hxv : v ≤ x := by simpa using List.mem_takeWhile_imp hx
    rcases List.mem_cons.mp hy with rfl | hy
    · exact hxv
    · exact le_trans (le_of_lt (dropWhile_lt_of_sorted_desc v acc h y hy)) hxv

theorem insFold_sorted_asc :
    ∀ (l acc : List Nat), acc.Pairwise (· ≤ ·) →
      (l.foldl (fun acc v => acc.takeWhile (fun y => decide (y ≤ v)) ++
        v :: acc.dropWhile (fun y => decide (y ≤ v))) acc).Pairwise (· ≤ ·)
  | [], _, h => h
  | v :: rest, acc, h => by
    rw [List.foldl_cons]
    exact insFold_sorted_asc rest _ (insStep_sorted_asc v acc h)

theorem insFold_sorted_desc :
    ∀ (l acc : List Nat), acc.Pairwise (· ≥ ·) →
      (l.foldl (fun acc v => acc.takeWhile (fun y => decide (v ≤ y)) ++
        v :: acc.dropWhile (fun y => decide (v ≤ y))) acc).Pairwise (· ≥ ·)
  | [], _, h => h
  | v :: rest, acc, h => by
    rw [List.foldl_cons]
    exact insFold_sorted_desc rest _ (insStep_sorted_desc v acc h)

theorem sortNatAsc_sorted (l : List Nat) : (sortNatAsc l).Pairwise (· ≤ ·) := by
  have := insFold_sorted_asc l [] List.Pairwise.nil
  simpa [sortNatAsc] using this

theorem sortNatDesc_sorted (l : List Nat) : (sortNatDesc l).Pairwise (· ≥ ·) := by
  have := insFold_sorted_desc l [] List.Pairwise.nil
  simpa [sortNatDesc] using this

-- ------------------------------
-- dedupFirst: nodup and membership
-- ------------------------------

theorem dedupFold_mem :
    ∀ (l acc : List Nat) (x : Nat),
      x ∈ l.foldl (fun acc v => if acc.contains v then acc else acc ++ [v]) acc ↔
        x ∈ acc ∨ x ∈ l
  | [], acc, x => by simp
  | v :: rest, acc, x => by
    rw [List.foldl_cons]
    by_cases hc : acc.contains v
    · rw [if_pos hc]
      rw [dedupFold_mem rest acc x]
      constructor
      · rintro (h | h)
        · exact Or.inl h
        · exact Or.inr (List.mem_cons_of_mem v h)
      · rintro (h | h)
        · exact Or.inl h
        · rcases List.mem_cons.mp h with rfl | h
          · exact Or.inl (by simpa using hc)
          · exact Or.inr h
    · rw [if_neg hc]
      rw [dedupFold_mem rest _ x]
      simp only [List.mem_append, List.mem_cons, List.not_mem_nil, or_false]
      tauto

theorem dedupFold_nodup :
    ∀ (l acc : List Nat), acc.Nodup →
      (l.foldl (fun acc v => if acc.contains v then acc else acc ++ [v]) acc).Nodup
  | [], _, h => h
  | v :: rest, acc, h => by
    rw [List.foldl_cons]
    by_cases hc : acc.contains v
    · rw [if_pos hc]
      exact dedupFold_nodup rest acc h
    · rw [if_neg hc]
      refine dedupFold_nodup rest _ ?_
      rw [List.nodup_append]
      refine ⟨h, List.nodup_singleton v, ?_⟩
      intro x hx hx2
      rw [List.mem_singleton] at hx2
      have hv : v ∉ acc := by simpa using hc
      rw [hx2] at hx
      exact hv hx

theorem dedupFirst_mem (l : List Nat) (x : Nat) : x ∈ dedupFirst l ↔ x ∈ l := by
  unfold dedupFirst
  rw [dedupFold_mem l [] x]
  simp

theorem dedupFirst_nodup (l : List Nat) : (dedupFirst l).Nodup :=
  dedupFold_nodup l [] List.nodup_nil

-- ------------------------------
-- unique values of a hand: sortedness, membership
-- ------------------------------

theorem uniqAsc_nodup (cs : List Card) : (uniqueValuesAsc cs).Nodup := by
  unfold uniqueValuesAsc
  exact (sortNatAsc_perm _).nodup_iff.mpr (dedupFirst_nodup _)

theorem uniqAsc_mem (cs : List Card) (v : Nat) :
    v ∈ uniqueValuesAsc cs ↔ ∃ c ∈ cs, rankToValue c.rank = v := by
  unfold uniqueValuesAsc
  rw [(sortNatAsc_perm _).mem_iff, dedupFirst_mem, List.mem_map]

theorem uniqAsc_sorted (cs : List Card) : (uniqueValuesAsc cs).Pairwise (· < ·) := by
  have h1 : (uniqueValuesAsc cs).Pairwise (· ≤ ·) := sortNatAsc_sorted _
  have h2 : (uniqueValuesAsc cs).Pairwise (· ≠ ·) := uniqAsc_nodup cs
  exact (h1.and h2).imp (fun h => lt_of_le_of_ne h.1 h.2)

theorem uniqDesc_sorted (cs : List Card) : (uniqueValuesDesc cs).Pairwise (· > ·) := by
  unfold uniqueValuesDesc
  rw [List.pairwise_reverse]
  exact uniqAsc_sorted cs

theorem uniqDesc_mem (cs : List Card) (v : Nat) :
    v ∈ uniqueValuesDesc cs ↔ ∃ c ∈ cs, rankToValue c.rank = v := by
  unfold uniqueValuesDesc
  rw [List.mem_reverse]
  exact uniqAsc_mem cs v

theorem uniqDesc_nodup (cs : List Card) : (uniqueValuesDesc cs).Nodup := by
  unfold uniqueValuesDesc
  rw [List.nodup_reverse]
  exact uniqAsc_nodup cs

-- ------------------------------
-- counting values
-- ------------------------------

theorem cnt_cons (c : Card) (cs : List Card) (v : Nat) :
    countOfValue (c :: cs) v =
      (if rankToValue c.rank = v then 1 else 0) + countOfValue cs v := by
  unfold countOfValue
  by_cases h : rankToValue c.rank = v
  · rw [List.filter_cons_of_pos (by simpa using h), if_pos h]
    simp only [List.length_cons]
    omega
  · rw [List.filter_cons_of_neg (by simpa using h), if_neg h]
    simp

theorem cnt_pos_iff (cs : List Card) (v : Nat) :
    0 < countOfValue cs v ↔ ∃ c ∈ cs, rankToValue c.rank = v := by
  unfold countOfValue
  rw [List.length_pos_iff_exists_mem]
  constructor
  · rintro ⟨c, hc⟩
    have := List.mem_filter.mp hc
    exact ⟨c, this.1, by simpa using this.2⟩
  · rintro ⟨c, hc, hv⟩
    exact ⟨c, List.mem_filter.mpr ⟨hc, by simpa using hv⟩⟩

theorem cnt_sublist (S C : List Card) (v : Nat) (h : S.Sublist C) :
    countOfValue S v ≤ countOfValue C v :=
  (h.filter _).length_le

theorem cnt_le_length (cs : List Card) (v : Nat) : countOfValue cs v ≤ cs.length :=
  (List.filter_sublist cs).length_le

theorem length_filter_split {α : Type} (l : List α) (p : α → Bool) :
    (l.filter p).length + (l.filter (fun a => !(p a))).length = l.length := by
  induction l with
  | nil => rfl
  | cons x xs ih =>
    by_cases h : p x = true
    · rw [List.filter_cons_of_pos h, List.filter_cons_of_neg (by simp [h])]
      simp only [List.length_cons]
      omega
    · rw [List.filter_cons_of_neg (by simpa using h),
        List.filter_cons_of_pos (by simp [Bool.eq_false_iff.mpr h])]
      simp only [List.length_cons]
      omega

theorem cnt_filter_ne (cs : List Card) (v w : Nat) (hvw : w ≠ v) :
    countOfValue (cs.filter (fun c => !(decide (rankToValue c.rank = v)))) w
      = countOfValue cs w := by
  unfold countOfValue
  rw [List.filter_filter]
  congr 1
  apply List.filter_congr
  intro c _
  by_cases h : rankToValue c.rank = w
  · simp [h, hvw]
  · simp [h]

theorem length_eq_sum_cnt (vs : List Nat) : ∀ (cs : List Card), vs.Nodup →
    (∀ c ∈ cs, rankToValue c.rank ∈ vs) →
    cs.length = (vs.map (fun v => countOfValue cs v)).sum := by
  induction vs with
  | nil =>
    intro cs _ hcov
    cases cs with
    | nil => rfl
    | cons c cs => exact absurd (hcov c (by simp)) (by simp)
  | cons v vs ih =>
    intro cs hnd hcov
    have hsplit := length_filter_split cs (fun c => decide (rankToValue c.rank = v))
    have hrest := ih (cs.filter (fun c => !(decide (rankToValue c.rank = v))))
      hnd.tail (by
        intro c hc
        have hm := List.mem_filter.mp hc
        have hv := hcov c hm.1
        rcases List.mem_cons.mp hv with h | h
        · exact absurd (by simpa using hm.2) (by simp [h])
        · exact h)
    have hcong : (vs.map (fun w => countOfValue
        (cs.filter (fun c => !(decide (rankToValue c.rank = v)))) w)).sum
        = (vs.map (fun w => countOfValue cs w)).sum := by
      congr 1
      apply List.map_congr_left
      intro w hw
      have hwv : w ≠ v := by
        intro he
        rw [he] at hw
        exact (List.nodup_cons.mp hnd).1 hw
      exact cnt_filter_ne cs v w hwv
    rw [List.map_cons, List.sum_cons]
    have : countOfValue cs v = (cs.filter (fun c => decide (rankToValue c.rank = v))).length := rfl
    omega

-- ------------------------------
-- find? on a strictly descending list returns the maximum satisfier
-- ------------------------------

theorem find?_sorted_desc_max (p : Nat → Bool) :
    ∀ (l : List Nat), l.Pairwise (· > ·) → ∀ v, l.find? p = some v →
      p v = true ∧ v ∈ l ∧ ∀ w ∈ l, p w = true → w ≤ v
  | [], _, v, hf => by simp at hf
  | c :: cs, hs, v, hf => by
    by_cases hc : p c = true
    · rw [List.find?_cons_of_pos _ hc] at hf
      injection hf with hf
      subst hf
      refine ⟨hc, by simp, ?_⟩
      intro w hw _
      rcases List.mem_cons.mp hw with rfl | hw
      · exact le_refl w
      · exact le_of_lt ((List.pairwise_cons.mp hs).1 w hw)
    · rw [List.find?_cons_of_neg _ (by simpa using hc)] at hf
      obtain ⟨h1, h2, h3⟩ := find?_sorted_desc_max p cs hs.tail v hf
      refine ⟨h1, List.mem_cons_of_mem c h2, ?_⟩
      intro w hw hpw
      rcases List.mem_cons.mp hw with rfl | hw
      · exact absurd hpw hc
      · exact h3 w hw hpw

theorem find?_none_all (p : Nat → Bool) (l : List Nat) (h : l.find? p = none) :
    ∀ w ∈ l, p w = false := by
  intro w hw
  have := List.find?_eq_none.mp h w hw
  simpa using this

-- ------------------------------
-- encode: pointwise monotonicity
-- ------------------------------

theorem encode_foldl_mono : ∀ (xs ys : List Nat), List.Forall₂ (· ≤ ·) xs ys →
    ∀ (a b : Nat), a ≤ b →
    xs.foldl (fun acc v => acc * 15 + v) a ≤ ys.foldl (fun acc v => acc * 15 + v) b
  | _, _, List.Forall₂.nil, a, b, hab => hab
  | _, _, List.Forall₂.cons hxy hrest, a, b, hab => by
    rw [List.foldl_cons, List.foldl_cons]
    exact encode_foldl_mono _ _ hrest _ _ (by omega)

theorem encode_mono (xs ys : List Nat) (h : List.Forall₂ (· ≤ ·) xs ys) :
    encode xs ≤ encode ys := by
  unfold encode
  exact encode_foldl_mono xs ys h 0 0 (le_refl 0)

-- ------------------------------
-- a sorted selection is dominated by the top of its superset
-- ------------------------------

theorem sorted_desc_take_dominates :
    ∀ (S L : List Nat), L.Pairwise (· > ·) → S.Pairwise (· > ·) →
      (∀ x ∈ S, x ∈ L) → S.length ≤ L.length →
      List.Forall₂ (· ≤ ·) S (L.take S.length)
  | [], _, _, _, _, _ => List.Forall₂.nil
  | a :: S, L, hL, hS, hsub, hlen => by
    have haL : a ∈ L := hsub a (by simp)
    cases L with
    | nil => simp at haL
    | cons b L =>
      have hab : a ≤ b := by
        rcases List.mem_cons.mp haL with rfl | h
        · exact le_refl a
        · exact le_of_lt ((List.pairwise_cons.mp hL).1 a h)
      rw [List.length_cons, List.take_succ_cons]
      refine List.Forall₂.cons hab ?_
      refine sorted_desc_take_dominates S L hL.tail hS.tail ?_ ?_
      · intro x hx
        have hxa : x < a := (List.pairwise_cons.mp hS).1 x hx
        have hxL : x ∈ b :: L := hsub x (List.mem_cons_of_mem a hx)
        rcases List.mem_cons.mp hxL with rfl | h
        · omega
        · exact h
      · simpa using hlen

-- ------------------------------
-- selecting a sub-hand with prescribed per-value multiplicities
-- ------------------------------

def pickCnt : List Card → (Nat → Nat) → List Card
  | [], _ => []
  | c :: cs, f =>
    if 0 < f (rankToValue c.rank) then
      c :: pickCnt cs (fun v => if v = rankToValue c.rank then f v - 1 else f v)
    else pickCnt cs f

theorem pickCnt_sublist : ∀ (l : List Card) (f : Nat → Nat), (pickCnt l f).Sublist l
  | [], _ => List.Sublist.refl []
  | c :: cs, f => by
    unfold pickCnt
    by_cases h : 0 < f (rankToValue c.rank)
    · rw [if_pos h]
      exact (pickCnt_sublist cs _).cons₂ c
    · rw [if_neg h]
      exact (pickCnt_sublist cs f).cons c

theorem pickCnt_cnt : ∀ (l : List Card) (f : Nat → Nat) (v : Nat),
    countOfValue (pickCnt l f) v = min (f v) (countOfValue l v)
  | [], f, v => by
    simp [pickCnt, countOfValue]
  | c :: cs, f, v => by
    unfold pickCnt
    by_cases h : 0 < f (rankToValue c.rank)
    · rw [if_pos h, cnt_cons, cnt_cons]
      have h1 := pickCnt_cnt cs (fun w => if w = rankToValue c.rank then f w - 1 else f w) v
      by_cases hv : rankToValue c.rank = v
      · rw [if_pos hv]
        rw [if_pos hv.symm] at h1
        rw [h1]
        have hfv : 0 < f v := by
          rw [← hv]
          exact h
        omega
      · rw [if_neg hv]
        rw [if_neg (fun he => hv he.symm)] at h1
        rw [h1]
        omega
    · rw [if_neg h, cnt_cons]
      have h1 := pickCnt_cnt cs f v
      by_cases hv : rankToValue c.rank = v
      · rw [if_pos hv, h1]
        have hfv : f v = 0 := by
          rw [← hv]
          omega
        omega
      · rw [if_neg hv, h1]
        omega

-- ------------------------------
-- findStraightHigh: the fold finds the maximal 5-window contained in the list
-- ------------------------------

/-- the step function of `findStraightHigh`'s run-length fold. -/
def fshStep : (Nat × Option Nat) × Nat → Nat → (Nat × Option Nat) × Nat :=
  fun state cur =>
    let run := state.1.1
    let best := state.1.2
    let prev := state.2
    if cur = prev + 1 then
      ((run + 1, if run + 1 ≥ 5 then some cur else best), cur)
    else if cur ≠ prev then ((1, best), cur) else ((run, best), cur)

theorem findStraightHigh_eq (l : List Nat) :
    findStraightHigh l =
      if l.length < 5 then none
      else
        match (if l.contains 14 then 1 :: l else l) with
        | [] => none
        | v0 :: rest => (rest.foldl fshStep ((1, none), v0)).1.2 := rfl

/-- `h` is the high card of a five-long descending window inside `P`. -/
def Str5 (P : List Nat) (h : Nat) : Prop :=
  5 ≤ h ∧ h ∈ P ∧ h - 1 ∈ P ∧ h - 2 ∈ P ∧ h - 3 ∈ P ∧ h - 4 ∈ P

/-- invariant of the fold: `P` is the processed prefix, the state records the
current run length ending at the previous element and the best window so far. -/
def fshInv (P : List Nat) (st : (Nat × Option Nat) × Nat) : Prop :=
  st.2 ∈ P ∧ (∀ x ∈ P, x ≤ st.2) ∧
  1 ≤ st.1.1 ∧ st.1.1 ≤ st.2 ∧
  (∀ k, k < st.1.1 → st.2 - k ∈ P) ∧ (st.2 - st.1.1) ∉ P ∧
  (match st.1.2 with
   | none => ∀ h, ¬ Str5 P h
   | some b => Str5 P b ∧ ∀ h, Str5 P h → h ≤ b)

theorem mem_app_cur {P : List Nat} {cur x : Nat} (hx : x ∈ P ++ [cur]) :
    x ∈ P ∨ x = cur := by
  rcases List.mem_append.mp hx with h | h
  · exact Or.inl h
  · exact Or.inr (List.mem_singleton.mp h)

theorem fshInv_step (P : List Nat) (st : (Nat × Option Nat) × Nat) (cur : Nat)
    (hinv : fshInv P st) (hc : st.2 < cur) :
    fshInv (P ++ [cur]) (fshStep st cur) := by
  obtain ⟨⟨run, best⟩, prev⟩ := st
  obtain ⟨hprev, hle, hrun1, hrunle, hmem, hnot, hbest⟩ := hinv
  simp only at hprev hle hrun1 hrunle hmem hnot hbest hc
  have hcur_mem : cur ∈ P ++ [cur] := List.mem_append_right P (by simp)
  by_cases h1 : cur = prev + 1
  · -- the run extends
    have hstep : fshStep ((run, best), prev) cur =
        ((run + 1, if run + 1 ≥ 5 then some cur else best), cur) := by
      unfold fshStep
      rw [if_pos h1]
    rw [hstep]
    unfold fshInv
    dsimp only
    refine ⟨hcur_mem, ?_, by omega, by omega, ?_, ?_, ?_⟩
    · intro x hx
      rcases mem_app_cur hx with h | h
      · have := hle x h
        omega
      · omega
    · intro k hk
      rcases Nat.eq_zero_or_pos k with rfl | hkpos
      · simpa using hcur_mem
      · have he : cur - k = prev - (k - 1) := by omega
        rw [he]
        exact List.mem_append_left _ (hmem (k - 1) (by omega))
    · intro hx
      rcases mem_app_cur hx with h | h
      · have he : cur - (run + 1) = prev - run := by omega
        rw [he] at h
        exact hnot h
      · omega
    · by_cases h5 : run + 1 ≥ 5
      · rw [if_pos h5]
        constructor
        · refine ⟨by omega, hcur_mem, ?_, ?_, ?_, ?_⟩
          · have he : cur - 1 = prev - 0 := by omega
            rw [he]
            exact List.mem_append_left _ (hmem 0 (by omega))
          · have he : cur - 2 = prev - 1 := by omega
            rw [he]
            exact List.mem_append_left _ (hmem 1 (by omega))
          · have he : cur - 3 = prev - 2 := by omega
            rw [he]
            exact List.mem_append_left _ (hmem 2 (by omega))
          · have he : cur - 4 = prev - 3 := by omega
            rw [he]
            exact List.mem_append_left _ (hmem 3 (by omega))
        · intro h hh
          rcases mem_app_cur hh.2.1 with hm | hm
          · have := hle h hm
            omega
          · omega
      · rw [if_neg h5]
        have hreduce : ∀ h, Str5 (P ++ [cur]) h → Str5 P h := by
          intro h hh
          obtain ⟨hh5, m0, m1, m2, m3, m4⟩ := hh
          rcases mem_app_cur m0 with hm | hm
          · have hhle : h ≤ prev := hle h hm
            refine ⟨hh5, hm, ?_, ?_, ?_, ?_⟩
            · rcases mem_app_cur m1 with h' | h'
              · exact h'
              · omega
            · rcases mem_app_cur m2 with h' | h'
              · exact h'
              · omega
            · rcases mem_app_cur m3 with h' | h'
              · exact h'
              · omega
            · rcases mem_app_cur m4 with h' | h'
              · exact h'
              · omega
          · -- h = cur: the (run+1)-th component back contradicts the broken run
            exfalso
            have hr13 : run = 1 ∨ run = 2 ∨ run = 3 := by omega
            have hget : h - (run + 1) ∈ P ++ [cur] := by
              rcases hr13 with h' | h' | h'
              · rw [h']
                exact m2
              · rw [h']
                exact m3
              · rw [h']
                exact m4
            rcases mem_app_cur hget with h' | h'
            · have he : h - (run + 1) = prev - run := by omega
              rw [he] at h'
              exact hnot h'
            · omega
        cases hb : best with
        | none =>
          rw [hb] at hbest
          intro h hh
          exact hbest h (hreduce h hh)
        | some b =>
          rw [hb] at hbest
          obtain ⟨hb1, hb2⟩ := hbest
          constructor
          · obtain ⟨b5, n0, n1, n2, n3, n4⟩ := hb1
            exact ⟨b5, List.mem_append_left _ n0, List.mem_append_left _ n1,
              List.mem_append_left _ n2, List.mem_append_left _ n3,
              List.mem_append_left _ n4⟩
          · intro h hh
            exact hb2 h (hreduce h hh)
  · -- the run restarts at cur
    have h2 : cur ≠ prev := by omega
    have hstep : fshStep ((run, best), prev) cur = ((1, best), cur) := by
      unfold fshStep
      rw [if_neg h1, if_pos h2]
    rw [hstep]
    unfold fshInv
    dsimp only
    have hreduce : ∀ h, Str5 (P ++ [cur]) h → Str5 P h := by
      intro h hh
      obtain ⟨hh5, m0, m1, m2, m3, m4⟩ := hh
      rcases mem_app_cur m0 with hm | hm
      · have hhle : h ≤ prev := hle h hm
        refine ⟨hh5, hm, ?_, ?_, ?_, ?_⟩
        · rcases mem_app_cur m1 with h' | h'
          · exact h'
          · omega
        · rcases mem_app_cur m2 with h' | h'
          · exact h'
          · omega
        · rcases mem_app_cur m3 with h' | h'
          · exact h'
          · omega
        · rcases mem_app_cur m4 with h' | h'
          · exact h'
          · omega
      · exfalso
        rcases mem_app_cur m1 with h' | h'
        · have := hle _ h'
          omega
        · omega
    refine ⟨hcur_mem, ?_, by omega, by omega, ?_, ?_, ?_⟩
    · intro x hx
      rcases mem_app_cur hx with h | h
      · have := hle x h
        omega
      · omega
    · intro k hk
      have hk0 : k = 0 := by omega
      rw [hk0]
      simpa using hcur_mem
    · intro hx
      rcases mem_app_cur hx with h | h
      · have := hle _ h
        omega
      · omega
    · cases hb : best with
      | none =>
        rw [hb] at hbest
        intro h hh
        exact hbest h (hreduce h hh)
      | some b =>
        rw [hb] at hbest
        obtain ⟨hb1, hb2⟩ := hbest
        constructor
        · obtain ⟨b5, n0, n1, n2, n3, n4⟩ := hb1
          exact ⟨b5, List.mem_append_left _ n0, List.mem_append_left _ n1,
            List.mem_append_left _ n2, List.mem_append_left _ n3,
            List.mem_append_left _ n4⟩
        · intro h hh
          exact hb2 h (hreduce h hh)

theorem fshInv_fold : ∀ (rest P : List Nat) (st : (Nat × Option Nat) × Nat),
    fshInv P st → (∀ x ∈ P, ∀ y ∈ rest, x < y) → rest.Pairwise (· < ·) →
    fshInv (P ++ rest) (rest.foldl fshStep st)
  | [], P, st, hinv, _, _ => by simpa using hinv
  | cur :: rest, P, st, hinv, hcross, hp => by
    rw [List.foldl_cons]
    have hstep := fshInv_step P st cur hinv (hcross st.2 hinv.1 cur (by simp))
    have happ : P ++ cur :: rest = (P ++ [cur]) ++ rest := by simp
    rw [happ]
    refine fshInv_fold rest (P ++ [cur]) _ hstep ?_ hp.tail
    intro x hx y hy
    rcases mem_app_cur hx with h | h
    · exact hcross x h y (List.mem_cons_of_mem cur hy)
    · rw [h]
      exact (List.pairwise_cons.mp hp).1 y hy

theorem window5_nodup (h : Nat) (h5 : 5 ≤ h) :
    ([h - 4, h - 3, h - 2, h - 1, h] : List Nat).Nodup := by
  simp only [List.nodup_cons, List.mem_cons, List.mem_singleton, List.not_mem_nil,
    or_false, List.nodup_nil, and_true]
  push_neg
  refine ⟨⟨?_, ?_, ?_, ?_⟩, ⟨?_, ?_, ?_⟩, ⟨?_, ?_⟩, ?_, not_false⟩ <;> omega

theorem findStraightHigh_spec (l : List Nat) (hs : l.Pairwise (· < ·))
    (h2 : ∀ x ∈ l, 2 ≤ x) :
    (∀ b, findStraightHigh l = some b →
      Str5 (if l.contains 14 then 1 :: l else l) b ∧
      ∀ h, Str5 (if l.contains 14 then 1 :: l else l) h → h ≤ b) ∧
    (findStraightHigh l = none →
      ∀ h, ¬ Str5 (if l.contains 14 then 1 :: l else l) h) := by
  simp only [findStraightHigh_eq]
  by_cases hlen : l.length < 5
  · rw [if_pos hlen]
    constructor
    · intro b hb
      cases hb
    intro _ h hS
    obtain ⟨h5, m0, m1, m2, m3, m4⟩ := hS
    have hsub : ∀ x ∈ ([h - 4, h - 3, h - 2, h - 1, h] : List Nat),
        x ∈ (if l.contains 14 then 1 :: l else l) := by
      intro x hx
      rcases List.mem_cons.mp hx with rfl | hx
      · exact m4
      rcases List.mem_cons.mp hx with rfl | hx
      · exact m3
      rcases List.mem_cons.mp hx with rfl | hx
      · exact m2
      rcases List.mem_cons.mp hx with rfl | hx
      · exact m1
      rcases List.mem_cons.mp hx with rfl | hx
      · exact m0
      simp at hx
    have hsp := List.subperm_of_subset (window5_nodup h h5) hsub
    have hlen5 := List.Subperm.length_le hsp
    by_cases h14 : l.contains 14
    · rw [if_pos h14] at hsp hlen5 hsub m0 m1 m2 m3 m4
      simp only [List.length_cons, List.length_nil] at hlen5
      have hleq : l.length = 4 := by
        omega
      have hperm : ([h - 4, h - 3, h - 2, h - 1, h] : List Nat).Perm (1 :: l) := by
        refine hsp.perm_of_length_le ?_
        simp [hleq]
      have h14m : (14 : Nat) ∈ ([h - 4, h - 3, h - 2, h - 1, h] : List Nat) := by
        rw [hperm.mem_iff]
        exact List.mem_cons_of_mem 1 (by simpa using h14)
      have h1m : (1 : Nat) ∈ ([h - 4, h - 3, h - 2, h - 1, h] : List Nat) := by
        rw [hperm.mem_iff]
        simp
      simp only [List.mem_cons, List.mem_singleton, List.not_mem_nil, or_false] at h14m h1m
      omega
    · rw [if_neg h14] at hlen5
      have h5l : ([h - 4, h - 3, h - 2, h - 1, h] : List Nat).length = 5 := rfl
      rw [h5l] at hlen5
      omega
  · rw [if_neg hlen]
    by_cases h14 : l.contains 14
    · rw [if_pos h14]
      have hinit : fshInv [1] ((1, none), 1) := by
        unfold fshInv
        dsimp only
        refine ⟨by simp, by simp, le_refl 1, le_refl 1, ?_, by simp, ?_⟩
        · intro k hk
          have hk0 : k = 0 := by omega
          rw [hk0]
          simp
        · intro h hS
          obtain ⟨h5, m0, _⟩ := hS
          rw [List.mem_singleton] at m0
          omega
      have hfold := fshInv_fold l [1] ((1, none), 1) hinit
        (by
          intro x hx y hy
          rw [List.mem_singleton] at hx
          rw [hx]
          have := h2 y hy
          omega) hs
      have hP : ([1] ++ l : List Nat) = 1 :: l := rfl
      rw [hP] at hfold
      obtain ⟨-, -, -, -, -, -, hbest⟩ := hfold
      dsimp only
      constructor
      · intro b hb
        rw [hb] at hbest
        exact hbest
      · intro hn
        rw [hn] at hbest
        exact hbest
    · rw [if_neg h14]
      cases l with
      | nil => simp at hlen
      | cons v0 rest =>
        have hv0 : 2 ≤ v0 := h2 v0 (by simp)
        have hinit : fshInv [v0] ((1, none), v0) := by
          unfold fshInv
          dsimp only
          refine ⟨by simp, by simp, le_refl 1, by omega, ?_, ?_, ?_⟩
          · intro k hk
            have hk0 : k = 0 := by omega
            rw [hk0]
            simp
          · rw [List.mem_singleton]
            omega
          · intro h hS
            obtain ⟨h5, m0, m1, _⟩ := hS
            rw [List.mem_singleton] at m0 m1
            omega
        have hfold := fshInv_fold rest [v0] ((1, none), v0) hinit
          (by
            intro x hx y hy
            rw [List.mem_singleton] at hx
            rw [hx]
            exact (List.pairwise_cons.mp hs).1 y hy) hs.tail
        have hP : ([v0] ++ rest : List Nat) = v0 :: rest := rfl
        rw [hP] at hfold
        obtain ⟨-, -, -, -, -, -, hbest⟩ := hfold
        dsimp only
        constructor
        · intro b hb
          rw [hb] at hbest
          exact hbest
        · intro hn
          rw [hn] at hbest
          exact hbest

-- ------------------------------
-- getRankCounts: an association list of rank multiplicities
-- ------------------------------

/-- occurrences of rank `r` in a hand. -/
def cntRank (cs : List Card) (r : Rank) : Nat :=
  (cs.filter (fun c => c.rank = r)).length

theorem cntRank_append_single (done : List Card) (c : Card) (r : Rank) :
    cntRank (done ++ [c]) r = cntRank done r + (if c.rank = r then 1 else 0) := by
  unfold cntRank
  rw [List.filter_append]
  by_cases h : c.rank = r
  · rw [if_pos h]
    simp [h]
  · rw [if_neg h]
    simp [h]

/-- invariant of the `getRankCounts` fold. -/
def grcInv (done : List Card) (acc : List (Rank × Nat)) : Prop :=
  (acc.map Prod.fst).Nodup ∧
  (∀ e ∈ acc, e.2 = cntRank done e.1 ∧ e.1 ∈ done.map (fun c => c.rank)) ∧
  (∀ c ∈ done, c.rank ∈ acc.map Prod.fst)

theorem grcInv_step (done : List Card) (acc : List (Rank × Nat)) (c : Card)
    (hinv : grcInv done acc) :
    grcInv (done ++ [c])
      (if acc.any (fun e => e.1 = c.rank) then
        acc.map (fun e => if e.1 = c.rank then (e.1, e.2 + 1) else e)
      else acc ++ [(c.rank, 1)]) := by
  obtain ⟨hnd, hcnt, hcov⟩ := hinv
  by_cases hany : acc.any (fun e => e.1 = c.rank)
  · rw [if_pos hany]
    have hkeys : (acc.map (fun e => if e.1 = c.rank then (e.1, e.2 + 1) else e)).map Prod.fst
        = acc.map Prod.fst := by
      rw [List.map_map]
      apply List.map_congr_left
      intro e _
      by_cases he : e.1 = c.rank
      · simp [he]
      · simp [he]
    refine ⟨by rw [hkeys]; exact hnd, ?_, ?_⟩
    · intro e' he'
      obtain ⟨e, he, hfe⟩ := List.mem_map.mp he'
      by_cases heq : e.1 = c.rank
      · rw [if_pos heq] at hfe
        obtain ⟨h1, h2⟩ := hcnt e he
        rw [← hfe]
        constructor
        · show e.2 + 1 = cntRank (done ++ [c]) e.1
          rw [cntRank_append_single, if_pos (by rw [heq]), h1]
        · show e.1 ∈ (done ++ [c]).map (fun c => c.rank)
          rw [List.map_append, List.mem_append]
          exact Or.inl h2
      · rw [if_neg heq] at hfe
        rw [← hfe]
        obtain ⟨h1, h2⟩ := hcnt e he
        constructor
        · rw [cntRank_append_single, if_neg (fun hh => heq hh.symm)]
          omega
        · rw [List.map_append, List.mem_append]
          exact Or.inl h2
    · intro c' hc'
      rw [hkeys]
      rcases List.mem_append.mp hc' with h | h
      · exact hcov c' h
      · rw [List.mem_singleton] at h
        rw [h]
        obtain ⟨e, he, heq⟩ := List.any_eq_true.mp hany
        have : c.rank = e.1 := by
          have := of_decide_eq_true heq
          exact this.symm
        rw [this]
        exact List.mem_map_of_mem Prod.fst he
  · rw [if_neg hany]
    have hnotkey : c.rank ∉ acc.map Prod.fst := by
      intro hk
      obtain ⟨e, he, heq⟩ := List.mem_map.mp hk
      exact hany (List.any_eq_true.mpr ⟨e, he, by simp [heq]⟩)
    have hzero : cntRank done c.rank = 0 := by
      by_contra hz
      have hpos : 0 < cntRank done c.rank := Nat.pos_of_ne_zero hz
      unfold cntRank at hpos
      rw [List.length_pos_iff_exists_mem] at hpos
      obtain ⟨d, hd⟩ := hpos
      have hdm := List.mem_filter.mp hd
      have hdr : d.rank = c.rank := by simpa using hdm.2
      have hk := hcov d hdm.1
      rw [hdr] at hk
      exact hnotkey hk
    refine ⟨?_, ?_, ?_⟩
    · rw [List.map_append]
      rw [List.nodup_append]
      refine ⟨hnd, by simp, ?_⟩
      intro x hx hx2
      simp only [List.map_cons, List.map_nil, List.mem_singleton] at hx2
      rw [hx2] at hx
      exact hnotkey hx
    · intro e he
      rcases List.mem_append.mp he with h | h
      · obtain ⟨h1, h2⟩ := hcnt e h
        constructor
        · have hne : c.rank ≠ e.1 := by
            intro hh
            rw [hh] at hnotkey
            exact hnotkey (List.mem_map.mpr ⟨e, h, rfl⟩)
          rw [cntRank_append_single, if_neg hne]
          omega
        · rw [List.map_append, List.mem_append]
          exact Or.inl h2
      · rw [List.mem_singleton] at h
        rw [h]
        constructor
        · show (1 : Nat) = cntRank (done ++ [c]) c.rank
          rw [cntRank_append_single, if_pos rfl, hzero]
        · rw [List.map_append, List.mem_append]
          right
          simp
    · intro c' hc'
      rw [List.map_append]
      rcases List.mem_append.mp hc' with h | h
      · exact List.mem_append_left _ (hcov c' h)
      · rw [List.mem_singleton] at h
        rw [h]
        refine List.mem_append_right _ ?_
        simp

theorem grc_fold : ∀ (rest done : List Card) (acc : List (Rank × Nat)),
    grcInv done acc →
    grcInv (done ++ rest) (rest.foldl (fun counts c =>
      if counts.any (fun e => e.1 = c.rank) then
        counts.map (fun e => if e.1 = c.rank then (e.1, e.2 + 1) else e)
      else counts ++ [(c.rank, 1)]) acc)
  | [], done, acc, hinv => by simpa using hinv
  | c :: rest, done, acc, hinv => by
    rw [List.foldl_cons]
    have hstep := grcInv_step done acc c hinv
    have happ : done ++ c :: rest = (done ++ [c]) ++ rest := by simp
    rw [happ]
    exact grc_fold rest (done ++ [c]) _ hstep

theorem grc_spec (cs : List Card) : grcInv cs (getRankCounts cs) := by
  have := grc_fold cs [] [] ⟨by simp, by simp, by simp⟩
  simpa [getRankCounts] using this

-- ------------------------------
-- values, ranks and flushes: small supporting facts
-- ------------------------------

theorem cntRank_eq_cntV (cs : List Card) (r : Rank) :
    cntRank cs r = countOfValue cs (rankToValue r) := by
  unfold cntRank countOfValue
  congr 1
  apply List.filter_congr
  intro c _
  by_cases h : c.rank = r
  · simp [h]
  · have hv : rankToValue c.rank ≠ rankToValue r := by
      intro he
      exact h (rankToValue_inj _ _ he)
    simp [h, hv]

theorem card_ext (c d : Card) (hs : c.suit = d.suit) (hr : c.rank = d.rank) : c = d := by
  cases c
  cases d
  simp only at hs hr
  rw [hs, hr]

theorem flush_vals_nodup (S : List Card) (hnd : S.Nodup) (s : Suit)
    (hfl : ∀ c ∈ S, c.suit = s) : (S.map (fun c => rankToValue c.rank)).Nodup := by
  rw [List.nodup_map_iff_inj_on hnd]
  intro c hc d hd hv
  exact card_ext c d ((hfl c hc).trans (hfl d hd).symm) (rankToValue_inj _ _ hv)

theorem all_suit_iff (S : List Card) (hne : S ≠ []) :
    (S.all (fun card => decide (card.suit = (S.headD default).suit)) = true) ↔
      ∃ s, ∀ c ∈ S, c.suit = s := by
  rw [List.all_eq_true]
  constructor
  · intro h
    exact ⟨(S.headD default).suit, fun c hc => by simpa using h c hc⟩
  · rintro ⟨s, hs⟩
    intro c hc
    have hh : (S.headD default).suit = s := by
      cases S with
      | nil => exact absurd rfl hne
      | cons c0 S => exact hs c0 (by simp)
    simp only [decide_eq_true_eq]
    rw [hs c hc]
    exact hh.symm

/-- `v` occurs among the cards. -/
def vset (S : List Card) (v : Nat) : Prop := ∃ c ∈ S, rankToValue c.rank = v

theorem vset_mono (S C : List Card) (hsub : S.Sublist C) (v : Nat) (h : vset S v) :
    vset C v := by
  obtain ⟨c, hc, hv⟩ := h
  exact ⟨c, hsub.mem hc, hv⟩

theorem vset_iff_cnt_pos (S : List Card) (v : Nat) :
    vset S v ↔ 0 < countOfValue S v := (cnt_pos_iff S v).symm

theorem rankToValue_ge_two (r : Rank) : 2 ≤ rankToValue r := by
  cases r <;> simp [rankToValue]

theorem rankToValue_le_14 (r : Rank) : rankToValue r ≤ 14 := by
  cases r <;> simp [rankToValue]

-- ------------------------------
-- checkStraight: a 5-card straight is a value window (wheel-aware)
-- ------------------------------

theorem zipTail_all_iff : ∀ (l : List Nat),
    (((l.zip l.tail).all (fun p => decide (p.2 = p.1 + 1))) = true) ↔
      l.Chain' (fun a b => b = a + 1)
  | [] => by simp
  | [x] => by simp
  | x :: y :: rest => by
    have ht : (x :: y :: rest).tail = y :: rest := rfl
    rw [ht, List.zip_cons_cons, List.all_cons, List.chain'_cons,
      ← zipTail_all_iff (y :: rest)]
    simp [Bool.and_eq_true]

theorem chain5_window (l : List Nat) (hlen : l.length = 5)
    (hch : l.Chain' (fun a b => b = a + 1)) :
    ∃ a, l = [a, a + 1, a + 2, a + 3, a + 4] := by
  match l, hlen with
  | [v0, v1, v2, v3, v4], _ =>
    simp only [List.chain'_cons, List.chain'_singleton, and_true] at hch
    obtain ⟨h1, h2, h3, h4⟩ := hch
    refine ⟨v0, ?_⟩
    rw [h1, h2, h3, h4, h1, h2, h3, h1, h2, h1]

/-- the value window of a straight with high card `hh` is present in `S`. -/
def StraightOf (S : List Card) (hh : Nat) : Prop :=
  (6 ≤ hh ∧ hh ≤ 14 ∧ vset S hh ∧ vset S (hh - 1) ∧ vset S (hh - 2) ∧
    vset S (hh - 3) ∧ vset S (hh - 4)) ∨
  (hh = 5 ∧ vset S 14 ∧ vset S 2 ∧ vset S 3 ∧ vset S 4 ∧ vset S 5)

theorem cntV_perm (S T : List Card) (h : S.Perm T) (v : Nat) :
    countOfValue S v = countOfValue T v := by
  unfold countOfValue
  rw [← List.countP_eq_length_filter, ← List.countP_eq_length_filter]
  exact h.countP_eq _

theorem vset_perm (S T : List Card) (h : S.Perm T) (v : Nat) :
    vset S v ↔ vset T v := by
  unfold vset
  constructor
  · rintro ⟨c, hc, rfl⟩
    exact ⟨c, h.mem_iff.mp hc, rfl⟩
  · rintro ⟨c, hc, rfl⟩
    exact ⟨c, h.mem_iff.mpr hc, rfl⟩

theorem sortNatAsc_map_mem (S : List Card) (f : Card → Nat) (v : Nat) :
    v ∈ sortNatAsc (S.map f) ↔ ∃ c ∈ S, f c = v := by
  rw [(sortNatAsc_perm _).mem_iff, List.mem_map]

theorem checkStraight_some_inv (S : List Card) (hlen : S.length = 5)
    (ev : HandEvaluation) (h : checkStraight S = some ev) :
    ∃ hh, ev.rank = HandRank.STRAIGHT ∧
      ev.value = HandRank.STRAIGHT * CATEGORY_BASE + hh ∧ StraightOf S hh := by
  unfold checkStraight at h
  by_cases hst : ((sortNatAsc (S.map (fun card => rankToValue card.rank))).zip
      (sortNatAsc (S.map (fun card => rankToValue card.rank))).tail).all
      (fun p => decide (p.2 = p.1 + 1)) = true
  · rw [if_pos hst] at h
    injection h with h
    subst h
    have hchain := (zipTail_all_iff _).mp hst
    have hlen5 : (sortNatAsc (S.map (fun card => rankToValue card.rank))).length = 5 := by
      rw [(sortNatAsc_perm _).length_eq, List.length_map, hlen]
    obtain ⟨a, ha⟩ := chain5_window _ hlen5 hchain
    have hmem : ∀ v ∈ [a, a + 1, a + 2, a + 3, a + 4], ∃ c ∈ S, rankToValue c.rank = v := by
      intro v hv
      rw [← ha] at hv
      exact (sortNatAsc_map_mem S _ v).mp hv
    have ha2 : 2 ≤ a := by
      obtain ⟨c, _, hc⟩ := hmem a (by simp)
      rw [← hc]
      exact rankToValue_ge_two c.rank
    have ha14 : a + 4 ≤ 14 := by
      obtain ⟨c, _, hc⟩ := hmem (a + 4) (by simp)
      rw [← hc]
      exact rankToValue_le_14 c.rank
    refine ⟨a + 4, rfl, ?_, ?_⟩
    · show HandRank.STRAIGHT * CATEGORY_BASE +
        (sortNatAsc (S.map (fun card => rankToValue card.rank))).getLastD 0 = _
      rw [ha]
      rfl
    · left
      refine ⟨by omega, ha14, ?_, ?_, ?_, ?_, ?_⟩
      · have := hmem (a + 4) (by simp)
        simpa [vset] using this
      · have := hmem (a + 3) (by simp)
        have he : a + 4 - 1 = a + 3 := by omega
        rw [he]
        simpa [vset] using this
      · have := hmem (a + 2) (by simp)
        have he : a + 4 - 2 = a + 2 := by omega
        rw [he]
        simpa [vset] using this
      · have := hmem (a + 1) (by simp)
        have he : a + 4 - 3 = a + 1 := by omega
        rw [he]
        simpa [vset] using this
      · have := hmem a (by simp)
        have he : a + 4 - 4 = a := by omega
        rw [he]
        simpa [vset] using this
  · rw [if_neg hst] at h
    by_cases hwheel : sortNatAsc (S.map (fun card =>
        if card.rank = Rank.rA then 1 else rankToValue card.rank)) = [1, 2, 3, 4, 5]
    · rw [if_pos hwheel] at h
      injection h with h
      subst h
      have hmem : ∀ v ∈ ([1, 2, 3, 4, 5] : List Nat), ∃ c ∈ S,
          (if c.rank = Rank.rA then 1 else rankToValue c.rank) = v := by
        intro v hv
        rw [← hwheel] at hv
        exact (sortNatAsc_map_mem S _ v).mp hv
      refine ⟨5, rfl, rfl, ?_⟩
      right
      refine ⟨rfl, ?_, ?_, ?_, ?_, ?_⟩
      · obtain ⟨c, hc, hv⟩ := hmem 1 (by simp)
        by_cases hA : c.rank = Rank.rA
        · exact ⟨c, hc, by rw [hA]; rfl⟩
        · rw [if_neg hA] at hv
          have := rankToValue_ge_two c.rank
          omega
      · obtain ⟨c, hc, hv⟩ := hmem 2 (by simp)
        by_cases hA : c.rank = Rank.rA
        · rw [if_pos hA] at hv
          cases hv
        · rw [if_neg hA] at hv
          exact ⟨c, hc, hv⟩
      · obtain ⟨c, hc, hv⟩ := hmem 3 (by simp)
        by_cases hA : c.rank = Rank.rA
        · rw [if_pos hA] at hv
          cases hv
        · rw [if_neg hA] at hv
          exact ⟨c, hc, hv⟩
      · obtain ⟨c, hc, hv⟩ := hmem 4 (by simp)
        by_cases hA : c.rank = Rank.rA
        · rw [if_pos hA] at hv
          cases hv
        · rw [if_neg hA] at hv
          exact ⟨c, hc, hv⟩
      · obtain ⟨c, hc, hv⟩ := hmem 5 (by simp)
        by_cases hA : c.rank = Rank.rA
        · rw [if_pos hA] at hv
          cases hv
        · rw [if_neg hA] at hv
          exact ⟨c, hc, hv⟩
    · rw [if_neg hwheel] at h
      cases h

-- ------------------------------
-- multiset views of the value list
-- ------------------------------

theorem count_map_val (S : List Card) (v : Nat) :
    (S.map (fun c => rankToValue c.rank)).count v = countOfValue S v := by
  induction S with
  | nil => rfl
  | cons c cs ih =>
    rw [List.map_cons, cnt_cons]
    by_cases h : rankToValue c.rank = v
    · simp only [List.count_cons, h, ih, if_pos rfl, beq_self_eq_true]
      omega
    · simp [List.count_cons, Ne.symm h, ih, h]

theorem mapval_nodup_of_cnt (S : List Card) (h : ∀ v, countOfValue S v ≤ 1) :
    (S.map (fun c => rankToValue c.rank)).Nodup := by
  rw [List.nodup_iff_count_le_one]
  intro v
  rw [count_map_val]
  exact h v

theorem perm_of_nodup_mutual_sub {l l' : List Nat} (h1 : l.Nodup) (h2 : l'.Nodup)
    (s1 : ∀ x ∈ l, x ∈ l') (s2 : ∀ x ∈ l', x ∈ l) : l.Perm l' :=
  (List.subperm_of_subset h1 s1).antisymm (List.subperm_of_subset h2 s2)

theorem sortNatAsc_sorted_unique (l w : List Nat) (hperm : l.Perm w)
    (hw : w.Pairwise (· ≤ ·)) : sortNatAsc l = w := by
  haveI : IsAntisymm Nat (· ≤ ·) := ⟨fun a b h1 h2 => Nat.le_antisymm h1 h2⟩
  exact List.eq_of_perm_of_sorted ((sortNatAsc_perm l).trans hperm)
    (sortNatAsc_sorted l) hw

theorem window_pairwise (a : Nat) :
    ([a, a + 1, a + 2, a + 3, a + 4] : List Nat).Pairwise (· ≤ ·) := by
  rw [← List.chain'_iff_pairwise]
  simp only [List.chain'_cons, List.chain'_singleton, and_true]
  refine ⟨?_, ?_, ?_, ?_⟩ <;> omega

theorem window_nodup_asc (a : Nat) :
    ([a, a + 1, a + 2, a + 3, a + 4] : List Nat).Nodup := by
  simp only [List.nodup_cons, List.mem_cons, List.mem_singleton, List.not_mem_nil,
    or_false, List.nodup_nil, and_true]
  push_neg
  refine ⟨⟨?_, ?_, ?_, ?_⟩, ⟨?_, ?_, ?_⟩, ⟨?_, ?_⟩, ?_, not_false⟩ <;> omega

theorem mapval_perm_window (S : List Card) (hlen : S.length = 5) (a : Nat)
    (hcnt : ∀ i, i < 5 → countOfValue S (a + i) = 1)
    (hcov : ∀ c ∈ S, ∃ i, i < 5 ∧ rankToValue c.rank = a + i) :
    (S.map (fun c => rankToValue c.rank)).Perm [a, a + 1, a + 2, a + 3, a + 4] := by
  have hnd : (S.map (fun c => rankToValue c.rank)).Nodup := by
    apply mapval_nodup_of_cnt
    intro v
    by_cases hv : ∃ i, i < 5 ∧ v = a + i
    · obtain ⟨i, hi, rfl⟩ := hv
      rw [hcnt i hi]
    · by_contra hc
      push_neg at hc
      have hpos : 0 < countOfValue S v := by omega
      obtain ⟨c, hcm, hcv⟩ := (cnt_pos_iff S v).mp hpos
      obtain ⟨i, hi, hcv2⟩ := hcov c hcm
      exact hv ⟨i, hi, by rw [← hcv, hcv2]⟩
  refine perm_of_nodup_mutual_sub hnd (window_nodup_asc a) ?_ ?_
  · intro x hx
    obtain ⟨c, hc, rfl⟩ := List.mem_map.mp hx
    obtain ⟨i, hi, hv⟩ := hcov c hc
    rw [hv]
    interval_cases i <;> simp
  · intro x hx
    have hvi : ∃ i, i < 5 ∧ x = a + i := by
      simp only [List.mem_cons, List.mem_singleton, List.not_mem_nil, or_false] at hx
      rcases hx with rfl | rfl | rfl | rfl | rfl
      · exact ⟨0, by omega, by omega⟩
      · exact ⟨1, by omega, by omega⟩
      · exact ⟨2, by omega, by omega⟩
      · exact ⟨3, by omega, by omega⟩
      · exact ⟨4, by omega, by omega⟩
    obtain ⟨i, hi, rfl⟩ := hvi
    have hpos : 0 < countOfValue S (a + i) := by
      rw [hcnt i hi]
      omega
    obtain ⟨c, hc, hcv⟩ := (cnt_pos_iff S (a + i)).mp hpos
    exact List.mem_map.mpr ⟨c, hc, hcv⟩

theorem two_mem_length {α : Type} [DecidableEq α] (l : List α) (c d : α)
    (hc : c ∈ l) (hd : d ∈ l) (hne : c ≠ d) : 2 ≤ l.length := by
  have hnd : ([c, d] : List α).Nodup := by simp [hne]
  have hsub : ∀ x ∈ ([c, d] : List α), x ∈ l := by
    intro x hx
    rcases List.mem_cons.mp hx with rfl | hx
    · exact hc
    · rw [List.mem_singleton.mp hx]
      exact hd
  have hsp := List.subperm_of_subset hnd hsub
  simpa using hsp.length_le

theorem cnt_two_of_two (S : List Card) (c d : Card) (hc : c ∈ S) (hd : d ∈ S)
    (hne : c ≠ d) (hv : rankToValue c.rank = rankToValue d.rank) :
    2 ≤ countOfValue S (rankToValue c.rank) := by
  unfold countOfValue
  refine two_mem_length _ c d ?_ ?_ hne
  · exact List.mem_filter.mpr ⟨hc, by simp⟩
  · exact List.mem_filter.mpr ⟨hd, by simp [← hv]⟩

theorem val_eq_rank_eq (c d : Card) (h : rankToValue c.rank = rankToValue d.rank) :
    c.rank = d.rank := rankToValue_inj _ _ h

theorem val14_is_ace (r : Rank) (h : rankToValue r = 14) : r = Rank.rA :=
  rankToValue_inj r Rank.rA h

theorem checkStraight_of_window (S : List Card) (hlen : S.length = 5) (a : Nat)
    (hcnt : ∀ i, i < 5 → countOfValue S (a + i) = 1)
    (hcov : ∀ c ∈ S, ∃ i, i < 5 ∧ rankToValue c.rank = a + i) :
    ∃ ev, checkStraight S = some ev ∧ ev.rank = HandRank.STRAIGHT ∧
      ev.value = HandRank.STRAIGHT * CATEGORY_BASE + (a + 4) := by
  have hvals : sortNatAsc (S.map (fun card => rankToValue card.rank))
      = [a, a + 1, a + 2, a + 3, a + 4] :=
    sortNatAsc_sorted_unique _ _ (mapval_perm_window S hlen a hcnt hcov) (window_pairwise a)
  unfold checkStraight
  rw [hvals]
  rw [if_pos (by simp)]
  exact ⟨_, rfl, rfl, rfl⟩

theorem aceLow_ne_one (c : Card) (h : c.rank ≠ Rank.rA) :
    (if c.rank = Rank.rA then 1 else rankToValue c.rank) = rankToValue c.rank := if_neg h

theorem checkStraight_of_wheel (S : List Card) (hlen : S.length = 5) (hnd : S.Nodup)
    (hcnt14 : countOfValue S 14 = 1)
    (hcnt : ∀ v, 2 ≤ v → v ≤ 5 → countOfValue S v = 1)
    (hcov : ∀ c ∈ S, rankToValue c.rank = 14 ∨
      (2 ≤ rankToValue c.rank ∧ rankToValue c.rank ≤ 5)) :
    ∃ ev, checkStraight S = some ev ∧ ev.rank = HandRank.STRAIGHT ∧
      ev.value = HandRank.STRAIGHT * CATEGORY_BASE + 5 := by
  have hcle : ∀ v, countOfValue S v ≤ 1 := by
    intro v
    by_cases h14 : v = 14
    · rw [h14, hcnt14]
    · by_cases hv5 : 2 ≤ v ∧ v ≤ 5
      · rw [hcnt v hv5.1 hv5.2]
      · by_contra hc
        have hpos : 0 < countOfValue S v := by omega
        obtain ⟨c, hcm, hcv⟩ := (cnt_pos_iff S v).mp hpos
        rcases hcov c hcm with h | h
        · exact h14 (by omega)
        · exact hv5 (by omega)
  have hrank_inj : ∀ c ∈ S, ∀ d ∈ S, rankToValue c.rank = rankToValue d.rank → c = d := by
    intro c hc d hd hv
    by_contra hne
    have h2 := cnt_two_of_two S c d hc hd hne hv
    have h1 := hcle (rankToValue c.rank)
    omega
  have hvals1 : sortNatAsc (S.map (fun card => rankToValue card.rank))
      = [2, 3, 4, 5, 14] := by
    refine sortNatAsc_sorted_unique _ _ ?_ (by decide)
    refine perm_of_nodup_mutual_sub (mapval_nodup_of_cnt S hcle) (by decide) ?_ ?_
    · intro x hx
      obtain ⟨c, hc, rfl⟩ := List.mem_map.mp hx
      rcases hcov c hc with h | h
      · rw [h]
        simp
      · simp only [List.mem_cons, List.not_mem_nil, or_false]
        omega
    · intro x hx
      have hxv : x = 14 ∨ (2 ≤ x ∧ x ≤ 5) := by
        simp only [List.mem_cons, List.not_mem_nil, or_false] at hx
        omega
      have hpos : 0 < countOfValue S x := by
        rcases hxv with rfl | hx5
        · omega
        · rw [hcnt x hx5.1 hx5.2]
          omega
      obtain ⟨c, hc, hcv⟩ := (cnt_pos_iff S x).mp hpos
      exact List.mem_map.mpr ⟨c, hc, hcv⟩
  have hsorted : sortNatAsc (S.map (fun card =>
      if card.rank = Rank.rA then 1 else rankToValue card.rank)) = [1, 2, 3, 4, 5] := by
    refine sortNatAsc_sorted_unique _ _ ?_ (by decide)
    refine perm_of_nodup_mutual_sub ?_ (by decide) ?_ ?_
    · rw [List.nodup_map_iff_inj_on hnd]
      intro c hc d hd hv
      by_cases hcA : c.rank = Rank.rA <;> by_cases hdA : d.rank = Rank.rA
      · exact hrank_inj c hc d hd (by rw [hcA, hdA])
      · rw [if_pos hcA, if_neg hdA] at hv
        rcases hcov d hd with h | h
        · exact absurd (val14_is_ace _ h) hdA
        · omega
      · rw [if_neg hcA, if_pos hdA] at hv
        rcases hcov c hc with h | h
        · exact absurd (val14_is_ace _ h) hcA
        · omega
      · rw [if_neg hcA, if_neg hdA] at hv
        exact hrank_inj c hc d hd hv
    · intro x hx
      obtain ⟨c, hc, rfl⟩ := List.mem_map.mp hx
      by_cases hcA : c.rank = Rank.rA
      · rw [if_pos hcA]
        simp
      · rw [if_neg hcA]
        rcases hcov c hc with h | h
        · exact absurd (val14_is_ace _ h) hcA
        · simp only [List.mem_cons, List.not_mem_nil, or_false]
          omega
    · intro x hx
      have hxv : x = 1 ∨ (2 ≤ x ∧ x ≤ 5) := by
        simp only [List.mem_cons, List.not_mem_nil, or_false] at hx
        omega
      rcases hxv with rfl | hx5
      · have hpos : 0 < countOfValue S 14 := by omega
        obtain ⟨c, hc, hcv⟩ := (cnt_pos_iff S 14).mp hpos
        refine List.mem_map.mpr ⟨c, hc, ?_⟩
        rw [if_pos (val14_is_ace _ hcv)]
      · have hpos : 0 < countOfValue S x := by
          rw [hcnt x hx5.1 hx5.2]
          omega
        obtain ⟨c, hc, hcv⟩ := (cnt_pos_iff S x).mp hpos
        refine List.mem_map.mpr ⟨c, hc, ?_⟩
        have hcA : c.rank ≠ Rank.rA := by
          intro hA
          rw [hA] at hcv
          simp [rankToValue] at hcv
          omega
        rw [if_neg hcA]
        exact hcv
  unfold checkStraight
  rw [hvals1, hsorted]
  rw [if_neg (by decide), if_pos (by decide)]
  exact ⟨_, rfl, rfl, rfl⟩

theorem count_map_ge (S : List Card) (f : Card → Nat) (v w : Nat)
    (himp : ∀ c ∈ S, rankToValue c.rank = v → f c = w) :
    countOfValue S v ≤ (S.map f).count w := by
  have h1 : (S.map f).count w = S.countP (fun c => f c == w) := by
    show (S.map f).countP (· == w) = S.countP (fun c => f c == w)
    rw [List.countP_map]
    rfl
  rw [h1]
  have h2 : countOfValue S v = S.countP (fun c => decide (rankToValue c.rank = v)) := by
    unfold countOfValue
    rw [List.countP_eq_length_filter]
  rw [h2]
  refine List.countP_mono_left ?_
  intro c hc hcv
  have := himp c hc (by simpa using hcv)
  simp [this]

theorem checkStraight_none_of_dup (S : List Card) (v : Nat)
    (h2 : 2 ≤ countOfValue S v) : checkStraight S = none := by
  unfold checkStraight
  have hA : ¬ (((sortNatAsc (S.map (fun card => rankToValue card.rank))).zip
      (sortNatAsc (S.map (fun card => rankToValue card.rank))).tail).all
      (fun p => decide (p.2 = p.1 + 1)) = true) := by
    intro hs
    have hchain := (zipTail_all_iff _).mp hs
    have hlt : (sortNatAsc (S.map (fun card => rankToValue card.rank))).Pairwise (· < ·) := by
      rw [← List.chain'_iff_pairwise]
      exact hchain.imp (fun h => by omega)
    have hnd2 : (S.map (fun card => rankToValue card.rank)).Nodup := by
      have hnds : (sortNatAsc (S.map (fun card => rankToValue card.rank))).Nodup :=
        hlt.imp (fun h => Nat.ne_of_lt h)
      exact ((sortNatAsc_perm _).nodup_iff).mp hnds
    rw [List.nodup_iff_count_le_one] at hnd2
    have hc1 := hnd2 v
    rw [count_map_val] at hc1
    omega
  have hB : ¬ (sortNatAsc (S.map (fun card =>
      if card.rank = Rank.rA then 1 else rankToValue card.rank)) = [1, 2, 3, 4, 5]) := by
    intro hw
    have hnodup : (S.map (fun card =>
        if card.rank = Rank.rA then 1 else rankToValue card.rank)).Nodup := by
      have hnds : (sortNatAsc (S.map (fun card =>
          if card.rank = Rank.rA then 1 else rankToValue card.rank))).Nodup := by
        rw [hw]
        decide
      exact ((sortNatAsc_perm _).nodup_iff).mp hnds
    rw [List.nodup_iff_count_le_one] at hnodup
    obtain ⟨c0, hc0, hv0⟩ := (cnt_pos_iff S v).mp (by omega)
    have hge := count_map_ge S (fun card =>
        if card.rank = Rank.rA then 1 else rankToValue card.rank) v
      (if c0.rank = Rank.rA then 1 else rankToValue c0.rank) (by
        intro c hc hv
        have hr : c.rank = c0.rank := rankToValue_inj _ _ (hv.trans hv0.symm)
        show (if c.rank = Rank.rA then 1 else rankToValue c.rank) = _
        rw [hr])
    have hcc := hnodup (if c0.rank = Rank.rA then 1 else rankToValue c0.rank)
    omega
  rw [if_neg hA, if_neg hB]

-- ------------------------------
-- accounting: hand size as a sum of value multiplicities
-- ------------------------------

theorem length_eq_sum_cnt_uniq (S : List Card) :
    S.length = ((uniqueValuesDesc S).map (fun v => countOfValue S v)).sum := by
  refine length_eq_sum_cnt (uniqueValuesDesc S) S (uniqDesc_nodup S) ?_
  intro c hc
  exact (uniqDesc_mem S _).mpr ⟨c, hc, rfl⟩

theorem cnt_sum_le (vs : List Nat) : ∀ (cs : List Card), vs.Nodup →
    (vs.map (fun v => countOfValue cs v)).sum ≤ cs.length := by
  induction vs with
  | nil =>
    intro cs _
    simp
  | cons v vs ih =>
    intro cs hnd
    have hsplit := length_filter_split cs (fun c => decide (rankToValue c.rank = v))
    have hrest := ih (cs.filter (fun c => !(decide (rankToValue c.rank = v)))) hnd.tail
    have hcong : (vs.map (fun w => countOfValue
        (cs.filter (fun c => !(decide (rankToValue c.rank = v)))) w)).sum
        = (vs.map (fun w => countOfValue cs w)).sum := by
      congr 1
      apply List.map_congr_left
      intro w hw
      have hwv : w ≠ v := by
        intro he
        rw [he] at hw
        exact (List.nodup_cons.mp hnd).1 hw
      exact cnt_filter_ne cs v w hwv
    rw [List.map_cons, List.sum_cons]
    have hv : countOfValue cs v
        = (cs.filter (fun c => decide (rankToValue c.rank = v))).length := rfl
    omega

theorem sortNatDesc_sorted_unique (l w : List Nat) (hperm : l.Perm w)
    (hw : w.Pairwise (· ≥ ·)) : sortNatDesc l = w := by
  haveI : IsAntisymm Nat (· ≥ ·) := ⟨fun a b h1 h2 => Nat.le_antisymm h2 h1⟩
  exact List.eq_of_perm_of_sorted ((sortNatDesc_perm l).trans hperm)
    (sortNatDesc_sorted l) hw

theorem filter_ne_length (l : List Nat) (hnd : l.Nodup) (t : Nat) (ht : t ∈ l) :
    (l.filter (fun v => !(decide (v = t)))).length + 1 = l.length := by
  induction l with
  | nil => simp at ht
  | cons x xs ih =>
    by_cases hx : x = t
    · rw [List.filter_cons_of_neg (by simp [hx])]
      have : t ∉ xs := by
        rw [← hx]
        exact (List.nodup_cons.mp hnd).1
      have hall : xs.filter (fun v => !(decide (v = t))) = xs := by
        apply List.filter_eq_self.mpr
        intro a ha
        simp only [Bool.not_eq_true']
        rw [decide_eq_false_iff_not]
        intro he
        rw [he] at ha
        exact this ha
      rw [hall]
      simp
    · rw [List.filter_cons_of_pos (by simp [hx])]
      rcases List.mem_cons.mp ht with h | h
      · exact absurd h.symm hx
      · have := ih (List.nodup_cons.mp hnd).2 h
        simp only [List.length_cons]
        omega

theorem sum_map_one (xs : List Nat) (f : Nat → Nat) (h : ∀ v ∈ xs, f v = 1) :
    (xs.map f).sum = xs.length := by
  induction xs with
  | nil => rfl
  | cons x xs ih =>
    rw [List.map_cons, List.sum_cons, List.length_cons,
      ih (fun v hv => h v (List.mem_cons_of_mem x hv)), h x (by simp)]
    omega

/-- sum over a nodup list where every element except `t` has multiplicity one. -/
theorem sum_counts_split (vs : List Nat) (f : Nat → Nat) (t : Nat) :
    vs.Nodup → t ∈ vs → (∀ v ∈ vs, v ≠ t → f v = 1) →
    (vs.map f).sum = f t + (vs.length - 1) := by
  induction vs with
  | nil =>
    intro _ ht _
    simp at ht
  | cons x xs ih =>
    intro hnd ht hothers
    rw [List.map_cons, List.sum_cons, List.length_cons]
    by_cases hx : x = t
    · subst hx
      have htn : x ∉ xs := (List.nodup_cons.mp hnd).1
      have hsum : (xs.map f).sum = xs.length :=
        sum_map_one xs f (fun v hv =>
          hothers v (List.mem_cons_of_mem x hv) (fun he => htn (he ▸ hv)))
      omega
    · have hxm : t ∈ xs := by
        rcases List.mem_cons.mp ht with h | h
        · exact absurd h.symm hx
        · exact h
      have hih := ih (List.nodup_cons.mp hnd).2 hxm
        (fun v hv hne => hothers v (List.mem_cons_of_mem x hv) hne)
      have hfx : f x = 1 := hothers x (by simp) hx
      have hpos : 1 ≤ xs.length := List.length_pos.mpr (by
        rintro rfl
        simp at hxm)
      omega

-- ------------------------------
-- entry-level corollaries of the rank-count table
-- ------------------------------

theorem rankToValue_injective : Function.Injective (fun r => rankToValue r) := by
  intro a b h
  exact rankToValue_inj a b h

theorem grc_mem_facts (cs : List Card) (e : Rank × Nat) (he : e ∈ getRankCounts cs) :
    e.2 = cntRank cs e.1 ∧ e.1 ∈ cs.map (fun c => c.rank) :=
  (grc_spec cs).2.1 e he

theorem grc_keys_nodup (cs : List Card) : ((getRankCounts cs).map Prod.fst).Nodup :=
  (grc_spec cs).1

theorem grc_entry (cs : List Card) (r : Rank) (hp : r ∈ cs.map (fun c => c.rank)) :
    (r, cntRank cs r) ∈ getRankCounts cs := by
  obtain ⟨hnd, hcnt, hcov⟩ := grc_spec cs
  obtain ⟨c, hc, hcr⟩ := List.mem_map.mp hp
  have hk := hcov c hc
  rw [hcr] at hk
  obtain ⟨e, he, hef⟩ := List.mem_map.mp hk
  obtain ⟨h1, _⟩ := hcnt e he
  have heq : e = (r, cntRank cs r) := by
    cases e with
    | mk er en =>
      simp only at hef h1
      rw [hef] at h1 ⊢
      rw [h1]
  rw [← heq]
  exact he

theorem grc_rank_present (cs : List Card) (v : Nat) (hv : vset cs v) :
    ∃ r, r ∈ cs.map (fun c => c.rank) ∧ rankToValue r = v ∧
      (r, cntRank cs r) ∈ getRankCounts cs := by
  obtain ⟨c, hc, hcv⟩ := hv
  exact ⟨c.rank, List.mem_map.mpr ⟨c, hc, rfl⟩, hcv,
    grc_entry cs c.rank (List.mem_map.mpr ⟨c, hc, rfl⟩)⟩

theorem grc_filter_map_perm (S : List Card) (tr : Rank) :
    (((getRankCounts S).filter (fun e => e.1 ≠ tr)).map
      (fun e => rankToValue e.1)).Perm
      ((uniqueValuesDesc S).filter (fun v => v ≠ rankToValue tr)) := by
  refine perm_of_nodup_mutual_sub ?_ ?_ ?_ ?_
  · have h1 : (((getRankCounts S).filter (fun e => e.1 ≠ tr)).map Prod.fst).Nodup :=
      (grc_keys_nodup S).sublist ((List.filter_sublist _).map Prod.fst)
    have h2 := h1.map rankToValue_injective
    rw [List.map_map] at h2
    exact h2
  · exact (uniqDesc_nodup S).filter _
  · intro x hx
    obtain ⟨e, he, hex⟩ := List.mem_map.mp hx
    have hef := List.mem_filter.mp he
    obtain ⟨h1, h2⟩ := grc_mem_facts S e hef.1
    rw [List.mem_filter]
    constructor
    · rw [← hex]
      obtain ⟨c, hc, hcr⟩ := List.mem_map.mp h2
      exact (uniqDesc_mem S _).mpr ⟨c, hc, by rw [hcr]⟩
    · rw [← hex]
      have hne : e.1 ≠ tr := by simpa using hef.2
      simp only [decide_eq_true_eq]
      intro hv
      exact hne (rankToValue_inj _ _ hv)
  · intro x hx
    have hxf := List.mem_filter.mp hx
    have hxv : vset S x := by
      obtain ⟨c, hc, hcv⟩ := (uniqDesc_mem S x).mp hxf.1
      exact ⟨c, hc, hcv⟩
    obtain ⟨r, hr, hrv, hre⟩ := grc_rank_present S x hxv
    refine List.mem_map.mpr ⟨(r, cntRank S r), ?_, hrv⟩
    rw [List.mem_filter]
    refine ⟨hre, ?_⟩
    simp only [decide_eq_true_eq]
    intro he
    have : rankToValue r ≠ x := by
      rw [he]
      have := hxf.2
      simp only [decide_eq_true_eq] at this
      intro hv
      exact this hv.symm
    exact this hrv

-- ------------------------------
-- the flush family of checks
-- ------------------------------

theorem flush_cnt_le_one (S : List Card) (hnd : S.Nodup) (s : Suit)
    (hfl : ∀ c ∈ S, c.suit = s) (v : Nat) : countOfValue S v ≤ 1 := by
  by_contra hcon
  have h2 : 2 ≤ countOfValue S v := by omega
  unfold countOfValue at h2
  cases hf : S.filter (fun c => decide (rankToValue c.rank = v)) with
  | nil =>
    rw [hf] at h2
    simp at h2
  | cons c tail =>
    cases tail with
    | nil =>
      rw [hf] at h2
      simp at h2
    | cons d rest =>
      have hndf : (c :: d :: rest).Nodup := by
        rw [← hf]
        exact hnd.filter _
      have hcd : c ≠ d := by
        intro he
        rw [he] at hndf
        exact (List.nodup_cons.mp hndf).1 (by simp)
      have hcm : c ∈ S.filter (fun c => decide (rankToValue c.rank = v)) := by
        rw [hf]
        simp
      have hdm : d ∈ S.filter (fun c => decide (rankToValue c.rank = v)) := by
        rw [hf]
        simp
      have hc1 := List.mem_filter.mp hcm
      have hd1 := List.mem_filter.mp hdm
      have hvv : rankToValue c.rank = rankToValue d.rank := by
        have e1 : rankToValue c.rank = v := by simpa using hc1.2
        have e2 : rankToValue d.rank = v := by simpa using hd1.2
        rw [e1, e2]
      exact hcd (card_ext c d ((hfl c hc1.1).trans (hfl d hd1.1).symm)
        (rankToValue_inj _ _ hvv))

theorem royal_val_of_rank (r : Rank)
    (hr : r ∈ [Rank.rT, Rank.rJ, Rank.rQ, Rank.rK, Rank.rA]) :
    10 ≤ rankToValue r ∧ rankToValue r ≤ 14 := by
  rcases List.mem_cons.mp hr with rfl | hr
  · exact ⟨by decide, by decide⟩
  rcases List.mem_cons.mp hr with rfl | hr
  · exact ⟨by decide, by decide⟩
  rcases List.mem_cons.mp hr with rfl | hr
  · exact ⟨by decide, by decide⟩
  rcases List.mem_cons.mp hr with rfl | hr
  · exact ⟨by decide, by decide⟩
  rcases List.mem_cons.mp hr with rfl | hr
  · exact ⟨by decide, by decide⟩
  simp at hr

theorem checkRoyalFlush_some_inv (S : List Card) (hlen : S.length = 5)
    (ev : HandEvaluation) (h : checkRoyalFlush S = some ev) :
    (∃ s, ∀ c ∈ S, c.suit = s) ∧ vset S 10 ∧ vset S 11 ∧ vset S 12 ∧
      vset S 13 ∧ vset S 14 ∧
      ev.rank = HandRank.ROYAL_FLUSH ∧
      ev.value = HandRank.ROYAL_FLUSH * CATEGORY_BASE + 14 := by
  simp only [checkRoyalFlush] at h
  have hne : S ≠ [] := by
    intro he
    rw [he] at hlen
    cases hlen
  by_cases hfl : (S.all fun card => decide (card.suit = (S.headD default).suit)) = true
  · rw [if_neg (not_not_intro hfl)] at h
    by_cases hroyal : (([Rank.rT, Rank.rJ, Rank.rQ, Rank.rK, Rank.rA] : List Rank).all
        fun r => (S.map (fun card => card.rank)).contains r) = true
    · rw [if_neg (not_not_intro hroyal)] at h
      injection h with h
      subst h
      obtain ⟨s, hs⟩ := (all_suit_iff S hne).mp hfl
      rw [List.all_eq_true] at hroyal
      have hget : ∀ r : Rank, r ∈ [Rank.rT, Rank.rJ, Rank.rQ, Rank.rK, Rank.rA] →
          vset S (rankToValue r) := by
        intro r hr
        have hcont := hroyal r hr
        have hmem := List.mem_of_elem_eq_true hcont
        obtain ⟨c, hc, hcr⟩ := List.mem_map.mp hmem
        exact ⟨c, hc, by rw [hcr]⟩
      refine ⟨⟨s, hs⟩, ?_, ?_, ?_, ?_, ?_, rfl, rfl⟩
      · exact hget Rank.rT (by decide)
      · exact hget Rank.rJ (by decide)
      · exact hget Rank.rQ (by decide)
      · exact hget Rank.rK (by decide)
      · exact hget Rank.rA (by decide)
    · rw [if_pos hroyal] at h
      cases h
  · rw [if_pos hfl] at h
    cases h

theorem rank_of_val (v : Nat) (hv : 2 ≤ v) (hv14 : v ≤ 14) :
    ∃ r : Rank, rankToValue r = v := by
  interval_cases v
  · exact ⟨Rank.r2, rfl⟩
  · exact ⟨Rank.r3, rfl⟩
  · exact ⟨Rank.r4, rfl⟩
  · exact ⟨Rank.r5, rfl⟩
  · exact ⟨Rank.r6, rfl⟩
  · exact ⟨Rank.r7, rfl⟩
  · exact ⟨Rank.r8, rfl⟩
  · exact ⟨Rank.r9, rfl⟩
  · exact ⟨Rank.rT, rfl⟩
  · exact ⟨Rank.rJ, rfl⟩
  · exact ⟨Rank.rQ, rfl⟩
  · exact ⟨Rank.rK, rfl⟩
  · exact ⟨Rank.rA, rfl⟩

theorem checkRoyalFlush_some_of (S : List Card) (hlen : S.length = 5) (s : Suit)
    (hfl : ∀ c ∈ S, c.suit = s) (h10 : vset S 10) (h11 : vset S 11) (h12 : vset S 12)
    (h13 : vset S 13) (h14 : vset S 14) :
    ∃ ev, checkRoyalFlush S = some ev ∧ ev.rank = HandRank.ROYAL_FLUSH ∧
      ev.value = HandRank.ROYAL_FLUSH * CATEGORY_BASE + 14 := by
  have hne : S ≠ [] := by
    intro he
    rw [he] at hlen
    cases hlen
  have hflb := (all_suit_iff S hne).mpr ⟨s, hfl⟩
  have hcont : ∀ (r : Rank) (v : Nat), rankToValue r = v → vset S v →
      (S.map (fun card => card.rank)).contains r = true := by
    intro r v hrv hvs
    obtain ⟨c, hc, hcv⟩ := hvs
    have hcr : c.rank = r := rankToValue_inj _ _ (by rw [hcv, hrv])
    exact List.elem_eq_true_of_mem (List.mem_map.mpr ⟨c, hc, hcr⟩)
  simp only [checkRoyalFlush]
  rw [if_neg (not_not_intro hflb)]
  rw [if_neg (not_not_intro (by
    rw [List.all_eq_true]
    intro r hr
    rcases List.mem_cons.mp hr with rfl | hr
    · exact hcont _ 10 rfl h10
    rcases List.mem_cons.mp hr with rfl | hr
    · exact hcont _ 11 rfl h11
    rcases List.mem_cons.mp hr with rfl | hr
    · exact hcont _ 12 rfl h12
    rcases List.mem_cons.mp hr with rfl | hr
    · exact hcont _ 13 rfl h13
    rcases List.mem_cons.mp hr with rfl | hr
    · exact hcont _ 14 rfl h14
    simp at hr))]
  exact ⟨_, rfl, rfl, rfl⟩

theorem checkStraightFlush_some_inv (S : List Card) (hlen : S.length = 5)
    (ev : HandEvaluation) (h : checkStraightFlush S = some ev) :
    (∃ s, ∀ c ∈ S, c.suit = s) ∧ ∃ hh, StraightOf S hh ∧
      ev.rank = HandRank.STRAIGHT_FLUSH ∧
      ev.value = HandRank.STRAIGHT_FLUSH * CATEGORY_BASE + hh := by
  simp only [checkStraightFlush] at h
  have hne : S ≠ [] := by
    intro he
    rw [he] at hlen
    cases hlen
  by_cases hfl : (S.all fun card => decide (card.suit = (S.headD default).suit)) = true
  · rw [if_neg (not_not_intro hfl)] at h
    cases hst : checkStraight S with
    | none =>
      rw [hst] at h
      cases h
    | some st =>
      rw [hst] at h
      injection h with h
      subst h
      obtain ⟨hh, hr, hv, hSt⟩ := checkStraight_some_inv S hlen st hst
      refine ⟨(all_suit_iff S hne).mp hfl, hh, hSt, rfl, ?_⟩
      show HandRank.STRAIGHT_FLUSH * CATEGORY_BASE +
        (st.value - HandRank.STRAIGHT * CATEGORY_BASE) = _
      rw [hv]
      simp only [HandRank.STRAIGHT_FLUSH, HandRank.STRAIGHT, CATEGORY_BASE]
      omega
  · rw [if_pos hfl] at h
    cases h

theorem checkStraightFlush_some_of (S : List Card) (hlen : S.length = 5) (s : Suit)
    (hfl : ∀ c ∈ S, c.suit = s) (st : HandEvaluation) (hh : Nat)
    (hst : checkStraight S = some st)
    (hv : st.value = HandRank.STRAIGHT * CATEGORY_BASE + hh) :
    ∃ ev, checkStraightFlush S = some ev ∧ ev.rank = HandRank.STRAIGHT_FLUSH ∧
      ev.value = HandRank.STRAIGHT_FLUSH * CATEGORY_BASE + hh := by
  have hne : S ≠ [] := by
    intro he
    rw [he] at hlen
    cases hlen
  simp only [checkStraightFlush]
  rw [if_neg (not_not_intro ((all_suit_iff S hne).mpr ⟨s, hfl⟩))]
  rw [hst]
  refine ⟨_, rfl, rfl, ?_⟩
  show HandRank.STRAIGHT_FLUSH * CATEGORY_BASE +
    (st.value - HandRank.STRAIGHT * CATEGORY_BASE) = _
  rw [hv]
  simp only [HandRank.STRAIGHT_FLUSH, HandRank.STRAIGHT, CATEGORY_BASE]
  omega

theorem checkStraightFlush_none_of_noflush (S : List Card)
    (hnf : ¬ (S.all fun card => decide (card.suit = (S.headD default).suit)) = true) :
    checkStraightFlush S = none := by
  simp only [checkStraightFlush]
  rw [if_pos hnf]

theorem checkRoyalFlush_none_of_noflush (S : List Card)
    (hnf : ¬ (S.all fun card => decide (card.suit = (S.headD default).suit)) = true) :
    checkRoyalFlush S = none := by
  simp only [checkRoyalFlush]
  rw [if_pos hnf]

theorem checkFlush_none_of_noflush (S : List Card)
    (hnf : ¬ (S.all fun card => decide (card.suit = (S.headD default).suit)) = true) :
    checkFlush S = none := by
  simp only [checkFlush]
  rw [if_pos hnf]

theorem noflush_of_two_suits (S : List Card) (c d : Card) (hc : c ∈ S) (hd : d ∈ S)
    (hne : c.suit ≠ d.suit) :
    ¬ (S.all fun card => decide (card.suit = (S.headD default).suit)) = true := by
  intro hall
  rw [List.all_eq_true] at hall
  have h1 := of_decide_eq_true (hall c hc)
  have h2 := of_decide_eq_true (hall d hd)
  exact hne (h1.trans h2.symm)

theorem checkFlush_some_inv (S : List Card) (hlen : S.length = 5)
    (ev : HandEvaluation) (h : checkFlush S = some ev) :
    (∃ s, ∀ c ∈ S, c.suit = s) ∧ checkStraight S = none ∧
      ev.rank = HandRank.FLUSH ∧
      ev.value = HandRank.FLUSH * CATEGORY_BASE +
        encode (sortNatDesc (S.map (fun card => rankToValue card.rank))) := by
  simp only [checkFlush] at h
  have hne : S ≠ [] := by
    intro he
    rw [he] at hlen
    cases hlen
  by_cases hfl : (S.all fun card => decide (card.suit = (S.headD default).suit)) = true
  · rw [if_neg (not_not_intro hfl)] at h
    cases hst : checkStraight S with
    | none =>
      rw [hst] at h
      simp only [Option.isSome_none, Bool.false_eq_true, if_neg, not_false_eq_true,
        if_false] at h
      injection h with h
      subst h
      exact ⟨(all_suit_iff S hne).mp hfl, rfl, rfl, rfl⟩
    | some st =>
      rw [hst] at h
      simp at h
  · rw [if_pos hfl] at h
    cases h

theorem checkFlush_some_of (S : List Card) (hlen : S.length = 5) (s : Suit)
    (hfl : ∀ c ∈ S, c.suit = s) (hnost : checkStraight S = none) :
    ∃ ev, checkFlush S = some ev ∧ ev.rank = HandRank.FLUSH ∧
      ev.value = HandRank.FLUSH * CATEGORY_BASE +
        encode (sortNatDesc (S.map (fun card => rankToValue card.rank))) := by
  have hne : S ≠ [] := by
    intro he
    rw [he] at hlen
    cases hlen
  simp only [checkFlush]
  rw [if_neg (not_not_intro ((all_suit_iff S hne).mpr ⟨s, hfl⟩))]
  rw [hnost]
  rw [if_neg (by simp)]
  exact ⟨_, rfl, rfl, rfl⟩


-- ------------------------------
-- the paired categories
-- ------------------------------

theorem find?_eq_some_of_unique {α : Type} : ∀ (l : List α) (p : α → Bool) (x : α),
    x ∈ l → p x = true → (∀ e ∈ l, p e = true → e = x) → l.find? p = some x
  | [], _, x, hx, _, _ => by simp at hx
  | c :: cs, p, x, hx, hpx, huniq => by
    by_cases hc : p c = true
    · rw [List.find?_cons_of_pos _ hc]
      rw [huniq c (by simp) hc]
    · rw [List.find?_cons_of_neg _ (by simpa using hc)]
      have hxcs : x ∈ cs := by
        rcases List.mem_cons.mp hx with rfl | h
        · exact absurd hpx hc
        · exact h
      exact find?_eq_some_of_unique cs p x hxcs hpx
        (fun e he hpe => huniq e (List.mem_cons_of_mem c he) hpe)

theorem grc_filter_cnt_map_perm (S : List Card) (k : Nat) :
    (((getRankCounts S).filter (fun e => e.2 = k)).map
      (fun e => rankToValue e.1)).Perm
      ((uniqueValuesDesc S).filter (fun v => countOfValue S v = k)) := by
  refine perm_of_nodup_mutual_sub ?_ ?_ ?_ ?_
  · have h1 : (((getRankCounts S).filter (fun e => e.2 = k)).map Prod.fst).Nodup :=
      (grc_keys_nodup S).sublist ((List.filter_sublist _).map Prod.fst)
    have h2 := h1.map rankToValue_injective
    rw [List.map_map] at h2
    exact h2
  · exact (uniqDesc_nodup S).filter _
  · intro x hx
    obtain ⟨e, he, hex⟩ := List.mem_map.mp hx
    have hef := List.mem_filter.mp he
    obtain ⟨h1, h2⟩ := grc_mem_facts S e hef.1
    rw [List.mem_filter]
    constructor
    · rw [← hex]
      obtain ⟨c, hc, hcr⟩ := List.mem_map.mp h2
      exact (uniqDesc_mem S _).mpr ⟨c, hc, by rw [hcr]⟩
    · simp only [decide_eq_true_eq]
      rw [← hex, ← cntRank_eq_cntV, ← h1]
      simpa using hef.2
  · intro x hx
    have hxf := List.mem_filter.mp hx
    have hxv : vset S x := by
      obtain ⟨c, hc, hcv⟩ := (uniqDesc_mem S x).mp hxf.1
      exact ⟨c, hc, hcv⟩
    obtain ⟨r, hr, hrv, hre⟩ := grc_rank_present S x hxv
    refine List.mem_map.mpr ⟨(r, cntRank S r), ?_, hrv⟩
    rw [List.mem_filter]
    refine ⟨hre, ?_⟩
    show decide ((r, cntRank S r).2 = k) = true
    simp only [decide_eq_true_eq]
    rw [cntRank_eq_cntV, hrv]
    simpa using hxf.2

theorem cnt_pair_le (S : List Card) (v w : Nat) (hvw : v ≠ w) :
    countOfValue S v + countOfValue S w ≤ S.length := by
  have := cnt_sum_le [v, w] S (by simp [hvw])
  simpa using this

theorem cnt_triple_le (S : List Card) (u v w : Nat) (huv : u ≠ v) (huw : u ≠ w)
    (hvw : v ≠ w) : countOfValue S u + countOfValue S v + countOfValue S w ≤ S.length := by
  have := cnt_sum_le [u, v, w] S (by simp [huv, huw, hvw])
  simp only [List.map_cons, List.map_nil, List.sum_cons, List.sum_nil] at this
  omega

theorem checkFourOfAKind_some_inv (S : List Card) (hlen : S.length = 5)
    (ev : HandEvaluation) (h : checkFourOfAKind S = some ev) :
    ∃ qv kv, countOfValue S qv = 4 ∧ vset S kv ∧ kv ≠ qv ∧
      ev.rank = HandRank.FOUR_OF_A_KIND ∧
      ev.value = HandRank.FOUR_OF_A_KIND * CATEGORY_BASE + encode [qv, kv] := by
  simp only [checkFourOfAKind] at h
  cases hq : (getRankCounts S).find? (fun e => e.2 = 4) with
  | none =>
    rw [hq] at h
    cases h
  | some quad =>
    rw [hq] at h
    dsimp only at h
    have hqm := List.mem_of_find?_eq_some hq
    have hqp : quad.2 = 4 := by simpa using List.find?_some hq
    obtain ⟨hq1, hq2⟩ := grc_mem_facts S quad hqm
    have hcnt4 : countOfValue S (rankToValue quad.1) = 4 := by
      rw [← cntRank_eq_cntV, ← hq1, hqp]
    cases hk : (getRankCounts S).find? (fun e => e.1 ≠ quad.1) with
    | none =>
      exfalso
      have hother : 0 < (S.filter (fun c =>
          !(decide (rankToValue c.rank = rankToValue quad.1)))).length := by
        have := length_filter_split S (fun c => decide (rankToValue c.rank = rankToValue quad.1))
        have hcv : (S.filter (fun c => decide (rankToValue c.rank = rankToValue quad.1))).length = 4 := hcnt4
        omega
      rw [List.length_pos_iff_exists_mem] at hother
      obtain ⟨c, hc⟩ := hother
      have hcm := List.mem_filter.mp hc
      have hcr : c.rank ≠ quad.1 := by
        intro he
        have : rankToValue c.rank = rankToValue quad.1 := by rw [he]
        simp [this] at hcm
      have hce := grc_entry S c.rank (List.mem_map.mpr ⟨c, hcm.1, rfl⟩)
      have := List.find?_eq_none.mp hk _ hce
      simp at this
      exact hcr this
    | some e =>
      rw [hk] at h
      injection h with h
      subst h
      have hem := List.mem_of_find?_eq_some hk
      have hep : e.1 ≠ quad.1 := by simpa using List.find?_some hk
      obtain ⟨he1, he2⟩ := grc_mem_facts S e hem
      obtain ⟨c, hc, hcr⟩ := List.mem_map.mp he2
      refine ⟨rankToValue quad.1, rankToValue e.1, hcnt4, ⟨c, hc, by rw [hcr]⟩, ?_, rfl, rfl⟩
      intro hv
      exact hep (rankToValue_inj _ _ hv)

theorem checkFourOfAKind_some_of (S : List Card) (hlen : S.length = 5) (qv kv : Nat)
    (hq : countOfValue S qv = 4) (hk : countOfValue S kv = 1) (hne : kv ≠ qv) :
    ∃ ev, checkFourOfAKind S = some ev ∧ ev.rank = HandRank.FOUR_OF_A_KIND ∧
      ev.value = HandRank.FOUR_OF_A_KIND * CATEGORY_BASE + encode [qv, kv] := by
  obtain ⟨qr, hqr, hqrv, hqre⟩ := grc_rank_present S qv ((cnt_pos_iff S qv).mp (by omega))
  obtain ⟨kr, hkr, hkrv, hkre⟩ := grc_rank_present S kv ((cnt_pos_iff S kv).mp (by omega))
  have hqcnt : cntRank S qr = 4 := by
    rw [cntRank_eq_cntV, hqrv, hq]
  have hkcnt : cntRank S kr = 1 := by
    rw [cntRank_eq_cntV, hkrv, hk]
  have hqk : qr ≠ kr := by
    intro he
    rw [he, hkcnt] at hqcnt
    cases hqcnt
  have hfind4 : (getRankCounts S).find? (fun e => e.2 = 4) = some (qr, cntRank S qr) := by
    refine find?_eq_some_of_unique _ _ _ hqre (by simp [hqcnt]) ?_
    intro e he hpe
    obtain ⟨h1, h2⟩ := grc_mem_facts S e he
    have he4 : countOfValue S (rankToValue e.1) = 4 := by
      rw [← cntRank_eq_cntV, ← h1]
      simpa using hpe
    have hev : rankToValue e.1 = qv := by
      by_contra hc
      have := cnt_pair_le S (rankToValue e.1) qv hc
      omega
    have her : e.1 = qr := rankToValue_inj _ _ (by rw [hev, hqrv])
    cases e with
    | mk er en =>
      simp only at her h1
      rw [her] at h1 ⊢
      rw [h1]
  have hfindk : (getRankCounts S).find? (fun e => e.1 ≠ qr) = some (kr, cntRank S kr) := by
    refine find?_eq_some_of_unique _ _ _ hkre
      (by simp only [decide_eq_true_eq]; exact fun hh => hqk hh.symm) ?_
    intro e he hpe
    obtain ⟨h1, h2⟩ := grc_mem_facts S e he
    have hene : e.1 ≠ qr := by simpa using hpe
    have hev : rankToValue e.1 ≠ qv := by
      intro hv
      exact hene (rankToValue_inj _ _ (by rw [hv, hqrv]))
    have hpos : 0 < countOfValue S (rankToValue e.1) := by
      rw [← cntRank_eq_cntV]
      obtain ⟨c, hc, hcr⟩ := List.mem_map.mp h2
      rw [← hcr] at *
      have : c ∈ S.filter (fun d => decide (d.rank = c.rank)) :=
        List.mem_filter.mpr ⟨hc, by simp⟩
      unfold cntRank
      rw [List.length_pos_iff_exists_mem]
      exact ⟨c, this⟩
    have hev2 : rankToValue e.1 = kv := by
      by_contra hc
      have := cnt_triple_le S (rankToValue e.1) qv kv hev hc (by omega)
      omega
    have her : e.1 = kr := rankToValue_inj _ _ (by rw [hev2, hkrv])
    cases e with
    | mk er en =>
      simp only at her h1
      rw [her] at h1 ⊢
      rw [h1]
  simp only [checkFourOfAKind]
  rw [hfind4]
  dsimp only
  rw [hfindk]
  refine ⟨_, rfl, rfl, ?_⟩
  show HandRank.FOUR_OF_A_KIND * CATEGORY_BASE +
    encode [rankToValue (qr, cntRank S qr).1, rankToValue (kr, cntRank S kr).1] = _
  rw [show (qr, cntRank S qr).1 = qr from rfl, show (kr, cntRank S kr).1 = kr from rfl,
    hqrv, hkrv]

theorem checkFullHouse_some_inv (S : List Card) (hlen : S.length = 5)
    (ev : HandEvaluation) (h : checkFullHouse S = some ev) :
    ∃ tv pv, countOfValue S tv = 3 ∧ countOfValue S pv = 2 ∧ tv ≠ pv ∧
      ev.rank = HandRank.FULL_HOUSE ∧
      ev.value = HandRank.FULL_HOUSE * CATEGORY_BASE + encode [tv, pv] := by
  simp only [checkFullHouse] at h
  cases ht : (getRankCounts S).find? (fun e => e.2 = 3) with
  | none =>
    rw [ht] at h
    cases h
  | some t =>
    cases hp : (getRankCounts S).find? (fun e => e.2 = 2) with
    | none =>
      rw [ht, hp] at h
      cases h
    | some p =>
      rw [ht, hp] at h
      injection h with h
      subst h
      have htm := List.mem_of_find?_eq_some ht
      have hpm := List.mem_of_find?_eq_some hp
      have ht3 : t.2 = 3 := by simpa using List.find?_some ht
      have hp2 : p.2 = 2 := by simpa using List.find?_some hp
      obtain ⟨ht1, _⟩ := grc_mem_facts S t htm
      obtain ⟨hp1, _⟩ := grc_mem_facts S p hpm
      refine ⟨rankToValue t.1, rankToValue p.1, ?_, ?_, ?_, rfl, rfl⟩
      · rw [← cntRank_eq_cntV, ← ht1, ht3]
      · rw [← cntRank_eq_cntV, ← hp1, hp2]
      · intro hv
        have := rankToValue_inj _ _ hv
        rw [this] at ht1
        rw [← hp1] at ht1
        rw [← ht1] at hp2
        rw [ht3] at hp2
        cases hp2

theorem cnt_quad_le (S : List Card) (u v w x : Nat) (huv : u ≠ v) (huw : u ≠ w)
    (hux : u ≠ x) (hvw : v ≠ w) (hvx : v ≠ x) (hwx : w ≠ x) :
    countOfValue S u + countOfValue S v + countOfValue S w + countOfValue S x ≤
      S.length := by
  have := cnt_sum_le [u, v, w, x] S (by simp [huv, huw, hux, hvw, hvx, hwx])
  simp only [List.map_cons, List.map_nil, List.sum_cons, List.sum_nil] at this
  omega

theorem cnt_five_le (S : List Card) (t u v w x : Nat) (htu : t ≠ u) (htv : t ≠ v)
    (htw : t ≠ w) (htx : t ≠ x) (huv : u ≠ v) (huw : u ≠ w) (hux : u ≠ x)
    (hvw : v ≠ w) (hvx : v ≠ x) (hwx : w ≠ x) :
    countOfValue S t + countOfValue S u + countOfValue S v + countOfValue S w +
      countOfValue S x ≤ S.length := by
  have := cnt_sum_le [t, u, v, w, x] S
    (by simp [htu, htv, htw, htx, huv, huw, hux, hvw, hvx, hwx])
  simp only [List.map_cons, List.map_nil, List.sum_cons, List.sum_nil] at this
  omega

theorem checkFullHouse_some_of (S : List Card) (hlen : S.length = 5) (tv pv : Nat)
    (ht : countOfValue S tv = 3) (hp : countOfValue S pv = 2) (hne : tv ≠ pv) :
    ∃ ev, checkFullHouse S = some ev ∧ ev.rank = HandRank.FULL_HOUSE ∧
      ev.value = HandRank.FULL_HOUSE * CATEGORY_BASE + encode [tv, pv] := by
  obtain ⟨tr, htr, htrv, htre⟩ := grc_rank_present S tv ((cnt_pos_iff S tv).mp (by omega))
  obtain ⟨pr, hpr, hprv, hpre⟩ := grc_rank_present S pv ((cnt_pos_iff S pv).mp (by omega))
  have htcnt : cntRank S tr = 3 := by rw [cntRank_eq_cntV, htrv, ht]
  have hpcnt : cntRank S pr = 2 := by rw [cntRank_eq_cntV, hprv, hp]
  have hfind3 : (getRankCounts S).find? (fun e => e.2 = 3) = some (tr, cntRank S tr) := by
    refine find?_eq_some_of_unique _ _ _ htre (by simp [htcnt]) ?_
    intro e he hpe
    obtain ⟨h1, h2⟩ := grc_mem_facts S e he
    have he3 : countOfValue S (rankToValue e.1) = 3 := by
      rw [← cntRank_eq_cntV, ← h1]
      simpa using hpe
    have hev : rankToValue e.1 = tv := by
      by_contra hc
      have := cnt_pair_le S (rankToValue e.1) tv hc
      omega
    have her : e.1 = tr := rankToValue_inj _ _ (by rw [hev, htrv])
    cases e with
    | mk er en =>
      simp only at her h1
      rw [her] at h1 ⊢
      rw [h1]
  have hfind2 : (getRankCounts S).find? (fun e => e.2 = 2) = some (pr, cntRank S pr) := by
    refine find?_eq_some_of_unique _ _ _ hpre (by simp [hpcnt]) ?_
    intro e he hpe
    obtain ⟨h1, h2⟩ := grc_mem_facts S e he
    have he2 : countOfValue S (rankToValue e.1) = 2 := by
      rw [← cntRank_eq_cntV, ← h1]
      simpa using hpe
    have hev : rankToValue e.1 = pv := by
      by_contra hc
      have hvt : rankToValue e.1 ≠ tv := by
        intro hh
        rw [hh, ht] at he2
        cases he2
      have := cnt_triple_le S (rankToValue e.1) tv pv hvt hc hne
      omega
    have her : e.1 = pr := rankToValue_inj _ _ (by rw [hev, hprv])
    cases e with
    | mk er en =>
      simp only at her h1
      rw [her] at h1 ⊢
      rw [h1]
  simp only [checkFullHouse]
  rw [hfind3, hfind2]
  refine ⟨_, rfl, rfl, ?_⟩
  show HandRank.FULL_HOUSE * CATEGORY_BASE +
    encode [rankToValue (tr, cntRank S tr).1, rankToValue (pr, cntRank S pr).1] = _
  rw [show (tr, cntRank S tr).1 = tr from rfl, show (pr, cntRank S pr).1 = pr from rfl,
    htrv, hprv]

theorem filter_ne_decide (l : List Nat) (t : Nat) :
    l.filter (fun v => v ≠ t) = l.filter (fun v => !(decide (v = t))) := by
  apply List.filter_congr
  intro x _
  simp [decide_not]

theorem uniq_filter_ne_length (S : List Card) (t : Nat) (ht : vset S t) :
    ((uniqueValuesDesc S).filter (fun v => v ≠ t)).length + 1 =
      (uniqueValuesDesc S).length := by
  rw [filter_ne_decide]
  exact filter_ne_length _ (uniqDesc_nodup S) t ((uniqDesc_mem S t).mpr ht)

theorem uniq_filter_sorted (S : List Card) (p : Nat → Bool) :
    ((uniqueValuesDesc S).filter p).Pairwise (· > ·) :=
  (uniqDesc_sorted S).sublist (List.filter_sublist _)

theorem uniq_filter_ne_mem (S : List Card) (t v : Nat) :
    v ∈ (uniqueValuesDesc S).filter (fun w => w ≠ t) ↔ vset S v ∧ v ≠ t := by
  rw [List.mem_filter]
  constructor
  · intro ⟨h1, h2⟩
    exact ⟨(uniqDesc_mem S v).mp h1, by simpa using h2⟩
  · intro ⟨h1, h2⟩
    exact ⟨(uniqDesc_mem S v).mpr h1, by simpa using h2⟩

theorem checkThreeOfAKind_some_inv (S : List Card) (hlen : S.length = 5)
    (ev : HandEvaluation) (hfh : checkFullHouse S = none)
    (h : checkThreeOfAKind S = some ev) :
    ∃ tv k1 k2, countOfValue S tv = 3 ∧ countOfValue S k1 = 1 ∧
      countOfValue S k2 = 1 ∧ k2 < k1 ∧ k1 ≠ tv ∧ k2 ≠ tv ∧
      (∀ v, vset S v → v = tv ∨ v = k1 ∨ v = k2) ∧
      ev.rank = HandRank.THREE_OF_A_KIND ∧
      ev.value = HandRank.THREE_OF_A_KIND * CATEGORY_BASE + encode [tv, k1, k2] := by
  simp only [checkThreeOfAKind] at h
  cases ht : (getRankCounts S).find? (fun e => e.2 = 3) with
  | none =>
    rw [ht] at h
    cases h
  | some triple =>
    rw [ht] at h
    dsimp only at h
    have htm := List.mem_of_find?_eq_some ht
    have ht3 : triple.2 = 3 := by simpa using List.find?_some ht
    obtain ⟨ht1, ht2⟩ := grc_mem_facts S triple htm
    have hcnt3 : countOfValue S (rankToValue triple.1) = 3 := by
      rw [← cntRank_eq_cntV, ← ht1, ht3]
    have hvt : vset S (rankToValue triple.1) := (cnt_pos_iff S _).mp (by omega)
    -- from checkFullHouse = none: no rank has count 2
    have hno2 : ∀ e ∈ getRankCounts S, ¬(e.2 = 2) := by
      simp only [checkFullHouse, ht] at hfh
      cases hp : (getRankCounts S).find? (fun e => e.2 = 2) with
      | none =>
        intro e he
        have := List.find?_eq_none.mp hp e he
        simpa using this
      | some p =>
        rw [hp] at hfh
        dsimp only at hfh
        cases hfh
    -- every other present value has count exactly 1
    have hcnt1 : ∀ v, vset S v → v ≠ rankToValue triple.1 → countOfValue S v = 1 := by
      intro v hv hvne
      obtain ⟨r, hr, hrv, hre⟩ := grc_rank_present S v hv
      have hpos : 0 < countOfValue S v := (cnt_pos_iff S v).mpr hv
      have hne2 : countOfValue S v ≠ 2 := by
        intro hc
        exact hno2 _ hre (by rw [cntRank_eq_cntV, hrv, hc])
      have hle : countOfValue S v + countOfValue S (rankToValue triple.1) ≤ 5 := by
        have := cnt_pair_le S v (rankToValue triple.1) hvne
        omega
      omega
    -- the unique-values list has length 3
    have hulen : (uniqueValuesDesc S).length = 3 := by
      have hsum := length_eq_sum_cnt_uniq S
      have hsplit := sum_counts_split (uniqueValuesDesc S) (fun v => countOfValue S v)
        (rankToValue triple.1) (uniqDesc_nodup S) ((uniqDesc_mem S _).mpr hvt)
        (fun v hv hvne => hcnt1 v ((uniqDesc_mem S v).mp hv) hvne)
      rw [hsplit] at hsum
      simp only [hcnt3] at hsum
      have hupos : 0 < (uniqueValuesDesc S).length :=
        List.length_pos_iff_exists_mem.mpr ⟨_, (uniqDesc_mem S _).mpr hvt⟩
      omega
    -- kicker value list
    have hflen : ((uniqueValuesDesc S).filter
        (fun v => v ≠ rankToValue triple.1)).length = 2 := by
      have := uniq_filter_ne_length S (rankToValue triple.1) hvt
      omega
    have hfsort := uniq_filter_sorted S (fun v => decide (v ≠ rankToValue triple.1))
    cases hF : (uniqueValuesDesc S).filter (fun v => v ≠ rankToValue triple.1) with
    | nil =>
      rw [hF] at hflen
      cases hflen
    | cons a F' =>
      cases F' with
      | nil =>
        rw [hF] at hflen
        simp at hflen
      | cons b F'' =>
        cases F'' with
        | cons c F3 =>
          rw [hF] at hflen
          simp at hflen
        | nil =>
          rw [hF] at hfsort
          have hab : a > b := by
            have := List.pairwise_cons.mp hfsort
            exact this.1 b (by simp)
          have hamem : vset S a ∧ a ≠ rankToValue triple.1 :=
            (uniq_filter_ne_mem S _ a).mp (by rw [hF]; simp)
          have hbmem : vset S b ∧ b ≠ rankToValue triple.1 :=
            (uniq_filter_ne_mem S _ b).mp (by rw [hF]; simp)
          have hkick : sortNatDesc (((getRankCounts S).filter
              (fun e => e.1 ≠ triple.1)).map (fun e => rankToValue e.1)) = [a, b] := by
            refine sortNatDesc_sorted_unique _ _ ?_ ?_
            · exact (grc_filter_map_perm S triple.1).trans (by rw [hF])
            · exact List.Pairwise.imp (fun hgt => Nat.le_of_lt hgt)
                (by rw [← hF] at hfsort ⊢; exact hfsort)
          injection h with h
          subst h
          refine ⟨rankToValue triple.1, a, b, hcnt3,
            hcnt1 a hamem.1 hamem.2, hcnt1 b hbmem.1 hbmem.2, hab,
            hamem.2, hbmem.2, ?_, rfl, ?_⟩
          · intro v hv
            by_cases hvt2 : v = rankToValue triple.1
            · exact Or.inl hvt2
            · have : v ∈ (uniqueValuesDesc S).filter
                  (fun w => w ≠ rankToValue triple.1) :=
                (uniq_filter_ne_mem S _ v).mpr ⟨hv, hvt2⟩
              rw [hF] at this
              simp only [List.mem_cons, List.not_mem_nil, or_false] at this
              rcases this with h1 | h1
              · exact Or.inr (Or.inl h1)
              · exact Or.inr (Or.inr h1)
          · show HandRank.THREE_OF_A_KIND * CATEGORY_BASE + encode _ = _
            rw [hkick]
            rfl

theorem checkThreeOfAKind_some_of (S : List Card) (hlen : S.length = 5)
    (tv k1 k2 : Nat) (ht : countOfValue S tv = 3) (hk1 : countOfValue S k1 = 1)
    (hk2 : countOfValue S k2 = 1) (h21 : k2 < k1) (h1t : k1 ≠ tv) (h2t : k2 ≠ tv) :
    ∃ ev, checkThreeOfAKind S = some ev ∧ ev.rank = HandRank.THREE_OF_A_KIND ∧
      ev.value = HandRank.THREE_OF_A_KIND * CATEGORY_BASE + encode [tv, k1, k2] := by
  have h12 : k1 ≠ k2 := by omega
  obtain ⟨tr, htr, htrv, htre⟩ := grc_rank_present S tv ((cnt_pos_iff S tv).mp (by omega))
  have htcnt : cntRank S tr = 3 := by rw [cntRank_eq_cntV, htrv, ht]
  have hfind3 : (getRankCounts S).find? (fun e => e.2 = 3) = some (tr, cntRank S tr) := by
    refine find?_eq_some_of_unique _ _ _ htre (by simp [htcnt]) ?_
    intro e he hpe
    obtain ⟨h1, h2⟩ := grc_mem_facts S e he
    have he3 : countOfValue S (rankToValue e.1) = 3 := by
      rw [← cntRank_eq_cntV, ← h1]
      simpa using hpe
    have hev : rankToValue e.1 = tv := by
      by_contra hc
      have := cnt_pair_le S (rankToValue e.1) tv hc
      omega
    have her : e.1 = tr := rankToValue_inj _ _ (by rw [hev, htrv])
    cases e with
    | mk er en =>
      simp only at her h1
      rw [her] at h1 ⊢
      rw [h1]
  have hFmem : ∀ v, (vset S v ∧ v ≠ rankToValue tr) ↔ (v = k1 ∨ v = k2) := by
    intro v
    constructor
    · intro ⟨hv, hvne⟩
      rw [htrv] at hvne
      by_contra hc
      push_neg at hc
      have := cnt_quad_le S tv k1 k2 v (by omega) (by omega)
        (fun hh => hvne hh.symm) h12 (fun hh => hc.1 hh.symm) (fun hh => hc.2 hh.symm)
      have hvpos := (cnt_pos_iff S v).mpr hv
      omega
    · intro hc
      rcases hc with rfl | rfl
      · exact ⟨(cnt_pos_iff S v).mp (by omega), by rw [htrv]; exact h1t⟩
      · exact ⟨(cnt_pos_iff S v).mp (by omega), by rw [htrv]; exact h2t⟩
  have hF : (uniqueValuesDesc S).filter (fun v => v ≠ rankToValue tr) = [k1, k2] := by
    haveI : IsAntisymm Nat (fun a b : Nat => a ≥ b) :=
      ⟨fun a b ha hb => Nat.le_antisymm hb ha⟩
    have hperm : ((uniqueValuesDesc S).filter
        (fun v => v ≠ rankToValue tr)).Perm [k1, k2] := by
      refine perm_of_nodup_mutual_sub ?_ (by simp [h12]) ?_ ?_
      · exact (uniqDesc_nodup S).sublist (List.filter_sublist _)
      · intro x hx
        have := (hFmem x).mp ((uniq_filter_ne_mem S _ x).mp hx)
        simpa using this
      · intro x hx
        simp only [List.mem_cons, List.not_mem_nil, or_false] at hx
        exact (uniq_filter_ne_mem S _ x).mpr ((hFmem x).mpr hx)
    have hs1 : ((uniqueValuesDesc S).filter
        (fun v => v ≠ rankToValue tr)).Pairwise (fun a b : Nat => a ≥ b) :=
      List.Pairwise.imp (fun hgt => Nat.le_of_lt hgt)
        (uniq_filter_sorted S (fun v => decide (v ≠ rankToValue tr)))
    have hs2 : ([k1, k2] : List Nat).Pairwise (fun a b : Nat => a ≥ b) := by
      simp [Nat.le_of_lt h21]
    exact List.eq_of_perm_of_sorted hperm hs1 hs2
  have hkick : sortNatDesc (((getRankCounts S).filter
      (fun e => e.1 ≠ tr)).map (fun e => rankToValue e.1)) = [k1, k2] := by
    refine sortNatDesc_sorted_unique _ _ ?_ ?_
    · exact (grc_filter_map_perm S tr).trans (by rw [hF])
    · simp [Nat.le_of_lt h21]
  simp only [checkThreeOfAKind]
  rw [hfind3]
  dsimp only
  rw [hkick]
  refine ⟨_, rfl, rfl, ?_⟩
  show HandRank.THREE_OF_A_KIND * CATEGORY_BASE +
    encode [rankToValue tr, [k1, k2].getD 0 0, [k1, k2].getD 1 0] = _
  rw [htrv]
  rfl

theorem checkTwoPair_some_inv (S : List Card) (hlen : S.length = 5)
    (ev : HandEvaluation) (h : checkTwoPair S = some ev) :
    ∃ p1 p2 kk, countOfValue S p1 = 2 ∧ countOfValue S p2 = 2 ∧
      countOfValue S kk = 1 ∧ p2 < p1 ∧ kk ≠ p1 ∧ kk ≠ p2 ∧
      (∀ v, vset S v → v = p1 ∨ v = p2 ∨ v = kk) ∧
      ev.rank = HandRank.TWO_PAIR ∧
      ev.value = HandRank.TWO_PAIR * CATEGORY_BASE + encode [p1, p2, kk] := by
  simp only [checkTwoPair] at h
  by_cases hpl : ((getRankCounts S).filter (fun e => e.2 = 2)).length = 2
  case neg =>
    rw [if_pos hpl] at h
    cases h
  case pos =>
    rw [if_neg (not_not_intro hpl)] at h
    have hperm := grc_filter_cnt_map_perm S 2
    have hP2len : ((uniqueValuesDesc S).filter
        (fun v => countOfValue S v = 2)).length = 2 := by
      rw [← hperm.length_eq, List.length_map]
      exact hpl
    have hP2sort := uniq_filter_sorted S (fun v => decide (countOfValue S v = 2))
    cases hP2 : (uniqueValuesDesc S).filter (fun v => countOfValue S v = 2) with
    | nil =>
      rw [hP2] at hP2len
      cases hP2len
    | cons p1 P' =>
      cases P' with
      | nil =>
        rw [hP2] at hP2len
        simp at hP2len
      | cons p2 P'' =>
        cases P'' with
        | cons q P3 =>
          rw [hP2] at hP2len
          simp at hP2len
        | nil =>
          rw [hP2] at hP2sort
          have h12 : p1 > p2 := (List.pairwise_cons.mp hP2sort).1 p2 (by simp)
          have hp1f : p1 ∈ (uniqueValuesDesc S).filter
              (fun v => countOfValue S v = 2) := by rw [hP2]; simp
          have hp2f : p2 ∈ (uniqueValuesDesc S).filter
              (fun v => countOfValue S v = 2) := by rw [hP2]; simp
          have hp1c : countOfValue S p1 = 2 := by
            have := (List.mem_filter.mp hp1f).2
            simpa using this
          have hp2c : countOfValue S p2 = 2 := by
            have := (List.mem_filter.mp hp2f).2
            simpa using this
          -- a fifth value exists
          have hkk : ∃ kk, vset S kk ∧ kk ≠ p1 ∧ kk ≠ p2 := by
            by_contra hc
            push_neg at hc
            have huperm : (uniqueValuesDesc S).Perm [p1, p2] := by
              refine perm_of_nodup_mutual_sub (uniqDesc_nodup S) (by simp; omega) ?_ ?_
              · intro x hx
                have hxv : vset S x := (uniqDesc_mem S x).mp hx
                by_cases hx1 : x = p1
                · simp [hx1]
                · have := hc x hxv hx1
                  simp [this]
              · intro x hx
                simp only [List.mem_cons, List.not_mem_nil, or_false] at hx
                rcases hx with rfl | rfl
                · exact (uniqDesc_mem S x).mpr ((cnt_pos_iff S x).mp (by omega))
                · exact (uniqDesc_mem S x).mpr ((cnt_pos_iff S x).mp (by omega))
            have hsum := length_eq_sum_cnt_uniq S
            have := (huperm.map (fun v => countOfValue S v)).sum_eq
            rw [this] at hsum
            simp only [List.map_cons, List.map_nil, List.sum_cons, List.sum_nil,
              hp1c, hp2c] at hsum
            omega
          obtain ⟨kk, hkkv, hkk1, hkk2⟩ := hkk
          have hkkc : countOfValue S kk = 1 := by
            have h3 := cnt_triple_le S p1 p2 kk (by omega) (fun he => hkk1 he.symm)
              (fun he => hkk2 he.symm)
            have := (cnt_pos_iff S kk).mpr hkkv
            omega
          have hcov : ∀ v, vset S v → v = p1 ∨ v = p2 ∨ v = kk := by
            intro v hv
            by_contra hc
            push_neg at hc
            have := cnt_quad_le S p1 p2 kk v (by omega) (fun he => hkk1 he.symm)
              (fun he => hc.1 he.symm) (fun he => hkk2 he.symm)
              (fun he => hc.2.1 he.symm) (fun he => hc.2.2 he.symm)
            have := (cnt_pos_iff S v).mpr hv
            omega
          -- the kicker find
          obtain ⟨kr, hkr, hkrv, hkre⟩ := grc_rank_present S kk hkkv
          have hkcnt : cntRank S kr = 1 := by rw [cntRank_eq_cntV, hkrv, hkkc]
          have hfindk : (getRankCounts S).find? (fun e => e.2 = 1) =
              some (kr, cntRank S kr) := by
            refine find?_eq_some_of_unique _ _ _ hkre (by simp [hkcnt]) ?_
            intro e he hpe
            obtain ⟨h1, h2⟩ := grc_mem_facts S e he
            have he1 : countOfValue S (rankToValue e.1) = 1 := by
              rw [← cntRank_eq_cntV, ← h1]
              simpa using hpe
            have hev : vset S (rankToValue e.1) := (cnt_pos_iff S _).mp (by omega)
            have : rankToValue e.1 = kk := by
              rcases hcov _ hev with h0 | h0 | h0
              · rw [h0, hp1c] at he1
                cases he1
              · rw [h0, hp2c] at he1
                cases he1
              · exact h0
            have her : e.1 = kr := rankToValue_inj _ _ (by rw [this, hkrv])
            cases e with
            | mk er en =>
              simp only at her h1
              rw [her] at h1 ⊢
              rw [h1]
          -- pair values sorted
          have hpv : sortNatDesc (((getRankCounts S).filter
              (fun e => e.2 = 2)).map (fun e => rankToValue e.1)) = [p1, p2] := by
            refine sortNatDesc_sorted_unique _ _ (hperm.trans (by rw [hP2])) ?_
            simp [Nat.le_of_lt h12]
          rw [hfindk, hpv] at h
          injection h with h
          subst h
          refine ⟨p1, p2, kk, hp1c, hp2c, hkkc, h12, hkk1, hkk2, hcov, rfl, ?_⟩
          show HandRank.TWO_PAIR * CATEGORY_BASE +
            encode [[p1, p2].getD 0 0, [p1, p2].getD 1 0,
              rankToValue (((some (kr, cntRank S kr)).map (fun e => e.1)).getD
                default)] = _
          show HandRank.TWO_PAIR * CATEGORY_BASE +
            encode [p1, p2, rankToValue kr] = _
          rw [hkrv]

theorem checkTwoPair_some_of (S : List Card) (hlen : S.length = 5) (p1 p2 kk : Nat)
    (hp1 : countOfValue S p1 = 2) (hp2 : countOfValue S p2 = 2)
    (hkk : countOfValue S kk = 1) (h12 : p2 < p1) (hk1 : kk ≠ p1) (hk2 : kk ≠ p2) :
    ∃ ev, checkTwoPair S = some ev ∧ ev.rank = HandRank.TWO_PAIR ∧
      ev.value = HandRank.TWO_PAIR * CATEGORY_BASE + encode [p1, p2, kk] := by
  have hcov : ∀ v, vset S v → v = p1 ∨ v = p2 ∨ v = kk := by
    intro v hv
    by_contra hc
    push_neg at hc
    have := cnt_quad_le S p1 p2 kk v (by omega) (fun he => hk1 he.symm)
      (fun he => hc.1 he.symm) (fun he => hk2 he.symm)
      (fun he => hc.2.1 he.symm) (fun he => hc.2.2 he.symm)
    have := (cnt_pos_iff S v).mpr hv
    omega
  have hP2 : (uniqueValuesDesc S).filter (fun v => countOfValue S v = 2) =
      [p1, p2] := by
    haveI : IsAntisymm Nat (fun a b : Nat => a ≥ b) :=
      ⟨fun a b ha hb => Nat.le_antisymm hb ha⟩
    have hperm2 : ((uniqueValuesDesc S).filter
        (fun v => countOfValue S v = 2)).Perm [p1, p2] := by
      refine perm_of_nodup_mutual_sub ?_ (by simp; omega) ?_ ?_
      · exact (uniqDesc_nodup S).sublist (List.filter_sublist _)
      · intro x hx
        have hxm := List.mem_filter.mp hx
        have hxv : vset S x := (uniqDesc_mem S x).mp hxm.1
        have hx2 : countOfValue S x = 2 := by
          have := hxm.2
          simpa using this
        rcases hcov x hxv with h0 | h0 | h0
        · simp [h0]
        · simp [h0]
        · rw [h0, hkk] at hx2
          cases hx2
      · intro x hx
        simp only [List.mem_cons, List.not_mem_nil, or_false] at hx
        rcases hx with rfl | rfl
        · exact List.mem_filter.mpr ⟨(uniqDesc_mem S x).mpr
            ((cnt_pos_iff S x).mp (by omega)), by simp [hp1]⟩
        · exact List.mem_filter.mpr ⟨(uniqDesc_mem S x).mpr
            ((cnt_pos_iff S x).mp (by omega)), by simp [hp2]⟩
    have hs1 : ((uniqueValuesDesc S).filter
        (fun v => countOfValue S v = 2)).Pairwise (fun a b : Nat => a ≥ b) :=
      List.Pairwise.imp (fun hgt => Nat.le_of_lt hgt)
        (uniq_filter_sorted S (fun v => decide (countOfValue S v = 2)))
    have hs2 : ([p1, p2] : List Nat).Pairwise (fun a b : Nat => a ≥ b) := by
      simp [Nat.le_of_lt h12]
    exact List.eq_of_perm_of_sorted hperm2 hs1 hs2
  have hperm := grc_filter_cnt_map_perm S 2
  have hpl : ((getRankCounts S).filter (fun e => e.2 = 2)).length = 2 := by
    have := hperm.length_eq
    rw [List.length_map, hP2] at this
    simpa using this
  obtain ⟨kr, hkr, hkrv, hkre⟩ := grc_rank_present S kk
    ((cnt_pos_iff S kk).mp (by omega))
  have hkcnt : cntRank S kr = 1 := by rw [cntRank_eq_cntV, hkrv, hkk]
  have hfindk : (getRankCounts S).find? (fun e => e.2 = 1) =
      some (kr, cntRank S kr) := by
    refine find?_eq_some_of_unique _ _ _ hkre (by simp [hkcnt]) ?_
    intro e he hpe
    obtain ⟨h1, h2⟩ := grc_mem_facts S e he
    have he1 : countOfValue S (rankToValue e.1) = 1 := by
      rw [← cntRank_eq_cntV, ← h1]
      simpa using hpe
    have hev : vset S (rankToValue e.1) := (cnt_pos_iff S _).mp (by omega)
    have : rankToValue e.1 = kk := by
      rcases hcov _ hev with h0 | h0 | h0
      · rw [h0, hp1] at he1
        cases he1
      · rw [h0, hp2] at he1
        cases he1
      · exact h0
    have her : e.1 = kr := rankToValue_inj _ _ (by rw [this, hkrv])
    cases e with
    | mk er en =>
      simp only at her h1
      rw [her] at h1 ⊢
      rw [h1]
  have hpv : sortNatDesc (((getRankCounts S).filter
      (fun e => e.2 = 2)).map (fun e => rankToValue e.1)) = [p1, p2] := by
    refine sortNatDesc_sorted_unique _ _ (hperm.trans (by rw [hP2])) ?_
    simp [Nat.le_of_lt h12]
  simp only [checkTwoPair]
  rw [if_neg (not_not_intro hpl), hfindk, hpv]
  refine ⟨_, rfl, rfl, ?_⟩
  show HandRank.TWO_PAIR * CATEGORY_BASE +
    encode [p1, p2, rankToValue kr] = _
  rw [hkrv]

theorem sum_map_two (xs : List Nat) (f : Nat → Nat) (h : ∀ v ∈ xs, f v = 2) :
    (xs.map f).sum = 2 * xs.length := by
  induction xs with
  | nil => rfl
  | cons x xs ih =>
    rw [List.map_cons, List.sum_cons, List.length_cons,
      ih (fun v hv => h v (List.mem_cons_of_mem x hv)), h x (by simp)]
    ring

theorem checkOnePair_some_inv (S : List Card) (hlen : S.length = 5)
    (ev : HandEvaluation) (h3 : checkThreeOfAKind S = none)
    (h2p : checkTwoPair S = none) (h : checkOnePair S = some ev) :
    ∃ pv k1 k2 k3, countOfValue S pv = 2 ∧ countOfValue S k1 = 1 ∧
      countOfValue S k2 = 1 ∧ countOfValue S k3 = 1 ∧
      k3 < k2 ∧ k2 < k1 ∧ k1 ≠ pv ∧ k2 ≠ pv ∧ k3 ≠ pv ∧
      (∀ v, vset S v → v = pv ∨ v = k1 ∨ v = k2 ∨ v = k3) ∧
      ev.rank = HandRank.PAIR ∧
      ev.value = HandRank.PAIR * CATEGORY_BASE + encode [pv, k1, k2, k3] := by
  simp only [checkOnePair] at h
  cases hp : (getRankCounts S).find? (fun e => e.2 = 2) with
  | none =>
    rw [hp] at h
    cases h
  | some pair =>
    rw [hp] at h
    dsimp only at h
    have hpm := List.mem_of_find?_eq_some hp
    have hp2 : pair.2 = 2 := by simpa using List.find?_some hp
    obtain ⟨hp1, hpp⟩ := grc_mem_facts S pair hpm
    have hcnt2 : countOfValue S (rankToValue pair.1) = 2 := by
      rw [← cntRank_eq_cntV, ← hp1, hp2]
    have hvp : vset S (rankToValue pair.1) := (cnt_pos_iff S _).mp (by omega)
    -- no rank has count 3 (from checkThreeOfAKind = none)
    have hno3 : ∀ e ∈ getRankCounts S, ¬(e.2 = 3) := by
      simp only [checkThreeOfAKind] at h3
      cases hf3 : (getRankCounts S).find? (fun e => e.2 = 3) with
      | none =>
        intro e he
        have := List.find?_eq_none.mp hf3 e he
        simpa using this
      | some t =>
        rw [hf3] at h3
        dsimp only at h3
        cases h3
    -- the count-2 value is unique (from checkTwoPair = none)
    have hpl2 : ((getRankCounts S).filter (fun e => e.2 = 2)).length ≠ 2 := by
      simp only [checkTwoPair] at h2p
      intro hc
      rw [if_neg (not_not_intro hc)] at h2p
      cases h2p
    have hperm2 := grc_filter_cnt_map_perm S 2
    have hP2all : ∀ x ∈ (uniqueValuesDesc S).filter
        (fun v => countOfValue S v = 2), countOfValue S x = 2 := by
      intro x hx
      have := (List.mem_filter.mp hx).2
      simpa using this
    have hP2nodup : ((uniqueValuesDesc S).filter
        (fun v => countOfValue S v = 2)).Nodup :=
      (uniqDesc_nodup S).sublist (List.filter_sublist _)
    have huniq2 : ∀ v, vset S v → countOfValue S v = 2 →
        v = rankToValue pair.1 := by
      intro v hv hv2
      by_contra hc
      have hvP : v ∈ (uniqueValuesDesc S).filter (fun w => countOfValue S w = 2) :=
        List.mem_filter.mpr ⟨(uniqDesc_mem S v).mpr hv, by simp [hv2]⟩
      have hpP : rankToValue pair.1 ∈ (uniqueValuesDesc S).filter
          (fun w => countOfValue S w = 2) :=
        List.mem_filter.mpr ⟨(uniqDesc_mem S _).mpr hvp, by simp [hcnt2]⟩
      have hge2 := two_mem_length _ _ _ hvP hpP hc
      have hge3 : 3 ≤ ((uniqueValuesDesc S).filter
          (fun w => countOfValue S w = 2)).length := by
        have := hperm2.length_eq
        rw [List.length_map] at this
        omega
      have hsum := cnt_sum_le ((uniqueValuesDesc S).filter
        (fun w => countOfValue S w = 2)) S hP2nodup
      rw [sum_map_two _ _ hP2all] at hsum
      omega
    -- every other present value has count exactly 1
    have hcnt1 : ∀ v, vset S v → v ≠ rankToValue pair.1 → countOfValue S v = 1 := by
      intro v hv hvne
      obtain ⟨r, hr, hrv, hre⟩ := grc_rank_present S v hv
      have hpos : 0 < countOfValue S v := (cnt_pos_iff S v).mpr hv
      have hne3 : countOfValue S v ≠ 3 := by
        intro hc
        exact hno3 _ hre (by rw [cntRank_eq_cntV, hrv, hc])
      have hne2 : countOfValue S v ≠ 2 := fun hc => hvne (huniq2 v hv hc)
      have hle := cnt_pair_le S v (rankToValue pair.1) hvne
      omega
    -- the unique-values list has length 4
    have hulen : (uniqueValuesDesc S).length = 4 := by
      have hsum := length_eq_sum_cnt_uniq S
      have hsplit := sum_counts_split (uniqueValuesDesc S) (fun v => countOfValue S v)
        (rankToValue pair.1) (uniqDesc_nodup S) ((uniqDesc_mem S _).mpr hvp)
        (fun v hv hvne => hcnt1 v ((uniqDesc_mem S v).mp hv) hvne)
      rw [hsplit] at hsum
      simp only [hcnt2] at hsum
      have hupos : 0 < (uniqueValuesDesc S).length :=
        List.length_pos_iff_exists_mem.mpr ⟨_, (uniqDesc_mem S _).mpr hvp⟩
      omega
    have hflen : ((uniqueValuesDesc S).filter
        (fun v => v ≠ rankToValue pair.1)).length = 3 := by
      have := uniq_filter_ne_length S (rankToValue pair.1) hvp
      omega
    have hfsort := uniq_filter_sorted S (fun v => decide (v ≠ rankToValue pair.1))
    cases hF : (uniqueValuesDesc S).filter (fun v => v ≠ rankToValue pair.1) with
    | nil =>
      rw [hF] at hflen
      cases hflen
    | cons a F' =>
      cases F' with
      | nil =>
        rw [hF] at hflen
        simp at hflen
      | cons b F'' =>
        cases F'' with
        | nil =>
          rw [hF] at hflen
          simp at hflen
        | cons c F3 =>
          cases F3 with
          | cons d F4 =>
            rw [hF] at hflen
            simp at hflen
          | nil =>
            rw [hF] at hfsort
            have hab : a > b := (List.pairwise_cons.mp hfsort).1 b (by simp)
            have hac : a > c := (List.pairwise_cons.mp hfsort).1 c (by simp)
            have hbc : b > c :=
              (List.pairwise_cons.mp (List.pairwise_cons.mp hfsort).2).1 c (by simp)
            have hamem : vset S a ∧ a ≠ rankToValue pair.1 :=
              (uniq_filter_ne_mem S _ a).mp (by rw [hF]; simp)
            have hbmem : vset S b ∧ b ≠ rankToValue pair.1 :=
              (uniq_filter_ne_mem S _ b).mp (by rw [hF]; simp)
            have hcmem : vset S c ∧ c ≠ rankToValue pair.1 :=
              (uniq_filter_ne_mem S _ c).mp (by rw [hF]; simp)
            have hkick : sortNatDesc (((getRankCounts S).filter
                (fun e => e.1 ≠ pair.1)).map (fun e => rankToValue e.1)) =
                [a, b, c] := by
              refine sortNatDesc_sorted_unique _ _ ?_ ?_
              · exact (grc_filter_map_perm S pair.1).trans (by rw [hF])
              · simp [Nat.le_of_lt hab, Nat.le_of_lt hac, Nat.le_of_lt hbc]
            injection h with h
            subst h
            refine ⟨rankToValue pair.1, a, b, c, hcnt2,
              hcnt1 a hamem.1 hamem.2, hcnt1 b hbmem.1 hbmem.2,
              hcnt1 c hcmem.1 hcmem.2, hbc, hab,
              hamem.2, hbmem.2, hcmem.2, ?_, rfl, ?_⟩
            · intro v hv
              by_cases hvt2 : v = rankToValue pair.1
              · exact Or.inl hvt2
              · have : v ∈ (uniqueValuesDesc S).filter
                    (fun w => w ≠ rankToValue pair.1) :=
                  (uniq_filter_ne_mem S _ v).mpr ⟨hv, hvt2⟩
                rw [hF] at this
                simp only [List.mem_cons, List.not_mem_nil, or_false] at this
                rcases this with h1 | h1 | h1
                · exact Or.inr (Or.inl h1)
                · exact Or.inr (Or.inr (Or.inl h1))
                · exact Or.inr (Or.inr (Or.inr h1))
            · show HandRank.PAIR * CATEGORY_BASE + encode _ = _
              rw [hkick]
              rfl

theorem checkOnePair_some_of (S : List Card) (hlen : S.length = 5)
    (pv k1 k2 k3 : Nat) (hp : countOfValue S pv = 2) (h1 : countOfValue S k1 = 1)
    (h2 : countOfValue S k2 = 1) (h3 : countOfValue S k3 = 1)
    (h32 : k3 < k2) (h21 : k2 < k1) (hk1 : k1 ≠ pv) (hk2 : k2 ≠ pv)
    (hk3 : k3 ≠ pv) :
    ∃ ev, checkOnePair S = some ev ∧ ev.rank = HandRank.PAIR ∧
      ev.value = HandRank.PAIR * CATEGORY_BASE + encode [pv, k1, k2, k3] := by
  have hcov : ∀ v, vset S v → v = pv ∨ v = k1 ∨ v = k2 ∨ v = k3 := by
    intro v hv
    by_contra hc
    push_neg at hc
    have := cnt_five_le S pv k1 k2 k3 v (fun he => hk1 he.symm)
      (fun he => hk2 he.symm) (fun he => hk3 he.symm) (fun he => hc.1 he.symm)
      (by omega) (by omega) (fun he => hc.2.1 he.symm) (by omega)
      (fun he => hc.2.2.1 he.symm) (fun he => hc.2.2.2 he.symm)
    have := (cnt_pos_iff S v).mpr hv
    omega
  obtain ⟨pr, hpr, hprv, hpre⟩ := grc_rank_present S pv
    ((cnt_pos_iff S pv).mp (by omega))
  have hpcnt : cntRank S pr = 2 := by rw [cntRank_eq_cntV, hprv, hp]
  have hfind2 : (getRankCounts S).find? (fun e => e.2 = 2) =
      some (pr, cntRank S pr) := by
    refine find?_eq_some_of_unique _ _ _ hpre (by simp [hpcnt]) ?_
    intro e he hpe
    obtain ⟨he1, he2⟩ := grc_mem_facts S e he
    have hec : countOfValue S (rankToValue e.1) = 2 := by
      rw [← cntRank_eq_cntV, ← he1]
      simpa using hpe
    have hev : vset S (rankToValue e.1) := (cnt_pos_iff S _).mp (by omega)
    have : rankToValue e.1 = pv := by
      rcases hcov _ hev with h0 | h0 | h0 | h0
      · exact h0
      · rw [h0, h1] at hec
        cases hec
      · rw [h0, h2] at hec
        cases hec
      · rw [h0, h3] at hec
        cases hec
    have her : e.1 = pr := rankToValue_inj _ _ (by rw [this, hprv])
    cases e with
    | mk er en =>
      simp only at her he1
      rw [her] at he1 ⊢
      rw [he1]
  have hF : (uniqueValuesDesc S).filter (fun v => v ≠ rankToValue pr) =
      [k1, k2, k3] := by
    haveI : IsAntisymm Nat (fun a b : Nat => a ≥ b) :=
      ⟨fun a b ha hb => Nat.le_antisymm hb ha⟩
    have hperm : ((uniqueValuesDesc S).filter
        (fun v => v ≠ rankToValue pr)).Perm [k1, k2, k3] := by
      refine perm_of_nodup_mutual_sub ?_ (by simp; omega) ?_ ?_
      · exact (uniqDesc_nodup S).sublist (List.filter_sublist _)
      · intro x hx
        obtain ⟨hxv, hxne⟩ := (uniq_filter_ne_mem S _ x).mp hx
        rw [hprv] at hxne
        rcases hcov x hxv with h0 | h0 | h0 | h0
        · exact absurd h0 hxne
        · simp [h0]
        · simp [h0]
        · simp [h0]
      · intro x hx
        simp only [List.mem_cons, List.not_mem_nil, or_false] at hx
        rcases hx with rfl | rfl | rfl
        · exact (uniq_filter_ne_mem S _ x).mpr
            ⟨(cnt_pos_iff S x).mp (by omega), by rw [hprv]; exact hk1⟩
        · exact (uniq_filter_ne_mem S _ x).mpr
            ⟨(cnt_pos_iff S x).mp (by omega), by rw [hprv]; exact hk2⟩
        · exact (uniq_filter_ne_mem S _ x).mpr
            ⟨(cnt_pos_iff S x).mp (by omega), by rw [hprv]; exact hk3⟩
    have hs1 : ((uniqueValuesDesc S).filter
        (fun v => v ≠ rankToValue pr)).Pairwise (fun a b : Nat => a ≥ b) :=
      List.Pairwise.imp (fun hgt => Nat.le_of_lt hgt)
        (uniq_filter_sorted S (fun v => decide (v ≠ rankToValue pr)))
    have hs2 : ([k1, k2, k3] : List Nat).Pairwise (fun a b : Nat => a ≥ b) := by
      simp [Nat.le_of_lt h21, Nat.le_of_lt h32,
        Nat.le_of_lt (Nat.lt_trans h32 h21)]
    exact List.eq_of_perm_of_sorted hperm hs1 hs2
  have hkick : sortNatDesc (((getRankCounts S).filter
      (fun e => e.1 ≠ pr)).map (fun e => rankToValue e.1)) = [k1, k2, k3] := by
    refine sortNatDesc_sorted_unique _ _ ?_ ?_
    · exact (grc_filter_map_perm S pr).trans (by rw [hF])
    · simp [Nat.le_of_lt h21, Nat.le_of_lt h32,
        Nat.le_of_lt (Nat.lt_trans h32 h21)]
  simp only [checkOnePair]
  rw [hfind2]
  dsimp only
  rw [hkick]
  refine ⟨_, rfl, rfl, ?_⟩
  show HandRank.PAIR * CATEGORY_BASE +
    encode [rankToValue pr, [k1, k2, k3].getD 0 0, [k1, k2, k3].getD 1 0,
      [k1, k2, k3].getD 2 0] = _
  rw [hprv]
  rfl

-- ------------------------------
-- "check returns none" characterizations
-- ------------------------------

theorem grc_find_cnt_none (S : List Card) (k : Nat)
    (h : (getRankCounts S).find? (fun e => e.2 = k) = none) :
    ∀ v, vset S v → countOfValue S v ≠ k := by
  intro v hv hc
  obtain ⟨r, hr, hrv, hre⟩ := grc_rank_present S v hv
  have hn := List.find?_eq_none.mp h _ hre
  rw [cntRank_eq_cntV, hrv, hc] at hn
  simp at hn

theorem grc_find_cnt_none_of (S : List Card) (k : Nat)
    (h : ∀ v, vset S v → countOfValue S v ≠ k) :
    (getRankCounts S).find? (fun e => e.2 = k) = none := by
  rw [List.find?_eq_none]
  intro e he
  obtain ⟨h1, h2⟩ := grc_mem_facts S e he
  obtain ⟨c, hc, hcr⟩ := List.mem_map.mp h2
  have hv : vset S (rankToValue e.1) := ⟨c, hc, by rw [hcr]⟩
  have := h _ hv
  rw [← cntRank_eq_cntV, ← h1] at this
  simpa using this

theorem checkFourOfAKind_none_inv (S : List Card)
    (h : checkFourOfAKind S = none) :
    ∀ v, vset S v → countOfValue S v ≠ 4 := by
  refine grc_find_cnt_none S 4 ?_
  simp only [checkFourOfAKind] at h
  cases hf : (getRankCounts S).find? (fun e => e.2 = 4) with
  | none => rfl
  | some quad =>
    rw [hf] at h
    dsimp only at h
    cases h

theorem checkThreeOfAKind_none_inv (S : List Card)
    (h : checkThreeOfAKind S = none) :
    ∀ v, vset S v → countOfValue S v ≠ 3 := by
  refine grc_find_cnt_none S 3 ?_
  simp only [checkThreeOfAKind] at h
  cases hf : (getRankCounts S).find? (fun e => e.2 = 3) with
  | none => rfl
  | some t =>
    rw [hf] at h
    dsimp only at h
    cases h

theorem checkOnePair_none_inv (S : List Card) (h : checkOnePair S = none) :
    ∀ v, vset S v → countOfValue S v ≠ 2 := by
  refine grc_find_cnt_none S 2 ?_
  simp only [checkOnePair] at h
  cases hf : (getRankCounts S).find? (fun e => e.2 = 2) with
  | none => rfl
  | some p =>
    rw [hf] at h
    dsimp only at h
    cases h

theorem checkFourOfAKind_none_of (S : List Card)
    (h : ∀ v, vset S v → countOfValue S v ≠ 4) : checkFourOfAKind S = none := by
  simp only [checkFourOfAKind]
  rw [grc_find_cnt_none_of S 4 h]

theorem checkFullHouse_none_of_no3 (S : List Card)
    (h : ∀ v, vset S v → countOfValue S v ≠ 3) : checkFullHouse S = none := by
  simp only [checkFullHouse]
  rw [grc_find_cnt_none_of S 3 h]

theorem checkThreeOfAKind_none_of (S : List Card)
    (h : ∀ v, vset S v → countOfValue S v ≠ 3) : checkThreeOfAKind S = none := by
  simp only [checkThreeOfAKind]
  rw [grc_find_cnt_none_of S 3 h]

theorem checkOnePair_none_of (S : List Card)
    (h : ∀ v, vset S v → countOfValue S v ≠ 2) : checkOnePair S = none := by
  simp only [checkOnePair]
  rw [grc_find_cnt_none_of S 2 h]

theorem checkTwoPair_none_of_one (S : List Card)
    (hno : ∀ p1 p2, countOfValue S p1 = 2 → countOfValue S p2 = 2 → p1 = p2) :
    checkTwoPair S = none := by
  have hperm := grc_filter_cnt_map_perm S 2
  have hP2nodup : ((uniqueValuesDesc S).filter
      (fun v => countOfValue S v = 2)).Nodup :=
    (uniqDesc_nodup S).sublist (List.filter_sublist _)
  have hle1 : ((uniqueValuesDesc S).filter
      (fun v => countOfValue S v = 2)).length ≤ 1 := by
    cases hF : (uniqueValuesDesc S).filter (fun v => countOfValue S v = 2) with
    | nil => simp
    | cons a F' =>
      cases F' with
      | nil => simp
      | cons b F'' =>
        exfalso
        rw [hF] at hP2nodup
        have hab : a ≠ b := by
          intro he
          rw [he] at hP2nodup
          simp at hP2nodup
        have ha : countOfValue S a = 2 := by
          have : a ∈ (uniqueValuesDesc S).filter (fun v => countOfValue S v = 2) := by
            rw [hF]
            simp
          have := (List.mem_filter.mp this).2
          simpa using this
        have hb : countOfValue S b = 2 := by
          have : b ∈ (uniqueValuesDesc S).filter (fun v => countOfValue S v = 2) := by
            rw [hF]
            simp
          have := (List.mem_filter.mp this).2
          simpa using this
        exact hab (hno a b ha hb)
  have hpl : ((getRankCounts S).filter (fun e => e.2 = 2)).length ≠ 2 := by
    have := hperm.length_eq
    rw [List.length_map] at this
    omega
  simp only [checkTwoPair]
  rw [if_pos hpl]

-- ------------------------------
-- misc transfer lemmas
-- ------------------------------

theorem cnt_le_four (S : List Card) (hnd : S.Nodup) (v : Nat) :
    countOfValue S v ≤ 4 := by
  unfold countOfValue
  have hFnd : (S.filter (fun c => decide (rankToValue c.rank = v))).Nodup :=
    hnd.sublist (List.filter_sublist _)
  have hsame : ∀ c ∈ S.filter (fun c => decide (rankToValue c.rank = v)),
      ∀ d ∈ S.filter (fun c => decide (rankToValue c.rank = v)),
      c.rank = d.rank := by
    intro c hc d hd
    have hcv := of_decide_eq_true (List.mem_filter.mp hc).2
    have hdv := of_decide_eq_true (List.mem_filter.mp hd).2
    exact rankToValue_inj _ _ (hcv.trans hdv.symm)
  have hsnd : ((S.filter (fun c => decide (rankToValue c.rank = v))).map
      (fun c => c.suit)).Nodup := by
    rw [List.nodup_map_iff_inj_on hFnd]
    intro c hc d hd hs
    exact card_ext c d hs (hsame c hc d hd)
  have hsub : ∀ s ∈ (S.filter (fun c => decide (rankToValue c.rank = v))).map
      (fun c => c.suit), s ∈ allSuits := fun s _ => mem_allSuits s
  have := (List.subperm_of_subset hsnd hsub).length_le
  rw [List.length_map] at this
  simpa using this

theorem sortNatDesc_congr_perm (l l' : List Nat) (h : l.Perm l') :
    sortNatDesc l = sortNatDesc l' :=
  sortNatDesc_sorted_unique l (sortNatDesc l')
    (h.trans (sortNatDesc_perm l').symm)
    (List.Pairwise.imp (fun hge => hge) (sortNatDesc_sorted l'))

theorem sortNatDesc_map_eq_uniqDesc (S : List Card)
    (h : ∀ v, countOfValue S v ≤ 1) :
    sortNatDesc (S.map (fun c => rankToValue c.rank)) = uniqueValuesDesc S := by
  refine sortNatDesc_sorted_unique _ _ ?_ ?_
  · refine perm_of_nodup_mutual_sub (mapval_nodup_of_cnt S h) (uniqDesc_nodup S) ?_ ?_
    · intro x hx
      obtain ⟨c, hc, hcv⟩ := List.mem_map.mp hx
      exact (uniqDesc_mem S x).mpr ⟨c, hc, hcv⟩
    · intro x hx
      obtain ⟨c, hc, hcv⟩ := (uniqDesc_mem S x).mp hx
      exact List.mem_map.mpr ⟨c, hc, hcv⟩
  · exact List.Pairwise.imp (fun hgt => Nat.le_of_lt hgt) (uniqDesc_sorted S)

theorem straightOf_perm (S T : List Card) (h : S.Perm T) (hh : Nat)
    (hs : StraightOf S hh) : StraightOf T hh := by
  unfold StraightOf at hs ⊢
  rcases hs with ⟨h1, h2, h3, h4, h5, h6, h7⟩ | ⟨h1, h2, h3, h4, h5, h6⟩
  · exact Or.inl ⟨h1, h2, (vset_perm S T h _).mp h3, (vset_perm S T h _).mp h4,
      (vset_perm S T h _).mp h5, (vset_perm S T h _).mp h6, (vset_perm S T h _).mp h7⟩
  · exact Or.inr ⟨h1, (vset_perm S T h _).mp h2, (vset_perm S T h _).mp h3,
      (vset_perm S T h _).mp h4, (vset_perm S T h _).mp h5, (vset_perm S T h _).mp h6⟩

-- ------------------------------
-- the ten outcome shapes of evaluateFiveCards
-- ------------------------------

def E5Royal (S : List Card) (ev : HandEvaluation) : Prop :=
  (∃ s, ∀ c ∈ S, c.suit = s) ∧ vset S 10 ∧ vset S 11 ∧ vset S 12 ∧
    vset S 13 ∧ vset S 14 ∧ ev.rank = HandRank.ROYAL_FLUSH ∧
    ev.value = HandRank.ROYAL_FLUSH * CATEGORY_BASE + 14

def E5SF (S : List Card) (ev : HandEvaluation) : Prop :=
  (∃ s, ∀ c ∈ S, c.suit = s) ∧ ∃ hh, StraightOf S hh ∧
    ev.rank = HandRank.STRAIGHT_FLUSH ∧
    ev.value = HandRank.STRAIGHT_FLUSH * CATEGORY_BASE + hh

def E5Quads (S : List Card) (ev : HandEvaluation) : Prop :=
  ∃ qv kv, countOfValue S qv = 4 ∧ vset S kv ∧ kv ≠ qv ∧
    ev.rank = HandRank.FOUR_OF_A_KIND ∧
    ev.value = HandRank.FOUR_OF_A_KIND * CATEGORY_BASE + encode [qv, kv]

def E5FH (S : List Card) (ev : HandEvaluation) : Prop :=
  ∃ tv pv, countOfValue S tv = 3 ∧ countOfValue S pv = 2 ∧ tv ≠ pv ∧
    ev.rank = HandRank.FULL_HOUSE ∧
    ev.value = HandRank.FULL_HOUSE * CATEGORY_BASE + encode [tv, pv]

def E5Flush (S : List Card) (ev : HandEvaluation) : Prop :=
  (∃ s, ∀ c ∈ S, c.suit = s) ∧ ev.rank = HandRank.FLUSH ∧
    ev.value = HandRank.FLUSH * CATEGORY_BASE +
      encode (sortNatDesc (S.map (fun c => rankToValue c.rank)))

def E5Straight (S : List Card) (ev : HandEvaluation) : Prop :=
  ∃ hh, StraightOf S hh ∧ ev.rank = HandRank.STRAIGHT ∧
    ev.value = HandRank.STRAIGHT * CATEGORY_BASE + hh

def E5Trips (S : List Card) (ev : HandEvaluation) : Prop :=
  ∃ tv k1 k2, countOfValue S tv = 3 ∧ countOfValue S k1 = 1 ∧
    countOfValue S k2 = 1 ∧ k2 < k1 ∧ k1 ≠ tv ∧ k2 ≠ tv ∧
    (∀ v, vset S v → v = tv ∨ v = k1 ∨ v = k2) ∧
    ev.rank = HandRank.THREE_OF_A_KIND ∧
    ev.value = HandRank.THREE_OF_A_KIND * CATEGORY_BASE + encode [tv, k1, k2]

def E5TwoPair (S : List Card) (ev : HandEvaluation) : Prop :=
  ∃ p1 p2 kk, countOfValue S p1 = 2 ∧ countOfValue S p2 = 2 ∧
    countOfValue S kk = 1 ∧ p2 < p1 ∧ kk ≠ p1 ∧ kk ≠ p2 ∧
    (∀ v, vset S v → v = p1 ∨ v = p2 ∨ v = kk) ∧
    ev.rank = HandRank.TWO_PAIR ∧
    ev.value = HandRank.TWO_PAIR * CATEGORY_BASE + encode [p1, p2, kk]

def E5Pair (S : List Card) (ev : HandEvaluation) : Prop :=
  ∃ pv k1 k2 k3, countOfValue S pv = 2 ∧ countOfValue S k1 = 1 ∧
    countOfValue S k2 = 1 ∧ countOfValue S k3 = 1 ∧
    k3 < k2 ∧ k2 < k1 ∧ k1 ≠ pv ∧ k2 ≠ pv ∧ k3 ≠ pv ∧
    (∀ v, vset S v → v = pv ∨ v = k1 ∨ v = k2 ∨ v = k3) ∧
    ev.rank = HandRank.PAIR ∧
    ev.value = HandRank.PAIR * CATEGORY_BASE + encode [pv, k1, k2, k3]

def E5High (S : List Card) (ev : HandEvaluation) : Prop :=
  (∀ v, vset S v → countOfValue S v = 1) ∧ ev.rank = HandRank.HIGH_CARD ∧
    ev.value = HandRank.HIGH_CARD * CATEGORY_BASE + encode (uniqueValuesDesc S)

theorem eval5_ok_cases (S : List Card) (hlen : S.length = 5) (hnd : S.Nodup)
    (ev : HandEvaluation) (h : evaluateFiveCards S = .ok ev) :
    E5Royal S ev ∨ E5SF S ev ∨ E5Quads S ev ∨ E5FH S ev ∨ E5Flush S ev ∨
      E5Straight S ev ∨ E5Trips S ev ∨ E5TwoPair S ev ∨ E5Pair S ev ∨
      E5High S ev := by
  have hTS : (sortCards S true).Perm S := by
    rw [sortCards_eq_insertionSort]
    exact insertionSort_perm cmpLe S
  have hTlen : (sortCards S true).length = 5 := by
    rw [length_sortCards, hlen]
  have hTnd : (sortCards S true).Nodup := (hTS.nodup_iff).mpr hnd
  simp only [evaluateFiveCards] at h
  rw [if_neg (not_not_intro hlen)] at h
  cases hR : checkRoyalFlush (sortCards S true) with
  | some e =>
    rw [hR] at h
    dsimp only at h
    injection h with h
    subst h
    obtain ⟨⟨s, hs⟩, h10, h11, h12, h13, h14, hrk, hvl⟩ :=
      checkRoyalFlush_some_inv _ hTlen _ hR
    exact Or.inl ⟨⟨s, fun c hc => hs c (hTS.mem_iff.mpr hc)⟩,
      (vset_perm _ S hTS _).mp h10, (vset_perm _ S hTS _).mp h11,
      (vset_perm _ S hTS _).mp h12, (vset_perm _ S hTS _).mp h13,
      (vset_perm _ S hTS _).mp h14, hrk, hvl⟩
  | none =>
  rw [hR] at h
  dsimp only at h
  cases hSF : checkStraightFlush (sortCards S true) with
  | some e =>
    rw [hSF] at h
    dsimp only at h
    injection h with h
    subst h
    obtain ⟨⟨s, hs⟩, hh, hst, hrk, hvl⟩ := checkStraightFlush_some_inv _ hTlen _ hSF
    exact Or.inr (Or.inl ⟨⟨s, fun c hc => hs c (hTS.mem_iff.mpr hc)⟩,
      hh, straightOf_perm _ S hTS hh hst, hrk, hvl⟩)
  | none =>
  rw [hSF] at h
  dsimp only at h
  cases h4 : checkFourOfAKind (sortCards S true) with
  | some e =>
    rw [h4] at h
    dsimp only at h
    injection h with h
    subst h
    obtain ⟨qv, kv, hq, hk, hne, hrk, hvl⟩ := checkFourOfAKind_some_inv _ hTlen _ h4
    refine Or.inr (Or.inr (Or.inl ⟨qv, kv, ?_, (vset_perm _ S hTS _).mp hk,
      hne, hrk, hvl⟩))
    rw [← cntV_perm _ S hTS]
    exact hq
  | none =>
  rw [h4] at h
  dsimp only at h
  cases hfh : checkFullHouse (sortCards S true) with
  | some e =>
    rw [hfh] at h
    dsimp only at h
    injection h with h
    subst h
    obtain ⟨tv, pv, ht, hp, hne, hrk, hvl⟩ := checkFullHouse_some_inv _ hTlen _ hfh
    refine Or.inr (Or.inr (Or.inr (Or.inl ⟨tv, pv, ?_, ?_, hne, hrk, hvl⟩)))
    · rw [← cntV_perm _ S hTS]
      exact ht
    · rw [← cntV_perm _ S hTS]
      exact hp
  | none =>
  rw [hfh] at h
  dsimp only at h
  cases hfl : checkFlush (sortCards S true) with
  | some e =>
    rw [hfl] at h
    dsimp only at h
    injection h with h
    subst h
    obtain ⟨⟨s, hs⟩, hnost, hrk, hvl⟩ := checkFlush_some_inv _ hTlen _ hfl
    refine Or.inr (Or.inr (Or.inr (Or.inr (Or.inl
      ⟨⟨s, fun c hc => hs c (hTS.mem_iff.mpr hc)⟩, hrk, ?_⟩))))
    rw [hvl, sortNatDesc_congr_perm _ _ (hTS.map _)]
  | none =>
  rw [hfl] at h
  dsimp only at h
  cases hstr : checkStraight (sortCards S true) with
  | some e =>
    rw [hstr] at h
    dsimp only at h
    injection h with h
    subst h
    obtain ⟨hh, hrk, hvl, hst⟩ := checkStraight_some_inv _ hTlen _ hstr
    exact Or.inr (Or.inr (Or.inr (Or.inr (Or.inr (Or.inl
      ⟨hh, straightOf_perm _ S hTS hh hst, hrk, hvl⟩)))))
  | none =>
  rw [hstr] at h
  dsimp only at h
  cases h3 : checkThreeOfAKind (sortCards S true) with
  | some e =>
    rw [h3] at h
    dsimp only at h
    injection h with h
    subst h
    obtain ⟨tv, k1, k2, ht, hk1, hk2, h21, h1t, h2t, hcov, hrk, hvl⟩ :=
      checkThreeOfAKind_some_inv _ hTlen _ hfh h3
    refine Or.inr (Or.inr (Or.inr (Or.inr (Or.inr (Or.inr (Or.inl
      ⟨tv, k1, k2, ?_, ?_, ?_, h21, h1t, h2t, ?_, hrk, hvl⟩))))))
    · rw [← cntV_perm _ S hTS]
      exact ht
    · rw [← cntV_perm _ S hTS]
      exact hk1
    · rw [← cntV_perm _ S hTS]
      exact hk2
    · intro v hv
      exact hcov v ((vset_perm _ S hTS v).mpr hv)
  | none =>
  rw [h3] at h
  dsimp only at h
  cases h2p : checkTwoPair (sortCards S true) with
  | some e =>
    rw [h2p] at h
    dsimp only at h
    injection h with h
    subst h
    obtain ⟨p1, p2, kk, hp1, hp2, hkk, h12, hk1, hk2, hcov, hrk, hvl⟩ :=
      checkTwoPair_some_inv _ hTlen _ h2p
    refine Or.inr (Or.inr (Or.inr (Or.inr (Or.inr (Or.inr (Or.inr (Or.inl
      ⟨p1, p2, kk, ?_, ?_, ?_, h12, hk1, hk2, ?_, hrk, hvl⟩)))))))
    · rw [← cntV_perm _ S hTS]
      exact hp1
    · rw [← cntV_perm _ S hTS]
      exact hp2
    · rw [← cntV_perm _ S hTS]
      exact hkk
    · intro v hv
      exact hcov v ((vset_perm _ S hTS v).mpr hv)
  | none =>
  rw [h2p] at h
  dsimp only at h
  cases h1p : checkOnePair (sortCards S true) with
  | some e =>
    rw [h1p] at h
    dsimp only at h
    injection h with h
    subst h
    obtain ⟨pv, k1, k2, k3, hp, hk1, hk2, hk3, h32, h21, h1t, h2t, h3t, hcov,
      hrk, hvl⟩ := checkOnePair_some_inv _ hTlen _ h3 h2p h1p
    refine Or.inr (Or.inr (Or.inr (Or.inr (Or.inr (Or.inr (Or.inr (Or.inr
      (Or.inl ⟨pv, k1, k2, k3, ?_, ?_, ?_, ?_, h32, h21, h1t, h2t, h3t, ?_,
        hrk, hvl⟩))))))))
    · rw [← cntV_perm _ S hTS]
      exact hp
    · rw [← cntV_perm _ S hTS]
      exact hk1
    · rw [← cntV_perm _ S hTS]
      exact hk2
    · rw [← cntV_perm _ S hTS]
      exact hk3
    · intro v hv
      exact hcov v ((vset_perm _ S hTS v).mpr hv)
  | none =>
  rw [h1p] at h
  dsimp only at h
  injection h with h
  subst h
  -- every present value appears exactly once
  have hT1 : ∀ v, vset (sortCards S true) v →
      countOfValue (sortCards S true) v = 1 := by
    intro v hv
    have hpos := (cnt_pos_iff _ v).mpr hv
    have hn2 := checkOnePair_none_inv _ h1p v hv
    have hn3 := checkThreeOfAKind_none_inv _ h3 v hv
    have hn4 := checkFourOfAKind_none_inv _ h4 v hv
    have hle := cnt_le_four _ hTnd v
    omega
  have hS1 : ∀ v, vset S v → countOfValue S v = 1 := by
    intro v hv
    rw [← cntV_perm _ S hTS]
    exact hT1 v ((vset_perm _ S hTS v).mpr hv)
  have hSle : ∀ v, countOfValue S v ≤ 1 := by
    intro v
    by_cases hv : vset S v
    · rw [hS1 v hv]
    · have : ¬ 0 < countOfValue S v := fun hc => hv ((cnt_pos_iff S v).mp hc)
      omega
  refine Or.inr (Or.inr (Or.inr (Or.inr (Or.inr (Or.inr (Or.inr (Or.inr
    (Or.inr ⟨hS1, rfl, ?_⟩))))))))
  show HandRank.HIGH_CARD * CATEGORY_BASE +
    encode (sortNatDesc ((sortCards S true).map (fun c => rankToValue c.rank))) = _
  rw [sortNatDesc_congr_perm _ _ (hTS.map _), sortNatDesc_map_eq_uniqDesc S hSle]

-- ------------------------------
-- more "none" facts, for the construction walks
-- ------------------------------

theorem exists_two_suits_of_cnt2 (S : List Card) (hnd : S.Nodup) (v : Nat)
    (h2 : 2 ≤ countOfValue S v) :
    ∃ c ∈ S, ∃ d ∈ S, c.suit ≠ d.suit := by
  unfold countOfValue at h2
  cases hf : S.filter (fun c => decide (rankToValue c.rank = v)) with
  | nil =>
    rw [hf] at h2
    simp at h2
  | cons c F' =>
    cases F' with
    | nil =>
      rw [hf] at h2
      simp at h2
    | cons d F'' =>
      have hcm : c ∈ S.filter (fun c => decide (rankToValue c.rank = v)) := by
        rw [hf]
        simp
      have hdm : d ∈ S.filter (fun c => decide (rankToValue c.rank = v)) := by
        rw [hf]
        simp
      have hcS := (List.mem_filter.mp hcm).1
      have hdS := (List.mem_filter.mp hdm).1
      have hcv := of_decide_eq_true (List.mem_filter.mp hcm).2
      have hdv := of_decide_eq_true (List.mem_filter.mp hdm).2
      have hcd : c ≠ d := by
        have hFnd : (S.filter (fun c => decide (rankToValue c.rank = v))).Nodup :=
          hnd.sublist (List.filter_sublist _)
        rw [hf] at hFnd
        intro he
        rw [he] at hFnd
        simp at hFnd
      refine ⟨c, hcS, d, hdS, ?_⟩
      intro hs
      exact hcd (card_ext c d hs (rankToValue_inj _ _ (hcv.trans hdv.symm)))

theorem checkFullHouse_none_of_no2 (S : List Card)
    (h : ∀ v, vset S v → countOfValue S v ≠ 2) : checkFullHouse S = none := by
  simp only [checkFullHouse]
  rw [grc_find_cnt_none_of S 2 h]
  cases (getRankCounts S).find? (fun e => e.2 = 3) with
  | none => rfl
  | some t => rfl

theorem checkStraight_none_of_nostraight (S : List Card) (hlen : S.length = 5)
    (hno : ∀ hh, ¬ StraightOf S hh) : checkStraight S = none := by
  cases hst : checkStraight S with
  | none => rfl
  | some e =>
    obtain ⟨hh, _, _, hs⟩ := checkStraight_some_inv S hlen e hst
    exact absurd hs (hno hh)

theorem checkRoyalFlush_none_of_nostraight (S : List Card) (hlen : S.length = 5)
    (hno : ∀ hh, ¬ StraightOf S hh) : checkRoyalFlush S = none := by
  cases hr : checkRoyalFlush S with
  | none => rfl
  | some e =>
    obtain ⟨_, h10, h11, h12, h13, h14, _, _⟩ := checkRoyalFlush_some_inv S hlen e hr
    exact absurd (Or.inl ⟨by omega, by omega, h14, h13, h12, h11, h10⟩) (hno 14)

theorem checkStraightFlush_none_of_nostraight (S : List Card) (hlen : S.length = 5)
    (hno : ∀ hh, ¬ StraightOf S hh) : checkStraightFlush S = none := by
  cases hr : checkStraightFlush S with
  | none => rfl
  | some e =>
    obtain ⟨_, hh, hs, _, _⟩ := checkStraightFlush_some_inv S hlen e hr
    exact absurd hs (hno hh)

theorem royal_rank_of_val (r : Rank) (v : Nat) (hrv : rankToValue r = v)
    (h10 : 10 ≤ v) (h14 : v ≤ 14) :
    r ∈ [Rank.rT, Rank.rJ, Rank.rQ, Rank.rK, Rank.rA] := by
  cases r <;> first
  | decide
  | (exfalso; simp [rankToValue] at hrv; omega)

theorem checkRoyalFlush_none_of_missing (S : List Card) (v : Nat) (h10 : 10 ≤ v)
    (h14 : v ≤ 14) (hnv : ¬ vset S v) : checkRoyalFlush S = none := by
  by_cases hfl : (S.all fun card => decide (card.suit = (S.headD default).suit)) = true
  case neg => exact checkRoyalFlush_none_of_noflush S hfl
  case pos =>
    simp only [checkRoyalFlush]
    rw [if_neg (not_not_intro hfl)]
    obtain ⟨r, hrv⟩ := rank_of_val v (by omega) h14
    have hnr : ¬ (([Rank.rT, Rank.rJ, Rank.rQ, Rank.rK, Rank.rA].all
        (fun rr => (S.map (fun card => card.rank)).contains rr)) = true) := by
      intro hall
      rw [List.all_eq_true] at hall
      have hc := hall r (royal_rank_of_val r v hrv h10 h14)
      have hrm : r ∈ S.map (fun card => card.rank) := by
        have := List.mem_of_elem_eq_true hc
        exact this
      obtain ⟨c, hcS, hcr⟩ := List.mem_map.mp hrm
      exact hnv ⟨c, hcS, by rw [hcr, hrv]⟩
    rw [if_pos hnr]

-- ------------------------------
-- evaluateFiveCards construction walks
-- ------------------------------

theorem eval5_royal (S : List Card) (hlen : S.length = 5) (s : Suit)
    (hfl : ∀ c ∈ S, c.suit = s) (h10 : vset S 10) (h11 : vset S 11)
    (h12 : vset S 12) (h13 : vset S 13) (h14 : vset S 14) :
    ∃ ev, evaluateFiveCards S = .ok ev ∧ ev.rank = HandRank.ROYAL_FLUSH ∧
      ev.value = HandRank.ROYAL_FLUSH * CATEGORY_BASE + 14 := by
  have hTS : (sortCards S true).Perm S := by
    rw [sortCards_eq_insertionSort]
    exact insertionSort_perm cmpLe S
  have hTlen : (sortCards S true).length = 5 := by
    rw [length_sortCards, hlen]
  obtain ⟨ev, hR, hrk, hvl⟩ := checkRoyalFlush_some_of (sortCards S true) hTlen s
    (fun c hc => hfl c (hTS.subset hc))
    ((vset_perm _ S hTS _).mpr h10) ((vset_perm _ S hTS _).mpr h11)
    ((vset_perm _ S hTS _).mpr h12) ((vset_perm _ S hTS _).mpr h13)
    ((vset_perm _ S hTS _).mpr h14)
  refine ⟨ev, ?_, hrk, hvl⟩
  simp only [evaluateFiveCards]
  rw [if_neg (not_not_intro hlen), hR]

theorem eval5_sf_window (S : List Card) (hlen : S.length = 5) (s : Suit)
    (hfl : ∀ c ∈ S, c.suit = s) (a : Nat) (ha : a + 4 ≤ 13)
    (hcnt : ∀ i, i < 5 → countOfValue S (a + i) = 1)
    (hcov : ∀ c ∈ S, ∃ i, i < 5 ∧ rankToValue c.rank = a + i) :
    ∃ ev, evaluateFiveCards S = .ok ev ∧ ev.rank = HandRank.STRAIGHT_FLUSH ∧
      ev.value = HandRank.STRAIGHT_FLUSH * CATEGORY_BASE + (a + 4) := by
  have hTS : (sortCards S true).Perm S := by
    rw [sortCards_eq_insertionSort]
    exact insertionSort_perm cmpLe S
  have hTlen : (sortCards S true).length = 5 := by
    rw [length_sortCards, hlen]
  have hcntT : ∀ i, i < 5 → countOfValue (sortCards S true) (a + i) = 1 := by
    intro i hi
    rw [cntV_perm _ S hTS]
    exact hcnt i hi
  have hcovT : ∀ c ∈ sortCards S true, ∃ i, i < 5 ∧ rankToValue c.rank = a + i :=
    fun c hc => hcov c (hTS.subset hc)
  obtain ⟨st, hst, hstrk, hstvl⟩ := checkStraight_of_window _ hTlen a hcntT hcovT
  obtain ⟨ev, hSF, hrk, hvl⟩ := checkStraightFlush_some_of _ hTlen s
    (fun c hc => hfl c (hTS.subset hc)) st (a + 4) hst hstvl
  have hR : checkRoyalFlush (sortCards S true) = none := by
    refine checkRoyalFlush_none_of_missing _ 14 (by omega) (by omega) ?_
    intro hv
    obtain ⟨c, hc, hcr⟩ := hv
    obtain ⟨i, hi, hci⟩ := hcovT c hc
    omega
  refine ⟨ev, ?_, hrk, hvl⟩
  simp only [evaluateFiveCards]
  rw [if_neg (not_not_intro hlen), hR]
  dsimp only
  rw [hSF]

theorem eval5_sf_wheel (S : List Card) (hlen : S.length = 5) (hnd : S.Nodup)
    (s : Suit) (hfl : ∀ c ∈ S, c.suit = s)
    (hcnt14 : countOfValue S 14 = 1)
    (hcnt : ∀ v, 2 ≤ v → v ≤ 5 → countOfValue S v = 1)
    (hcov : ∀ c ∈ S, rankToValue c.rank = 14 ∨
      (2 ≤ rankToValue c.rank ∧ rankToValue c.rank ≤ 5)) :
    ∃ ev, evaluateFiveCards S = .ok ev ∧ ev.rank = HandRank.STRAIGHT_FLUSH ∧
      ev.value = HandRank.STRAIGHT_FLUSH * CATEGORY_BASE + 5 := by
  have hTS : (sortCards S true).Perm S := by
    rw [sortCards_eq_insertionSort]
    exact insertionSort_perm cmpLe S
  have hTlen : (sortCards S true).length = 5 := by
    rw [length_sortCards, hlen]
  have hTnd : (sortCards S true).Nodup := (hTS.nodup_iff).mpr hnd
  have hcnt14T : countOfValue (sortCards S true) 14 = 1 := by
    rw [cntV_perm _ S hTS]
    exact hcnt14
  have hcntT : ∀ v, 2 ≤ v → v ≤ 5 → countOfValue (sortCards S true) v = 1 := by
    intro v h2 h5
    rw [cntV_perm _ S hTS]
    exact hcnt v h2 h5
  have hcovT : ∀ c ∈ sortCards S true, rankToValue c.rank = 14 ∨
      (2 ≤ rankToValue c.rank ∧ rankToValue c.rank ≤ 5) :=
    fun c hc => hcov c (hTS.subset hc)
  obtain ⟨st, hst, hstrk, hstvl⟩ := checkStraight_of_wheel _ hTlen hTnd
    hcnt14T hcntT hcovT
  obtain ⟨ev, hSF, hrk, hvl⟩ := checkStraightFlush_some_of _ hTlen s
    (fun c hc => hfl c (hTS.subset hc)) st 5 hst hstvl
  have hR : checkRoyalFlush (sortCards S true) = none := by
    refine checkRoyalFlush_none_of_missing _ 10 (by omega) (by omega) ?_
    intro hv
    obtain ⟨c, hc, hcr⟩ := hv
    rcases hcovT c hc with h0 | h0 <;> omega
  refine ⟨ev, ?_, hrk, hvl⟩
  simp only [evaluateFiveCards]
  rw [if_neg (not_not_intro hlen), hR]
  dsimp only
  rw [hSF]

theorem eval5_quads (S : List Card) (hlen : S.length = 5) (hnd : S.Nodup)
    (qv kv : Nat) (hq : countOfValue S qv = 4) (hk : countOfValue S kv = 1)
    (hne : kv ≠ qv) :
    ∃ ev, evaluateFiveCards S = .ok ev ∧ ev.rank = HandRank.FOUR_OF_A_KIND ∧
      ev.value = HandRank.FOUR_OF_A_KIND * CATEGORY_BASE + encode [qv, kv] := by
  have hTS : (sortCards S true).Perm S := by
    rw [sortCards_eq_insertionSort]
    exact insertionSort_perm cmpLe S
  have hTlen : (sortCards S true).length = 5 := by
    rw [length_sortCards, hlen]
  have hTnd : (sortCards S true).Nodup := (hTS.nodup_iff).mpr hnd
  have hqT : countOfValue (sortCards S true) qv = 4 := by
    rw [cntV_perm _ S hTS]
    exact hq
  have hkT : countOfValue (sortCards S true) kv = 1 := by
    rw [cntV_perm _ S hTS]
    exact hk
  obtain ⟨c, hc, d, hd, hcd⟩ :=
    exists_two_suits_of_cnt2 _ hTnd qv (by omega)
  have hnf := noflush_of_two_suits _ c d hc hd hcd
  obtain ⟨ev, h4, hrk, hvl⟩ := checkFourOfAKind_some_of _ hTlen qv kv hqT hkT hne
  refine ⟨ev, ?_, hrk, hvl⟩
  simp only [evaluateFiveCards]
  rw [if_neg (not_not_intro hlen), checkRoyalFlush_none_of_noflush _ hnf]
  dsimp only
  rw [checkStraightFlush_none_of_noflush _ hnf]
  dsimp only
  rw [h4]

theorem eval5_fh (S : List Card) (hlen : S.length = 5) (hnd : S.Nodup)
    (tv pv : Nat) (ht : countOfValue S tv = 3) (hp : countOfValue S pv = 2)
    (hne : tv ≠ pv) :
    ∃ ev, evaluateFiveCards S = .ok ev ∧ ev.rank = HandRank.FULL_HOUSE ∧
      ev.value = HandRank.FULL_HOUSE * CATEGORY_BASE + encode [tv, pv] := by
  have hTS : (sortCards S true).Perm S := by
    rw [sortCards_eq_insertionSort]
    exact insertionSort_perm cmpLe S
  have hTlen : (sortCards S true).length = 5 := by
    rw [length_sortCards, hlen]
  have hTnd : (sortCards S true).Nodup := (hTS.nodup_iff).mpr hnd
  have htT : countOfValue (sortCards S true) tv = 3 := by
    rw [cntV_perm _ S hTS]
    exact ht
  have hpT : countOfValue (sortCards S true) pv = 2 := by
    rw [cntV_perm _ S hTS]
    exact hp
  obtain ⟨c, hc, d, hd, hcd⟩ :=
    exists_two_suits_of_cnt2 _ hTnd tv (by omega)
  have hnf := noflush_of_two_suits _ c d hc hd hcd
  have h4n : checkFourOfAKind (sortCards S true) = none := by
    refine checkFourOfAKind_none_of _ ?_
    intro v hv hc4
    by_cases hvt : v = tv
    · rw [hvt, htT] at hc4
      cases hc4
    · by_cases hvp : v = pv
      · rw [hvp, hpT] at hc4
        cases hc4
      · have := cnt_triple_le (sortCards S true) v tv pv hvt hvp hne
        rw [hTlen] at this
        omega
  obtain ⟨ev, hFH, hrk, hvl⟩ := checkFullHouse_some_of _ hTlen tv pv htT hpT hne
  refine ⟨ev, ?_, hrk, hvl⟩
  simp only [evaluateFiveCards]
  rw [if_neg (not_not_intro hlen), checkRoyalFlush_none_of_noflush _ hnf]
  dsimp only
  rw [checkStraightFlush_none_of_noflush _ hnf]
  dsimp only
  rw [h4n]
  dsimp only
  rw [hFH]

theorem eval5_flush (S : List Card) (hlen : S.length = 5) (hnd : S.Nodup)
    (s : Suit) (hfl : ∀ c ∈ S, c.suit = s) (hno : ∀ hh, ¬ StraightOf S hh) :
    ∃ ev, evaluateFiveCards S = .ok ev ∧ ev.rank = HandRank.FLUSH ∧
      ev.value = HandRank.FLUSH * CATEGORY_BASE +
        encode (sortNatDesc (S.map (fun c => rankToValue c.rank))) := by
  have hTS : (sortCards S true).Perm S := by
    rw [sortCards_eq_insertionSort]
    exact insertionSort_perm cmpLe S
  have hTlen : (sortCards S true).length = 5 := by
    rw [length_sortCards, hlen]
  have hTnd : (sortCards S true).Nodup := (hTS.nodup_iff).mpr hnd
  have hflT : ∀ c ∈ sortCards S true, c.suit = s :=
    fun c hc => hfl c (hTS.subset hc)
  have hnoT : ∀ hh, ¬ StraightOf (sortCards S true) hh :=
    fun hh hc => hno hh (straightOf_perm _ S hTS hh hc)
  have hcle : ∀ v, countOfValue (sortCards S true) v ≤ 1 :=
    flush_cnt_le_one _ hTnd s hflT
  have h4n : checkFourOfAKind (sortCards S true) = none :=
    checkFourOfAKind_none_of _ (fun v _ hc => by have := hcle v; omega)
  have hfhn : checkFullHouse (sortCards S true) = none :=
    checkFullHouse_none_of_no3 _ (fun v _ hc => by have := hcle v; omega)
  obtain ⟨ev, hFl, hrk, hvl⟩ := checkFlush_some_of _ hTlen s hflT
    (checkStraight_none_of_nostraight _ hTlen hnoT)
  refine ⟨ev, ?_, hrk, ?_⟩
  · simp only [evaluateFiveCards]
    rw [if_neg (not_not_intro hlen),
      checkRoyalFlush_none_of_nostraight _ hTlen hnoT]
    dsimp only
    rw [checkStraightFlush_none_of_nostraight _ hTlen hnoT]
    dsimp only
    rw [h4n]
    dsimp only
    rw [hfhn]
    dsimp only
    rw [hFl]
  · rw [hvl, sortNatDesc_congr_perm _ _ (hTS.map _)]

theorem eval5_straight_window (S : List Card) (hlen : S.length = 5)
    (hnd : S.Nodup) (a : Nat)
    (hcnt : ∀ i, i < 5 → countOfValue S (a + i) = 1)
    (hcov : ∀ c ∈ S, ∃ i, i < 5 ∧ rankToValue c.rank = a + i)
    (c d : Card) (hc : c ∈ S) (hd : d ∈ S) (hcd : c.suit ≠ d.suit) :
    ∃ ev, evaluateFiveCards S = .ok ev ∧ ev.rank = HandRank.STRAIGHT ∧
      ev.value = HandRank.STRAIGHT * CATEGORY_BASE + (a + 4) := by
  have hTS : (sortCards S true).Perm S := by
    rw [sortCards_eq_insertionSort]
    exact insertionSort_perm cmpLe S
  have hTlen : (sortCards S true).length = 5 := by
    rw [length_sortCards, hlen]
  have hcntT : ∀ i, i < 5 → countOfValue (sortCards S true) (a + i) = 1 := by
    intro i hi
    rw [cntV_perm _ S hTS]
    exact hcnt i hi
  have hcovT : ∀ cc ∈ sortCards S true, ∃ i, i < 5 ∧ rankToValue cc.rank = a + i :=
    fun cc hcc => hcov cc (hTS.subset hcc)
  have hcle : ∀ v, vset (sortCards S true) v →
      countOfValue (sortCards S true) v = 1 := by
    intro v hv
    obtain ⟨cc, hcc, hccv⟩ := hv
    obtain ⟨i, hi, hci⟩ := hcovT cc hcc
    rw [← hccv, hci]
    exact hcntT i hi
  have hnf := noflush_of_two_suits (sortCards S true) c d
    (hTS.mem_iff.mpr hc) (hTS.mem_iff.mpr hd) hcd
  have h4n : checkFourOfAKind (sortCards S true) = none :=
    checkFourOfAKind_none_of _ (fun v hv hc4 => by have := hcle v hv; omega)
  have hfhn : checkFullHouse (sortCards S true) = none :=
    checkFullHouse_none_of_no3 _ (fun v hv hc3 => by have := hcle v hv; omega)
  obtain ⟨ev, hSt, hrk, hvl⟩ := checkStraight_of_window _ hTlen a hcntT hcovT
  refine ⟨ev, ?_, hrk, hvl⟩
  simp only [evaluateFiveCards]
  rw [if_neg (not_not_intro hlen), checkRoyalFlush_none_of_noflush _ hnf]
  dsimp only
  rw [checkStraightFlush_none_of_noflush _ hnf]
  dsimp only
  rw [h4n]
  dsimp only
  rw [hfhn]
  dsimp only
  rw [checkFlush_none_of_noflush _ hnf]
  dsimp only
  rw [hSt]

theorem eval5_straight_wheel (S : List Card) (hlen : S.length = 5)
    (hnd : S.Nodup) (hcnt14 : countOfValue S 14 = 1)
    (hcnt : ∀ v, 2 ≤ v → v ≤ 5 → countOfValue S v = 1)
    (hcov : ∀ c ∈ S, rankToValue c.rank = 14 ∨
      (2 ≤ rankToValue c.rank ∧ rankToValue c.rank ≤ 5))
    (c d : Card) (hc : c ∈ S) (hd : d ∈ S) (hcd : c.suit ≠ d.suit) :
    ∃ ev, evaluateFiveCards S = .ok ev ∧ ev.rank = HandRank.STRAIGHT ∧
      ev.value = HandRank.STRAIGHT * CATEGORY_BASE + 5 := by
  have hTS : (sortCards S true).Perm S := by
    rw [sortCards_eq_insertionSort]
    exact insertionSort_perm cmpLe S
  have hTlen : (sortCards S true).length = 5 := by
    rw [length_sortCards, hlen]
  have hTnd : (sortCards S true).Nodup := (hTS.nodup_iff).mpr hnd
  have hcnt14T : countOfValue (sortCards S true) 14 = 1 := by
    rw [cntV_perm _ S hTS]
    exact hcnt14
  have hcntT : ∀ v, 2 ≤ v → v ≤ 5 → countOfValue (sortCards S true) v = 1 := by
    intro v h2 h5
    rw [cntV_perm _ S hTS]
    exact hcnt v h2 h5
  have hcovT : ∀ cc ∈ sortCards S true, rankToValue cc.rank = 14 ∨
      (2 ≤ rankToValue cc.rank ∧ rankToValue cc.rank ≤ 5) :=
    fun cc hcc => hcov cc (hTS.subset hcc)
  have hcle : ∀ v, vset (sortCards S true) v →
      countOfValue (sortCards S true) v = 1 := by
    intro v hv
    obtain ⟨cc, hcc, hccv⟩ := hv
    rcases hcovT cc hcc with h0 | h0
    · rw [← hccv, h0]
      exact hcnt14T
    · rw [← hccv]
      exact hcntT _ h0.1 h0.2
  have hnf := noflush_of_two_suits (sortCards S true) c d
    (hTS.mem_iff.mpr hc) (hTS.mem_iff.mpr hd) hcd
  have h4n : checkFourOfAKind (sortCards S true) = none :=
    checkFourOfAKind_none_of _ (fun v hv hc4 => by have := hcle v hv; omega)
  have hfhn : checkFullHouse (sortCards S true) = none :=
    checkFullHouse_none_of_no3 _ (fun v hv hc3 => by have := hcle v hv; omega)
  obtain ⟨ev, hSt, hrk, hvl⟩ := checkStraight_of_wheel _ hTlen hTnd
    hcnt14T hcntT hcovT
  refine ⟨ev, ?_, hrk, hvl⟩
  simp only [evaluateFiveCards]
  rw [if_neg (not_not_intro hlen), checkRoyalFlush_none_of_noflush _ hnf]
  dsimp only
  rw [checkStraightFlush_none_of_noflush _ hnf]
  dsimp only
  rw [h4n]
  dsimp only
  rw [hfhn]
  dsimp only
  rw [checkFlush_none_of_noflush _ hnf]
  dsimp only
  rw [hSt]

theorem eval5_trips (S : List Card) (hlen : S.length = 5) (hnd : S.Nodup)
    (tv k1 k2 : Nat) (ht : countOfValue S tv = 3) (hk1 : countOfValue S k1 = 1)
    (hk2 : countOfValue S k2 = 1) (h21 : k2 < k1) (h1t : k1 ≠ tv) (h2t : k2 ≠ tv) :
    ∃ ev, evaluateFiveCards S = .ok ev ∧ ev.rank = HandRank.THREE_OF_A_KIND ∧
      ev.value = HandRank.THREE_OF_A_KIND * CATEGORY_BASE + encode [tv, k1, k2] := by
  have hTS : (sortCards S true).Perm S := by
    rw [sortCards_eq_insertionSort]
    exact insertionSort_perm cmpLe S
  have hTlen : (sortCards S true).length = 5 := by
    rw [length_sortCards, hlen]
  have hTnd : (sortCards S true).Nodup := (hTS.nodup_iff).mpr hnd
  have htT : countOfValue (sortCards S true) tv = 3 := by
    rw [cntV_perm _ S hTS]
    exact ht
  have hk1T : countOfValue (sortCards S true) k1 = 1 := by
    rw [cntV_perm _ S hTS]
    exact hk1
  have hk2T : countOfValue (sortCards S true) k2 = 1 := by
    rw [cntV_perm _ S hTS]
    exact hk2
  have h12 : k1 ≠ k2 := by omega
  have hcovT : ∀ v, vset (sortCards S true) v → v = tv ∨ v = k1 ∨ v = k2 := by
    intro v hv
    by_contra hcon
    push_neg at hcon
    have := cnt_quad_le (sortCards S true) tv k1 k2 v (by omega) (by omega)
      (fun he => hcon.1 he.symm) h12 (fun he => hcon.2.1 he.symm)
      (fun he => hcon.2.2 he.symm)
    have := (cnt_pos_iff _ v).mpr hv
    rw [hTlen] at *
    omega
  obtain ⟨c, hc, d, hd, hcd⟩ :=
    exists_two_suits_of_cnt2 _ hTnd tv (by omega)
  have hnf := noflush_of_two_suits _ c d hc hd hcd
  have h4n : checkFourOfAKind (sortCards S true) = none := by
    refine checkFourOfAKind_none_of _ ?_
    intro v hv hc4
    rcases hcovT v hv with rfl | rfl | rfl <;> omega
  have hfhn : checkFullHouse (sortCards S true) = none := by
    refine checkFullHouse_none_of_no2 _ ?_
    intro v hv hc2
    rcases hcovT v hv with rfl | rfl | rfl <;> omega
  have hstn : checkStraight (sortCards S true) = none :=
    checkStraight_none_of_dup _ tv (by omega)
  obtain ⟨ev, h3s, hrk, hvl⟩ := checkThreeOfAKind_some_of _ hTlen tv k1 k2
    htT hk1T hk2T h21 h1t h2t
  refine ⟨ev, ?_, hrk, hvl⟩
  simp only [evaluateFiveCards]
  rw [if_neg (not_not_intro hlen), checkRoyalFlush_none_of_noflush _ hnf]
  dsimp only
  rw [checkStraightFlush_none_of_noflush _ hnf]
  dsimp only
  rw [h4n]
  dsimp only
  rw [hfhn]
  dsimp only
  rw [checkFlush_none_of_noflush _ hnf]
  dsimp only
  rw [hstn]
  dsimp only
  rw [h3s]

theorem eval5_twopair (S : List Card) (hlen : S.length = 5) (hnd : S.Nodup)
    (p1 p2 kk : Nat) (hp1 : countOfValue S p1 = 2) (hp2 : countOfValue S p2 = 2)
    (hkk : countOfValue S kk = 1) (h12 : p2 < p1) (hk1 : kk ≠ p1) (hk2 : kk ≠ p2) :
    ∃ ev, evaluateFiveCards S = .ok ev ∧ ev.rank = HandRank.TWO_PAIR ∧
      ev.value = HandRank.TWO_PAIR * CATEGORY_BASE + encode [p1, p2, kk] := by
  have hTS : (sortCards S true).Perm S := by
    rw [sortCards_eq_insertionSort]
    exact insertionSort_perm cmpLe S
  have hTlen : (sortCards S true).length = 5 := by
    rw [length_sortCards, hlen]
  have hTnd : (sortCards S true).Nodup := (hTS.nodup_iff).mpr hnd
  have hp1T : countOfValue (sortCards S true) p1 = 2 := by
    rw [cntV_perm _ S hTS]
    exact hp1
  have hp2T : countOfValue (sortCards S true) p2 = 2 := by
    rw [cntV_perm _ S hTS]
    exact hp2
  have hkkT : countOfValue (sortCards S true) kk = 1 := by
    rw [cntV_perm _ S hTS]
    exact hkk
  have hcovT : ∀ v, vset (sortCards S true) v → v = p1 ∨ v = p2 ∨ v = kk := by
    intro v hv
    by_contra hcon
    push_neg at hcon
    have := cnt_quad_le (sortCards S true) p1 p2 kk v (by omega)
      (fun he => hk1 he.symm) (fun he => hcon.1 he.symm)
      (fun he => hk2 he.symm) (fun he => hcon.2.1 he.symm)
      (fun he => hcon.2.2 he.symm)
    have := (cnt_pos_iff _ v).mpr hv
    rw [hTlen] at *
    omega
  obtain ⟨c, hc, d, hd, hcd⟩ :=
    exists_two_suits_of_cnt2 _ hTnd p1 (by omega)
  have hnf := noflush_of_two_suits _ c d hc hd hcd
  have h4n : checkFourOfAKind (sortCards S true) = none := by
    refine checkFourOfAKind_none_of _ ?_
    intro v hv hc4
    rcases hcovT v hv with rfl | rfl | rfl <;> omega
  have hfhn : checkFullHouse (sortCards S true) = none := by
    refine checkFullHouse_none_of_no3 _ ?_
    intro v hv hc3
    rcases hcovT v hv with rfl | rfl | rfl <;> omega
  have h3n : checkThreeOfAKind (sortCards S true) = none := by
    refine checkThreeOfAKind_none_of _ ?_
    intro v hv hc3
    rcases hcovT v hv with rfl | rfl | rfl <;> omega
  have hstn : checkStraight (sortCards S true) = none :=
    checkStraight_none_of_dup _ p1 (by omega)
  obtain ⟨ev, h2s, hrk, hvl⟩ := checkTwoPair_some_of _ hTlen p1 p2 kk
    hp1T hp2T hkkT h12 hk1 hk2
  refine ⟨ev, ?_, hrk, hvl⟩
  simp only [evaluateFiveCards]
  rw [if_neg (not_not_intro hlen), checkRoyalFlush_none_of_noflush _ hnf]
  dsimp only
  rw [checkStraightFlush_none_of_noflush _ hnf]
  dsimp only
  rw [h4n]
  dsimp only
  rw [hfhn]
  dsimp only
  rw [checkFlush_none_of_noflush _ hnf]
  dsimp only
  rw [hstn]
  dsimp only
  rw [h3n]
  dsimp only
  rw [h2s]

theorem eval5_pair (S : List Card) (hlen : S.length = 5) (hnd : S.Nodup)
    (pv k1 k2 k3 : Nat) (hp : countOfValue S pv = 2)
    (hk1 : countOfValue S k1 = 1) (hk2 : countOfValue S k2 = 1)
    (hk3 : countOfValue S k3 = 1) (h32 : k3 < k2) (h21 : k2 < k1)
    (h1t : k1 ≠ pv) (h2t : k2 ≠ pv) (h3t : k3 ≠ pv) :
    ∃ ev, evaluateFiveCards S = .ok ev ∧ ev.rank = HandRank.PAIR ∧
      ev.value = HandRank.PAIR * CATEGORY_BASE + encode [pv, k1, k2, k3] := by
  have hTS : (sortCards S true).Perm S := by
    rw [sortCards_eq_insertionSort]
    exact insertionSort_perm cmpLe S
  have hTlen : (sortCards S true).length = 5 := by
    rw [length_sortCards, hlen]
  have hTnd : (sortCards S true).Nodup := (hTS.nodup_iff).mpr hnd
  have hpT : countOfValue (sortCards S true) pv = 2 := by
    rw [cntV_perm _ S hTS]
    exact hp
  have hk1T : countOfValue (sortCards S true) k1 = 1 := by
    rw [cntV_perm _ S hTS]
    exact hk1
  have hk2T : countOfValue (sortCards S true) k2 = 1 := by
    rw [cntV_perm _ S hTS]
    exact hk2
  have hk3T : countOfValue (sortCards S true) k3 = 1 := by
    rw [cntV_perm _ S hTS]
    exact hk3
  have hcovT : ∀ v, vset (sortCards S true) v →
      v = pv ∨ v = k1 ∨ v = k2 ∨ v = k3 := by
    intro v hv
    by_contra hcon
    push_neg at hcon
    have := cnt_five_le (sortCards S true) pv k1 k2 k3 v
      (fun he => h1t he.symm) (fun he => h2t he.symm) (fun he => h3t he.symm)
      (fun he => hcon.1 he.symm) (by omega) (by omega)
      (fun he => hcon.2.1 he.symm) (by omega) (fun he => hcon.2.2.1 he.symm)
      (fun he => hcon.2.2.2 he.symm)
    have := (cnt_pos_iff _ v).mpr hv
    rw [hTlen] at *
    omega
  obtain ⟨c, hc, d, hd, hcd⟩ :=
    exists_two_suits_of_cnt2 _ hTnd pv (by omega)
  have hnf := noflush_of_two_suits _ c d hc hd hcd
  have h4n : checkFourOfAKind (sortCards S true) = none := by
    refine checkFourOfAKind_none_of _ ?_
    intro v hv hc4
    rcases hcovT v hv with rfl | rfl | rfl | rfl <;> omega
  have hfhn : checkFullHouse (sortCards S true) = none := by
    refine checkFullHouse_none_of_no3 _ ?_
    intro v hv hc3
    rcases hcovT v hv with rfl | rfl | rfl | rfl <;> omega
  have h3n : checkThreeOfAKind (sortCards S true) = none := by
    refine checkThreeOfAKind_none_of _ ?_
    intro v hv hc3
    rcases hcovT v hv with rfl | rfl | rfl | rfl <;> omega
  have h2n : checkTwoPair (sortCards S true) = none := by
    refine checkTwoPair_none_of_one _ ?_
    intro q1 q2 hq1 hq2
    have hv1 : vset (sortCards S true) q1 := (cnt_pos_iff _ q1).mp (by omega)
    have hv2 : vset (sortCards S true) q2 := (cnt_pos_iff _ q2).mp (by omega)
    have e1 : q1 = pv := by
      rcases hcovT q1 hv1 with rfl | rfl | rfl | rfl <;> omega
    have e2 : q2 = pv := by
      rcases hcovT q2 hv2 with rfl | rfl | rfl | rfl <;> omega
    rw [e1, e2]
  have hstn : checkStraight (sortCards S true) = none :=
    checkStraight_none_of_dup _ pv (by omega)
  obtain ⟨ev, h1s, hrk, hvl⟩ := checkOnePair_some_of _ hTlen pv k1 k2 k3
    hpT hk1T hk2T hk3T h32 h21 h1t h2t h3t
  refine ⟨ev, ?_, hrk, hvl⟩
  simp only [evaluateFiveCards]
  rw [if_neg (not_not_intro hlen), checkRoyalFlush_none_of_noflush _ hnf]
  dsimp only
  rw [checkStraightFlush_none_of_noflush _ hnf]
  dsimp only
  rw [h4n]
  dsimp only
  rw [hfhn]
  dsimp only
  rw [checkFlush_none_of_noflush _ hnf]
  dsimp only
  rw [hstn]
  dsimp only
  rw [h3n]
  dsimp only
  rw [h2n]
  dsimp only
  rw [h1s]

theorem eval5_high (S : List Card) (hlen : S.length = 5) (hnd : S.Nodup)
    (h1 : ∀ v, vset S v → countOfValue S v = 1)
    (hno : ∀ hh, ¬ StraightOf S hh)
    (c d : Card) (hc : c ∈ S) (hd : d ∈ S) (hcd : c.suit ≠ d.suit) :
    ∃ ev, evaluateFiveCards S = .ok ev ∧ ev.rank = HandRank.HIGH_CARD ∧
      ev.value = HandRank.HIGH_CARD * CATEGORY_BASE +
        encode (uniqueValuesDesc S) := by
  have hTS : (sortCards S true).Perm S := by
    rw [sortCards_eq_insertionSort]
    exact insertionSort_perm cmpLe S
  have hTlen : (sortCards S true).length = 5 := by
    rw [length_sortCards, hlen]
  have h1T : ∀ v, vset (sortCards S true) v →
      countOfValue (sortCards S true) v = 1 := by
    intro v hv
    rw [cntV_perm _ S hTS]
    exact h1 v ((vset_perm _ S hTS v).mp hv)
  have hnoT : ∀ hh, ¬ StraightOf (sortCards S true) hh :=
    fun hh hcon => hno hh (straightOf_perm _ S hTS hh hcon)
  have hnf := noflush_of_two_suits (sortCards S true) c d
    (hTS.mem_iff.mpr hc) (hTS.mem_iff.mpr hd) hcd
  have h4n : checkFourOfAKind (sortCards S true) = none :=
    checkFourOfAKind_none_of _ (fun v hv hc4 => by have := h1T v hv; omega)
  have hfhn : checkFullHouse (sortCards S true) = none :=
    checkFullHouse_none_of_no3 _ (fun v hv hc3 => by have := h1T v hv; omega)
  have h3n : checkThreeOfAKind (sortCards S true) = none :=
    checkThreeOfAKind_none_of _ (fun v hv hc3 => by have := h1T v hv; omega)
  have h2n : checkTwoPair (sortCards S true) = none := by
    refine checkTwoPair_none_of_one _ ?_
    intro q1 q2 hq1 hq2
    have hv1 : vset (sortCards S true) q1 := (cnt_pos_iff _ q1).mp (by omega)
    have := h1T q1 hv1
    omega
  have h1n : checkOnePair (sortCards S true) = none :=
    checkOnePair_none_of _ (fun v hv hc2 => by have := h1T v hv; omega)
  have hstn : checkStraight (sortCards S true) = none :=
    checkStraight_none_of_nostraight _ hTlen hnoT
  have hSle : ∀ v, countOfValue S v ≤ 1 := by
    intro v
    by_cases hv : vset S v
    · rw [h1 v hv]
    · have : ¬ 0 < countOfValue S v := fun hcon => hv ((cnt_pos_iff S v).mp hcon)
      omega
  refine ⟨checkHighCard (sortCards S true), ?_, rfl, ?_⟩
  · simp only [evaluateFiveCards]
    rw [if_neg (not_not_intro hlen), checkRoyalFlush_none_of_nostraight _ hTlen hnoT]
    dsimp only
    rw [checkStraightFlush_none_of_nostraight _ hTlen hnoT]
    dsimp only
    rw [h4n]
    dsimp only
    rw [hfhn]
    dsimp only
    rw [checkFlush_none_of_noflush _ hnf]
    dsimp only
    rw [hstn]
    dsimp only
    rw [h3n]
    dsimp only
    rw [h2n]
    dsimp only
    rw [h1n]
  · show HandRank.HIGH_CARD * CATEGORY_BASE +
      encode (sortNatDesc ((sortCards S true).map (fun card => rankToValue card.rank))) = _
    rw [sortNatDesc_congr_perm _ _ (hTS.map _), sortNatDesc_map_eq_uniqDesc S hSle]

-- ------------------------------
-- seven-card classifier: branch facts
-- ------------------------------

theorem suited_disjoint_le (C : List Card) (s t : Suit) (hne : s ≠ t) :
    (cardsOfSuit C s).length + (cardsOfSuit C t).length ≤ C.length := by
  unfold cardsOfSuit
  have h1 := length_filter_split C (fun c => decide (c.suit = s))
  have h2 : (C.filter (fun c => decide (c.suit = t))).length ≤
      (C.filter (fun c => !(decide (c.suit = s)))).length := by
    rw [← List.countP_eq_length_filter, ← List.countP_eq_length_filter]
    refine List.countP_mono_left ?_
    intro c hc hct
    have : c.suit = t := of_decide_eq_true hct
    simp [this]
    exact fun he => hne he.symm
  omega

theorem vset_sub (S C : List Card) (hsub : ∀ c ∈ S, c ∈ C) (v : Nat)
    (h : vset S v) : vset C v := by
  obtain ⟨c, hc, hv⟩ := h
  exact ⟨c, hsub c hc, hv⟩

theorem straightOf_sub (S C : List Card) (hsub : ∀ c ∈ S, c ∈ C) (hh : Nat)
    (h : StraightOf S hh) : StraightOf C hh := by
  unfold StraightOf at h ⊢
  rcases h with ⟨h1, h2, h3, h4, h5, h6, h7⟩ | ⟨h1, h2, h3, h4, h5, h6⟩
  · exact Or.inl ⟨h1, h2, vset_sub S C hsub _ h3, vset_sub S C hsub _ h4,
      vset_sub S C hsub _ h5, vset_sub S C hsub _ h6, vset_sub S C hsub _ h7⟩
  · exact Or.inr ⟨h1, vset_sub S C hsub _ h2, vset_sub S C hsub _ h3,
      vset_sub S C hsub _ h4, vset_sub S C hsub _ h5, vset_sub S C hsub _ h6⟩

theorem uniqAsc_ge_two (cs : List Card) (v : Nat) (hv : v ∈ uniqueValuesAsc cs) :
    2 ≤ v := by
  obtain ⟨c, hc, hcv⟩ := (uniqAsc_mem cs v).mp hv
  rw [← hcv]
  exact rankToValue_ge_two c.rank

theorem uniqAsc_le_14 (cs : List Card) (v : Nat) (hv : v ∈ uniqueValuesAsc cs) :
    v ≤ 14 := by
  obtain ⟨c, hc, hcv⟩ := (uniqAsc_mem cs v).mp hv
  rw [← hcv]
  exact rankToValue_le_14 c.rank

theorem str5_iff_straightOf (cs : List Card) (hh : Nat) :
    Str5 (if (uniqueValuesAsc cs).contains 14 then 1 :: uniqueValuesAsc cs
      else uniqueValuesAsc cs) hh ↔ StraightOf cs hh := by
  have hmem : ∀ v, v ∈ uniqueValuesAsc cs ↔ vset cs v := by
    intro v
    rw [uniqAsc_mem]
    rfl
  have hW : ∀ v, 2 ≤ v →
      (v ∈ (if (uniqueValuesAsc cs).contains 14 then 1 :: uniqueValuesAsc cs
        else uniqueValuesAsc cs) ↔ vset cs v) := by
    intro v h2
    by_cases hc : (uniqueValuesAsc cs).contains 14 = true
    · rw [if_pos hc, List.mem_cons]
      constructor
      · intro h
        rcases h with h | h
        · omega
        · exact (hmem v).mp h
      · intro h
        exact Or.inr ((hmem v).mpr h)
    · rw [if_neg hc]
      exact hmem v
  constructor
  · intro ⟨h5, hm0, hm1, hm2, hm3, hm4⟩
    by_cases h6 : 6 ≤ hh
    · have hhle : hh ≤ 14 := by
        by_cases hc : (uniqueValuesAsc cs).contains 14 = true
        · rw [if_pos hc, List.mem_cons] at hm0
          rcases hm0 with h | h
          · omega
          · exact uniqAsc_le_14 cs hh h
        · rw [if_neg hc] at hm0
          exact uniqAsc_le_14 cs hh hm0
      exact Or.inl ⟨h6, hhle, (hW hh (by omega)).mp hm0, (hW _ (by omega)).mp hm1,
        (hW _ (by omega)).mp hm2, (hW _ (by omega)).mp hm3, (hW _ (by omega)).mp hm4⟩
    · have hh5 : hh = 5 := by omega
      subst hh5
      -- hm4 : 1 ∈ withWheel, so we are in the wheel case and 14 is present
      have hc : (uniqueValuesAsc cs).contains 14 = true := by
        by_contra hc
        rw [if_neg hc] at hm4
        have := uniqAsc_ge_two cs _ hm4
        omega
      have h14 : vset cs 14 := by
        rw [if_pos hc] at hm4
        exact (hmem 14).mp (List.mem_of_elem_eq_true hc)
      exact Or.inr ⟨rfl, h14, (hW 2 (by omega)).mp hm3, (hW 3 (by omega)).mp hm2,
        (hW 4 (by omega)).mp hm1, (hW 5 (by omega)).mp hm0⟩
  · intro h
    rcases h with ⟨h6, h14, hv0, hv1, hv2, hv3, hv4⟩ | ⟨he, h14, hv2, hv3, hv4, hv5⟩
    · exact ⟨by omega, (hW hh (by omega)).mpr hv0, (hW _ (by omega)).mpr hv1,
        (hW _ (by omega)).mpr hv2, (hW _ (by omega)).mpr hv3,
        (hW _ (by omega)).mpr hv4⟩
    · subst he
      have hc : (uniqueValuesAsc cs).contains 14 = true := by
        have h14m : (14 : Nat) ∈ uniqueValuesAsc cs := (hmem 14).mpr h14
        exact List.elem_eq_true_of_mem h14m
      refine ⟨by omega, (hW 5 (by omega)).mpr hv5, (hW 4 (by omega)).mpr hv4,
        (hW 3 (by omega)).mpr hv3, (hW 2 (by omega)).mpr hv2, ?_⟩
      rw [if_pos hc]
      simp

def NoSuitedStraight (C : List Card) : Prop :=
  ∀ s, 5 ≤ (cardsOfSuit C s).length → ∀ hh, ¬ StraightOf (cardsOfSuit C s) hh

def NoFlush7 (C : List Card) : Prop := ∀ s, (cardsOfSuit C s).length ≤ 4

def NoQuads7 (C : List Card) : Prop := ∀ v, countOfValue C v ≤ 3

def NoFH7 (C : List Card) : Prop :=
  ∀ t p, 3 ≤ countOfValue C t → p ≠ t → countOfValue C p ≤ 1

def S7Royal (C : List Card) : Prop :=
  (∃ s, 5 ≤ (cardsOfSuit C s).length ∧ StraightOf (cardsOfSuit C s) 14) ∧
    (evaluateSevenCards C).rank = HandRank.ROYAL_FLUSH ∧
    (evaluateSevenCards C).value = HandRank.ROYAL_FLUSH * CATEGORY_BASE + 14

def S7SF (C : List Card) : Prop :=
  ∃ s hh, 5 ≤ (cardsOfSuit C s).length ∧ StraightOf (cardsOfSuit C s) hh ∧
    hh ≤ 13 ∧ (∀ h, StraightOf (cardsOfSuit C s) h → h ≤ hh) ∧
    (evaluateSevenCards C).rank = HandRank.STRAIGHT_FLUSH ∧
    (evaluateSevenCards C).value = HandRank.STRAIGHT_FLUSH * CATEGORY_BASE + hh

def S7Quads (C : List Card) : Prop :=
  ∃ qv kv, countOfValue C qv = 4 ∧ vset C kv ∧ kv ≠ qv ∧
    (∀ v, vset C v → v ≠ qv → v ≤ kv) ∧ NoSuitedStraight C ∧
    (evaluateSevenCards C).rank = HandRank.FOUR_OF_A_KIND ∧
    (evaluateSevenCards C).value = HandRank.FOUR_OF_A_KIND * CATEGORY_BASE +
      encode [qv, kv]

def S7FH (C : List Card) : Prop :=
  ∃ T P, countOfValue C T = 3 ∧ 2 ≤ countOfValue C P ∧ P ≠ T ∧
    (∀ v, 3 ≤ countOfValue C v → v ≤ T) ∧
    (∀ v, 2 ≤ countOfValue C v → v ≠ T → v ≤ P) ∧
    NoQuads7 C ∧ NoSuitedStraight C ∧
    (evaluateSevenCards C).rank = HandRank.FULL_HOUSE ∧
    (evaluateSevenCards C).value = HandRank.FULL_HOUSE * CATEGORY_BASE +
      encode [T, P]

def S7Flush (C : List Card) : Prop :=
  ∃ s, 5 ≤ (cardsOfSuit C s).length ∧ NoSuitedStraight C ∧ NoQuads7 C ∧
    NoFH7 C ∧
    (evaluateSevenCards C).rank = HandRank.FLUSH ∧
    (evaluateSevenCards C).value = HandRank.FLUSH * CATEGORY_BASE +
      encode ((sortNatDesc (dedupFirst ((cardsOfSuit C s).map
        (fun c => rankToValue c.rank)))).take 5)

def S7Straight (C : List Card) : Prop :=
  ∃ hh, StraightOf C hh ∧ (∀ h, StraightOf C h → h ≤ hh) ∧
    NoFlush7 C ∧ NoQuads7 C ∧ NoFH7 C ∧
    (evaluateSevenCards C).rank = HandRank.STRAIGHT ∧
    (evaluateSevenCards C).value = HandRank.STRAIGHT * CATEGORY_BASE + hh

def S7Trips (C : List Card) : Prop :=
  ∃ t K1 K2, countOfValue C t = 3 ∧
    (∀ v, vset C v → v ≠ t → countOfValue C v = 1) ∧
    vset C K1 ∧ vset C K2 ∧ K1 ≠ t ∧ K2 ≠ t ∧ K2 < K1 ∧
    (∀ v, vset C v → v ≠ t → v ≤ K1) ∧
    (∀ v, vset C v → v ≠ t → v ≠ K1 → v ≤ K2) ∧
    NoFlush7 C ∧ (∀ hh, ¬ StraightOf C hh) ∧
    (evaluateSevenCards C).rank = HandRank.THREE_OF_A_KIND ∧
    (evaluateSevenCards C).value = HandRank.THREE_OF_A_KIND * CATEGORY_BASE +
      encode [t, K1, K2]

def S7TwoPair (C : List Card) : Prop :=
  ∃ p1 p2 kk, countOfValue C p1 = 2 ∧ countOfValue C p2 = 2 ∧ p2 < p1 ∧
    (∀ v, countOfValue C v ≤ 2) ∧
    (∀ v, 2 ≤ countOfValue C v → v ≤ p1) ∧
    (∀ v, 2 ≤ countOfValue C v → v ≠ p1 → v ≤ p2) ∧
    vset C kk ∧ kk ≠ p1 ∧ kk ≠ p2 ∧
    (∀ v, vset C v → v ≠ p1 → v ≠ p2 → v ≤ kk) ∧
    NoFlush7 C ∧ (∀ hh, ¬ StraightOf C hh) ∧
    (evaluateSevenCards C).rank = HandRank.TWO_PAIR ∧
    (evaluateSevenCards C).value = HandRank.TWO_PAIR * CATEGORY_BASE +
      encode [p1, p2, kk]

def S7Pair (C : List Card) : Prop :=
  ∃ p k1 k2 k3, countOfValue C p = 2 ∧
    (∀ v, vset C v → v ≠ p → countOfValue C v = 1) ∧
    vset C k1 ∧ vset C k2 ∧ vset C k3 ∧ k1 ≠ p ∧ k2 ≠ p ∧ k3 ≠ p ∧
    k3 < k2 ∧ k2 < k1 ∧
    (∀ v, vset C v → v ≠ p → v ≤ k1) ∧
    (∀ v, vset C v → v ≠ p → v ≠ k1 → v ≤ k2) ∧
    (∀ v, vset C v → v ≠ p → v ≠ k1 → v ≠ k2 → v ≤ k3) ∧
    NoFlush7 C ∧ (∀ hh, ¬ StraightOf C hh) ∧
    (evaluateSevenCards C).rank = HandRank.PAIR ∧
    (evaluateSevenCards C).value = HandRank.PAIR * CATEGORY_BASE +
      encode [p, k1, k2, k3]

def S7High (C : List Card) : Prop :=
  ∃ h1 h2 h3 h4 h5, (∀ v, vset C v → countOfValue C v = 1) ∧
    vset C h1 ∧ vset C h2 ∧ vset C h3 ∧ vset C h4 ∧ vset C h5 ∧
    h2 < h1 ∧ h3 < h2 ∧ h4 < h3 ∧ h5 < h4 ∧
    (∀ v, vset C v → v ≤ h1) ∧
    (∀ v, vset C v → v ≠ h1 → v ≤ h2) ∧
    (∀ v, vset C v → v ≠ h1 → v ≠ h2 → v ≤ h3) ∧
    (∀ v, vset C v → v ≠ h1 → v ≠ h2 → v ≠ h3 → v ≤ h4) ∧
    (∀ v, vset C v → v ≠ h1 → v ≠ h2 → v ≠ h3 → v ≠ h4 → v ≤ h5) ∧
    NoFlush7 C ∧ (∀ hh, ¬ StraightOf C hh) ∧
    (evaluateSevenCards C).rank = HandRank.HIGH_CARD ∧
    (evaluateSevenCards C).value = HandRank.HIGH_CARD * CATEGORY_BASE +
      encode [h1, h2, h3, h4, h5]

-- ------------------------------
-- helpers for the seven-card branch walk
-- ------------------------------

theorem flushSuit_none (C : List Card)
    (h : ([Suit.hearts, Suit.diamonds, Suit.clubs, Suit.spades] : List Suit).find?
      (fun s => 5 ≤ (cardsOfSuit C s).length) = none) : NoFlush7 C := by
  intro s
  have hm : s ∈ ([Suit.hearts, Suit.diamonds, Suit.clubs, Suit.spades] : List Suit) := by
    cases s <;> simp
  have := List.find?_eq_none.mp h s hm
  simp only [decide_eq_true_eq] at this
  omega

theorem noSuitedStraight_of_noflush (C : List Card) (hnf : NoFlush7 C) :
    NoSuitedStraight C := by
  intro s h5
  have := hnf s
  omega

theorem noSuitedStraight_of_fsh_none (C : List Card) (s0 : Suit)
    (h7 : C.length ≤ 7) (h5 : 5 ≤ (cardsOfSuit C s0).length)
    (hn : findStraightHigh (uniqueValuesAsc (cardsOfSuit C s0)) = none) :
    NoSuitedStraight C := by
  intro s hs hh hst
  have hss0 : s = s0 := by
    by_contra hne
    have := suited_disjoint_le C s s0 hne
    omega
  subst hss0
  have hspec := (findStraightHigh_spec (uniqueValuesAsc (cardsOfSuit C s))
    (uniqAsc_sorted _) (fun x hx => uniqAsc_ge_two _ x hx)).2 hn hh
  exact hspec ((str5_iff_straightOf _ hh).mpr hst)

theorem noQuads_of_find_none (C : List Card) (hnd : C.Nodup)
    (hq4 : (uniqueValuesDesc C).find? (fun v => countOfValue C v = 4) = none) :
    NoQuads7 C := by
  intro v
  by_contra hc
  push_neg at hc
  have h4 : countOfValue C v = 4 := by
    have := cnt_le_four C hnd v
    omega
  have hv : vset C v := (cnt_pos_iff C v).mp (by omega)
  have hm : v ∈ uniqueValuesDesc C := (uniqDesc_mem C v).mpr hv
  have := List.find?_eq_none.mp hq4 v hm
  rw [h4] at this
  simp at this

theorem sorted_desc_stats2 (l : List Nat) (a b : Nat) (rest : List Nat)
    (hl : l = a :: b :: rest) (hs : l.Pairwise (· > ·)) :
    b < a ∧ (∀ x ∈ l, x ≤ a) ∧ (∀ x ∈ l, x ≠ a → x ≤ b) := by
  subst hl
  obtain ⟨ha, hs1⟩ := List.pairwise_cons.mp hs
  obtain ⟨hb, hs2⟩ := List.pairwise_cons.mp hs1
  refine ⟨ha b (by simp), ?_, ?_⟩
  · intro x hx
    rcases List.mem_cons.mp hx with rfl | hx
    · omega
    · have := ha x hx
      omega
  · intro x hx hxa
    rcases List.mem_cons.mp hx with rfl | hx
    · omega
    · rcases List.mem_cons.mp hx with rfl | hx
      · omega
      · have := hb x hx
        omega

theorem sorted_desc_stats3 (l : List Nat) (a b c : Nat) (rest : List Nat)
    (hl : l = a :: b :: c :: rest) (hs : l.Pairwise (· > ·)) :
    b < a ∧ c < b ∧ (∀ x ∈ l, x ≤ a) ∧ (∀ x ∈ l, x ≠ a → x ≤ b) ∧
      (∀ x ∈ l, x ≠ a → x ≠ b → x ≤ c) := by
  subst hl
  obtain ⟨ha, hs1⟩ := List.pairwise_cons.mp hs
  obtain ⟨h2, hst2⟩ := sorted_desc_stats2 _ b c rest rfl hs1
  refine ⟨ha b (by simp), h2, ?_, ?_, ?_⟩
  · intro x hx
    rcases List.mem_cons.mp hx with rfl | hx
    · omega
    · have := ha x hx
      omega
  · intro x hx hxa
    rcases List.mem_cons.mp hx with rfl | hx
    · omega
    · exact hst2.1 x hx
  · intro x hx hxa hxb
    rcases List.mem_cons.mp hx with rfl | hx
    · omega
    · exact hst2.2 x hx hxb

theorem sorted_desc_stats5 (l : List Nat) (a b c d e : Nat) (rest : List Nat)
    (hl : l = a :: b :: c :: d :: e :: rest) (hs : l.Pairwise (· > ·)) :
    b < a ∧ c < b ∧ d < c ∧ e < d ∧
      (∀ x ∈ l, x ≤ a) ∧ (∀ x ∈ l, x ≠ a → x ≤ b) ∧
      (∀ x ∈ l, x ≠ a → x ≠ b → x ≤ c) ∧
      (∀ x ∈ l, x ≠ a → x ≠ b → x ≠ c → x ≤ d) ∧
      (∀ x ∈ l, x ≠ a → x ≠ b → x ≠ c → x ≠ d → x ≤ e) := by
  subst hl
  obtain ⟨ha, hs1⟩ := List.pairwise_cons.mp hs
  obtain ⟨hb, hs2⟩ := List.pairwise_cons.mp hs1
  obtain ⟨h3, h4, hm3, hn3, ho3⟩ := sorted_desc_stats3 _ c d e rest rfl hs2
  refine ⟨ha b (by simp), hb c (by simp), h3, h4, ?_, ?_, ?_, ?_, ?_⟩
  · intro x hx
    rcases List.mem_cons.mp hx with rfl | hx
    · omega
    · have := ha x hx
      omega
  · intro x hx hxa
    rcases List.mem_cons.mp hx with rfl | hx
    · omega
    · rcases List.mem_cons.mp hx with rfl | hx
      · omega
      · have := hb x hx
        omega
  · intro x hx hxa hxb
    rcases List.mem_cons.mp hx with rfl | hx
    · omega
    · rcases List.mem_cons.mp hx with rfl | hx
      · omega
      · exact hm3 x hx
  · intro x hx hxa hxb hxc
    rcases List.mem_cons.mp hx with rfl | hx
    · omega
    · rcases List.mem_cons.mp hx with rfl | hx
      · omega
      · exact hn3 x hx hxc
  · intro x hx hxa hxb hxc hxd
    rcases List.mem_cons.mp hx with rfl | hx
    · omega
    · rcases List.mem_cons.mp hx with rfl | hx
      · omega
      · exact ho3 x hx hxc hxd

theorem sublist_sum_le : ∀ (l l2 : List Nat), l.Sublist l2 → l.sum ≤ l2.sum
  | _, _, .slnil => Nat.le_refl _
  | l, _, .cons x h => by
    have := sublist_sum_le _ _ h
    simp only [List.sum_cons]
    omega
  | _, _, .cons₂ x h => by
    have := sublist_sum_le _ _ h
    simp only [List.sum_cons]
    omega

theorem present_beyond (C : List Card) (vs : List Nat) (hnd : vs.Nodup)
    (hlt : (vs.map (fun v => countOfValue C v)).sum < C.length) :
    ∃ w, vset C w ∧ w ∉ vs := by
  by_contra hc
  push_neg at hc
  have hsub : (uniqueValuesDesc C).Subperm vs :=
    List.subperm_of_subset (uniqDesc_nodup C)
      (fun x hx => hc x ((uniqDesc_mem C x).mp hx))
  obtain ⟨m, hmp, hms⟩ := hsub
  have h1 : (m.map (fun v => countOfValue C v)).sum =
      ((uniqueValuesDesc C).map (fun v => countOfValue C v)).sum :=
    (hmp.map _).sum_eq
  have h2 := sublist_sum_le _ _ (hms.map (fun v => countOfValue C v))
  have := length_eq_sum_cnt_uniq C
  omega

theorem trips_filter_stats (C : List Card) (t : Nat) (rest : List Nat)
    (h : (uniqueValuesDesc C).filter (fun v => 3 ≤ countOfValue C v) = t :: rest) :
    3 ≤ countOfValue C t ∧ ∀ v, 3 ≤ countOfValue C v → v ≤ t := by
  have htm : t ∈ (uniqueValuesDesc C).filter (fun v => 3 ≤ countOfValue C v) := by
    rw [h]
    simp
  have ht3 : 3 ≤ countOfValue C t := by
    have := (List.mem_filter.mp htm).2
    simpa using this
  refine ⟨ht3, ?_⟩
  intro v hv
  have hvp : vset C v := (cnt_pos_iff C v).mp (by omega)
  have hvm : v ∈ (uniqueValuesDesc C).filter (fun w => 3 ≤ countOfValue C w) :=
    List.mem_filter.mpr ⟨(uniqDesc_mem C v).mpr hvp, by simp [hv]⟩
  have hsort : ((uniqueValuesDesc C).filter
      (fun w => 3 ≤ countOfValue C w)).Pairwise (· > ·) :=
    (uniqDesc_sorted C).sublist (List.filter_sublist _)
  rw [h] at hvm hsort
  rcases List.mem_cons.mp hvm with rfl | hvm
  · omega
  · have := (List.pairwise_cons.mp hsort).1 v hvm
    omega

theorem trips_filter_none (C : List Card)
    (h : (uniqueValuesDesc C).filter (fun v => 3 ≤ countOfValue C v) = []) :
    ∀ v, countOfValue C v ≤ 2 := by
  intro v
  by_contra hc
  push_neg at hc
  have hvp : vset C v := (cnt_pos_iff C v).mp (by omega)
  have hvm : v ∈ (uniqueValuesDesc C).filter (fun w => 3 ≤ countOfValue C w) :=
    List.mem_filter.mpr ⟨(uniqDesc_mem C v).mpr hvp, by simp; omega⟩
  rw [h] at hvm
  simp at hvm

theorem pairs_filter_stats2 (C : List Card) (p1 p2 : Nat) (rest : List Nat)
    (h : (uniqueValuesDesc C).filter (fun v => 2 ≤ countOfValue C v) =
      p1 :: p2 :: rest) :
    2 ≤ countOfValue C p1 ∧ 2 ≤ countOfValue C p2 ∧ p2 < p1 ∧
      (∀ v, 2 ≤ countOfValue C v → v ≤ p1) ∧
      (∀ v, 2 ≤ countOfValue C v → v ≠ p1 → v ≤ p2) := by
  have hsort : ((uniqueValuesDesc C).filter
      (fun w => 2 ≤ countOfValue C w)).Pairwise (· > ·) :=
    (uniqDesc_sorted C).sublist (List.filter_sublist _)
  obtain ⟨h21, hmax, hmax2⟩ := sorted_desc_stats2 _ p1 p2 rest h hsort
  have hp1 : 2 ≤ countOfValue C p1 := by
    have : p1 ∈ (uniqueValuesDesc C).filter (fun v => 2 ≤ countOfValue C v) := by
      rw [h]
      simp
    have := (List.mem_filter.mp this).2
    simpa using this
  have hp2 : 2 ≤ countOfValue C p2 := by
    have : p2 ∈ (uniqueValuesDesc C).filter (fun v => 2 ≤ countOfValue C v) := by
      rw [h]
      simp
    have := (List.mem_filter.mp this).2
    simpa using this
  have hmemof : ∀ v, 2 ≤ countOfValue C v →
      v ∈ (uniqueValuesDesc C).filter (fun w => 2 ≤ countOfValue C w) := by
    intro v hv
    exact List.mem_filter.mpr ⟨(uniqDesc_mem C v).mpr
      ((cnt_pos_iff C v).mp (by omega)), by simp [hv]⟩
  exact ⟨hp1, hp2, h21, fun v hv => hmax v (hmemof v hv),
    fun v hv hvne => hmax2 v (hmemof v hv) hvne⟩

theorem pairs_filter_stats1 (C : List Card) (p : Nat)
    (h : (uniqueValuesDesc C).filter (fun v => 2 ≤ countOfValue C v) = [p]) :
    2 ≤ countOfValue C p ∧ ∀ v, 2 ≤ countOfValue C v → v = p := by
  have hp : 2 ≤ countOfValue C p := by
    have : p ∈ (uniqueValuesDesc C).filter (fun v => 2 ≤ countOfValue C v) := by
      rw [h]
      simp
    have := (List.mem_filter.mp this).2
    simpa using this
  refine ⟨hp, ?_⟩
  intro v hv
  have hvm : v ∈ (uniqueValuesDesc C).filter (fun w => 2 ≤ countOfValue C w) :=
    List.mem_filter.mpr ⟨(uniqDesc_mem C v).mpr
      ((cnt_pos_iff C v).mp (by omega)), by simp [hv]⟩
  rw [h] at hvm
  simpa using hvm

theorem pairs_filter_none (C : List Card)
    (h : (uniqueValuesDesc C).filter (fun v => 2 ≤ countOfValue C v) = []) :
    ∀ v, countOfValue C v ≤ 1 := by
  intro v
  by_contra hc
  push_neg at hc
  have hvm : v ∈ (uniqueValuesDesc C).filter (fun w => 2 ≤ countOfValue C w) :=
    List.mem_filter.mpr ⟨(uniqDesc_mem C v).mpr
      ((cnt_pos_iff C v).mp (by omega)), by simp; omega⟩
  rw [h] at hvm
  simp at hvm

theorem fh_pair_filter_stats (C : List Card) (T P : Nat) (restP : List Nat)
    (h : ((uniqueValuesDesc C).filter (fun v => 2 ≤ countOfValue C v)).filter
      (fun v => v ≠ T) = P :: restP) :
    2 ≤ countOfValue C P ∧ P ≠ T ∧
      ∀ v, 2 ≤ countOfValue C v → v ≠ T → v ≤ P := by
  have hPm : P ∈ ((uniqueValuesDesc C).filter (fun v => 2 ≤ countOfValue C v)).filter
      (fun v => v ≠ T) := by
    rw [h]
    simp
  have hP2 : 2 ≤ countOfValue C P := by
    have := (List.mem_filter.mp (List.mem_filter.mp hPm).1).2
    simpa using this
  have hPT : P ≠ T := by
    have := (List.mem_filter.mp hPm).2
    simpa using this
  refine ⟨hP2, hPT, ?_⟩
  intro v hv hvT
  have hvm : v ∈ ((uniqueValuesDesc C).filter
      (fun w => 2 ≤ countOfValue C w)).filter (fun w => w ≠ T) := by
    refine List.mem_filter.mpr ⟨List.mem_filter.mpr ⟨(uniqDesc_mem C v).mpr
      ((cnt_pos_iff C v).mp (by omega)), by simp [hv]⟩, by simp [hvT]⟩
  have hsort : (((uniqueValuesDesc C).filter
      (fun w => 2 ≤ countOfValue C w)).filter (fun w => w ≠ T)).Pairwise (· > ·) :=
    ((uniqDesc_sorted C).sublist (List.filter_sublist _)).sublist
      (List.filter_sublist _)
  rw [h] at hvm hsort
  rcases List.mem_cons.mp hvm with rfl | hvm
  · omega
  · have := (List.pairwise_cons.mp hsort).1 v hvm
    omega

theorem fh_second_trips_absurd (C : List Card) (T T2 : Nat) (restT : List Nat)
    (htr : (uniqueValuesDesc C).filter (fun v => 3 ≤ countOfValue C v) =
      T :: T2 :: restT)
    (hbp : ((uniqueValuesDesc C).filter (fun v => 2 ≤ countOfValue C v)).filter
      (fun v => v ≠ T) = []) : False := by
  have hT2m : T2 ∈ (uniqueValuesDesc C).filter (fun v => 3 ≤ countOfValue C v) := by
    rw [htr]
    simp
  have hT2c : 3 ≤ countOfValue C T2 := by
    have := (List.mem_filter.mp hT2m).2
    simpa using this
  have hnd : ((uniqueValuesDesc C).filter
      (fun v => 3 ≤ countOfValue C v)).Nodup :=
    (uniqDesc_nodup C).sublist (List.filter_sublist _)
  have hT2T : T2 ≠ T := by
    rw [htr] at hnd
    intro he
    rw [he] at hnd
    simp at hnd
  have : T2 ∈ ((uniqueValuesDesc C).filter
      (fun v => 2 ≤ countOfValue C v)).filter (fun v => v ≠ T) := by
    refine List.mem_filter.mpr ⟨List.mem_filter.mpr ⟨(uniqDesc_mem C T2).mpr
      ((cnt_pos_iff C T2).mp (by omega)), by simp; omega⟩, by simp [hT2T]⟩
  rw [hbp] at this
  simp at this

theorem straight7_some (C : List Card) (hh : Nat)
    (h : findStraightHigh (uniqueValuesAsc C) = some hh) :
    StraightOf C hh ∧ ∀ h2, StraightOf C h2 → h2 ≤ hh := by
  have hspec := (findStraightHigh_spec (uniqueValuesAsc C) (uniqAsc_sorted C)
    (fun x hx => uniqAsc_ge_two C x hx)).1 hh h
  exact ⟨(str5_iff_straightOf C hh).mp hspec.1,
    fun h2 hst => hspec.2 h2 ((str5_iff_straightOf C h2).mpr hst)⟩

theorem straight7_none (C : List Card)
    (h : findStraightHigh (uniqueValuesAsc C) = none) :
    ∀ hh, ¬ StraightOf C hh := by
  intro hh hst
  exact (findStraightHigh_spec (uniqueValuesAsc C) (uniqAsc_sorted C)
    (fun x hx => uniqAsc_ge_two C x hx)).2 h hh
    ((str5_iff_straightOf C hh).mpr hst)

theorem quads_kicker_find (C : List Card) (h6 : 6 ≤ C.length) (qv : Nat)
    (h4 : countOfValue C qv = 4) :
    ∃ kv, (uniqueValuesDesc C).find? (fun v => v ≠ qv) = some kv ∧
      vset C kv ∧ kv ≠ qv ∧ ∀ v, vset C v → v ≠ qv → v ≤ kv := by
  cases hf : (uniqueValuesDesc C).find? (fun v => v ≠ qv) with
  | none =>
    exfalso
    obtain ⟨w, hw, hwn⟩ := present_beyond C [qv] (by simp)
      (by simp only [List.map_cons, List.map_nil, List.sum_cons, List.sum_nil, h4]; omega)
    have hwm : w ∈ uniqueValuesDesc C := (uniqDesc_mem C w).mpr hw
    have := List.find?_eq_none.mp hf w hwm
    simp only [decide_eq_true_eq, ne_eq, not_not] at this
    simp [this] at hwn
  | some kv =>
    obtain ⟨hp, hm, hmax⟩ := find?_sorted_desc_max _ _ (uniqDesc_sorted C) kv hf
    refine ⟨kv, rfl, (uniqDesc_mem C kv).mp hm, by simpa using hp, ?_⟩
    intro v hv hvne
    exact hmax v ((uniqDesc_mem C v).mpr hv) (by simpa using hvne)

theorem twopair_kicker_find (C : List Card) (h6 : 6 ≤ C.length) (p1 p2 : Nat)
    (hp1 : countOfValue C p1 = 2) (hp2 : countOfValue C p2 = 2) (hne : p2 ≠ p1) :
    ∃ kk, (uniqueValuesDesc C).find? (fun v => v ≠ p1 ∧ v ≠ p2) = some kk ∧
      vset C kk ∧ kk ≠ p1 ∧ kk ≠ p2 ∧
      ∀ v, vset C v → v ≠ p1 → v ≠ p2 → v ≤ kk := by
  cases hf : (uniqueValuesDesc C).find? (fun v => v ≠ p1 ∧ v ≠ p2) with
  | none =>
    exfalso
    obtain ⟨w, hw, hwn⟩ := present_beyond C [p1, p2]
      (by simp; exact fun h => hne h.symm)
      (by simp only [List.map_cons, List.map_nil, List.sum_cons, List.sum_nil,
        hp1, hp2]; omega)
    have hwm : w ∈ uniqueValuesDesc C := (uniqDesc_mem C w).mpr hw
    have := List.find?_eq_none.mp hf w hwm
    simp only [decide_eq_true_eq, not_and_or, not_not] at this
    rcases this with h0 | h0 <;> simp [h0] at hwn
  | some kk =>
    obtain ⟨hp, hm, hmax⟩ := find?_sorted_desc_max _ _ (uniqDesc_sorted C) kk hf
    simp only [decide_eq_true_eq] at hp
    refine ⟨kk, rfl, (uniqDesc_mem C kk).mp hm, hp.1, hp.2, ?_⟩
    intro v hv hv1 hv2
    exact hmax v ((uniqDesc_mem C v).mpr hv) (by simp [hv1, hv2])

theorem uniq_len_of_counts (C : List Card) (t : Nat) (ht : vset C t)
    (hcnt : ∀ v, vset C v → v ≠ t → countOfValue C v = 1) :
    C.length = countOfValue C t + ((uniqueValuesDesc C).length - 1) := by
  have hsum := length_eq_sum_cnt_uniq C
  have hsplit := sum_counts_split (uniqueValuesDesc C) (fun v => countOfValue C v)
    t (uniqDesc_nodup C) ((uniqDesc_mem C t).mpr ht)
    (fun v hv hvne => hcnt v ((uniqDesc_mem C v).mp hv) hvne)
  rw [hsplit] at hsum
  exact hsum

theorem uniq_len_all_one (C : List Card)
    (h1 : ∀ v, vset C v → countOfValue C v = 1) :
    (uniqueValuesDesc C).length = C.length := by
  have hsum := length_eq_sum_cnt_uniq C
  rw [sum_map_one _ _ (fun v hv => h1 v ((uniqDesc_mem C v).mp hv))] at hsum
  omega

theorem straightOf_bounds (cs : List Card) (hh : Nat) (h : StraightOf cs hh) :
    5 ≤ hh ∧ hh ≤ 14 := by
  rcases h with ⟨h1, h2, _⟩ | ⟨h1, _⟩ <;> omega

theorem seven_cases_noflush (C : List Card) (hnd : C.Nodup) (h6 : 6 ≤ C.length)
    (h7 : C.length ≤ 7)
    (hfs : ([Suit.hearts, Suit.diamonds, Suit.clubs, Suit.spades] : List Suit).find?
      (fun s => 5 ≤ (cardsOfSuit C s).length) = none) :
    S7Quads C ∨ S7FH C ∨ S7Straight C ∨ S7Trips C ∨ S7TwoPair C ∨ S7Pair C ∨
      S7High C := by
  have hnf : NoFlush7 C := flushSuit_none C hfs
  have hnss : NoSuitedStraight C := noSuitedStraight_of_noflush C hnf
  cases hq4 : (uniqueValuesDesc C).find? (fun v => countOfValue C v = 4) with
  | some qv =>
    -- four of a kind
    have hq : countOfValue C qv = 4 := by
      have := List.find?_some hq4
      simpa using this
    obtain ⟨kv, hkf, hkv, hkne, hkmax⟩ := quads_kicker_find C h6 qv hq
    have hpair : (evaluateSevenCards C).rank = HandRank.FOUR_OF_A_KIND ∧
        (evaluateSevenCards C).value =
          HandRank.FOUR_OF_A_KIND * CATEGORY_BASE + encode [qv, kv] := by
      simp only [evaluateSevenCards]
      rw [hfs]
      dsimp only
      rw [hq4]
      dsimp only
      rw [hkf]
      refine ⟨rfl, ?_⟩
      show HandRank.FOUR_OF_A_KIND * 1000000000 + (qv * 15 + kv) = _
      simp only [CATEGORY_BASE, encode, List.foldl_cons, List.foldl_nil]
      omega
    exact Or.inl ⟨qv, kv, hq, hkv, hkne, hkmax, hnss, hpair.1, hpair.2⟩
  | none =>
  have hnq : NoQuads7 C := noQuads_of_find_none C hnd hq4
  cases htr : (uniqueValuesDesc C).filter (fun v => 3 ≤ countOfValue C v) with
  | cons T restT =>
    obtain ⟨hT3, hTmax⟩ := trips_filter_stats C T restT htr
    have hTc : countOfValue C T = 3 := by
      have := hnq T
      omega
    cases hbp : ((uniqueValuesDesc C).filter
        (fun v => 2 ≤ countOfValue C v)).filter (fun v => v ≠ T) with
    | cons P restP =>
      -- full house
      obtain ⟨hP2, hPT, hPmax⟩ := fh_pair_filter_stats C T P restP hbp
      have hpair : (evaluateSevenCards C).rank = HandRank.FULL_HOUSE ∧
          (evaluateSevenCards C).value =
            HandRank.FULL_HOUSE * CATEGORY_BASE + encode [T, P] := by
        simp only [evaluateSevenCards]
        rw [hfs]
        dsimp only
        rw [hq4]
        dsimp only
        rw [htr]
        dsimp only
        rw [hbp]
        dsimp only
        refine ⟨rfl, ?_⟩
        show HandRank.FULL_HOUSE * 1000000000 + (T * 15 + P) = _
        simp only [CATEGORY_BASE, encode, List.foldl_cons, List.foldl_nil]
        omega
      exact Or.inr (Or.inl ⟨T, P, hTc, hP2, hPT, hTmax, hPmax, hnq, hnss,
        hpair.1, hpair.2⟩)
    | nil =>
      cases restT with
      | cons T2 rest2 => exact absurd (fh_second_trips_absurd C T T2 rest2 htr hbp) id
      | nil =>
      -- trips present, no second count-2 value: straight or trips
      have hone : ∀ v, vset C v → v ≠ T → countOfValue C v = 1 := by
        intro v hv hvT
        by_contra hc
        have hpos := (cnt_pos_iff C v).mpr hv
        have h2le : 2 ≤ countOfValue C v := by omega
        have : v ∈ ((uniqueValuesDesc C).filter
            (fun w => 2 ≤ countOfValue C w)).filter (fun w => w ≠ T) := by
          refine List.mem_filter.mpr ⟨List.mem_filter.mpr
            ⟨(uniqDesc_mem C v).mpr hv, by simp [h2le]⟩, by simp [hvT]⟩
        rw [hbp] at this
        simp at this
      have hfh7 : NoFH7 C := by
        intro t p h3t hpt
        have ht : t = T := by
          have hmem : t ∈ (uniqueValuesDesc C).filter
              (fun v => 3 ≤ countOfValue C v) := by
            refine List.mem_filter.mpr ⟨(uniqDesc_mem C t).mpr
              ((cnt_pos_iff C t).mp (by omega)), by simp [h3t]⟩
          rw [htr] at hmem
          simpa using hmem
        subst ht
        by_cases hp : vset C p
        · rw [hone p hp hpt]
        · have : ¬ 0 < countOfValue C p := fun hc => hp ((cnt_pos_iff C p).mp hc)
          omega
      cases hst : findStraightHigh (uniqueValuesAsc C) with
      | some hh =>
        -- straight
        obtain ⟨hstr, hmax⟩ := straight7_some C hh hst
        have hpair : (evaluateSevenCards C).rank = HandRank.STRAIGHT ∧
            (evaluateSevenCards C).value =
              HandRank.STRAIGHT * CATEGORY_BASE + hh := by
          simp only [evaluateSevenCards]
          rw [hfs]
          dsimp only
          rw [hq4]
          dsimp only
          rw [htr]
          dsimp only
          rw [hbp]
          dsimp only
          rw [hst]
          exact ⟨rfl, by simp only [CATEGORY_BASE]⟩
        exact Or.inr (Or.inr (Or.inl ⟨hh, hstr, hmax, hnf, hnq, hfh7,
          hpair.1, hpair.2⟩))
      | none =>
        -- three of a kind
        have hnost := straight7_none C hst
        have hTv : vset C T := (cnt_pos_iff C T).mp (by omega)
        have hulen := uniq_len_of_counts C T hTv hone
        have hflen := uniq_filter_ne_length C T hTv
        have hflen3 : 3 ≤ ((uniqueValuesDesc C).filter
            (fun v => v ≠ T)).length := by
          rw [hTc] at hulen
          omega
        have hfsort := uniq_filter_sorted C (fun v => decide (v ≠ T))
        cases hK : (uniqueValuesDesc C).filter (fun v => v ≠ T) with
        | nil =>
          rw [hK] at hflen3
          simp at hflen3
        | cons K1 K' =>
          cases K' with
          | nil =>
            rw [hK] at hflen3
            simp at hflen3
          | cons K2 restK =>
            rw [hK] at hfsort
            obtain ⟨h21, hmax1, hmax2⟩ := sorted_desc_stats2 _ K1 K2 restK rfl hfsort
            have hK1m : vset C K1 ∧ K1 ≠ T :=
              (uniq_filter_ne_mem C T K1).mp (by rw [hK]; simp)
            have hK2m : vset C K2 ∧ K2 ≠ T :=
              (uniq_filter_ne_mem C T K2).mp (by rw [hK]; simp)
            have hmaxall : ∀ v, vset C v → v ≠ T → v ≤ K1 := by
              intro v hv hvT
              exact hmax1 v (by rw [← hK]; exact (uniq_filter_ne_mem C T v).mpr ⟨hv, hvT⟩)
            have hmaxall2 : ∀ v, vset C v → v ≠ T → v ≠ K1 → v ≤ K2 := by
              intro v hv hvT hv1
              exact hmax2 v (by rw [← hK]; exact (uniq_filter_ne_mem C T v).mpr ⟨hv, hvT⟩) hv1
            have hpair : (evaluateSevenCards C).rank = HandRank.THREE_OF_A_KIND ∧
                (evaluateSevenCards C).value =
                  HandRank.THREE_OF_A_KIND * CATEGORY_BASE +
                    encode [T, K1, K2] := by
              simp only [evaluateSevenCards]
              rw [hfs]
              dsimp only
              rw [hq4]
              dsimp only
              rw [htr]
              dsimp only
              rw [hbp]
              dsimp only
              rw [hst]
              dsimp only
              rw [hK]
              refine ⟨rfl, ?_⟩
              show HandRank.THREE_OF_A_KIND * 1000000000 +
                encode [T, ((K1 :: K2 :: restK).take 2).getD 0 0,
                  ((K1 :: K2 :: restK).take 2).getD 1 0] = _
              simp only [CATEGORY_BASE, List.take_succ_cons, List.take_zero]
              rfl
            exact Or.inr (Or.inr (Or.inr (Or.inl ⟨T, K1, K2, hTc, hone,
              hK1m.1, hK2m.1, hK1m.2, hK2m.2, h21, hmaxall, hmaxall2,
              hnf, hnost, hpair.1, hpair.2⟩)))
  | nil =>
  have hle2 := trips_filter_none C htr
  have hfh7 : NoFH7 C := by
    intro t p h3t _
    have := hle2 t
    omega
  cases hst : findStraightHigh (uniqueValuesAsc C) with
  | some hh =>
    obtain ⟨hstr, hmax⟩ := straight7_some C hh hst
    have hpair : (evaluateSevenCards C).rank = HandRank.STRAIGHT ∧
        (evaluateSevenCards C).value = HandRank.STRAIGHT * CATEGORY_BASE + hh := by
      simp only [evaluateSevenCards]
      rw [hfs]
      dsimp only
      rw [hq4]
      dsimp only
      rw [htr]
      dsimp only
      rw [hst]
      exact ⟨rfl, by simp only [CATEGORY_BASE]⟩
    exact Or.inr (Or.inr (Or.inl ⟨hh, hstr, hmax, hnf, hnq, hfh7,
      hpair.1, hpair.2⟩))
  | none =>
  have hnost := straight7_none C hst
  cases hpr : (uniqueValuesDesc C).filter (fun v => 2 ≤ countOfValue C v) with
  | cons p1 rest1 =>
    cases rest1 with
    | cons p2 rest2 =>
      -- two pair
      obtain ⟨hp1g, hp2g, h21, hmax1, hmax2⟩ :=
        pairs_filter_stats2 C p1 p2 rest2 hpr
      have hp1c : countOfValue C p1 = 2 := by
        have := hle2 p1
        omega
      have hp2c : countOfValue C p2 = 2 := by
        have := hle2 p2
        omega
      obtain ⟨kk, hkf, hkv, hk1, hk2, hkmax⟩ :=
        twopair_kicker_find C h6 p1 p2 hp1c hp2c (by omega)
      have hpair : (evaluateSevenCards C).rank = HandRank.TWO_PAIR ∧
          (evaluateSevenCards C).value =
            HandRank.TWO_PAIR * CATEGORY_BASE + encode [p1, p2, kk] := by
        simp only [evaluateSevenCards]
        rw [hfs]
        dsimp only
        rw [hq4]
        dsimp only
        rw [htr]
        dsimp only
        rw [hst]
        dsimp only
        rw [hpr]
        dsimp only
        rw [hkf]
        exact ⟨rfl, by simp only [CATEGORY_BASE, Option.getD_some]⟩
      exact Or.inr (Or.inr (Or.inr (Or.inr (Or.inl ⟨p1, p2, kk, hp1c, hp2c,
        h21, hle2, hmax1, hmax2, hkv, hk1, hk2, hkmax, hnf, hnost,
        hpair.1, hpair.2⟩))))
    | nil =>
      -- one pair
      obtain ⟨hp2g, huniqp⟩ := pairs_filter_stats1 C p1 hpr
      have hpc : countOfValue C p1 = 2 := by
        have := hle2 p1
        omega
      have hone : ∀ v, vset C v → v ≠ p1 → countOfValue C v = 1 := by
        intro v hv hvp
        have hpos := (cnt_pos_iff C v).mpr hv
        by_contra hc
        have h2v : 2 ≤ countOfValue C v := by omega
        exact hvp (huniqp v h2v)
      have hp1v : vset C p1 := (cnt_pos_iff C p1).mp (by omega)
      have hulen := uniq_len_of_counts C p1 hp1v hone
      have hflen := uniq_filter_ne_length C p1 hp1v
      have hflen3 : 3 ≤ ((uniqueValuesDesc C).filter
          (fun v => v ≠ p1)).length := by
        rw [hpc] at hulen
        omega
      have hfsort := uniq_filter_sorted C (fun v => decide (v ≠ p1))
      cases hK : (uniqueValuesDesc C).filter (fun v => v ≠ p1) with
      | nil =>
        rw [hK] at hflen3
        simp at hflen3
      | cons k1 K' =>
        cases K' with
        | nil =>
          rw [hK] at hflen3
          simp at hflen3
        | cons k2 K'' =>
          cases K'' with
          | nil =>
            rw [hK] at hflen3
            simp at hflen3
          | cons k3 restK =>
            rw [hK] at hfsort
            obtain ⟨h12, h23, hm1, hm2, hm3⟩ :=
              sorted_desc_stats3 _ k1 k2 k3 restK rfl hfsort
            have hk1m : vset C k1 ∧ k1 ≠ p1 :=
              (uniq_filter_ne_mem C p1 k1).mp (by rw [hK]; simp)
            have hk2m : vset C k2 ∧ k2 ≠ p1 :=
              (uniq_filter_ne_mem C p1 k2).mp (by rw [hK]; simp)
            have hk3m : vset C k3 ∧ k3 ≠ p1 :=
              (uniq_filter_ne_mem C p1 k3).mp (by rw [hK]; simp)
            have hmm1 : ∀ v, vset C v → v ≠ p1 → v ≤ k1 := by
              intro v hv hvp
              exact hm1 v (by rw [← hK]; exact (uniq_filter_ne_mem C p1 v).mpr ⟨hv, hvp⟩)
            have hmm2 : ∀ v, vset C v → v ≠ p1 → v ≠ k1 → v ≤ k2 := by
              intro v hv hvp h1
              exact hm2 v (by rw [← hK]; exact (uniq_filter_ne_mem C p1 v).mpr ⟨hv, hvp⟩) h1
            have hmm3 : ∀ v, vset C v → v ≠ p1 → v ≠ k1 → v ≠ k2 → v ≤ k3 := by
              intro v hv hvp h1 h2
              exact hm3 v (by rw [← hK]; exact (uniq_filter_ne_mem C p1 v).mpr ⟨hv, hvp⟩) h1 h2
            have hpair : (evaluateSevenCards C).rank = HandRank.PAIR ∧
                (evaluateSevenCards C).value = HandRank.PAIR * CATEGORY_BASE +
                  encode [p1, k1, k2, k3] := by
              simp only [evaluateSevenCards]
              rw [hfs]
              dsimp only
              rw [hq4]
              dsimp only
              rw [htr]
              dsimp only
              rw [hst]
              dsimp only
              rw [hpr]
              dsimp only
              rw [hK]
              refine ⟨rfl, ?_⟩
              show HandRank.PAIR * 1000000000 +
                encode [p1, ((k1 :: k2 :: k3 :: restK).take 3).getD 0 0,
                  ((k1 :: k2 :: k3 :: restK).take 3).getD 1 0,
                  ((k1 :: k2 :: k3 :: restK).take 3).getD 2 0] = _
              simp only [CATEGORY_BASE, List.take_succ_cons, List.take_zero]
              rfl
            exact Or.inr (Or.inr (Or.inr (Or.inr (Or.inr (Or.inl
              ⟨p1, k1, k2, k3, hpc, hone, hk1m.1, hk2m.1, hk3m.1,
                hk1m.2, hk2m.2, hk3m.2, h23, h12, hmm1, hmm2, hmm3,
                hnf, hnost, hpair.1, hpair.2⟩)))))
  | nil =>
    -- high card
    have hle1 := pairs_filter_none C hpr
    have hone : ∀ v, vset C v → countOfValue C v = 1 := by
      intro v hv
      have := (cnt_pos_iff C v).mpr hv
      have := hle1 v
      omega
    have hulen := uniq_len_all_one C hone
    have hulen6 : 6 ≤ (uniqueValuesDesc C).length := by omega
    have husort := uniqDesc_sorted C
    cases hU : uniqueValuesDesc C with
    | nil =>
      rw [hU] at hulen6
      simp at hulen6
    | cons a1 U1 =>
      cases U1 with
      | nil =>
        rw [hU] at hulen6
        simp at hulen6
      | cons a2 U2 =>
        cases U2 with
        | nil =>
          rw [hU] at hulen6
          simp at hulen6
        | cons a3 U3 =>
          cases U3 with
          | nil =>
            rw [hU] at hulen6
            simp at hulen6
          | cons a4 U4 =>
            cases U4 with
            | nil =>
              rw [hU] at hulen6
              simp at hulen6
            | cons a5 U5 =>
              rw [hU] at husort
              obtain ⟨hba, hcb, hdc, hed, hx1, hx2, hx3, hx4, hx5⟩ :=
                sorted_desc_stats5 _ a1 a2 a3 a4 a5 U5 rfl husort
              have hv1 : vset C a1 := (uniqDesc_mem C a1).mp (by rw [hU]; simp)
              have hv2 : vset C a2 := (uniqDesc_mem C a2).mp (by rw [hU]; simp)
              have hv3 : vset C a3 := (uniqDesc_mem C a3).mp (by rw [hU]; simp)
              have hv4 : vset C a4 := (uniqDesc_mem C a4).mp (by rw [hU]; simp)
              have hv5 : vset C a5 := (uniqDesc_mem C a5).mp (by rw [hU]; simp)
              have hmof : ∀ v, vset C v → v ∈ uniqueValuesDesc C :=
                fun v hv => (uniqDesc_mem C v).mpr hv
              have hpair : (evaluateSevenCards C).rank = HandRank.HIGH_CARD ∧
                  (evaluateSevenCards C).value =
                    HandRank.HIGH_CARD * CATEGORY_BASE +
                      encode [a1, a2, a3, a4, a5] := by
                simp only [evaluateSevenCards]
                rw [hfs]
                dsimp only
                rw [hq4]
                dsimp only
                rw [htr]
                dsimp only
                rw [hst]
                dsimp only
                rw [hpr]
                dsimp only
                rw [hU]
                refine ⟨rfl, ?_⟩
                show HandRank.HIGH_CARD * 1000000000 +
                  encode ((a1 :: a2 :: a3 :: a4 :: a5 :: U5).take 5) = _
                simp only [CATEGORY_BASE, List.take_succ_cons, List.take_zero]
              refine Or.inr (Or.inr (Or.inr (Or.inr (Or.inr (Or.inr
                ⟨a1, a2, a3, a4, a5, hone, hv1, hv2, hv3, hv4, hv5,
                  hba, hcb, hdc, hed, ?_, ?_, ?_, ?_, ?_, hnf, hnost,
                  hpair.1, hpair.2⟩)))))
              · intro v hv
                exact hx1 v (by rw [← hU]; exact hmof v hv)
              · intro v hv h1
                exact hx2 v (by rw [← hU]; exact hmof v hv) h1
              · intro v hv h1 h2
                exact hx3 v (by rw [← hU]; exact hmof v hv) h1 h2
              · intro v hv h1 h2 h3
                exact hx4 v (by rw [← hU]; exact hmof v hv) h1 h2 h3
              · intro v hv h1 h2 h3 h4
                exact hx5 v (by rw [← hU]; exact hmof v hv) h1 h2 h3 h4

theorem seven_cases_flush (C : List Card) (hnd : C.Nodup) (h6 : 6 ≤ C.length)
    (h7 : C.length ≤ 7) (s : Suit)
    (hfs : ([Suit.hearts, Suit.diamonds, Suit.clubs, Suit.spades] : List Suit).find?
      (fun s => 5 ≤ (cardsOfSuit C s).length) = some s) :
    S7Royal C ∨ S7SF C ∨ S7Quads C ∨ S7FH C ∨ S7Flush C := by
  have h5s : 5 ≤ (cardsOfSuit C s).length := by
    have := List.find?_some hfs
    simpa using this
  have hbr : sortNatAsc (dedupFirst ((cardsOfSuit C s).map
      (fun c => rankToValue c.rank))) = uniqueValuesAsc (cardsOfSuit C s) := rfl
  cases hfsh : findStraightHigh (uniqueValuesAsc (cardsOfSuit C s)) with
  | some hh =>
    have hspec := (findStraightHigh_spec (uniqueValuesAsc (cardsOfSuit C s))
      (uniqAsc_sorted _) (fun x hx => uniqAsc_ge_two _ x hx)).1 hh hfsh
    have hstr : StraightOf (cardsOfSuit C s) hh :=
      (str5_iff_straightOf _ hh).mp hspec.1
    have hmax : ∀ h, StraightOf (cardsOfSuit C s) h → h ≤ hh :=
      fun h hsof => hspec.2 h ((str5_iff_straightOf _ h).mpr hsof)
    by_cases h14 : hh = 14
    · subst h14
      have hpair : (evaluateSevenCards C).rank = HandRank.ROYAL_FLUSH ∧
          (evaluateSevenCards C).value =
            HandRank.ROYAL_FLUSH * CATEGORY_BASE + 14 := by
        simp only [evaluateSevenCards]
        rw [hfs]
        dsimp only
        rw [hbr, hfsh]
        dsimp only
        rw [if_pos rfl]
        refine ⟨rfl, ?_⟩
        show HandRank.ROYAL_FLUSH * 1000000000 + encode [14] = _
        simp only [CATEGORY_BASE, encode, List.foldl_cons, List.foldl_nil]
      exact Or.inl ⟨⟨s, h5s, hstr⟩, hpair.1, hpair.2⟩
    · have hle13 : hh ≤ 13 := by
        have := straightOf_bounds _ hh hstr
        omega
      have hpair : (evaluateSevenCards C).rank = HandRank.STRAIGHT_FLUSH ∧
          (evaluateSevenCards C).value =
            HandRank.STRAIGHT_FLUSH * CATEGORY_BASE + hh := by
        simp only [evaluateSevenCards]
        rw [hfs]
        dsimp only
        rw [hbr, hfsh]
        dsimp only
        rw [if_neg h14]
        refine ⟨rfl, ?_⟩
        show HandRank.STRAIGHT_FLUSH * 1000000000 + encode [hh] = _
        simp only [CATEGORY_BASE, encode, List.foldl_cons, List.foldl_nil]
        omega
      exact Or.inr (Or.inl ⟨s, hh, h5s, hstr, hle13, hmax, hpair.1, hpair.2⟩)
  | none =>
  have hnss : NoSuitedStraight C := noSuitedStraight_of_fsh_none C s h7 h5s hfsh
  cases hq4 : (uniqueValuesDesc C).find? (fun v => countOfValue C v = 4) with
  | some qv =>
    have hq : countOfValue C qv = 4 := by
      have := List.find?_some hq4
      simpa using this
    obtain ⟨kv, hkf, hkv, hkne, hkmax⟩ := quads_kicker_find C h6 qv hq
    have hpair : (evaluateSevenCards C).rank = HandRank.FOUR_OF_A_KIND ∧
        (evaluateSevenCards C).value =
          HandRank.FOUR_OF_A_KIND * CATEGORY_BASE + encode [qv, kv] := by
      simp only [evaluateSevenCards]
      rw [hfs]
      dsimp only
      rw [hbr, hfsh]
      dsimp only
      rw [hq4]
      dsimp only
      rw [hkf]
      refine ⟨rfl, ?_⟩
      show HandRank.FOUR_OF_A_KIND * 1000000000 + (qv * 15 + kv) = _
      simp only [CATEGORY_BASE, encode, List.foldl_cons, List.foldl_nil]
      omega
    exact Or.inr (Or.inr (Or.inl ⟨qv, kv, hq, hkv, hkne, hkmax, hnss,
      hpair.1, hpair.2⟩))
  | none =>
  have hnq : NoQuads7 C := noQuads_of_find_none C hnd hq4
  cases htr : (uniqueValuesDesc C).filter (fun v => 3 ≤ countOfValue C v) with
  | cons T restT =>
    obtain ⟨hT3, hTmax⟩ := trips_filter_stats C T restT htr
    have hTc : countOfValue C T = 3 := by
      have := hnq T
      omega
    cases hbp : ((uniqueValuesDesc C).filter
        (fun v => 2 ≤ countOfValue C v)).filter (fun v => v ≠ T) with
    | cons P restP =>
      obtain ⟨hP2, hPT, hPmax⟩ := fh_pair_filter_stats C T P restP hbp
      have hpair : (evaluateSevenCards C).rank = HandRank.FULL_HOUSE ∧
          (evaluateSevenCards C).value =
            HandRank.FULL_HOUSE * CATEGORY_BASE + encode [T, P] := by
        simp only [evaluateSevenCards]
        rw [hfs]
        dsimp only
        rw [hbr, hfsh]
        dsimp only
        rw [hq4]
        dsimp only
        rw [htr]
        dsimp only
        rw [hbp]
        dsimp only
        refine ⟨rfl, ?_⟩
        show HandRank.FULL_HOUSE * 1000000000 + (T * 15 + P) = _
        simp only [CATEGORY_BASE, encode, List.foldl_cons, List.foldl_nil]
        omega
      exact Or.inr (Or.inr (Or.inr (Or.inl ⟨T, P, hTc, hP2, hPT, hTmax, hPmax,
        hnq, hnss, hpair.1, hpair.2⟩)))
    | nil =>
      cases restT with
      | cons T2 rest2 => exact absurd (fh_second_trips_absurd C T T2 rest2 htr hbp) id
      | nil =>
        have hfh7 : NoFH7 C := by
          intro t p h3t hpt
          have ht : t = T := by
            have hmem : t ∈ (uniqueValuesDesc C).filter
                (fun v => 3 ≤ countOfValue C v) := by
              refine List.mem_filter.mpr ⟨(uniqDesc_mem C t).mpr
                ((cnt_pos_iff C t).mp (by omega)), by simp [h3t]⟩
            rw [htr] at hmem
            simpa using hmem
          subst ht
          by_contra hc
          push_neg at hc
          have h2le : 2 ≤ countOfValue C p := by omega
          have : p ∈ ((uniqueValuesDesc C).filter
              (fun w => 2 ≤ countOfValue C w)).filter (fun w => w ≠ t) := by
            refine List.mem_filter.mpr ⟨List.mem_filter.mpr
              ⟨(uniqDesc_mem C p).mpr ((cnt_pos_iff C p).mp (by omega)),
                by simp [h2le]⟩, by simp [hpt]⟩
          rw [hbp] at this
          simp at this
        have hpair : (evaluateSevenCards C).rank = HandRank.FLUSH ∧
            (evaluateSevenCards C).value = HandRank.FLUSH * CATEGORY_BASE +
              encode ((sortNatDesc (dedupFirst ((cardsOfSuit C s).map
                (fun c => rankToValue c.rank)))).take 5) := by
          simp only [evaluateSevenCards]
          rw [hfs]
          dsimp only
          rw [hbr, hfsh]
          dsimp only
          rw [hq4]
          dsimp only
          rw [htr]
          dsimp only
          rw [hbp]
          dsimp only
          exact ⟨rfl, by simp only [CATEGORY_BASE]⟩
        exact Or.inr (Or.inr (Or.inr (Or.inr ⟨s, h5s, hnss, hnq, hfh7,
          hpair.1, hpair.2⟩)))
  | nil =>
    have hle2 := trips_filter_none C htr
    have hfh7 : NoFH7 C := by
      intro t p h3t _
      have := hle2 t
      omega
    have hpair : (evaluateSevenCards C).rank = HandRank.FLUSH ∧
        (evaluateSevenCards C).value = HandRank.FLUSH * CATEGORY_BASE +
          encode ((sortNatDesc (dedupFirst ((cardsOfSuit C s).map
            (fun c => rankToValue c.rank)))).take 5) := by
      simp only [evaluateSevenCards]
      rw [hfs]
      dsimp only
      rw [hbr, hfsh]
      dsimp only
      rw [hq4]
      dsimp only
      rw [htr]
      dsimp only
      exact ⟨rfl, by simp only [CATEGORY_BASE]⟩
    exact Or.inr (Or.inr (Or.inr (Or.inr ⟨s, h5s, hnss, hnq, hfh7,
      hpair.1, hpair.2⟩)))

theorem seven_cases (C : List Card) (hnd : C.Nodup) (h6 : 6 ≤ C.length)
    (h7 : C.length ≤ 7) :
    S7Royal C ∨ S7SF C ∨ S7Quads C ∨ S7FH C ∨ S7Flush C ∨ S7Straight C ∨
      S7Trips C ∨ S7TwoPair C ∨ S7Pair C ∨ S7High C := by
  cases hfs : ([Suit.hearts, Suit.diamonds, Suit.clubs, Suit.spades] : List Suit).find?
      (fun s => 5 ≤ (cardsOfSuit C s).length) with
  | some s =>
    rcases seven_cases_flush C hnd h6 h7 s hfs with h | h | h | h | h <;> tauto
  | none =>
    rcases seven_cases_noflush C hnd h6 h7 hfs with h | h | h | h | h | h | h <;> tauto

-- ------------------------------
-- direction A: every 5-subset evaluates at most the classifier value
-- ------------------------------

theorem dom_by_rank (ev : HandEvaluation) (V7 R7 e7 : Nat)
    (hb : ev.value < (ev.rank + 1) * CATEGORY_BASE)
    (hlt : ev.rank < R7) (hV : V7 = R7 * CATEGORY_BASE + e7) :
    ev.value ≤ V7 := by
  have h1 : (ev.rank + 1) * CATEGORY_BASE ≤ R7 * CATEGORY_BASE :=
    Nat.mul_le_mul_right _ hlt
  omega

theorem sub_suited (C S : List Card) (s : Suit) (hsub : S.Sublist C)
    (hfl : ∀ c ∈ S, c.suit = s) : S.Sublist (cardsOfSuit C s) := by
  have h1 : S.filter (fun c => decide (c.suit = s)) = S := by
    rw [List.filter_eq_self]
    intro c hc
    simp [hfl c hc]
  unfold cardsOfSuit
  rw [← h1]
  exact hsub.filter _

theorem no_sf_subset (C : List Card) (hnss : NoSuitedStraight C) (S : List Card)
    (hsub : S.Sublist C) (hS5 : S.length = 5) (s : Suit)
    (hfl : ∀ c ∈ S, c.suit = s) (hh : Nat) (hst : StraightOf S hh) : False := by
  have hss := sub_suited C S s hsub hfl
  have h5 : 5 ≤ (cardsOfSuit C s).length := by
    have := hss.length_le
    omega
  exact hnss s h5 hh (straightOf_sub S _ (fun c hc => hss.mem hc) hh hst)

theorem no_flush_subset (C : List Card) (hnf : NoFlush7 C) (S : List Card)
    (hsub : S.Sublist C) (hS5 : S.length = 5) (s : Suit)
    (hfl : ∀ c ∈ S, c.suit = s) : False := by
  have hss := sub_suited C S s hsub hfl
  have := hss.length_le
  have := hnf s
  omega

theorem vset_le_14 (S : List Card) (v : Nat) (h : vset S v) : v ≤ 14 := by
  obtain ⟨c, hc, hcv⟩ := h
  rw [← hcv]
  exact rankToValue_le_14 c.rank

theorem encode2_le (a b a' b' : Nat) (hb : b ≤ 14) (hb' : b' ≤ 14)
    (hlex : a < a' ∨ (a = a' ∧ b ≤ b')) :
    encode [a, b] ≤ encode [a', b'] := by
  simp only [encode, List.foldl_cons, List.foldl_nil]
  rcases hlex with h | ⟨rfl, h⟩ <;> omega

theorem encode3_le (a b c a' b' c' : Nat) (hbb : b ≤ 14) (hcc : c ≤ 14)
    (hbb' : b' ≤ 14) (hcc' : c' ≤ 14)
    (hlex : a < a' ∨ (a = a' ∧ (b < b' ∨ (b = b' ∧ c ≤ c')))) :
    encode [a, b, c] ≤ encode [a', b', c'] := by
  simp only [encode, List.foldl_cons, List.foldl_nil]
  rcases hlex with h | ⟨rfl, h | ⟨rfl, h⟩⟩ <;> omega

theorem encode4_le (a b c d a' b' c' d' : Nat) (hbb : b ≤ 14) (hcc : c ≤ 14)
    (hdd : d ≤ 14) (hbb' : b' ≤ 14) (hcc' : c' ≤ 14) (hdd' : d' ≤ 14)
    (hlex : a < a' ∨ (a = a' ∧ (b < b' ∨ (b = b' ∧ (c < c' ∨
      (c = c' ∧ d ≤ d')))))) :
    encode [a, b, c, d] ≤ encode [a', b', c', d'] := by
  simp only [encode, List.foldl_cons, List.foldl_nil]
  rcases hlex with h | ⟨rfl, h | ⟨rfl, h | ⟨rfl, h⟩⟩⟩ <;> omega

theorem encode5_le (a b c d e a' b' c' d' e' : Nat) (hbb : b ≤ 14) (hcc : c ≤ 14)
    (hdd : d ≤ 14) (hee : e ≤ 14) (hbb' : b' ≤ 14) (hcc' : c' ≤ 14)
    (hdd' : d' ≤ 14) (hee' : e' ≤ 14)
    (hlex : a < a' ∨ (a = a' ∧ (b < b' ∨ (b = b' ∧ (c < c' ∨ (c = c' ∧
      (d < d' ∨ (d = d' ∧ e ≤ e')))))))) :
    encode [a, b, c, d, e] ≤ encode [a', b', c', d', e'] := by
  simp only [encode, List.foldl_cons, List.foldl_nil]
  rcases hlex with h | ⟨rfl, h | ⟨rfl, h | ⟨rfl, h | ⟨rfl, h⟩⟩⟩⟩ <;> omega

theorem sortNatDesc_pairwise_gt (l : List Nat) (hnd : l.Nodup) :
    (sortNatDesc l).Pairwise (· > ·) := by
  have h1 : (sortNatDesc l).Pairwise (· ≥ ·) := sortNatDesc_sorted l
  have h2 : (sortNatDesc l).Nodup := (sortNatDesc_perm l).nodup_iff.mpr hnd
  exact (h1.and h2).imp (fun h => lt_of_le_of_ne h.1 (Ne.symm h.2))

theorem dirA_royal (C : List Card) (hR : S7Royal C) (S : List Card)
    (hsub : S.Sublist C) (hS5 : S.length = 5) (hndS : S.Nodup)
    (ev : HandEvaluation) (hev : evaluateFiveCards S = .ok ev) :
    ev.value ≤ (evaluateSevenCards C).value := by
  obtain ⟨-, -, hv7⟩ := hR
  have hb := (evaluateFiveCards_bound S ev hev).2.2.2
  rcases eval5_ok_cases S hS5 hndS ev hev with hc|hc|hc|hc|hc|hc|hc|hc|hc|hc
  · obtain ⟨-, -, -, -, -, -, -, hvl⟩ := hc
    rw [hvl, hv7]
  · obtain ⟨-, hh, -, hrk, -⟩ := hc
    exact dom_by_rank ev _ _ 14 hb (by rw [hrk]; decide) hv7
  · obtain ⟨qv, kv, -, -, -, hrk, -⟩ := hc
    exact dom_by_rank ev _ _ 14 hb (by rw [hrk]; decide) hv7
  · obtain ⟨tv, pv, -, -, -, hrk, -⟩ := hc
    exact dom_by_rank ev _ _ 14 hb (by rw [hrk]; decide) hv7
  · obtain ⟨-, hrk, -⟩ := hc
    exact dom_by_rank ev _ _ 14 hb (by rw [hrk]; decide) hv7
  · obtain ⟨hh, -, hrk, -⟩ := hc
    exact dom_by_rank ev _ _ 14 hb (by rw [hrk]; decide) hv7
  · obtain ⟨tv, k1, k2, -, -, -, -, -, -, -, hrk, -⟩ := hc
    exact dom_by_rank ev _ _ 14 hb (by rw [hrk]; decide) hv7
  · obtain ⟨p1, p2, kk, -, -, -, -, -, -, -, hrk, -⟩ := hc
    exact dom_by_rank ev _ _ 14 hb (by rw [hrk]; decide) hv7
  · obtain ⟨pv, k1, k2, k3, -, -, -, -, -, -, -, -, -, -, hrk, -⟩ := hc
    exact dom_by_rank ev _ _ 14 hb (by rw [hrk]; decide) hv7
  · obtain ⟨-, hrk, -⟩ := hc
    exact dom_by_rank ev _ _ 14 hb (by rw [hrk]; decide) hv7

theorem dirA_sf (C : List Card) (h7 : C.length ≤ 7) (hR : S7SF C) (S : List Card)
    (hsub : S.Sublist C) (hS5 : S.length = 5) (hndS : S.Nodup)
    (ev : HandEvaluation) (hev : evaluateFiveCards S = .ok ev) :
    ev.value ≤ (evaluateSevenCards C).value := by
  obtain ⟨s, hh, h5s, hstr, hle13, hmax, -, hv7⟩ := hR
  have hb := (evaluateFiveCards_bound S ev hev).2.2.2
  have hsuit_eq : ∀ s', (∀ c ∈ S, c.suit = s') → s' = s := by
    intro s' hfl
    by_contra hne
    have hss := sub_suited C S s' hsub hfl
    have := hss.length_le
    have := suited_disjoint_le C s' s hne
    omega
  have htrans : ∀ s' h2, (∀ c ∈ S, c.suit = s') → StraightOf S h2 → h2 ≤ hh := by
    intro s' h2 hfl hst
    have hse := hsuit_eq s' hfl
    subst hse
    have hss := sub_suited C S s' hsub hfl
    exact hmax h2 (straightOf_sub S _ (fun c hc => hss.mem hc) h2 hst)
  rcases eval5_ok_cases S hS5 hndS ev hev with hc|hc|hc|hc|hc|hc|hc|hc|hc|hc
  · -- a royal 5-subset would force hh = 14
    exfalso
    obtain ⟨⟨s', hfl⟩, h10, h11, h12, h13, h14, -, -⟩ := hc
    have : (14 : Nat) ≤ hh := htrans s' 14 hfl
      (Or.inl ⟨by omega, by omega, h14, h13, h12, h11, h10⟩)
    omega
  · obtain ⟨⟨s', hfl⟩, h2, hst, -, hvl⟩ := hc
    rw [hvl, hv7]
    exact Nat.add_le_add_left (htrans s' h2 hfl hst) _
  · obtain ⟨qv, kv, -, -, -, hrk, -⟩ := hc
    exact dom_by_rank ev _ _ hh hb (by rw [hrk]; decide) hv7
  · obtain ⟨tv, pv, -, -, -, hrk, -⟩ := hc
    exact dom_by_rank ev _ _ hh hb (by rw [hrk]; decide) hv7
  · obtain ⟨-, hrk, -⟩ := hc
    exact dom_by_rank ev _ _ hh hb (by rw [hrk]; decide) hv7
  · obtain ⟨h2, -, hrk, -⟩ := hc
    exact dom_by_rank ev _ _ hh hb (by rw [hrk]; decide) hv7
  · obtain ⟨tv, k1, k2, -, -, -, -, -, -, -, hrk, -⟩ := hc
    exact dom_by_rank ev _ _ hh hb (by rw [hrk]; decide) hv7
  · obtain ⟨p1, p2, kk, -, -, -, -, -, -, -, hrk, -⟩ := hc
    exact dom_by_rank ev _ _ hh hb (by rw [hrk]; decide) hv7
  · obtain ⟨pv, k1, k2, k3, -, -, -, -, -, -, -, -, -, -, hrk, -⟩ := hc
    exact dom_by_rank ev _ _ hh hb (by rw [hrk]; decide) hv7
  · obtain ⟨-, hrk, -⟩ := hc
    exact dom_by_rank ev _ _ hh hb (by rw [hrk]; decide) hv7

theorem dirA_quads (C : List Card) (h7 : C.length ≤ 7) (hR : S7Quads C)
    (S : List Card) (hsub : S.Sublist C) (hS5 : S.length = 5) (hndS : S.Nodup)
    (ev : HandEvaluation) (hev : evaluateFiveCards S = .ok ev) :
    ev.value ≤ (evaluateSevenCards C).value := by
  obtain ⟨qv, kv, hq4, hkv, hkne, hkmax, hnss, -, hv7⟩ := hR
  have hb := (evaluateFiveCards_bound S ev hev).2.2.2
  rcases eval5_ok_cases S hS5 hndS ev hev with hc|hc|hc|hc|hc|hc|hc|hc|hc|hc
  · exfalso
    obtain ⟨⟨s', hfl⟩, h10, h11, h12, h13, h14, -, -⟩ := hc
    exact no_sf_subset C hnss S hsub hS5 s' hfl 14
      (Or.inl ⟨by omega, by omega, h14, h13, h12, h11, h10⟩)
  · exfalso
    obtain ⟨⟨s', hfl⟩, h2, hst, -, -⟩ := hc
    exact no_sf_subset C hnss S hsub hS5 s' hfl h2 hst
  · -- four of a kind vs four of a kind
    obtain ⟨qv', kv', hq', hkv', hkne', -, hvl⟩ := hc
    have hqC : 4 ≤ countOfValue C qv' := le_trans (by omega) (cnt_sublist S C qv' hsub)
    have hqq : qv' = qv := by
      by_contra hne
      have := cnt_pair_le C qv' qv hne
      omega
    subst hqq
    have hkC : vset C kv' := vset_mono S C hsub kv' hkv'
    have hkle : kv' ≤ kv := hkmax kv' hkC hkne'
    rw [hvl, hv7]
    refine Nat.add_le_add_left (encode2_le _ _ _ _ ?_ ?_ (Or.inr ⟨rfl, hkle⟩)) _
    · exact vset_le_14 S kv' hkv'
    · exact vset_le_14 C kv hkv
  · obtain ⟨tv, pv, -, -, -, hrk, -⟩ := hc
    exact dom_by_rank ev _ _ _ hb (by rw [hrk]; decide) hv7
  · obtain ⟨-, hrk, -⟩ := hc
    exact dom_by_rank ev _ _ _ hb (by rw [hrk]; decide) hv7
  · obtain ⟨h2, -, hrk, -⟩ := hc
    exact dom_by_rank ev _ _ _ hb (by rw [hrk]; decide) hv7
  · obtain ⟨tv, k1, k2, -, -, -, -, -, -, -, hrk, -⟩ := hc
    exact dom_by_rank ev _ _ _ hb (by rw [hrk]; decide) hv7
  · obtain ⟨p1, p2, kk, -, -, -, -, -, -, -, hrk, -⟩ := hc
    exact dom_by_rank ev _ _ _ hb (by rw [hrk]; decide) hv7
  · obtain ⟨pv, k1, k2, k3, -, -, -, -, -, -, -, -, -, -, hrk, -⟩ := hc
    exact dom_by_rank ev _ _ _ hb (by rw [hrk]; decide) hv7
  · obtain ⟨-, hrk, -⟩ := hc
    exact dom_by_rank ev _ _ _ hb (by rw [hrk]; decide) hv7

theorem dirA_fh (C : List Card) (h7 : C.length ≤ 7) (hR : S7FH C)
    (S : List Card) (hsub : S.Sublist C) (hS5 : S.length = 5) (hndS : S.Nodup)
    (ev : HandEvaluation) (hev : evaluateFiveCards S = .ok ev) :
    ev.value ≤ (evaluateSevenCards C).value := by
  obtain ⟨T, P, hT3, hP2, hPT, hTmax, hPmax, hnq, hnss, -, hv7⟩ := hR
  have hb := (evaluateFiveCards_bound S ev hev).2.2.2
  rcases eval5_ok_cases S hS5 hndS ev hev with hc|hc|hc|hc|hc|hc|hc|hc|hc|hc
  · exfalso
    obtain ⟨⟨s', hfl⟩, h10, h11, h12, h13, h14, -, -⟩ := hc
    exact no_sf_subset C hnss S hsub hS5 s' hfl 14
      (Or.inl ⟨by omega, by omega, h14, h13, h12, h11, h10⟩)
  · exfalso
    obtain ⟨⟨s', hfl⟩, h2, hst, -, -⟩ := hc
    exact no_sf_subset C hnss S hsub hS5 s' hfl h2 hst
  · exfalso
    obtain ⟨qv', kv', hq', -, -, -, -⟩ := hc
    have := cnt_sublist S C qv' hsub
    have := hnq qv'
    omega
  · -- full house vs full house
    obtain ⟨tv', pv', ht', hp', hne', -, hvl⟩ := hc
    have htC : 3 ≤ countOfValue C tv' := le_trans (by omega) (cnt_sublist S C tv' hsub)
    have hpC : 2 ≤ countOfValue C pv' := le_trans (by omega) (cnt_sublist S C pv' hsub)
    have htle : tv' ≤ T := hTmax tv' htC
    rw [hvl, hv7]
    refine Nat.add_le_add_left (encode2_le _ _ _ _ ?_ ?_ ?_) _
    · exact vset_le_14 S pv' ((cnt_pos_iff S pv').mp (by omega))
    · exact vset_le_14 C P ((cnt_pos_iff C P).mp (by omega))
    · by_cases he : tv' = T
      · subst he
        exact Or.inr ⟨rfl, hPmax pv' hpC (fun hp => hne' (hp.symm ▸ rfl))⟩
      · exact Or.inl (by omega)
  · obtain ⟨-, hrk, -⟩ := hc
    exact dom_by_rank ev _ _ _ hb (by rw [hrk]; decide) hv7
  · obtain ⟨h2, -, hrk, -⟩ := hc
    exact dom_by_rank ev _ _ _ hb (by rw [hrk]; decide) hv7
  · obtain ⟨tv, k1, k2, -, -, -, -, -, -, -, hrk, -⟩ := hc
    exact dom_by_rank ev _ _ _ hb (by rw [hrk]; decide) hv7
  · obtain ⟨p1, p2, kk, -, -, -, -, -, -, -, hrk, -⟩ := hc
    exact dom_by_rank ev _ _ _ hb (by rw [hrk]; decide) hv7
  · obtain ⟨pv, k1, k2, k3, -, -, -, -, -, -, -, -, -, -, hrk, -⟩ := hc
    exact dom_by_rank ev _ _ _ hb (by rw [hrk]; decide) hv7
  · obtain ⟨-, hrk, -⟩ := hc
    exact dom_by_rank ev _ _ _ hb (by rw [hrk]; decide) hv7

theorem dirA_flush (C : List Card) (h7 : C.length ≤ 7) (hR : S7Flush C)
    (S : List Card) (hsub : S.Sublist C) (hS5 : S.length = 5) (hndS : S.Nodup)
    (ev : HandEvaluation) (hev : evaluateFiveCards S = .ok ev) :
    ev.value ≤ (evaluateSevenCards C).value := by
  obtain ⟨s, h5s, hnss, hnq, hfh7, -, hv7⟩ := hR
  have hb := (evaluateFiveCards_bound S ev hev).2.2.2
  rcases eval5_ok_cases S hS5 hndS ev hev with hc|hc|hc|hc|hc|hc|hc|hc|hc|hc
  · exfalso
    obtain ⟨⟨s', hfl⟩, h10, h11, h12, h13, h14, -, -⟩ := hc
    exact no_sf_subset C hnss S hsub hS5 s' hfl 14
      (Or.inl ⟨by omega, by omega, h14, h13, h12, h11, h10⟩)
  · exfalso
    obtain ⟨⟨s', hfl⟩, h2, hst, -, -⟩ := hc
    exact no_sf_subset C hnss S hsub hS5 s' hfl h2 hst
  · exfalso
    obtain ⟨qv', kv', hq', -, -, -, -⟩ := hc
    have := cnt_sublist S C qv' hsub
    have := hnq qv'
    omega
  · exfalso
    obtain ⟨tv', pv', ht', hp', hne', -, -⟩ := hc
    have h1 := cnt_sublist S C tv' hsub
    have h2 := cnt_sublist S C pv' hsub
    have := hfh7 tv' pv' (by omega) (fun hp => hne' hp.symm)
    omega
  · -- flush vs flush
    obtain ⟨⟨s', hfl⟩, -, hvl⟩ := hc
    have hse : s' = s := by
      by_contra hne
      have hss := sub_suited C S s' hsub hfl
      have := hss.length_le
      have := suited_disjoint_le C s' s hne
      omega
    subst hse
    have hss := sub_suited C S s' hsub hfl
    have hWnd : (S.map (fun c => rankToValue c.rank)).Nodup :=
      flush_vals_nodup S hndS s' hfl
    have hW : (sortNatDesc (S.map (fun c => rankToValue c.rank))).Pairwise (· > ·) :=
      sortNatDesc_pairwise_gt _ hWnd
    have hD : (sortNatDesc (dedupFirst ((cardsOfSuit C s').map
        (fun c => rankToValue c.rank)))).Pairwise (· > ·) :=
      sortNatDesc_pairwise_gt _ (dedupFirst_nodup _)
    have hmem : ∀ x ∈ sortNatDesc (S.map (fun c => rankToValue c.rank)),
        x ∈ sortNatDesc (dedupFirst ((cardsOfSuit C s').map
          (fun c => rankToValue c.rank))) := by
      intro x hx
      have hx2 : x ∈ S.map (fun c => rankToValue c.rank) :=
        (sortNatDesc_perm _).subset hx
      obtain ⟨c, hc, hcv⟩ := List.mem_map.mp hx2
      have : x ∈ (cardsOfSuit C s').map (fun c => rankToValue c.rank) :=
        List.mem_map.mpr ⟨c, hss.mem hc, hcv⟩
      exact (sortNatDesc_perm _).mem_iff.mpr ((dedupFirst_mem _ x).mpr this)
    have hWlen : (sortNatDesc (S.map (fun c => rankToValue c.rank))).length = 5 := by
      rw [(sortNatDesc_perm _).length_eq, List.length_map, hS5]
    have hDlen : 5 ≤ (sortNatDesc (dedupFirst ((cardsOfSuit C s').map
        (fun c => rankToValue c.rank)))).length := by
      have hnd2 : (sortNatDesc (S.map (fun c => rankToValue c.rank))).Nodup :=
        (sortNatDesc_perm _).nodup_iff.mpr hWnd
      have := (List.subperm_of_subset hnd2 hmem).length_le
      omega
    have hdom := sorted_desc_take_dominates _ _ hD hW hmem (by omega)
    rw [hWlen] at hdom
    rw [hvl, hv7]
    exact Nat.add_le_add_left (encode_mono _ _ hdom) _
  · obtain ⟨h2, -, hrk, -⟩ := hc
    exact dom_by_rank ev _ _ _ hb (by rw [hrk]; decide) hv7
  · obtain ⟨tv, k1, k2, -, -, -, -, -, -, -, hrk, -⟩ := hc
    exact dom_by_rank ev _ _ _ hb (by rw [hrk]; decide) hv7
  · obtain ⟨p1, p2, kk, -, -, -, -, -, -, -, hrk, -⟩ := hc
    exact dom_by_rank ev _ _ _ hb (by rw [hrk]; decide) hv7
  · obtain ⟨pv, k1, k2, k3, -, -, -, -, -, -, -, -, -, -, hrk, -⟩ := hc
    exact dom_by_rank ev _ _ _ hb (by rw [hrk]; decide) hv7
  · obtain ⟨-, hrk, -⟩ := hc
    exact dom_by_rank ev _ _ _ hb (by rw [hrk]; decide) hv7

theorem dirA_straight (C : List Card) (hR : S7Straight C)
    (S : List Card) (hsub : S.Sublist C) (hS5 : S.length = 5) (hndS : S.Nodup)
    (ev : HandEvaluation) (hev : evaluateFiveCards S = .ok ev) :
    ev.value ≤ (evaluateSevenCards C).value := by
  obtain ⟨hh, hstr, hmax, hnf, hnq, hfh7, -, hv7⟩ := hR
  have hb := (evaluateFiveCards_bound S ev hev).2.2.2
  rcases eval5_ok_cases S hS5 hndS ev hev with hc|hc|hc|hc|hc|hc|hc|hc|hc|hc
  · exfalso
    obtain ⟨⟨s', hfl⟩, -, -, -, -, -, -, -⟩ := hc
    exact no_flush_subset C hnf S hsub hS5 s' hfl
  · exfalso
    obtain ⟨⟨s', hfl⟩, -, -, -, -⟩ := hc
    exact no_flush_subset C hnf S hsub hS5 s' hfl
  · exfalso
    obtain ⟨qv', kv', hq', -, -, -, -⟩ := hc
    have := cnt_sublist S C qv' hsub
    have := hnq qv'
    omega
  · exfalso
    obtain ⟨tv', pv', ht', hp', hne', -, -⟩ := hc
    have h1 := cnt_sublist S C tv' hsub
    have h2 := cnt_sublist S C pv' hsub
    have := hfh7 tv' pv' (by omega) (fun hp => hne' hp.symm)
    omega
  · exfalso
    obtain ⟨⟨s', hfl⟩, -, -⟩ := hc
    exact no_flush_subset C hnf S hsub hS5 s' hfl
  · -- straight vs straight
    obtain ⟨h2, hst, -, hvl⟩ := hc
    rw [hvl, hv7]
    exact Nat.add_le_add_left
      (hmax h2 (straightOf_sub S C (fun c hc => hsub.mem hc) h2 hst)) _
  · obtain ⟨tv, k1, k2, -, -, -, -, -, -, -, hrk, -⟩ := hc
    exact dom_by_rank ev _ _ _ hb (by rw [hrk]; decide) hv7
  · obtain ⟨p1, p2, kk, -, -, -, -, -, -, -, hrk, -⟩ := hc
    exact dom_by_rank ev _ _ _ hb (by rw [hrk]; decide) hv7
  · obtain ⟨pv, k1, k2, k3, -, -, -, -, -, -, -, -, -, -, hrk, -⟩ := hc
    exact dom_by_rank ev _ _ _ hb (by rw [hrk]; decide) hv7
  · obtain ⟨-, hrk, -⟩ := hc
    exact dom_by_rank ev _ _ _ hb (by rw [hrk]; decide) hv7

theorem encode5_le_pw (a b c d e a' b' c' d' e' : Nat)
    (h1 : a ≤ a') (h2 : b ≤ b') (h3 : c ≤ c') (h4 : d ≤ d') (h5 : e ≤ e') :
    encode [a, b, c, d, e] ≤ encode [a', b', c', d', e'] := by
  simp only [encode, List.foldl_cons, List.foldl_nil]
  omega

theorem dirA_trips (C : List Card) (hR : S7Trips C)
    (S : List Card) (hsub : S.Sublist C) (hS5 : S.length = 5) (hndS : S.Nodup)
    (ev : HandEvaluation) (hev : evaluateFiveCards S = .ok ev) :
    ev.value ≤ (evaluateSevenCards C).value := by
  obtain ⟨t, K1, K2, htc, hone, hK1v, hK2v, hK1t, hK2t, h21, hmaxall, hmaxall2,
    hnf, hnost, -, hv7⟩ := hR
  have hb := (evaluateFiveCards_bound S ev hev).2.2.2
  have hcle : ∀ v, countOfValue C v ≤ 3 := by
    intro v
    by_cases hv : vset C v
    · by_cases hvt : v = t
      · rw [hvt, htc]
      · rw [hone v hv hvt]
        omega
    · have : ¬ 0 < countOfValue C v := fun hc => hv ((cnt_pos_iff C v).mp hc)
      omega
  rcases eval5_ok_cases S hS5 hndS ev hev with hc|hc|hc|hc|hc|hc|hc|hc|hc|hc
  · exfalso
    obtain ⟨⟨s', hfl⟩, -, -, -, -, -, -, -⟩ := hc
    exact no_flush_subset C hnf S hsub hS5 s' hfl
  · exfalso
    obtain ⟨⟨s', hfl⟩, -, -, -, -⟩ := hc
    exact no_flush_subset C hnf S hsub hS5 s' hfl
  · exfalso
    obtain ⟨qv', kv', hq', -, -, -, -⟩ := hc
    have := cnt_sublist S C qv' hsub
    have := hcle qv'
    omega
  · exfalso
    obtain ⟨tv', pv', ht', hp', hne', -, -⟩ := hc
    have h1 := cnt_sublist S C tv' hsub
    have h2 := cnt_sublist S C pv' hsub
    have htt : tv' = t := by
      by_contra hne
      have hv : vset C tv' := (cnt_pos_iff C tv').mp (by omega)
      have := hone tv' hv hne
      omega
    have hpt : pv' = t := by
      by_contra hne
      have hv : vset C pv' := (cnt_pos_iff C pv').mp (by omega)
      have := hone pv' hv hne
      omega
    exact hne' (htt.trans hpt.symm)
  · exfalso
    obtain ⟨⟨s', hfl⟩, -, -⟩ := hc
    exact no_flush_subset C hnf S hsub hS5 s' hfl
  · exfalso
    obtain ⟨h2, hst, -, -⟩ := hc
    exact hnost h2 (straightOf_sub S C (fun c hc => hsub.mem hc) h2 hst)
  · -- trips vs trips
    obtain ⟨tv', k1', k2', ht', hk1', hk2', h21', h1t', h2t', -, -, hvl⟩ := hc
    have htC := cnt_sublist S C tv' hsub
    have htt : tv' = t := by
      by_contra hne
      have hv : vset C tv' := (cnt_pos_iff C tv').mp (by omega)
      have := hone tv' hv hne
      omega
    subst htt
    have hk1C : vset C k1' := vset_mono S C hsub k1' ((cnt_pos_iff S k1').mp (by omega))
    have hk2C : vset C k2' := vset_mono S C hsub k2' ((cnt_pos_iff S k2').mp (by omega))
    have hk1le : k1' ≤ K1 := hmaxall k1' hk1C h1t'
    rw [hvl, hv7]
    refine Nat.add_le_add_left (encode3_le _ _ _ _ _ _ ?_ ?_ ?_ ?_ ?_) _
    · exact vset_le_14 C k1' hk1C
    · exact vset_le_14 C k2' hk2C
    · exact vset_le_14 C K1 hK1v
    · exact vset_le_14 C K2 hK2v
    · refine Or.inr ⟨rfl, ?_⟩
      by_cases hk : k1' = K1
      · subst hk
        exact Or.inr ⟨rfl, hmaxall2 k2' hk2C h2t' (by omega)⟩
      · exact Or.inl (by omega)
  · obtain ⟨p1, p2, kk, -, -, -, -, -, -, -, hrk, -⟩ := hc
    exact dom_by_rank ev _ _ _ hb (by rw [hrk]; decide) hv7
  · obtain ⟨pv, k1, k2, k3, -, -, -, -, -, -, -, -, -, -, hrk, -⟩ := hc
    exact dom_by_rank ev _ _ _ hb (by rw [hrk]; decide) hv7
  · obtain ⟨-, hrk, -⟩ := hc
    exact dom_by_rank ev _ _ _ hb (by rw [hrk]; decide) hv7

theorem dirA_twopair (C : List Card) (hR : S7TwoPair C)
    (S : List Card) (hsub : S.Sublist C) (hS5 : S.length = 5) (hndS : S.Nodup)
    (ev : HandEvaluation) (hev : evaluateFiveCards S = .ok ev) :
    ev.value ≤ (evaluateSevenCards C).value := by
  obtain ⟨p1, p2, kk, hp1, hp2, h21, hle2, hmax1, hmax2, hkv, hk1, hk2, hkmax,
    hnf, hnost, -, hv7⟩ := hR
  have hb := (evaluateFiveCards_bound S ev hev).2.2.2
  rcases eval5_ok_cases S hS5 hndS ev hev with hc|hc|hc|hc|hc|hc|hc|hc|hc|hc
  · exfalso
    obtain ⟨⟨s', hfl⟩, -, -, -, -, -, -, -⟩ := hc
    exact no_flush_subset C hnf S hsub hS5 s' hfl
  · exfalso
    obtain ⟨⟨s', hfl⟩, -, -, -, -⟩ := hc
    exact no_flush_subset C hnf S hsub hS5 s' hfl
  · exfalso
    obtain ⟨qv', kv', hq', -, -, -, -⟩ := hc
    have := cnt_sublist S C qv' hsub
    have := hle2 qv'
    omega
  · exfalso
    obtain ⟨tv', pv', ht', -, -, -, -⟩ := hc
    have := cnt_sublist S C tv' hsub
    have := hle2 tv'
    omega
  · exfalso
    obtain ⟨⟨s', hfl⟩, -, -⟩ := hc
    exact no_flush_subset C hnf S hsub hS5 s' hfl
  · exfalso
    obtain ⟨h2, hst, -, -⟩ := hc
    exact hnost h2 (straightOf_sub S C (fun c hc => hsub.mem hc) h2 hst)
  · exfalso
    obtain ⟨tv', k1', k2', ht', -, -, -, -, -, -, -, -⟩ := hc
    have := cnt_sublist S C tv' hsub
    have := hle2 tv'
    omega
  · -- two pair vs two pair
    obtain ⟨p1', p2', kk', hp1', hp2', hkk', h21', hk1', hk2', -, -, hvl⟩ := hc
    have hp1C : 2 ≤ countOfValue C p1' := le_trans (by omega) (cnt_sublist S C p1' hsub)
    have hp2C : 2 ≤ countOfValue C p2' := le_trans (by omega) (cnt_sublist S C p2' hsub)
    have hp1le : p1' ≤ p1 := hmax1 p1' hp1C
    have hkkC : vset C kk' := vset_mono S C hsub kk' ((cnt_pos_iff S kk').mp (by omega))
    rw [hvl, hv7]
    refine Nat.add_le_add_left (encode3_le _ _ _ _ _ _ ?_ ?_ ?_ ?_ ?_) _
    · exact vset_le_14 C p2' ((cnt_pos_iff C p2').mp (by omega))
    · exact vset_le_14 C kk' hkkC
    · exact vset_le_14 C p2 ((cnt_pos_iff C p2).mp (by omega))
    · exact vset_le_14 C kk hkv
    · by_cases he1 : p1' = p1
      · subst he1
        refine Or.inr ⟨rfl, ?_⟩
        have hp2le : p2' ≤ p2 := hmax2 p2' hp2C (by omega)
        by_cases he2 : p2' = p2
        · subst he2
          exact Or.inr ⟨rfl, hkmax kk' hkkC hk1' hk2'⟩
        · exact Or.inl (by omega)
      · exact Or.inl (by omega)
  · obtain ⟨pv, k1, k2, k3, -, -, -, -, -, -, -, -, -, -, hrk, -⟩ := hc
    exact dom_by_rank ev _ _ _ hb (by rw [hrk]; decide) hv7
  · obtain ⟨-, hrk, -⟩ := hc
    exact dom_by_rank ev _ _ _ hb (by rw [hrk]; decide) hv7

theorem dirA_pair (C : List Card) (hR : S7Pair C)
    (S : List Card) (hsub : S.Sublist C) (hS5 : S.length = 5) (hndS : S.Nodup)
    (ev : HandEvaluation) (hev : evaluateFiveCards S = .ok ev) :
    ev.value ≤ (evaluateSevenCards C).value := by
  obtain ⟨p, k1, k2, k3, hpc, hone, hv1, hv2, hv3, hn1, hn2, hn3, h32, h21,
    hm1, hm2, hm3, hnf, hnost, -, hv7⟩ := hR
  have hb := (evaluateFiveCards_bound S ev hev).2.2.2
  have hcle : ∀ v, countOfValue C v ≤ 2 := by
    intro v
    by_cases hv : vset C v
    · by_cases hvp : v = p
      · rw [hvp, hpc]
      · rw [hone v hv hvp]
        omega
    · have : ¬ 0 < countOfValue C v := fun hc => hv ((cnt_pos_iff C v).mp hc)
      omega
  have huniq2 : ∀ v, 2 ≤ countOfValue C v → v = p := by
    intro v hv2c
    by_contra hne
    have hv : vset C v := (cnt_pos_iff C v).mp (by omega)
    have := hone v hv hne
    omega
  rcases eval5_ok_cases S hS5 hndS ev hev with hc|hc|hc|hc|hc|hc|hc|hc|hc|hc
  · exfalso
    obtain ⟨⟨s', hfl⟩, -, -, -, -, -, -, -⟩ := hc
    exact no_flush_subset C hnf S hsub hS5 s' hfl
  · exfalso
    obtain ⟨⟨s', hfl⟩, -, -, -, -⟩ := hc
    exact no_flush_subset C hnf S hsub hS5 s' hfl
  · exfalso
    obtain ⟨qv', kv', hq', -, -, -, -⟩ := hc
    have := cnt_sublist S C qv' hsub
    have := hcle qv'
    omega
  · exfalso
    obtain ⟨tv', pv', ht', -, -, -, -⟩ := hc
    have := cnt_sublist S C tv' hsub
    have := hcle tv'
    omega
  · exfalso
    obtain ⟨⟨s', hfl⟩, -, -⟩ := hc
    exact no_flush_subset C hnf S hsub hS5 s' hfl
  · exfalso
    obtain ⟨h2, hst, -, -⟩ := hc
    exact hnost h2 (straightOf_sub S C (fun c hc => hsub.mem hc) h2 hst)
  · exfalso
    obtain ⟨tv', k1', k2', ht', -, -, -, -, -, -, -, -⟩ := hc
    have := cnt_sublist S C tv' hsub
    have := hcle tv'
    omega
  · exfalso
    obtain ⟨p1', p2', kk', hp1', hp2', -, h21', -, -, -, -, -⟩ := hc
    have h1 := cnt_sublist S C p1' hsub
    have h2 := cnt_sublist S C p2' hsub
    have e1 := huniq2 p1' (by omega)
    have e2 := huniq2 p2' (by omega)
    rw [e1, e2] at h21'
    omega
  · -- pair vs pair
    obtain ⟨pv', k1', k2', k3', hp', hq1', hq2', hq3', h32', h21', h1p', h2p',
      h3p', -, -, hvl⟩ := hc
    have hpC := cnt_sublist S C pv' hsub
    have hpp : pv' = p := huniq2 pv' (by omega)
    subst hpp
    have hc1 : vset C k1' := vset_mono S C hsub k1' ((cnt_pos_iff S k1').mp (by omega))
    have hc2 : vset C k2' := vset_mono S C hsub k2' ((cnt_pos_iff S k2').mp (by omega))
    have hc3 : vset C k3' := vset_mono S C hsub k3' ((cnt_pos_iff S k3').mp (by omega))
    have hk1le : k1' ≤ k1 := hm1 k1' hc1 h1p'
    rw [hvl, hv7]
    refine Nat.add_le_add_left (encode4_le _ _ _ _ _ _ _ _ ?_ ?_ ?_ ?_ ?_ ?_ ?_) _
    · exact vset_le_14 C k1' hc1
    · exact vset_le_14 C k2' hc2
    · exact vset_le_14 C k3' hc3
    · exact vset_le_14 C k1 hv1
    · exact vset_le_14 C k2 hv2
    · exact vset_le_14 C k3 hv3
    · refine Or.inr ⟨rfl, ?_⟩
      by_cases he1 : k1' = k1
      · subst he1
        refine Or.inr ⟨rfl, ?_⟩
        have hk2le : k2' ≤ k2 := hm2 k2' hc2 h2p' (by omega)
        by_cases he2 : k2' = k2
        · subst he2
          exact Or.inr ⟨rfl, hm3 k3' hc3 h3p' (by omega) (by omega)⟩
        · exact Or.inl (by omega)
      · exact Or.inl (by omega)
  · obtain ⟨-, hrk, -⟩ := hc
    exact dom_by_rank ev _ _ _ hb (by rw [hrk]; decide) hv7

theorem dirA_high (C : List Card) (hR : S7High C)
    (S : List Card) (hsub : S.Sublist C) (hS5 : S.length = 5) (hndS : S.Nodup)
    (ev : HandEvaluation) (hev : evaluateFiveCards S = .ok ev) :
    ev.value ≤ (evaluateSevenCards C).value := by
  obtain ⟨a1, a2, a3, a4, a5, hone, hu1, hu2, hu3, hu4, hu5, hba, hcb, hdc, hed,
    hx1, hx2, hx3, hx4, hx5, hnf, hnost, -, hv7⟩ := hR
  have hb := (evaluateFiveCards_bound S ev hev).2.2.2
  have hcle : ∀ v, countOfValue C v ≤ 1 := by
    intro v
    by_cases hv : vset C v
    · rw [hone v hv]
    · have : ¬ 0 < countOfValue C v := fun hc => hv ((cnt_pos_iff C v).mp hc)
      omega
  rcases eval5_ok_cases S hS5 hndS ev hev with hc|hc|hc|hc|hc|hc|hc|hc|hc|hc
  · exfalso
    obtain ⟨⟨s', hfl⟩, -, -, -, -, -, -, -⟩ := hc
    exact no_flush_subset C hnf S hsub hS5 s' hfl
  · exfalso
    obtain ⟨⟨s', hfl⟩, -, -, -, -⟩ := hc
    exact no_flush_subset C hnf S hsub hS5 s' hfl
  · exfalso
    obtain ⟨qv', kv', hq', -, -, -, -⟩ := hc
    have := cnt_sublist S C qv' hsub
    have := hcle qv'
    omega
  · exfalso
    obtain ⟨tv', pv', ht', -, -, -, -⟩ := hc
    have := cnt_sublist S C tv' hsub
    have := hcle tv'
    omega
  · exfalso
    obtain ⟨⟨s', hfl⟩, -, -⟩ := hc
    exact no_flush_subset C hnf S hsub hS5 s' hfl
  · exfalso
    obtain ⟨h2, hst, -, -⟩ := hc
    exact hnost h2 (straightOf_sub S C (fun c hc => hsub.mem hc) h2 hst)
  · exfalso
    obtain ⟨tv', k1', k2', ht', -, -, -, -, -, -, -, -⟩ := hc
    have := cnt_sublist S C tv' hsub
    have := hcle tv'
    omega
  · exfalso
    obtain ⟨p1', p2', kk', hp1', -, -, -, -, -, -, -, -⟩ := hc
    have := cnt_sublist S C p1' hsub
    have := hcle p1'
    omega
  · exfalso
    obtain ⟨pv', k1', k2', k3', hp', -, -, -, -, -, -, -, -, -, -, -⟩ := hc
    have := cnt_sublist S C pv' hsub
    have := hcle pv'
    omega
  · -- high card vs high card
    obtain ⟨h1S, -, hvl⟩ := hc
    have hulenS : (uniqueValuesDesc S).length = 5 := by
      rw [uniq_len_all_one S h1S, hS5]
    have husort := uniqDesc_sorted S
    cases hU : uniqueValuesDesc S with
    | nil =>
      rw [hU] at hulenS
      cases hulenS
    | cons w1 U1 =>
      cases U1 with
      | nil =>
        rw [hU] at hulenS
        simp at hulenS
      | cons w2 U2 =>
        cases U2 with
        | nil =>
          rw [hU] at hulenS
          simp at hulenS
        | cons w3 U3 =>
          cases U3 with
          | nil =>
            rw [hU] at hulenS
            simp at hulenS
          | cons w4 U4 =>
            cases U4 with
            | nil =>
              rw [hU] at hulenS
              simp at hulenS
            | cons w5 U5 =>
              cases U5 with
              | cons w6 U6 =>
                rw [hU] at hulenS
                simp at hulenS
              | nil =>
                rw [hU] at husort
                obtain ⟨g21, g32, g43, g54, -, -, -, -, -⟩ :=
                  sorted_desc_stats5 _ w1 w2 w3 w4 w5 [] rfl husort
                have hwv : ∀ w, w ∈ uniqueValuesDesc S → vset C w := by
                  intro w hw
                  exact vset_mono S C hsub w ((uniqDesc_mem S w).mp hw)
                have hw1 : vset C w1 := hwv w1 (by rw [hU]; simp)
                have hw2 : vset C w2 := hwv w2 (by rw [hU]; simp)
                have hw3 : vset C w3 := hwv w3 (by rw [hU]; simp)
                have hw4 : vset C w4 := hwv w4 (by rw [hU]; simp)
                have hw5 : vset C w5 := hwv w5 (by rw [hU]; simp)
                have e1 : w1 ≤ a1 := hx1 w1 hw1
                have e2 : w2 ≤ a2 := hx2 w2 hw2 (by omega)
                have e3 : w3 ≤ a3 := hx3 w3 hw3 (by omega) (by omega)
                have e4 : w4 ≤ a4 := hx4 w4 hw4 (by omega) (by omega) (by omega)
                have e5 : w5 ≤ a5 := hx5 w5 hw5 (by omega) (by omega) (by omega)
                  (by omega)
                rw [hvl, hv7, hU]
                exact Nat.add_le_add_left
                  (encode5_le_pw _ _ _ _ _ _ _ _ _ _ e1 e2 e3 e4 e5) _

theorem dirA_all (C : List Card) (hnd : C.Nodup) (h6 : 6 ≤ C.length)
    (h7 : C.length ≤ 7) (S : List Card) (hsub : S.Sublist C) (hS5 : S.length = 5)
    (ev : HandEvaluation) (hev : evaluateFiveCards S = .ok ev) :
    ev.value ≤ (evaluateSevenCards C).value := by
  have hndS : S.Nodup := hnd.sublist hsub
  rcases seven_cases C hnd h6 h7 with h|h|h|h|h|h|h|h|h|h
  · exact dirA_royal C h S hsub hS5 hndS ev hev
  · exact dirA_sf C h7 h S hsub hS5 hndS ev hev
  · exact dirA_quads C h7 h S hsub hS5 hndS ev hev
  · exact dirA_fh C h7 h S hsub hS5 hndS ev hev
  · exact dirA_flush C h7 h S hsub hS5 hndS ev hev
  · exact dirA_straight C h S hsub hS5 hndS ev hev
  · exact dirA_trips C h S hsub hS5 hndS ev hev
  · exact dirA_twopair C h S hsub hS5 hndS ev hev
  · exact dirA_pair C h S hsub hS5 hndS ev hev
  · exact dirA_high C h S hsub hS5 hndS ev hev

-- ------------------------------
-- direction B: a 5-subset attaining the classifier value
-- ------------------------------

theorem cnt_self_pos (S : List Card) (c : Card) (hc : c ∈ S) :
    0 < countOfValue S (rankToValue c.rank) :=
  (cnt_pos_iff S _).mpr ⟨c, hc, rfl⟩

theorem pickCnt_length (C : List Card) (f : Nat → Nat) (vs : List Nat)
    (hnd : vs.Nodup) (hsupp : ∀ v, 0 < f v → v ∈ vs) :
    (pickCnt C f).length =
      (vs.map (fun v => min (f v) (countOfValue C v))).sum := by
  have hcov : ∀ c ∈ pickCnt C f, rankToValue c.rank ∈ vs := by
    intro c hc
    have hpos := cnt_self_pos (pickCnt C f) c hc
    rw [pickCnt_cnt] at hpos
    exact hsupp _ (by omega)
  rw [length_eq_sum_cnt vs (pickCnt C f) hnd hcov]
  congr 1
  apply List.map_congr_left
  intro v hv
  exact pickCnt_cnt C f v

theorem cardsOfSuit_suit (C : List Card) (s : Suit) (c : Card)
    (hc : c ∈ cardsOfSuit C s) : c.suit = s := by
  unfold cardsOfSuit at hc
  exact of_decide_eq_true (List.mem_filter.mp hc).2

theorem cardsOfSuit_sublist (C : List Card) (s : Suit) :
    (cardsOfSuit C s).Sublist C := List.filter_sublist _

theorem two_suits_of_noflush (C : List Card) (hnf : NoFlush7 C) (S : List Card)
    (hsub : S.Sublist C) (hS5 : S.length = 5) :
    ∃ c, c ∈ S ∧ ∃ d, d ∈ S ∧ c.suit ≠ d.suit := by
  by_contra hc
  push_neg at hc
  cases hS : S with
  | nil =>
    rw [hS] at hS5
    cases hS5
  | cons c0 S0 =>
    have hfl : ∀ c ∈ S, c.suit = c0.suit := by
      intro c hcm
      exact hc c hcm c0 (by rw [hS]; simp)
    exact no_flush_subset C hnf S hsub hS5 c0.suit hfl

theorem straightOf_window_vsets (P : List Card) (hh : Nat) (h6 : 6 ≤ hh)
    (hv0 : vset P hh) (hv1 : vset P (hh - 1)) (hv2 : vset P (hh - 2))
    (hv3 : vset P (hh - 3)) (hv4 : vset P (hh - 4)) :
    ∀ i, i < 5 → vset P (hh - 4 + i) := by
  intro i hi
  interval_cases i
  · have he : hh - 4 + 0 = hh - 4 := by omega
    rw [he]
    exact hv4
  · have he : hh - 4 + 1 = hh - 3 := by omega
    rw [he]
    exact hv3
  · have he : hh - 4 + 2 = hh - 2 := by omega
    rw [he]
    exact hv2
  · have he : hh - 4 + 3 = hh - 1 := by omega
    rw [he]
    exact hv1
  · have he : hh - 4 + 4 = hh := by omega
    rw [he]
    exact hv0


theorem pickCnt_length_cnt (C : List Card) (f : Nat → Nat) (vs : List Nat)
    (hnd : vs.Nodup) (hsupp : ∀ v, 0 < f v → v ∈ vs) :
    (pickCnt C f).length =
      (vs.map (fun v => countOfValue (pickCnt C f) v)).sum := by
  have hcov : ∀ c ∈ pickCnt C f, rankToValue c.rank ∈ vs := by
    intro c hc
    have hpos := cnt_self_pos (pickCnt C f) c hc
    rw [pickCnt_cnt] at hpos
    exact hsupp _ (by omega)
  exact length_eq_sum_cnt vs (pickCnt C f) hnd hcov

theorem dirB_quads (C : List Card) (hnd : C.Nodup) (h : S7Quads C) :
    ∃ S, S.Sublist C ∧ S.length = 5 ∧ ∃ ev, evaluateFiveCards S = .ok ev ∧
      ev.rank = (evaluateSevenCards C).rank ∧
      ev.value = (evaluateSevenCards C).value := by
  obtain ⟨qv, kv, hq4, hkv, hkne, -, -, hrk7, hv7⟩ := h
  have hkpos : 0 < countOfValue C kv := (cnt_pos_iff C kv).mpr hkv
  have hsub := pickCnt_sublist C (fun v => if v = qv then 4 else if v = kv then 1 else 0)
  have hndS := hnd.sublist hsub
  have hcq : countOfValue (pickCnt C
      (fun v => if v = qv then 4 else if v = kv then 1 else 0)) qv = 4 := by
    rw [pickCnt_cnt]
    show min (if qv = qv then 4 else if qv = kv then 1 else 0) (countOfValue C qv) = 4
    rw [if_pos rfl, hq4]
    omega
  have hck : countOfValue (pickCnt C
      (fun v => if v = qv then 4 else if v = kv then 1 else 0)) kv = 1 := by
    rw [pickCnt_cnt]
    show min (if kv = qv then 4 else if kv = kv then 1 else 0) (countOfValue C kv) = 1
    rw [if_neg hkne, if_pos rfl]
    omega
  have hS5 : (pickCnt C
      (fun v => if v = qv then 4 else if v = kv then 1 else 0)).length = 5 := by
    rw [pickCnt_length_cnt C _ [qv, kv]
      (by simp; exact fun he => hkne he.symm) ?_]
    · simp only [List.map_cons, List.map_nil, List.sum_cons, List.sum_nil]
      rw [hcq, hck]
      omega
    · intro v hvpos
      by_cases h1 : v = qv
      · simp [h1]
      · by_cases h2 : v = kv
        · simp [h2]
        · rw [if_neg h1, if_neg h2] at hvpos
          omega
  obtain ⟨ev, hok, hrkev, hvlev⟩ := eval5_quads _ hS5 hndS qv kv hcq hck hkne
  exact ⟨_, hsub, hS5, ev, hok, by rw [hrkev, hrk7], by rw [hvlev, hv7]⟩

theorem dirB_fh (C : List Card) (hnd : C.Nodup) (h : S7FH C) :
    ∃ S, S.Sublist C ∧ S.length = 5 ∧ ∃ ev, evaluateFiveCards S = .ok ev ∧
      ev.rank = (evaluateSevenCards C).rank ∧
      ev.value = (evaluateSevenCards C).value := by
  obtain ⟨T, P, hT3, hP2, hPT, -, -, -, -, hrk7, hv7⟩ := h
  have hsub := pickCnt_sublist C (fun v => if v = T then 3 else if v = P then 2 else 0)
  have hndS := hnd.sublist hsub
  have hct : countOfValue (pickCnt C
      (fun v => if v = T then 3 else if v = P then 2 else 0)) T = 3 := by
    rw [pickCnt_cnt]
    show min (if T = T then 3 else if T = P then 2 else 0) (countOfValue C T) = 3
    rw [if_pos rfl, hT3]
    omega
  have hcp : countOfValue (pickCnt C
      (fun v => if v = T then 3 else if v = P then 2 else 0)) P = 2 := by
    rw [pickCnt_cnt]
    show min (if P = T then 3 else if P = P then 2 else 0) (countOfValue C P) = 2
    rw [if_neg hPT, if_pos rfl]
    omega
  have hS5 : (pickCnt C
      (fun v => if v = T then 3 else if v = P then 2 else 0)).length = 5 := by
    rw [pickCnt_length_cnt C _ [T, P]
      (by simp; exact fun he => hPT he.symm) ?_]
    · simp only [List.map_cons, List.map_nil, List.sum_cons, List.sum_nil]
      rw [hct, hcp]
      omega
    · intro v hvpos
      by_cases h1 : v = T
      · simp [h1]
      · by_cases h2 : v = P
        · simp [h2]
        · rw [if_neg h1, if_neg h2] at hvpos
          omega
  obtain ⟨ev, hok, hrkev, hvlev⟩ := eval5_fh _ hS5 hndS T P hct hcp
    (fun he => hPT he.symm)
  exact ⟨_, hsub, hS5, ev, hok, by rw [hrkev, hrk7], by rw [hvlev, hv7]⟩

theorem dirB_trips (C : List Card) (hnd : C.Nodup) (h : S7Trips C) :
    ∃ S, S.Sublist C ∧ S.length = 5 ∧ ∃ ev, evaluateFiveCards S = .ok ev ∧
      ev.rank = (evaluateSevenCards C).rank ∧
      ev.value = (evaluateSevenCards C).value := by
  obtain ⟨t, K1, K2, htc, -, hK1v, hK2v, hK1t, hK2t, h21, -, -, -, -, hrk7, hv7⟩ := h
  have hK1pos : 0 < countOfValue C K1 := (cnt_pos_iff C K1).mpr hK1v
  have hK2pos : 0 < countOfValue C K2 := (cnt_pos_iff C K2).mpr hK2v
  have h12 : K1 ≠ K2 := by omega
  have hsub := pickCnt_sublist C
    (fun v => if v = t then 3 else if v = K1 then 1 else if v = K2 then 1 else 0)
  have hndS := hnd.sublist hsub
  have hct : countOfValue (pickCnt C (fun v => if v = t then 3 else
      if v = K1 then 1 else if v = K2 then 1 else 0)) t = 3 := by
    rw [pickCnt_cnt]
    show min (if t = t then 3 else if t = K1 then 1 else if t = K2 then 1 else 0)
      (countOfValue C t) = 3
    rw [if_pos rfl, htc]
    omega
  have hc1 : countOfValue (pickCnt C (fun v => if v = t then 3 else
      if v = K1 then 1 else if v = K2 then 1 else 0)) K1 = 1 := by
    rw [pickCnt_cnt]
    show min (if K1 = t then 3 else if K1 = K1 then 1 else if K1 = K2 then 1 else 0)
      (countOfValue C K1) = 1
    rw [if_neg hK1t, if_pos rfl]
    omega
  have hc2 : countOfValue (pickCnt C (fun v => if v = t then 3 else
      if v = K1 then 1 else if v = K2 then 1 else 0)) K2 = 1 := by
    rw [pickCnt_cnt]
    show min (if K2 = t then 3 else if K2 = K1 then 1 else if K2 = K2 then 1 else 0)
      (countOfValue C K2) = 1
    rw [if_neg hK2t, if_neg (fun he => h12 he.symm), if_pos rfl]
    omega
  have hS5 : (pickCnt C (fun v => if v = t then 3 else
      if v = K1 then 1 else if v = K2 then 1 else 0)).length = 5 := by
    rw [pickCnt_length_cnt C _ [t, K1, K2] ?_ ?_]
    · simp only [List.map_cons, List.map_nil, List.sum_cons, List.sum_nil]
      rw [hct, hc1, hc2]
      omega
    · refine List.nodup_cons.mpr ⟨?_, List.nodup_cons.mpr ⟨?_, List.nodup_singleton _⟩⟩
      · intro hmem
        rcases List.mem_cons.mp hmem with he | he
        · exact hK1t he.symm
        · rcases List.mem_cons.mp he with he2 | he2
          · exact hK2t he2.symm
          · simp at he2
      · intro hmem
        rcases List.mem_cons.mp hmem with he | he
        · exact h12 he
        · simp at he
    · intro v hvpos
      by_cases h1 : v = t
      · simp [h1]
      · by_cases h2 : v = K1
        · simp [h2]
        · by_cases h3 : v = K2
          · simp [h3]
          · rw [if_neg h1, if_neg h2, if_neg h3] at hvpos
            omega
  obtain ⟨ev, hok, hrkev, hvlev⟩ := eval5_trips _ hS5 hndS t K1 K2 hct hc1 hc2
    h21 hK1t hK2t
  exact ⟨_, hsub, hS5, ev, hok, by rw [hrkev, hrk7], by rw [hvlev, hv7]⟩

theorem dirB_twopair (C : List Card) (hnd : C.Nodup) (h : S7TwoPair C) :
    ∃ S, S.Sublist C ∧ S.length = 5 ∧ ∃ ev, evaluateFiveCards S = .ok ev ∧
      ev.rank = (evaluateSevenCards C).rank ∧
      ev.value = (evaluateSevenCards C).value := by
  obtain ⟨p1, p2, kk, hp1, hp2, h21, -, -, -, hkv, hk1, hk2, -, -, -, hrk7, hv7⟩ := h
  have hkpos : 0 < countOfValue C kk := (cnt_pos_iff C kk).mpr hkv
  have h12 : p1 ≠ p2 := by omega
  have hsub := pickCnt_sublist C
    (fun v => if v = p1 then 2 else if v = p2 then 2 else if v = kk then 1 else 0)
  have hndS := hnd.sublist hsub
  have hc1 : countOfValue (pickCnt C (fun v => if v = p1 then 2 else
      if v = p2 then 2 else if v = kk then 1 else 0)) p1 = 2 := by
    rw [pickCnt_cnt]
    show min (if p1 = p1 then 2 else if p1 = p2 then 2 else if p1 = kk then 1 else 0)
      (countOfValue C p1) = 2
    rw [if_pos rfl, hp1]
    omega
  have hc2 : countOfValue (pickCnt C (fun v => if v = p1 then 2 else
      if v = p2 then 2 else if v = kk then 1 else 0)) p2 = 2 := by
    rw [pickCnt_cnt]
    show min (if p2 = p1 then 2 else if p2 = p2 then 2 else if p2 = kk then 1 else 0)
      (countOfValue C p2) = 2
    rw [if_neg (fun he => h12 he.symm), if_pos rfl, hp2]
    omega
  have hc3 : countOfValue (pickCnt C (fun v => if v = p1 then 2 else
      if v = p2 then 2 else if v = kk then 1 else 0)) kk = 1 := by
    rw [pickCnt_cnt]
    show min (if kk = p1 then 2 else if kk = p2 then 2 else if kk = kk then 1 else 0)
      (countOfValue C kk) = 1
    rw [if_neg hk1, if_neg hk2, if_pos rfl]
    omega
  have hS5 : (pickCnt C (fun v => if v = p1 then 2 else
      if v = p2 then 2 else if v = kk then 1 else 0)).length = 5 := by
    rw [pickCnt_length_cnt C _ [p1, p2, kk] ?_ ?_]
    · simp only [List.map_cons, List.map_nil, List.sum_cons, List.sum_nil]
      rw [hc1, hc2, hc3]
      omega
    · refine List.nodup_cons.mpr ⟨?_, List.nodup_cons.mpr ⟨?_, List.nodup_singleton _⟩⟩
      · intro hmem
        rcases List.mem_cons.mp hmem with he | he
        · exact h12 he
        · rcases List.mem_cons.mp he with he2 | he2
          · exact hk1 he2.symm
          · simp at he2
      · intro hmem
        rcases List.mem_cons.mp hmem with he | he
        · exact hk2 he.symm
        · simp at he
    · intro v hvpos
      by_cases h1 : v = p1
      · simp [h1]
      · by_cases h2 : v = p2
        · simp [h2]
        · by_cases h3 : v = kk
          · simp [h3]
          · rw [if_neg h1, if_neg h2, if_neg h3] at hvpos
            omega
  obtain ⟨ev, hok, hrkev, hvlev⟩ := eval5_twopair _ hS5 hndS p1 p2 kk hc1 hc2 hc3
    h21 hk1 hk2
  exact ⟨_, hsub, hS5, ev, hok, by rw [hrkev, hrk7], by rw [hvlev, hv7]⟩

theorem dirB_pair (C : List Card) (hnd : C.Nodup) (h : S7Pair C) :
    ∃ S, S.Sublist C ∧ S.length = 5 ∧ ∃ ev, evaluateFiveCards S = .ok ev ∧
      ev.rank = (evaluateSevenCards C).rank ∧
      ev.value = (evaluateSevenCards C).value := by
  obtain ⟨p, k1, k2, k3, hpc, -, hv1, hv2, hv3, hn1, hn2, hn3, h32, h21,
    -, -, -, -, -, hrk7, hv7⟩ := h
  have hpos1 : 0 < countOfValue C k1 := (cnt_pos_iff C k1).mpr hv1
  have hpos2 : 0 < countOfValue C k2 := (cnt_pos_iff C k2).mpr hv2
  have hpos3 : 0 < countOfValue C k3 := (cnt_pos_iff C k3).mpr hv3
  have h12 : k1 ≠ k2 := by omega
  have h13 : k1 ≠ k3 := by omega
  have h23 : k2 ≠ k3 := by omega
  have hsub := pickCnt_sublist C (fun v => if v = p then 2 else if v = k1 then 1
    else if v = k2 then 1 else if v = k3 then 1 else 0)
  have hndS := hnd.sublist hsub
  have hcp : countOfValue (pickCnt C (fun v => if v = p then 2 else
      if v = k1 then 1 else if v = k2 then 1 else if v = k3 then 1 else 0)) p = 2 := by
    rw [pickCnt_cnt]
    show min (if p = p then 2 else if p = k1 then 1 else if p = k2 then 1 else
      if p = k3 then 1 else 0) (countOfValue C p) = 2
    rw [if_pos rfl, hpc]
    omega
  have hc1 : countOfValue (pickCnt C (fun v => if v = p then 2 else
      if v = k1 then 1 else if v = k2 then 1 else if v = k3 then 1 else 0)) k1 = 1 := by
    rw [pickCnt_cnt]
    show min (if k1 = p then 2 else if k1 = k1 then 1 else if k1 = k2 then 1 else
      if k1 = k3 then 1 else 0) (countOfValue C k1) = 1
    rw [if_neg hn1, if_pos rfl]
    omega
  have hc2 : countOfValue (pickCnt C (fun v => if v = p then 2 else
      if v = k1 then 1 else if v = k2 then 1 else if v = k3 then 1 else 0)) k2 = 1 := by
    rw [pickCnt_cnt]
    show min (if k2 = p then 2 else if k2 = k1 then 1 else if k2 = k2 then 1 else
      if k2 = k3 then 1 else 0) (countOfValue C k2) = 1
    rw [if_neg hn2, if_neg (fun he => h12 he.symm), if_pos rfl]
    omega
  have hc3 : countOfValue (pickCnt C (fun v => if v = p then 2 else
      if v = k1 then 1 else if v = k2 then 1 else if v = k3 then 1 else 0)) k3 = 1 := by
    rw [pickCnt_cnt]
    show min (if k3 = p then 2 else if k3 = k1 then 1 else if k3 = k2 then 1 else
      if k3 = k3 then 1 else 0) (countOfValue C k3) = 1
    rw [if_neg hn3, if_neg (fun he => h13 he.symm),
      if_neg (fun he => h23 he.symm), if_pos rfl]
    omega
  have hS5 : (pickCnt C (fun v => if v = p then 2 else if v = k1 then 1
      else if v = k2 then 1 else if v = k3 then 1 else 0)).length = 5 := by
    rw [pickCnt_length_cnt C _ [p, k1, k2, k3] ?_ ?_]
    · simp only [List.map_cons, List.map_nil, List.sum_cons, List.sum_nil]
      rw [hcp, hc1, hc2, hc3]
      omega
    · refine List.nodup_cons.mpr ⟨?_, List.nodup_cons.mpr ⟨?_,
        List.nodup_cons.mpr ⟨?_, List.nodup_singleton _⟩⟩⟩
      · intro hmem
        rcases List.mem_cons.mp hmem with he | he
        · exact hn1 he.symm
        · rcases List.mem_cons.mp he with he2 | he2
          · exact hn2 he2.symm
          · rcases List.mem_cons.mp he2 with he3 | he3
            · exact hn3 he3.symm
            · simp at he3
      · intro hmem
        rcases List.mem_cons.mp hmem with he | he
        · exact h12 he
        · rcases List.mem_cons.mp he with he2 | he2
          · exact h13 he2
          · simp at he2
      · intro hmem
        rcases List.mem_cons.mp hmem with he | he
        · exact h23 he
        · simp at he
    · intro v hvpos
      by_cases h1 : v = p
      · simp [h1]
      · by_cases h2 : v = k1
        · simp [h2]
        · by_cases h3 : v = k2
          · simp [h3]
          · by_cases h4 : v = k3
            · simp [h4]
            · rw [if_neg h1, if_neg h2, if_neg h3, if_neg h4] at hvpos
              omega
  obtain ⟨ev, hok, hrkev, hvlev⟩ := eval5_pair _ hS5 hndS p k1 k2 k3 hcp hc1 hc2 hc3
    h32 h21 hn1 hn2 hn3
  exact ⟨_, hsub, hS5, ev, hok, by rw [hrkev, hrk7], by rw [hvlev, hv7]⟩

theorem dirB_royal (C : List Card) (hnd : C.Nodup) (h : S7Royal C) :
    ∃ S, S.Sublist C ∧ S.length = 5 ∧ ∃ ev, evaluateFiveCards S = .ok ev ∧
      ev.rank = (evaluateSevenCards C).rank ∧
      ev.value = (evaluateSevenCards C).value := by
  obtain ⟨⟨s, h5s, hstr⟩, hrk7, hv7⟩ := h
  have hfive : vset (cardsOfSuit C s) 14 ∧ vset (cardsOfSuit C s) 13 ∧
      vset (cardsOfSuit C s) 12 ∧ vset (cardsOfSuit C s) 11 ∧
      vset (cardsOfSuit C s) 10 := by
    rcases hstr with ⟨-, -, a, b, c, d, e⟩ | ⟨habs, -⟩
    · exact ⟨a, b, c, d, e⟩
    · exact absurd habs (by decide)
  obtain ⟨hv14, hv13, hv12, hv11, hv10⟩ := hfive
  have hsubP := pickCnt_sublist (cardsOfSuit C s)
    (fun v => if 10 ≤ v ∧ v ≤ 14 then 1 else 0)
  have hsub := hsubP.trans (cardsOfSuit_sublist C s)
  have hndS := (hnd.sublist (cardsOfSuit_sublist C s)).sublist hsubP
  have hfl : ∀ c ∈ pickCnt (cardsOfSuit C s)
      (fun v => if 10 ≤ v ∧ v ≤ 14 then 1 else 0), c.suit = s :=
    fun c hc => cardsOfSuit_suit C s c (hsubP.mem hc)
  have hcone : ∀ v, 10 ≤ v → v ≤ 14 → vset (cardsOfSuit C s) v →
      countOfValue (pickCnt (cardsOfSuit C s)
        (fun v => if 10 ≤ v ∧ v ≤ 14 then 1 else 0)) v = 1 := by
    intro v hge hle hvs
    rw [pickCnt_cnt]
    show min (if 10 ≤ v ∧ v ≤ 14 then 1 else 0) _ = 1
    rw [if_pos ⟨hge, hle⟩]
    have := (cnt_pos_iff _ v).mpr hvs
    omega
  have hc14 := hcone 14 (by omega) (by omega) hv14
  have hc13 := hcone 13 (by omega) (by omega) hv13
  have hc12 := hcone 12 (by omega) (by omega) hv12
  have hc11 := hcone 11 (by omega) (by omega) hv11
  have hc10 := hcone 10 (by omega) (by omega) hv10
  have hS5 : (pickCnt (cardsOfSuit C s)
      (fun v => if 10 ≤ v ∧ v ≤ 14 then 1 else 0)).length = 5 := by
    rw [pickCnt_length_cnt _ _ [14, 13, 12, 11, 10] (by decide) ?_]
    · simp only [List.map_cons, List.map_nil, List.sum_cons, List.sum_nil]
      rw [hc14, hc13, hc12, hc11, hc10]
      omega
    · intro v hvpos
      by_cases hcond : 10 ≤ v ∧ v ≤ 14
      · simp only [List.mem_cons, List.mem_singleton]
        omega
      · rw [if_neg hcond] at hvpos
        omega
  have hvS : ∀ v, countOfValue (pickCnt (cardsOfSuit C s)
      (fun v => if 10 ≤ v ∧ v ≤ 14 then 1 else 0)) v = 1 →
      vset (pickCnt (cardsOfSuit C s)
        (fun v => if 10 ≤ v ∧ v ≤ 14 then 1 else 0)) v :=
    fun v hv => (cnt_pos_iff _ v).mp (by omega)
  obtain ⟨ev, hok, hrkev, hvlev⟩ := eval5_royal _ hS5 s hfl
    (hvS 10 hc10) (hvS 11 hc11) (hvS 12 hc12) (hvS 13 hc13) (hvS 14 hc14)
  exact ⟨_, hsub, hS5, ev, hok, by rw [hrkev, hrk7], by rw [hvlev, hv7]⟩

theorem dirB_sf (C : List Card) (hnd : C.Nodup) (h : S7SF C) :
    ∃ S, S.Sublist C ∧ S.length = 5 ∧ ∃ ev, evaluateFiveCards S = .ok ev ∧
      ev.rank = (evaluateSevenCards C).rank ∧
      ev.value = (evaluateSevenCards C).value := by
  obtain ⟨s, hh, h5s, hstr, hle13, -, hrk7, hv7⟩ := h
  rcases hstr with ⟨h6, h14, hv0, hv1, hv2, hv3, hv4⟩ | ⟨h5e, hw14, hw2, hw3, hw4, hw5⟩
  · -- window straight flush
    have hsubP := pickCnt_sublist (cardsOfSuit C s)
      (fun v => if hh - 4 ≤ v ∧ v ≤ hh then 1 else 0)
    have hsub := hsubP.trans (cardsOfSuit_sublist C s)
    have hndS := (hnd.sublist (cardsOfSuit_sublist C s)).sublist hsubP
    have hfl : ∀ c ∈ pickCnt (cardsOfSuit C s)
        (fun v => if hh - 4 ≤ v ∧ v ≤ hh then 1 else 0), c.suit = s :=
      fun c hc => cardsOfSuit_suit C s c (hsubP.mem hc)
    have hwin := straightOf_window_vsets (cardsOfSuit C s) hh h6 hv0 hv1 hv2 hv3 hv4
    have hcnt : ∀ i, i < 5 → countOfValue (pickCnt (cardsOfSuit C s)
        (fun v => if hh - 4 ≤ v ∧ v ≤ hh then 1 else 0)) (hh - 4 + i) = 1 := by
      intro i hi
      rw [pickCnt_cnt]
      show min (if hh - 4 ≤ hh - 4 + i ∧ hh - 4 + i ≤ hh then 1 else 0) _ = 1
      rw [if_pos ⟨by omega, by omega⟩]
      have := (cnt_pos_iff _ _).mpr (hwin i hi)
      omega
    have hcov : ∀ c ∈ pickCnt (cardsOfSuit C s)
        (fun v => if hh - 4 ≤ v ∧ v ≤ hh then 1 else 0),
        ∃ i, i < 5 ∧ rankToValue c.rank = hh - 4 + i := by
      intro c hc
      have hpos := cnt_self_pos _ c hc
      rw [pickCnt_cnt] at hpos
      by_cases hcond : hh - 4 ≤ rankToValue c.rank ∧ rankToValue c.rank ≤ hh
      · exact ⟨rankToValue c.rank - (hh - 4), by omega, by omega⟩
      · rw [if_neg hcond] at hpos
        simp at hpos
    have g0 : countOfValue (pickCnt (cardsOfSuit C s)
        (fun v => if hh - 4 ≤ v ∧ v ≤ hh then 1 else 0)) hh = 1 := by
      have := hcnt 4 (by omega)
      rwa [show hh - 4 + 4 = hh by omega] at this
    have g1 : countOfValue (pickCnt (cardsOfSuit C s)
        (fun v => if hh - 4 ≤ v ∧ v ≤ hh then 1 else 0)) (hh - 1) = 1 := by
      have := hcnt 3 (by omega)
      rwa [show hh - 4 + 3 = hh - 1 by omega] at this
    have g2 : countOfValue (pickCnt (cardsOfSuit C s)
        (fun v => if hh - 4 ≤ v ∧ v ≤ hh then 1 else 0)) (hh - 2) = 1 := by
      have := hcnt 2 (by omega)
      rwa [show hh - 4 + 2 = hh - 2 by omega] at this
    have g3 : countOfValue (pickCnt (cardsOfSuit C s)
        (fun v => if hh - 4 ≤ v ∧ v ≤ hh then 1 else 0)) (hh - 3) = 1 := by
      have := hcnt 1 (by omega)
      rwa [show hh - 4 + 1 = hh - 3 by omega] at this
    have g4 : countOfValue (pickCnt (cardsOfSuit C s)
        (fun v => if hh - 4 ≤ v ∧ v ≤ hh then 1 else 0)) (hh - 4) = 1 := by
      have := hcnt 0 (by omega)
      rwa [show hh - 4 + 0 = hh - 4 by omega] at this
    have hS5 : (pickCnt (cardsOfSuit C s)
        (fun v => if hh - 4 ≤ v ∧ v ≤ hh then 1 else 0)).length = 5 := by
      rw [pickCnt_length_cnt _ _ [hh, hh - 1, hh - 2, hh - 3, hh - 4] ?_ ?_]
      · simp only [List.map_cons, List.map_nil, List.sum_cons, List.sum_nil]
        rw [g0, g1, g2, g3, g4]
        omega
      · refine List.nodup_cons.mpr ⟨?_, List.nodup_cons.mpr ⟨?_,
          List.nodup_cons.mpr ⟨?_, List.nodup_cons.mpr ⟨?_,
            List.nodup_singleton _⟩⟩⟩⟩ <;>
          (intro hmem
           simp only [List.mem_cons, List.mem_singleton,
             List.not_mem_nil, or_false] at hmem
           omega)
      · intro v hvpos
        by_cases hcond : hh - 4 ≤ v ∧ v ≤ hh
        · simp only [List.mem_cons, List.mem_singleton]
          omega
        · rw [if_neg hcond] at hvpos
          omega
    obtain ⟨ev, hok, hrkev, hvlev⟩ := eval5_sf_window _ hS5 s hfl (hh - 4)
      (by omega) hcnt hcov
    refine ⟨_, hsub, hS5, ev, hok, by rw [hrkev, hrk7], ?_⟩
    rw [hvlev, hv7, show hh - 4 + 4 = hh by omega]
  · -- wheel straight flush
    subst h5e
    have hsubP := pickCnt_sublist (cardsOfSuit C s)
      (fun v => if v = 14 ∨ (2 ≤ v ∧ v ≤ 5) then 1 else 0)
    have hsub := hsubP.trans (cardsOfSuit_sublist C s)
    have hndS := (hnd.sublist (cardsOfSuit_sublist C s)).sublist hsubP
    have hfl : ∀ c ∈ pickCnt (cardsOfSuit C s)
        (fun v => if v = 14 ∨ (2 ≤ v ∧ v ≤ 5) then 1 else 0), c.suit = s :=
      fun c hc => cardsOfSuit_suit C s c (hsubP.mem hc)
    have hcone : ∀ v, (v = 14 ∨ (2 ≤ v ∧ v ≤ 5)) → vset (cardsOfSuit C s) v →
        countOfValue (pickCnt (cardsOfSuit C s)
          (fun v => if v = 14 ∨ (2 ≤ v ∧ v ≤ 5) then 1 else 0)) v = 1 := by
      intro v hcond hvs
      rw [pickCnt_cnt]
      show min (if v = 14 ∨ (2 ≤ v ∧ v ≤ 5) then 1 else 0) _ = 1
      rw [if_pos hcond]
      have := (cnt_pos_iff _ v).mpr hvs
      omega
    have g14 := hcone 14 (Or.inl rfl) hw14
    have g2 := hcone 2 (by omega) hw2
    have g3 := hcone 3 (by omega) hw3
    have g4 := hcone 4 (by omega) hw4
    have g5 := hcone 5 (by omega) hw5
    have hcnt : ∀ v, 2 ≤ v → v ≤ 5 → countOfValue (pickCnt (cardsOfSuit C s)
        (fun v => if v = 14 ∨ (2 ≤ v ∧ v ≤ 5) then 1 else 0)) v = 1 := by
      intro v h2 h5
      interval_cases v
      · exact g2
      · exact g3
      · exact g4
      · exact g5
    have hcov : ∀ c ∈ pickCnt (cardsOfSuit C s)
        (fun v => if v = 14 ∨ (2 ≤ v ∧ v ≤ 5) then 1 else 0),
        rankToValue c.rank = 14 ∨
          (2 ≤ rankToValue c.rank ∧ rankToValue c.rank ≤ 5) := by
      intro c hc
      have hpos := cnt_self_pos _ c hc
      rw [pickCnt_cnt] at hpos
      by_cases hcond : rankToValue c.rank = 14 ∨
          (2 ≤ rankToValue c.rank ∧ rankToValue c.rank ≤ 5)
      · exact hcond
      · rw [if_neg hcond] at hpos
        simp at hpos
    have hS5 : (pickCnt (cardsOfSuit C s)
        (fun v => if v = 14 ∨ (2 ≤ v ∧ v ≤ 5) then 1 else 0)).length = 5 := by
      rw [pickCnt_length_cnt _ _ [14, 2, 3, 4, 5] (by decide) ?_]
      · simp only [List.map_cons, List.map_nil, List.sum_cons, List.sum_nil]
        rw [g14, g2, g3, g4, g5]
        omega
      · intro v hvpos
        by_cases hcond : v = 14 ∨ (2 ≤ v ∧ v ≤ 5)
        · simp only [List.mem_cons, List.mem_singleton]
          omega
        · rw [if_neg hcond] at hvpos
          omega
    obtain ⟨ev, hok, hrkev, hvlev⟩ := eval5_sf_wheel _ hS5 hndS s hfl g14 hcnt hcov
    exact ⟨_, hsub, hS5, ev, hok, by rw [hrkev, hrk7], by rw [hvlev, hv7]⟩

theorem dirB_straight (C : List Card) (hnd : C.Nodup) (h : S7Straight C) :
    ∃ S, S.Sublist C ∧ S.length = 5 ∧ ∃ ev, evaluateFiveCards S = .ok ev ∧
      ev.rank = (evaluateSevenCards C).rank ∧
      ev.value = (evaluateSevenCards C).value := by
  obtain ⟨hh, hstr, -, hnf, -, -, hrk7, hv7⟩ := h
  rcases hstr with ⟨h6, h14, hv0, hv1, hv2, hv3, hv4⟩ | ⟨h5e, hw14, hw2, hw3, hw4, hw5⟩
  · -- window straight
    have hsub := pickCnt_sublist C (fun v => if hh - 4 ≤ v ∧ v ≤ hh then 1 else 0)
    have hndS := hnd.sublist hsub
    have hwin := straightOf_window_vsets C hh h6 hv0 hv1 hv2 hv3 hv4
    have hcnt : ∀ i, i < 5 → countOfValue (pickCnt C
        (fun v => if hh - 4 ≤ v ∧ v ≤ hh then 1 else 0)) (hh - 4 + i) = 1 := by
      intro i hi
      rw [pickCnt_cnt]
      show min (if hh - 4 ≤ hh - 4 + i ∧ hh - 4 + i ≤ hh then 1 else 0) _ = 1
      rw [if_pos ⟨by omega, by omega⟩]
      have := (cnt_pos_iff _ _).mpr (hwin i hi)
      omega
    have hcov : ∀ c ∈ pickCnt C (fun v => if hh - 4 ≤ v ∧ v ≤ hh then 1 else 0),
        ∃ i, i < 5 ∧ rankToValue c.rank = hh - 4 + i := by
      intro c hc
      have hpos := cnt_self_pos _ c hc
      rw [pickCnt_cnt] at hpos
      by_cases hcond : hh - 4 ≤ rankToValue c.rank ∧ rankToValue c.rank ≤ hh
      · exact ⟨rankToValue c.rank - (hh - 4), by omega, by omega⟩
      · rw [if_neg hcond] at hpos
        simp at hpos
    have g0 : countOfValue (pickCnt C
        (fun v => if hh - 4 ≤ v ∧ v ≤ hh then 1 else 0)) hh = 1 := by
      have := hcnt 4 (by omega)
      rwa [show hh - 4 + 4 = hh by omega] at this
    have g1 : countOfValue (pickCnt C
        (fun v => if hh - 4 ≤ v ∧ v ≤ hh then 1 else 0)) (hh - 1) = 1 := by
      have := hcnt 3 (by omega)
      rwa [show hh - 4 + 3 = hh - 1 by omega] at this
    have g2 : countOfValue (pickCnt C
        (fun v => if hh - 4 ≤ v ∧ v ≤ hh then 1 else 0)) (hh - 2) = 1 := by
      have := hcnt 2 (by omega)
      rwa [show hh - 4 + 2 = hh - 2 by omega] at this
    have g3 : countOfValue (pickCnt C
        (fun v => if hh - 4 ≤ v ∧ v ≤ hh then 1 else 0)) (hh - 3) = 1 := by
      have := hcnt 1 (by omega)
      rwa [show hh - 4 + 1 = hh - 3 by omega] at this
    have g4 : countOfValue (pickCnt C
        (fun v => if hh - 4 ≤ v ∧ v ≤ hh then 1 else 0)) (hh - 4) = 1 := by
      have := hcnt 0 (by omega)
      rwa [show hh - 4 + 0 = hh - 4 by omega] at this
    have hS5 : (pickCnt C
        (fun v => if hh - 4 ≤ v ∧ v ≤ hh then 1 else 0)).length = 5 := by
      rw [pickCnt_length_cnt _ _ [hh, hh - 1, hh - 2, hh - 3, hh - 4] ?_ ?_]
      · simp only [List.map_cons, List.map_nil, List.sum_cons, List.sum_nil]
        rw [g0, g1, g2, g3, g4]
        omega
      · refine List.nodup_cons.mpr ⟨?_, List.nodup_cons.mpr ⟨?_,
          List.nodup_cons.mpr ⟨?_, List.nodup_cons.mpr ⟨?_,
            List.nodup_singleton _⟩⟩⟩⟩ <;>
          (intro hmem
           simp only [List.mem_cons, List.mem_singleton,
             List.not_mem_nil, or_false] at hmem
           omega)
      · intro v hvpos
        by_cases hcond : hh - 4 ≤ v ∧ v ≤ hh
        · simp only [List.mem_cons, List.mem_singleton]
          omega
        · rw [if_neg hcond] at hvpos
          omega
    obtain ⟨c, hcS, d, hdS, hcd⟩ := two_suits_of_noflush C hnf _ hsub hS5
    obtain ⟨ev, hok, hrkev, hvlev⟩ := eval5_straight_window _ hS5 hndS (hh - 4)
      hcnt hcov c d hcS hdS hcd
    refine ⟨_, hsub, hS5, ev, hok, by rw [hrkev, hrk7], ?_⟩
    rw [hvlev, hv7, show hh - 4 + 4 = hh by omega]
  · -- wheel straight
    subst h5e
    have hsub := pickCnt_sublist C
      (fun v => if v = 14 ∨ (2 ≤ v ∧ v ≤ 5) then 1 else 0)
    have hndS := hnd.sublist hsub
    have hcone : ∀ v, (v = 14 ∨ (2 ≤ v ∧ v ≤ 5)) → vset C v →
        countOfValue (pickCnt C
          (fun v => if v = 14 ∨ (2 ≤ v ∧ v ≤ 5) then 1 else 0)) v = 1 := by
      intro v hcond hvs
      rw [pickCnt_cnt]
      show min (if v = 14 ∨ (2 ≤ v ∧ v ≤ 5) then 1 else 0) _ = 1
      rw [if_pos hcond]
      have := (cnt_pos_iff _ v).mpr hvs
      omega
    have g14 := hcone 14 (Or.inl rfl) hw14
    have g2 := hcone 2 (by omega) hw2
    have g3 := hcone 3 (by omega) hw3
    have g4 := hcone 4 (by omega) hw4
    have g5 := hcone 5 (by omega) hw5
    have hcnt : ∀ v, 2 ≤ v → v ≤ 5 → countOfValue (pickCnt C
        (fun v => if v = 14 ∨ (2 ≤ v ∧ v ≤ 5) then 1 else 0)) v = 1 := by
      intro v h2 h5
      interval_cases v
      · exact g2
      · exact g3
      · exact g4
      · exact g5
    have hcov : ∀ c ∈ pickCnt C
        (fun v => if v = 14 ∨ (2 ≤ v ∧ v ≤ 5) then 1 else 0),
        rankToValue c.rank = 14 ∨
          (2 ≤ rankToValue c.rank ∧ rankToValue c.rank ≤ 5) := by
      intro c hc
      have hpos := cnt_self_pos _ c hc
      rw [pickCnt_cnt] at hpos
      by_cases hcond : rankToValue c.rank = 14 ∨
          (2 ≤ rankToValue c.rank ∧ rankToValue c.rank ≤ 5)
      · exact hcond
      · rw [if_neg hcond] at hpos
        simp at hpos
    have hS5 : (pickCnt C
        (fun v => if v = 14 ∨ (2 ≤ v ∧ v ≤ 5) then 1 else 0)).length = 5 := by
      rw [pickCnt_length_cnt _ _ [14, 2, 3, 4, 5] (by decide) ?_]
      · simp only [List.map_cons, List.map_nil, List.sum_cons, List.sum_nil]
        rw [g14, g2, g3, g4, g5]
        omega
      · intro v hvpos
        by_cases hcond : v = 14 ∨ (2 ≤ v ∧ v ≤ 5)
        · simp only [List.mem_cons, List.mem_singleton]
          omega
        · rw [if_neg hcond] at hvpos
          omega
    obtain ⟨c, hcS, d, hdS, hcd⟩ := two_suits_of_noflush C hnf _ hsub hS5
    obtain ⟨ev, hok, hrkev, hvlev⟩ := eval5_straight_wheel _ hS5 hndS g14 hcnt hcov
      c d hcS hdS hcd
    exact ⟨_, hsub, hS5, ev, hok, by rw [hrkev, hrk7], by rw [hvlev, hv7]⟩

theorem dirB_high (C : List Card) (hnd : C.Nodup) (h : S7High C) :
    ∃ S, S.Sublist C ∧ S.length = 5 ∧ ∃ ev, evaluateFiveCards S = .ok ev ∧
      ev.rank = (evaluateSevenCards C).rank ∧
      ev.value = (evaluateSevenCards C).value := by
  obtain ⟨a1, a2, a3, a4, a5, -, hu1, hu2, hu3, hu4, hu5, hba, hcb, hdc, hed,
    -, -, -, -, -, hnf, hnost, hrk7, hv7⟩ := h
  have hsub := pickCnt_sublist C (fun v => if v = a1 then 1 else if v = a2 then 1
    else if v = a3 then 1 else if v = a4 then 1 else if v = a5 then 1 else 0)
  have hndS := hnd.sublist hsub
  have hcone : ∀ w, (w = a1 ∨ w = a2 ∨ w = a3 ∨ w = a4 ∨ w = a5) → vset C w →
      countOfValue (pickCnt C (fun v => if v = a1 then 1 else if v = a2 then 1
        else if v = a3 then 1 else if v = a4 then 1 else if v = a5 then 1 else 0))
        w = 1 := by
    intro w hcond hvs
    rw [pickCnt_cnt]
    show min (if w = a1 then 1 else if w = a2 then 1 else if w = a3 then 1 else
      if w = a4 then 1 else if w = a5 then 1 else 0) _ = 1
    have hpos := (cnt_pos_iff _ w).mpr hvs
    have hgen : (if w = a1 then 1 else if w = a2 then 1 else if w = a3 then 1 else
        if w = a4 then 1 else if w = a5 then 1 else 0) = 1 := by
      by_cases h1 : w = a1
      · rw [if_pos h1]
      · rw [if_neg h1]
        by_cases h2 : w = a2
        · rw [if_pos h2]
        · rw [if_neg h2]
          by_cases h3 : w = a3
          · rw [if_pos h3]
          · rw [if_neg h3]
            by_cases h4 : w = a4
            · rw [if_pos h4]
            · rw [if_neg h4]
              by_cases h5 : w = a5
              · rw [if_pos h5]
              · exact absurd hcond (by tauto)
    rw [hgen]
    omega
  have gc1 := hcone a1 (by omega) hu1
  have gc2 := hcone a2 (by omega) hu2
  have gc3 := hcone a3 (by omega) hu3
  have gc4 := hcone a4 (by omega) hu4
  have gc5 := hcone a5 (by omega) hu5
  have hS5 : (pickCnt C (fun v => if v = a1 then 1 else if v = a2 then 1
      else if v = a3 then 1 else if v = a4 then 1 else
        if v = a5 then 1 else 0)).length = 5 := by
    rw [pickCnt_length_cnt _ _ [a1, a2, a3, a4, a5] ?_ ?_]
    · simp only [List.map_cons, List.map_nil, List.sum_cons, List.sum_nil]
      rw [gc1, gc2, gc3, gc4, gc5]
      omega
    · refine List.nodup_cons.mpr ⟨?_, List.nodup_cons.mpr ⟨?_,
        List.nodup_cons.mpr ⟨?_, List.nodup_cons.mpr ⟨?_,
          List.nodup_singleton _⟩⟩⟩⟩ <;>
        (intro hmem
         simp only [List.mem_cons, List.mem_singleton,
           List.not_mem_nil, or_false] at hmem
         omega)
    · intro v hvpos
      by_cases h1 : v = a1
      · simp [h1]
      · by_cases h2 : v = a2
        · simp [h2]
        · by_cases h3 : v = a3
          · simp [h3]
          · by_cases h4 : v = a4
            · simp [h4]
            · by_cases h5 : v = a5
              · simp [h5]
              · rw [if_neg h1, if_neg h2, if_neg h3, if_neg h4, if_neg h5] at hvpos
                omega
  have hSsupp : ∀ v, vset (pickCnt C (fun v => if v = a1 then 1 else
      if v = a2 then 1 else if v = a3 then 1 else if v = a4 then 1 else
        if v = a5 then 1 else 0)) v →
      (v = a1 ∨ v = a2 ∨ v = a3 ∨ v = a4 ∨ v = a5) := by
    intro v hv
    have hpos := (cnt_pos_iff _ v).mpr hv
    rw [pickCnt_cnt] at hpos
    by_cases h1 : v = a1
    · exact Or.inl h1
    · by_cases h2 : v = a2
      · exact Or.inr (Or.inl h2)
      · by_cases h3 : v = a3
        · exact Or.inr (Or.inr (Or.inl h3))
        · by_cases h4 : v = a4
          · exact Or.inr (Or.inr (Or.inr (Or.inl h4)))
          · by_cases h5 : v = a5
            · exact Or.inr (Or.inr (Or.inr (Or.inr h5)))
            · rw [if_neg h1, if_neg h2, if_neg h3, if_neg h4, if_neg h5] at hpos
              simp at hpos
  have h1S : ∀ v, vset (pickCnt C (fun v => if v = a1 then 1 else
      if v = a2 then 1 else if v = a3 then 1 else if v = a4 then 1 else
        if v = a5 then 1 else 0)) v →
      countOfValue (pickCnt C (fun v => if v = a1 then 1 else
        if v = a2 then 1 else if v = a3 then 1 else if v = a4 then 1 else
          if v = a5 then 1 else 0)) v = 1 := by
    intro v hv
    rcases hSsupp v hv with rfl | rfl | rfl | rfl | rfl
    · exact gc1
    · exact gc2
    · exact gc3
    · exact gc4
    · exact gc5
  have hnoS : ∀ hh, ¬ StraightOf (pickCnt C (fun v => if v = a1 then 1 else
      if v = a2 then 1 else if v = a3 then 1 else if v = a4 then 1 else
        if v = a5 then 1 else 0)) hh := by
    intro hh hst
    exact hnost hh (straightOf_sub _ C (fun c hc => hsub.mem hc) hh hst)
  obtain ⟨c, hcS, d, hdS, hcd⟩ := two_suits_of_noflush C hnf _ hsub hS5
  obtain ⟨ev, hok, hrkev, hvlev⟩ := eval5_high _ hS5 hndS h1S hnoS c d hcS hdS hcd
  have hUeq : uniqueValuesDesc (pickCnt C (fun v => if v = a1 then 1 else
      if v = a2 then 1 else if v = a3 then 1 else if v = a4 then 1 else
        if v = a5 then 1 else 0)) = [a1, a2, a3, a4, a5] := by
    haveI : IsAntisymm Nat (fun a b : Nat => a ≥ b) :=
      ⟨fun a b ha hb => Nat.le_antisymm hb ha⟩
    have hperm : (uniqueValuesDesc (pickCnt C (fun v => if v = a1 then 1 else
        if v = a2 then 1 else if v = a3 then 1 else if v = a4 then 1 else
          if v = a5 then 1 else 0))).Perm [a1, a2, a3, a4, a5] := by
      refine perm_of_nodup_mutual_sub (uniqDesc_nodup _) ?_ ?_ ?_
      · refine List.nodup_cons.mpr ⟨?_, List.nodup_cons.mpr ⟨?_,
          List.nodup_cons.mpr ⟨?_, List.nodup_cons.mpr ⟨?_,
            List.nodup_singleton _⟩⟩⟩⟩ <;>
          (intro hmem
           simp only [List.mem_cons, List.mem_singleton,
             List.not_mem_nil, or_false] at hmem
           omega)
      · intro x hx
        have := hSsupp x ((uniqDesc_mem _ x).mp hx)
        simp only [List.mem_cons, List.mem_singleton]
        tauto
      · intro x hx
        simp only [List.mem_cons, List.not_mem_nil, or_false] at hx
        refine (uniqDesc_mem _ x).mpr ((cnt_pos_iff _ x).mp ?_)
        rcases hx with rfl | rfl | rfl | rfl | rfl
        · omega
        · omega
        · omega
        · omega
        · omega
    have hs1 : (uniqueValuesDesc (pickCnt C (fun v => if v = a1 then 1 else
        if v = a2 then 1 else if v = a3 then 1 else if v = a4 then 1 else
          if v = a5 then 1 else 0))).Pairwise (fun a b : Nat => a ≥ b) :=
      List.Pairwise.imp (fun hgt => Nat.le_of_lt hgt) (uniqDesc_sorted _)
    have hs2 : ([a1, a2, a3, a4, a5] : List Nat).Pairwise
        (fun a b : Nat => a ≥ b) := by
      refine List.pairwise_cons.mpr ⟨?_, List.pairwise_cons.mpr ⟨?_,
        List.pairwise_cons.mpr ⟨?_, List.pairwise_cons.mpr ⟨?_,
          List.pairwise_singleton _ _⟩⟩⟩⟩ <;>
        (intro x hx
         simp only [List.mem_cons, List.mem_singleton,
           List.not_mem_nil, or_false] at hx
         omega)
    exact List.eq_of_perm_of_sorted hperm hs1 hs2
  refine ⟨_, hsub, hS5, ev, hok, by rw [hrkev, hrk7], ?_⟩
  rw [hvlev, hUeq, hv7]

theorem pick5_one (P : List Card) (b1 b2 b3 b4 b5 w : Nat)
    (hcond : w = b1 ∨ w = b2 ∨ w = b3 ∨ w = b4 ∨ w = b5) (hvs : vset P w) :
    countOfValue (pickCnt P (fun v => if v = b1 then 1 else if v = b2 then 1
      else if v = b3 then 1 else if v = b4 then 1 else
        if v = b5 then 1 else 0)) w = 1 := by
  rw [pickCnt_cnt]
  show min (if w = b1 then 1 else if w = b2 then 1 else if w = b3 then 1 else
    if w = b4 then 1 else if w = b5 then 1 else 0) _ = 1
  have hpos := (cnt_pos_iff _ w).mpr hvs
  have hgen : (if w = b1 then 1 else if w = b2 then 1 else if w = b3 then 1 else
      if w = b4 then 1 else if w = b5 then 1 else 0) = 1 := by
    by_cases h1 : w = b1
    · rw [if_pos h1]
    · rw [if_neg h1]
      by_cases h2 : w = b2
      · rw [if_pos h2]
      · rw [if_neg h2]
        by_cases h3 : w = b3
        · rw [if_pos h3]
        · rw [if_neg h3]
          by_cases h4 : w = b4
          · rw [if_pos h4]
          · rw [if_neg h4]
            by_cases h5 : w = b5
            · rw [if_pos h5]
            · exact absurd hcond (by tauto)
  rw [hgen]
  omega

theorem pick5_supp (P : List Card) (b1 b2 b3 b4 b5 v : Nat)
    (hv : vset (pickCnt P (fun v => if v = b1 then 1 else if v = b2 then 1
      else if v = b3 then 1 else if v = b4 then 1 else
        if v = b5 then 1 else 0)) v) :
    v = b1 ∨ v = b2 ∨ v = b3 ∨ v = b4 ∨ v = b5 := by
  have hpos := (cnt_pos_iff _ v).mpr hv
  rw [pickCnt_cnt] at hpos
  by_cases h1 : v = b1
  · exact Or.inl h1
  · by_cases h2 : v = b2
    · exact Or.inr (Or.inl h2)
    · by_cases h3 : v = b3
      · exact Or.inr (Or.inr (Or.inl h3))
      · by_cases h4 : v = b4
        · exact Or.inr (Or.inr (Or.inr (Or.inl h4)))
        · by_cases h5 : v = b5
          · exact Or.inr (Or.inr (Or.inr (Or.inr h5)))
          · rw [if_neg h1, if_neg h2, if_neg h3, if_neg h4, if_neg h5] at hpos
            simp at hpos

theorem pick5_len (P : List Card) (b1 b2 b3 b4 b5 : Nat)
    (hd : ([b1, b2, b3, b4, b5] : List Nat).Nodup)
    (hw1 : vset P b1) (hw2 : vset P b2) (hw3 : vset P b3) (hw4 : vset P b4)
    (hw5 : vset P b5) :
    (pickCnt P (fun v => if v = b1 then 1 else if v = b2 then 1
      else if v = b3 then 1 else if v = b4 then 1 else
        if v = b5 then 1 else 0)).length = 5 := by
  rw [pickCnt_length_cnt _ _ [b1, b2, b3, b4, b5] hd ?_]
  · simp only [List.map_cons, List.map_nil, List.sum_cons, List.sum_nil]
    rw [pick5_one P b1 b2 b3 b4 b5 b1 (by tauto) hw1,
      pick5_one P b1 b2 b3 b4 b5 b2 (by tauto) hw2,
      pick5_one P b1 b2 b3 b4 b5 b3 (by tauto) hw3,
      pick5_one P b1 b2 b3 b4 b5 b4 (by tauto) hw4,
      pick5_one P b1 b2 b3 b4 b5 b5 (by tauto) hw5]
    decide
  · intro v hvpos
    by_cases h1 : v = b1
    · simp [h1]
    · by_cases h2 : v = b2
      · simp [h2]
      · by_cases h3 : v = b3
        · simp [h3]
        · by_cases h4 : v = b4
          · simp [h4]
          · by_cases h5 : v = b5
            · simp [h5]
            · rw [if_neg h1, if_neg h2, if_neg h3, if_neg h4, if_neg h5] at hvpos
              omega

theorem dirB_flush (C : List Card) (hnd : C.Nodup) (h : S7Flush C) :
    ∃ S, S.Sublist C ∧ S.length = 5 ∧ ∃ ev, evaluateFiveCards S = .ok ev ∧
      ev.rank = (evaluateSevenCards C).rank ∧
      ev.value = (evaluateSevenCards C).value := by
  obtain ⟨s, h5s, hnss, -, -, hrk7, hv7⟩ := h
  have hndP : (cardsOfSuit C s).Nodup := hnd.sublist (cardsOfSuit_sublist C s)
  have hflP : ∀ c ∈ cardsOfSuit C s, c.suit = s :=
    fun c hc => cardsOfSuit_suit C s c hc
  have hvalsnd : ((cardsOfSuit C s).map (fun c => rankToValue c.rank)).Nodup :=
    flush_vals_nodup _ hndP s hflP
  have hDsort : (sortNatDesc (dedupFirst ((cardsOfSuit C s).map
      (fun c => rankToValue c.rank)))).Pairwise (· > ·) :=
    sortNatDesc_pairwise_gt _ (dedupFirst_nodup _)
  have hDlen : 5 ≤ (sortNatDesc (dedupFirst ((cardsOfSuit C s).map
      (fun c => rankToValue c.rank)))).length := by
    have hsp := (List.subperm_of_subset hvalsnd
      (fun x hx => (dedupFirst_mem _ x).mpr hx)).length_le
    have := (sortNatDesc_perm (dedupFirst ((cardsOfSuit C s).map
      (fun c => rankToValue c.rank)))).length_eq
    rw [List.length_map] at hsp
    omega
  cases hD : sortNatDesc (dedupFirst ((cardsOfSuit C s).map
      (fun c => rankToValue c.rank))) with
  | nil =>
    rw [hD] at hDlen
    simp at hDlen
  | cons b1 D1 =>
    cases D1 with
    | nil =>
      rw [hD] at hDlen
      simp at hDlen
    | cons b2 D2 =>
      cases D2 with
      | nil =>
        rw [hD] at hDlen
        simp at hDlen
      | cons b3 D3 =>
        cases D3 with
        | nil =>
          rw [hD] at hDlen
          simp at hDlen
        | cons b4 D4 =>
          cases D4 with
          | nil =>
            rw [hD] at hDlen
            simp at hDlen
          | cons b5 D5 =>
            rw [hD] at hDsort
            obtain ⟨g21, g32, g43, g54, -, -, -, -, -⟩ :=
              sorted_desc_stats5 _ b1 b2 b3 b4 b5 D5 rfl hDsort
            have hbv : ∀ b, b ∈ sortNatDesc (dedupFirst ((cardsOfSuit C s).map
                (fun c => rankToValue c.rank))) → vset (cardsOfSuit C s) b := by
              intro b hb
              have := (dedupFirst_mem _ b).mp ((sortNatDesc_perm _).subset hb)
              obtain ⟨c, hc, hcv⟩ := List.mem_map.mp this
              exact ⟨c, hc, hcv⟩
            have hw1 : vset (cardsOfSuit C s) b1 := hbv b1 (by rw [hD]; simp)
            have hw2 : vset (cardsOfSuit C s) b2 := hbv b2 (by rw [hD]; simp)
            have hw3 : vset (cardsOfSuit C s) b3 := hbv b3 (by rw [hD]; simp)
            have hw4 : vset (cardsOfSuit C s) b4 := hbv b4 (by rw [hD]; simp)
            have hw5 : vset (cardsOfSuit C s) b5 := hbv b5 (by rw [hD]; simp)
            have hbnd : ([b1, b2, b3, b4, b5] : List Nat).Nodup := by
              refine List.nodup_cons.mpr ⟨?_, List.nodup_cons.mpr ⟨?_,
                List.nodup_cons.mpr ⟨?_, List.nodup_cons.mpr ⟨?_,
                  List.nodup_singleton _⟩⟩⟩⟩ <;>
                (intro hmem
                 simp only [List.mem_cons, List.mem_singleton,
                   List.not_mem_nil, or_false] at hmem
                 omega)
            have hsubP := pickCnt_sublist (cardsOfSuit C s)
              (fun v => if v = b1 then 1 else if v = b2 then 1
                else if v = b3 then 1 else if v = b4 then 1 else
                  if v = b5 then 1 else 0)
            have hsub := hsubP.trans (cardsOfSuit_sublist C s)
            have hndS := hndP.sublist hsubP
            have hS5 := pick5_len (cardsOfSuit C s) b1 b2 b3 b4 b5 hbnd
              hw1 hw2 hw3 hw4 hw5
            have hflS : ∀ c ∈ pickCnt (cardsOfSuit C s)
                (fun v => if v = b1 then 1 else if v = b2 then 1
                  else if v = b3 then 1 else if v = b4 then 1 else
                    if v = b5 then 1 else 0), c.suit = s :=
              fun c hc => hflP c (hsubP.mem hc)
            have hnoS : ∀ hh, ¬ StraightOf (pickCnt (cardsOfSuit C s)
                (fun v => if v = b1 then 1 else if v = b2 then 1
                  else if v = b3 then 1 else if v = b4 then 1 else
                    if v = b5 then 1 else 0)) hh := by
              intro hh hst
              exact hnss s h5s hh (straightOf_sub _ _
                (fun c hc => hsubP.mem hc) hh hst)
            obtain ⟨ev, hok, hrkev, hvlev⟩ := eval5_flush _ hS5 hndS s hflS hnoS
            have hmapeq : sortNatDesc ((pickCnt (cardsOfSuit C s)
                (fun v => if v = b1 then 1 else if v = b2 then 1
                  else if v = b3 then 1 else if v = b4 then 1 else
                    if v = b5 then 1 else 0)).map (fun c => rankToValue c.rank)) =
                [b1, b2, b3, b4, b5] := by
              refine sortNatDesc_sorted_unique _ _ ?_ ?_
              · refine perm_of_nodup_mutual_sub
                  (flush_vals_nodup _ hndS s hflS) hbnd ?_ ?_
                · intro x hx
                  obtain ⟨c, hc, hcv⟩ := List.mem_map.mp hx
                  have : vset (pickCnt (cardsOfSuit C s)
                      (fun v => if v = b1 then 1 else if v = b2 then 1
                        else if v = b3 then 1 else if v = b4 then 1 else
                          if v = b5 then 1 else 0)) x := ⟨c, hc, hcv⟩
                  have := pick5_supp _ b1 b2 b3 b4 b5 x this
                  simp only [List.mem_cons, List.mem_singleton]
                  tauto
                · intro x hx
                  simp only [List.mem_cons, List.not_mem_nil, or_false] at hx
                  have hvx : vset (pickCnt (cardsOfSuit C s)
                      (fun v => if v = b1 then 1 else if v = b2 then 1
                        else if v = b3 then 1 else if v = b4 then 1 else
                          if v = b5 then 1 else 0)) x := by
                    refine (cnt_pos_iff _ x).mp ?_
                    have hvsx : vset (cardsOfSuit C s) x := by
                      rcases hx with h | h | h | h | h <;> rw [h] <;> assumption
                    rw [pick5_one _ b1 b2 b3 b4 b5 x hx hvsx]
                    omega
                  obtain ⟨c, hc, hcv⟩ := hvx
                  exact List.mem_map.mpr ⟨c, hc, hcv⟩
              · refine List.pairwise_cons.mpr ⟨?_, List.pairwise_cons.mpr ⟨?_,
                  List.pairwise_cons.mpr ⟨?_, List.pairwise_cons.mpr ⟨?_,
                    List.pairwise_singleton _ _⟩⟩⟩⟩ <;>
                  (intro x hx
                   simp only [List.mem_cons, List.mem_singleton,
                     List.not_mem_nil, or_false] at hx
                   omega)
            refine ⟨_, hsub, hS5, ev, hok, by rw [hrkev, hrk7], ?_⟩
            rw [hvlev, hmapeq, hv7, hD]
            simp only [List.take_succ_cons, List.take_zero]

theorem dirB_all (C : List Card) (hnd : C.Nodup) (h6 : 6 ≤ C.length)
    (h7 : C.length ≤ 7) :
    ∃ S, S.Sublist C ∧ S.length = 5 ∧ ∃ ev, evaluateFiveCards S = .ok ev ∧
      ev.rank = (evaluateSevenCards C).rank ∧
      ev.value = (evaluateSevenCards C).value := by
  rcases seven_cases C hnd h6 h7 with h | h | h | h | h | h | h | h | h | h
  · exact dirB_royal C hnd h
  · exact dirB_sf C hnd h
  · exact dirB_quads C hnd h
  · exact dirB_fh C hnd h
  · exact dirB_flush C hnd h
  · exact dirB_straight C hnd h
  · exact dirB_trips C hnd h
  · exact dirB_twopair C hnd h
  · exact dirB_pair C hnd h
  · exact dirB_high C hnd h

theorem mem_generateCombinations (k : Nat) (C S : List Card) :
    S ∈ generateCombinations k C ↔ S.Sublist C ∧ S.length = k := by
  induction C generalizing k S with
  | nil =>
    cases k with
    | zero =>
      simp only [generateCombinations, List.mem_singleton]
      constructor
      · rintro rfl
        exact ⟨List.Sublist.refl _, rfl⟩
      · rintro ⟨hs, hl⟩
        exact List.eq_nil_of_length_eq_zero hl
    | succ k =>
      simp only [generateCombinations, List.not_mem_nil, false_iff, not_and]
      intro hs
      have := hs.length_le
      simp only [List.length_nil] at this
      omega
  | cons x xs ih =>
    cases k with
    | zero =>
      simp only [generateCombinations, List.mem_singleton]
      constructor
      · rintro rfl
        exact ⟨List.nil_sublist _, rfl⟩
      · rintro ⟨hs, hl⟩
        exact List.eq_nil_of_length_eq_zero hl
    | succ k =>
      simp only [generateCombinations, List.mem_append, List.mem_map]
      constructor
      · rintro (⟨c, hc, rfl⟩ | h)
        · obtain ⟨hsub, hlen⟩ := (ih k c).mp hc
          exact ⟨hsub.cons₂ x, by simp [hlen]⟩
        · obtain ⟨hsub, hlen⟩ := (ih (k + 1) S).mp h
          exact ⟨hsub.cons x, hlen⟩
      · rintro ⟨hsub, hlen⟩
        cases S with
        | nil => simp at hlen
        | cons y ys =>
          cases hsub with
          | cons _ h =>
            exact Or.inr ((ih (k + 1) (y :: ys)).mpr ⟨h, hlen⟩)
          | cons₂ _ h =>
            exact Or.inl ⟨ys, (ih k ys).mpr ⟨h, by simpa using hlen⟩, rfl⟩

theorem eval5_total (S : List Card) (h5 : S.length = 5) :
    ∃ ev, evaluateFiveCards S = .ok ev := by
  simp only [evaluateFiveCards]
  rw [if_neg (by omega)]
  cases checkRoyalFlush (sortCards S true) with
  | some e => exact ⟨e, rfl⟩
  | none =>
    cases checkStraightFlush (sortCards S true) with
    | some e => exact ⟨e, rfl⟩
    | none =>
      cases checkFourOfAKind (sortCards S true) with
      | some e => exact ⟨e, rfl⟩
      | none =>
        cases checkFullHouse (sortCards S true) with
        | some e => exact ⟨e, rfl⟩
        | none =>
          cases checkFlush (sortCards S true) with
          | some e => exact ⟨e, rfl⟩
          | none =>
            cases checkStraight (sortCards S true) with
            | some e => exact ⟨e, rfl⟩
            | none =>
              cases checkThreeOfAKind (sortCards S true) with
              | some e => exact ⟨e, rfl⟩
              | none =>
                cases checkTwoPair (sortCards S true) with
                | some e => exact ⟨e, rfl⟩
                | none =>
                  cases checkOnePair (sortCards S true) with
                  | some e => exact ⟨e, rfl⟩
                  | none => exact ⟨checkHighCard (sortCards S true), rfl⟩

def bestStep (best : Option HandEvaluation) (combination : List Card) :
    Except String (Option HandEvaluation) := do
  let evaluation ← evaluateFiveCards combination
  match best with
  | none => pure (some evaluation)
  | some b => pure (if b.value < evaluation.value then some evaluation else some b)

theorem findBestHand_eq (cards : List Card) :
    findBestHand cards =
      ((generateCombinations 5 cards).foldlM bestStep none >>= fun best =>
        match best with
        | none => .error "Failed to evaluate hand"
        | some b => .ok b) := rfl

theorem foldBest_spec (L : List (List Card))
    (hall : ∀ S ∈ L, ∃ ev, evaluateFiveCards S = .ok ev)
    (acc : Option HandEvaluation) :
    ∃ r : Option HandEvaluation, L.foldlM bestStep acc = .ok r ∧
      (∀ b, acc = some b → ∃ b', r = some b' ∧ b.value ≤ b'.value) ∧
      (∀ S ∈ L, ∀ ev, evaluateFiveCards S = .ok ev →
        ∃ b', r = some b' ∧ ev.value ≤ b'.value) ∧
      (∀ b', r = some b' → acc = some b' ∨
        ∃ S ∈ L, evaluateFiveCards S = .ok b') := by
  induction L generalizing acc with
  | nil =>
    refine ⟨acc, rfl, ?_, ?_, ?_⟩
    · intro b hb
      exact ⟨b, hb, le_refl _⟩
    · intro S hS
      exact absurd hS (List.not_mem_nil S)
    · intro b' hb'
      exact Or.inl hb'
  | cons T L ih =>
    obtain ⟨evT, hevT⟩ := hall T (List.mem_cons_self T L)
    have hall' : ∀ S ∈ L, ∃ ev, evaluateFiveCards S = .ok ev :=
      fun S hS => hall S (List.mem_cons_of_mem T hS)
    cases acc with
    | none =>
      have hstep : bestStep none T = .ok (some evT) := by
        simp only [bestStep, hevT]
        rfl
      obtain ⟨r, hfold, h1, h2, h3⟩ := ih hall' (some evT)
      refine ⟨r, ?_, ?_, ?_, ?_⟩
      · rw [List.foldlM_cons, hstep]
        exact hfold
      · intro b hb
        exact absurd hb (by simp)
      · intro S hS ev hev
        rcases List.mem_cons.mp hS with rfl | hS'
        · have hevE : ev = evT := by
            rw [hevT] at hev
            exact (Except.ok.inj hev).symm
          obtain ⟨b', hb', hle⟩ := h1 evT rfl
          exact ⟨b', hb', by rw [hevE]; exact hle⟩
        · exact h2 S hS' ev hev
      · intro b' hb'
        rcases h3 b' hb' with heq | ⟨S, hS, hev⟩
        · refine Or.inr ⟨T, List.mem_cons_self T L, ?_⟩
          rw [hevT]
          exact congrArg Except.ok (Option.some.inj heq)
        · exact Or.inr ⟨S, List.mem_cons_of_mem T hS, hev⟩
    | some b0 =>
      by_cases hlt : b0.value < evT.value
      · have hstep : bestStep (some b0) T = .ok (some evT) := by
          simp only [bestStep, hevT]
          show Except.ok (if b0.value < evT.value then some evT else some b0) = _
          rw [if_pos hlt]
        obtain ⟨r, hfold, h1, h2, h3⟩ := ih hall' (some evT)
        refine ⟨r, ?_, ?_, ?_, ?_⟩
        · rw [List.foldlM_cons, hstep]
          exact hfold
        · intro b hb
          have hb0 : b0 = b := Option.some.inj hb
          obtain ⟨b', hb', hle⟩ := h1 evT rfl
          refine ⟨b', hb', ?_⟩
          rw [← hb0]
          omega
        · intro S hS ev hev
          rcases List.mem_cons.mp hS with rfl | hS'
          · have hevE : ev = evT := by
              rw [hevT] at hev
              exact (Except.ok.inj hev).symm
            obtain ⟨b', hb', hle⟩ := h1 evT rfl
            exact ⟨b', hb', by rw [hevE]; exact hle⟩
          · exact h2 S hS' ev hev
        · intro b' hb'
          rcases h3 b' hb' with heq | ⟨S, hS, hev⟩
          · refine Or.inr ⟨T, List.mem_cons_self T L, ?_⟩
            rw [hevT]
            exact congrArg Except.ok (Option.some.inj heq)
          · exact Or.inr ⟨S, List.mem_cons_of_mem T hS, hev⟩
      · have hstep : bestStep (some b0) T = .ok (some b0) := by
          simp only [bestStep, hevT]
          show Except.ok (if b0.value < evT.value then some evT else some b0) = _
          rw [if_neg hlt]
        obtain ⟨r, hfold, h1, h2, h3⟩ := ih hall' (some b0)
        refine ⟨r, ?_, ?_, ?_, ?_⟩
        · rw [List.foldlM_cons, hstep]
          exact hfold
        · intro b hb
          have hb0 : b0 = b := Option.some.inj hb
          obtain ⟨b', hb', hle⟩ := h1 b0 rfl
          exact ⟨b', hb', by rw [← hb0]; exact hle⟩
        · intro S hS ev hev
          rcases List.mem_cons.mp hS with rfl | hS'
          · have hevE : ev = evT := by
              rw [hevT] at hev
              exact (Except.ok.inj hev).symm
            obtain ⟨b', hb', hle⟩ := h1 b0 rfl
            refine ⟨b', hb', ?_⟩
            rw [hevE]
            omega
          · exact h2 S hS' ev hev
        · intro b' hb'
          rcases h3 b' hb' with heq | ⟨S, hS, hev⟩
          · exact Or.inl heq
          · exact Or.inr ⟨S, List.mem_cons_of_mem T hS, hev⟩

/-- C2: for every list of 6 or 7 distinct cards, `evaluateHand` (which dispatches
to the direct classifier `evaluateSevenCards`) returns a `HandEvaluation` whose
rank and value both equal those of the best hand found by `findBestHand`, the
reference path that evaluates every 5-card subset with `evaluateFiveCards` and
takes the maximum value. -/
theorem c2_sevenCard_matches_bestFive (C : List Card) (hnd : C.Nodup)
    (hlen : C.length = 6 ∨ C.length = 7) :
    ∃ best ev, findBestHand C = .ok best ∧ evaluateHand C = .ok ev ∧
      ev.rank = best.rank ∧ ev.value = best.value := by
  have h6 : 6 ≤ C.length := by omega
  have h7 : C.length ≤ 7 := by omega
  have hall : ∀ S ∈ generateCombinations 5 C, ∃ ev, evaluateFiveCards S = .ok ev := by
    intro S hS
    obtain ⟨-, hl⟩ := (mem_generateCombinations 5 C S).mp hS
    exact eval5_total S hl
  obtain ⟨r, hfold, -, hub, hsrc⟩ := foldBest_spec (generateCombinations 5 C) hall none
  obtain ⟨Sx, hsubx, hlenx, evx, hevx, hrkx, hvlx⟩ := dirB_all C hnd h6 h7
  have hmemx : Sx ∈ generateCombinations 5 C :=
    (mem_generateCombinations 5 C Sx).mpr ⟨hsubx, hlenx⟩
  obtain ⟨b, hrb, hlex⟩ := hub Sx hmemx evx hevx
  rcases hsrc b hrb with hnone | ⟨Sb, hSb, hevb⟩
  · exact absurd hnone (by simp)
  · obtain ⟨hsubb, hlenb⟩ := (mem_generateCombinations 5 C Sb).mp hSb
    have hbub := dirA_all C hnd h6 h7 Sb hsubb hlenb b hevb
    have hbval : b.value = (evaluateSevenCards C).value := by
      rw [hvlx] at hlex
      omega
    obtain ⟨hr1b, hr2b, hr3b, hr4b⟩ := evaluateFiveCards_bound Sb b hevb
    obtain ⟨hr1s, hr2s, hr3s, hr4s⟩ :=
      evaluateSevenCards_bound C (evaluateSevenCards C) rfl
    have hbrank : (evaluateSevenCards C).rank = b.rank := by
      have hBe : CATEGORY_BASE = 1000000000 := rfl
      rw [hBe] at hr3b hr4b hr3s hr4s
      rcases Nat.lt_trichotomy (evaluateSevenCards C).rank b.rank with hc | hc | hc
      · exfalso
        have : ((evaluateSevenCards C).rank + 1) ≤ b.rank := hc
        nlinarith [hr3b, hr4s, hbval]
      · exact hc
      · exfalso
        have : (b.rank + 1) ≤ (evaluateSevenCards C).rank := hc
        nlinarith [hr3s, hr4b, hbval]
    refine ⟨b, evaluateSevenCards C, ?_, ?_, hbrank, hbval.symm⟩
    · rw [findBestHand_eq, hfold, hrb]
      rfl
    · simp only [evaluateHand]
      rw [if_neg (by omega), if_neg (by omega)]

theorem c2_witness :
    (([{ suit := .spades, rank := .rA }, { suit := .spades, rank := .rK },
       { suit := .spades, rank := .rQ }, { suit := .spades, rank := .rJ },
       { suit := .spades, rank := .rT }, { suit := .hearts, rank := .r9 },
       { suit := .diamonds, rank := .r2 }] : List Card).Nodup ∧
      (([{ suit := .spades, rank := .rA }, { suit := .spades, rank := .rK },
         { suit := .spades, rank := .rQ }, { suit := .spades, rank := .rJ },
         { suit := .spades, rank := .rT }, { suit := .hearts, rank := .r9 },
         { suit := .diamonds, rank := .r2 }] : List Card).length = 6 ∨
       ([{ suit := .spades, rank := .rA }, { suit := .spades, rank := .rK },
         { suit := .spades, rank := .rQ }, { suit := .spades, rank := .rJ },
         { suit := .spades, rank := .rT }, { suit := .hearts, rank := .r9 },
         { suit := .diamonds, rank := .r2 }] : List Card).length = 7)) ∧
    ∃ best ev,
      findBestHand
        [{ suit := .spades, rank := .rA }, { suit := .spades, rank := .rK },
         { suit := .spades, rank := .rQ }, { suit := .spades, rank := .rJ },
         { suit := .spades, rank := .rT }, { suit := .hearts, rank := .r9 },
         { suit := .diamonds, rank := .r2 }] = .ok best ∧
      evaluateHand
        [{ suit := .spades, rank := .rA }, { suit := .spades, rank := .rK },
         { suit := .spades, rank := .rQ }, { suit := .spades, rank := .rJ },
         { suit := .spades, rank := .rT }, { suit := .hearts, rank := .r9 },
         { suit := .diamonds, rank := .r2 }] = .ok ev ∧
      ev.rank = best.rank ∧ ev.value = best.value :=
  ⟨⟨by decide, by decide⟩,
    c2_sevenCard_matches_bestFive _ (by decide) (by decide)⟩
